import Mathlib

/-! # ttninjs: the validated document model and its decode path

A shallow embedding of `ttninjs.go`.  Go structs become Lean structures with the
same field names, the `json:"..."` tags become the keys of the per-struct field
setters, and every `UnmarshalJSON` method becomes a function from a JSON value to
`Except Error _`.

The source calls `json.Unmarshal` of `json-iterator/go`
(`ConfigCompatibleWithStandardLibrary`).  That library is not part of the
repository; the section "The JSON library" below models the behaviour the source
relies on, over parsed JSON values instead of bytes.

The decode path is given twice.  `Document.UnmarshalJSON` is the method with a
reader that reads every JSON value.  `Document.UnmarshalJSON.within` is the
method with the limits of the reader of the library (the range of `float64`,
the depth of nesting), and with the Go type and field that the struct decoder
of the library puts before the error of a field; the two agree on every success
whose input the reader reads (`Document.UnmarshalJSON_within_ok`).
-/

namespace Ttninjs

/-! ## JSON values -/

/-- A JSON number literal: sign, integer part, optional fraction digits and
optional exponent, as written in the input. -/
structure JsonNumber where
  negative : Bool := false
  integer : Nat
  fraction : Option (List (Fin 10)) := none
  exponent : Option Int := none
  deriving DecidableEq, Repr

/-- A parsed JSON document.  Object members are kept in input order, duplicate
keys included, because the struct decoder of the library consumes them one by
one. -/
inductive Json where
  | null
  | bool (b : Bool)
  | num (n : JsonNumber)
  | str (s : String)
  | arr (xs : List Json)
  | obj (kvs : List (String × Json))

/-- The number literal of a natural number, e.g. `42`. -/
def JsonNumber.ofNat (n : Nat) : JsonNumber := { integer := n }

/-! ## Go values used by the model -/

/-- Go slice: `none` is the nil slice. -/
abbrev GoSlice (α : Type) := Option (List α)

/-- Go `map[string]α`: `none` is the nil map, otherwise an association list with
pairwise distinct keys (maintained by `GoMap.set`). -/
abbrev GoMap (α : Type) := Option (List (String × α))

/-- Assignment `m[k] = v` on the entries of a map. -/
def GoMap.set {α : Type} : List (String × α) → String → α → List (String × α)
  | [], k, v => [(k, v)]
  | (k', v') :: rest, k, v =>
    if k' = k then (k, v) :: rest else (k', v') :: GoMap.set rest k v

/-- Index expression `v, ok := m[k]` on the entries of a map. -/
def GoMap.get {α : Type} : List (String × α) → String → Option α
  | [], _ => none
  | (k', v') :: rest, k => if k' = k then some v' else GoMap.get rest k

/-- Go `float64`, represented by a decimal literal that denotes the number: the
literal it was read from, which is also what the model writes back (Go writes
the shortest literal of the same number, `1.5` for `1.50`).  Two literals of one
number are two values of the model, and rounding to the binary format is not
modelled.  NaN and the infinities, which `json.Marshal` refuses to write, have
no literal and are not values of the model.  The range of the binary format is
the test `float64` of a `Reader`. -/
abbrev Float64 := JsonNumber

/-- Go `time.Time`: seconds since January 1, year 1 00:00:00 UTC, nanoseconds
and zone offset in seconds east of UTC. -/
structure Time where
  sec : Int := 0
  nsec : Nat := 0
  offset : Int := 0
  deriving DecidableEq, Repr

/-- Modelled from the spec: the type `SerializableDate` is declared in a file of
the package that is not part of the sources at hand; the spec describes it as a
calendar date with a date-only wire format. -/
structure SerializableDate where
  year : Int := 1
  month : Nat := 1
  day : Nat := 1
  deriving DecidableEq, Repr

/-- A value of Go type `interface{}` produced by the generic decoder: nil, a
`bool`, a `float64`, a `string`, a `[]interface{}` or a
`map[string]interface{}`.  Values of other dynamic types, which a program can
store in a `map[string]interface{}` such as `BodyPages` (an `int`, a struct),
are not values of the model. -/
inductive Any where
  | nil
  | bool (b : Bool)
  | float64 (n : Float64)
  | string (s : String)
  | slice (xs : List Any)
  | map (m : List (String × Any))

/-! ## Errors -/

/-- The errors of the decode path.  The source builds `required` and
`invalidValue` itself with `fmt.Errorf`; the remaining constructors stand for the
errors that come back from the JSON library, whose message texts (byte offsets,
input excerpts) are not modelled. -/
inductive Error where
  /-- Built by `fmt.Errorf("field uri in Document: required")`: field and entity. -/
  | required (field entity : String)
  /-- Built by `fmt.Errorf("invalid value (expected one of %#v): %#v", enumValues, v)`. -/
  | invalidValue (expected : List String) (v : String)
  /-- The library cannot decode the JSON value into the Go type of the target. -/
  | typeMismatch
  /-- An `UnmarshalJSON` outside the package (`time.Time`, `SerializableDate`)
  rejected its input. -/
  | foreign (typeName : String)
  /-- The library reports the error returned by an `UnmarshalJSON` it called
  while decoding a field, an element or a map value. -/
  | reported (cause : Error)
  /-- The reader of the library gives up on its input: a number literal outside
  the range of `float64`, or arrays and objects nested deeper than its limit. -/
  | limit
  /-- The struct decoder of the library puts the Go type and the Go field before
  the error of a field, as in `ttninjs.Plain.Type: ...`. -/
  | atField (typeName fieldName : String) (cause : Error)
  deriving DecidableEq, Repr

/-- Parts of the environment that the source uses and does not define. -/
structure Env where
  /-- Go `strings.ToLower`, used by the library to match keys without regard
  to case. -/
  toLower : String → String
  /-- The RFC 3339 parser behind `time.Time.UnmarshalJSON`, on the content of a
  JSON string. -/
  parseTime : String → Option Time
  /-- The `UnmarshalJSON` of `SerializableDate` on a non-null JSON value. -/
  parseDate : Json → Option SerializableDate
  /-- The RFC 3339 formatter behind `time.Time.MarshalJSON`: the content of the
  JSON string, or `none` when the method returns an error (year out of
  range). -/
  formatTime : Time → Option String
  /-- The `MarshalJSON` of `SerializableDate`: the JSON value, or `none` when
  the method returns an error. -/
  formatDate : SerializableDate → Option Json

/-- An environment with ASCII lower-casing that knows one timestamp, the zero
`time.Time`, written `0001-01-01T00:00:00Z`, and no date; for evaluating inputs
and values that contain no other timestamp.  It stands for the Go library on
such inputs only: its parser and its formatter refuse every other timestamp,
whatever its year, and `strings.ToLower` lower-cases every letter, not the ASCII
letters alone. -/
def Env.basic : Env :=
  { toLower := fun s => ⟨s.data.map Char.toLower⟩
    parseTime := fun s => if s = "0001-01-01T00:00:00Z" then some {} else none
    parseDate := fun _ => none
    formatTime := fun t => if t = {} then some "0001-01-01T00:00:00Z" else none
    formatDate := fun _ => none }

/-! ## The JSON library -/

/-- A decoder writes a JSON value into an existing Go value and returns the
updated value, or fails. -/
abbrev Dec (α : Type) := Json → α → Except Error α

/-- Decoder of Go `string`: a JSON string is stored, `null` stores the empty
string, anything else is an error. -/
def decodeString : Dec String
  | .str s, _ => .ok s
  | .null, _ => .ok ""
  | _, _ => .error .typeMismatch

/-- Least and greatest value of Go `int` (64 bit). -/
def minInt : Int := -(2 ^ 63)

/-- Greatest value of Go `int` (64 bit). -/
def maxInt : Int := 2 ^ 63 - 1

/-- Decoder of Go `int`: an integer literal without fraction and exponent that
fits 64 bits is stored, `null` leaves the target as it is. -/
def decodeInt : Dec Int
  | .null, cur => .ok cur
  | .num n, _ =>
    let i : Int := if n.negative then -(n.integer : Int) else (n.integer : Int)
    if n.fraction = none ∧ n.exponent = none ∧ minInt ≤ i ∧ i ≤ maxInt then .ok i
    else .error .typeMismatch
  | _, _ => .error .typeMismatch

/-- Decoder of Go `float64`: any number is stored, `null` leaves the target as
it is. -/
def decodeFloat64 : Dec Float64
  | .null, cur => .ok cur
  | .num n, _ => .ok n
  | _, _ => .error .typeMismatch

/-- Decoder of Go `bool`. -/
def decodeBool : Dec Bool
  | .null, cur => .ok cur
  | .bool b, _ => .ok b
  | _, _ => .error .typeMismatch

/-- Decoder of a pointer type `*T`: `null` stores nil, any other value is
decoded into the pointee (a new zero value when the pointer is nil). -/
def decodePtr {α : Type} (zero : α) (dec : Dec α) : Dec (Option α)
  | .null, _ => .ok none
  | v, cur => (dec v (cur.getD zero)).map some

/-- Decode the elements of a JSON array, each into a zero value, left to
right, stopping at the first error.  (When the slice holds elements already,
which happens when a key is repeated in the input, the library decodes into the
elements that are there; that reuse is not modelled.) -/
def decodeElems {α : Type} (zero : α) (dec : Dec α) : List Json → Except Error (List α)
  | [] => .ok []
  | v :: rest =>
    match dec v zero with
    | .error e => .error e
    | .ok a =>
      match decodeElems zero dec rest with
      | .error e => .error e
      | .ok as => .ok (a :: as)

/-- Decoder of a slice type `[]T`: `null` stores the nil slice, an array stores
its decoded elements, anything else is an error. -/
def decodeSlice {α : Type} (zero : α) (dec : Dec α) : Dec (GoSlice α)
  | .null, _ => .ok none
  | .arr xs, _ => (decodeElems zero dec xs).map some
  | _, _ => .error .typeMismatch

/-- Decode the members of a JSON object into map entries: each value is decoded
into a zero value and assigned under its key. -/
def decodeEntries {α : Type} (zero : α) (dec : Dec α) :
    List (String × Json) → List (String × α) → Except Error (List (String × α))
  | [], m => .ok m
  | (k, v) :: rest, m =>
    match dec v zero with
    | .error e => .error e
    | .ok a => decodeEntries zero dec rest (GoMap.set m k a)

/-- Decoder of a map type `map[string]T`: `null` stores the nil map, an object
assigns its members to the map (made first when nil), anything else is an
error. -/
def decodeMap {α : Type} (zero : α) (dec : Dec α) : Dec (GoMap α)
  | .null, _ => .ok none
  | .obj kvs, cur => (decodeEntries zero dec kvs (cur.getD [])).map some
  | _, _ => .error .typeMismatch

/-- The struct field a member key binds to: the field whose tag is the key, or
else the field whose tag is the lower-cased key; `none` for an unknown key. -/
def resolveField (x : Env) (tags : List String) (k : String) : Option String :=
  if k ∈ tags then some k
  else if x.toLower k ∈ tags then some (x.toLower k)
  else none

/-- Decode the members of a JSON object into a struct, in input order: a member
bound to a field is decoded into that field, a member with an unknown key is
skipped. -/
def decodeMembers {σ : Type} (x : Env) (tags : List String)
    (setField : String → Json → σ → Except Error σ) :
    List (String × Json) → σ → Except Error σ
  | [], s => .ok s
  | (k, v) :: rest, s =>
    match resolveField x tags k with
    | none => decodeMembers x tags setField rest s
    | some t =>
      match setField t v s with
      | .error e => .error e
      | .ok s' => decodeMembers x tags setField rest s'

/-- Decoder of a struct type without `UnmarshalJSON`: `null` leaves the struct
as it is, an object is decoded member by member, anything else is an error. -/
def decodeStruct {σ : Type} (x : Env) (tags : List String)
    (setField : String → Json → σ → Except Error σ) : Dec σ
  | .null, s => .ok s
  | .obj kvs, s => decodeMembers x tags setField kvs s
  | _, _ => .error .typeMismatch

/-- Decoder of a type that has an `UnmarshalJSON` method: the method gets the
value, `null` included, and its error is reported by the library. -/
def decodeUnmarshaler {α : Type} (unmarshal : Json → Except Error α) : Dec α :=
  fun v _ =>
    match unmarshal v with
    | .ok a => .ok a
    | .error e => .error (.reported e)

mutual
/-- The generic decoder behind `interface{}` targets.  A number is stored as the
`float64` that its literal denotes, kept here as the literal (see `Float64`);
that the reader fails on a literal outside `float64` and on nesting beyond its
limit is in `Json.within`. -/
def Json.read : Json → Any
  | .null => .nil
  | .bool b => .bool b
  | .num n => .float64 n
  | .str s => .string s
  | .arr xs => .slice (Json.readElems xs)
  | .obj kvs => .map (Json.readMembers kvs [])
/-- Generic decoding of array elements. -/
def Json.readElems : List Json → List Any
  | [] => []
  | v :: rest => Json.read v :: Json.readElems rest
/-- Generic decoding of object members into map entries. -/
def Json.readMembers : List (String × Json) → List (String × Any) → List (String × Any)
  | [], m => m
  | (k, v) :: rest, m => Json.readMembers rest (GoMap.set m k (Json.read v))
end

/-- Decoder of `interface{}`. -/
def decodeAny : Dec Any :=
  fun v _ => .ok (Json.read v)

/-- The call `json.Unmarshal(b, &raw)` with `raw` a nil `map[string]interface{}`:
an object gives the map of its members (a later duplicate replaces an earlier
one), `null` leaves `raw` nil, anything else is an error.  Here the reader of
the library has no limit and the call succeeds on every object;
`unmarshalRaw.within` is the call with the limits of the reader, under which it
fails on an object that holds a number outside `float64` or nests too deep. -/
def unmarshalRaw : Json → Except Error (GoMap Any)
  | .null => .ok none
  | .obj kvs => .ok (some (Json.readMembers kvs []))
  | _ => .error .typeMismatch

/-- The test `v, ok := raw["uri"]; !ok || v == nil` of the required-field
check. -/
def uriMissing (raw : GoMap Any) : Bool :=
  match GoMap.get (raw.getD []) "uri" with
  | none => true
  | some .nil => true
  | some _ => false

/-- The call `json.Unmarshal(b, &v)` with `v` an empty Go string. -/
def unmarshalString (b : Json) : Except Error String :=
  decodeString b ""

/-- Decoder of `time.Time` through its `UnmarshalJSON`: `null` is a no-op, a
string is parsed as RFC 3339, anything else is rejected. -/
def Time.decode (x : Env) : Dec Time
  | .null, t => .ok t
  | .str s, _ =>
    match x.parseTime s with
    | some t => .ok t
    | none => .error (.reported (.foreign "time.Time"))
  | _, _ => .error (.reported (.foreign "time.Time"))

/-- Decoder of `SerializableDate` through its `UnmarshalJSON`. -/
def SerializableDate.decode (x : Env) : Dec SerializableDate :=
  fun v _ =>
    match x.parseDate v with
    | some d => .ok d
    | none => .error (.reported (.foreign "SerializableDate"))

/-! ## Enumerations -/

/-- Go `type AdviceElemRole string`. -/
abbrev AdviceElemRole := String

/-- Go `type PlaceElemGeometryGeojsonType string`. -/
abbrev PlaceElemGeometryGeojsonType := String

/-- Go `type Profile string`. -/
abbrev Profile := String

/-- Go `type Pubstatus string`. -/
abbrev Pubstatus := String

/-- Go `type Representationtype string`. -/
abbrev Representationtype := String

/-- Go `type Sector string`. -/
abbrev Sector := String

/-- Go `type DocumentSignalsUpdatetype string`; the source declares no
`UnmarshalJSON` for it. -/
abbrev DocumentSignalsUpdatetype := String

/-- Go `type Type string`. -/
abbrev Type_ := String

/-- Go `type BodyPages map[string]interface{}`. -/
abbrev BodyPages := GoMap Any

/-- The zero value of `float64`. -/
def Float64.zero : Float64 := JsonNumber.ofNat 0

/-- Constant `AdviceElemRolePublish`. -/
def AdviceElemRolePublish : AdviceElemRole := "publish"

/-- Constant `PlaceElemGeometryGeojsonTypePoint`. -/
def PlaceElemGeometryGeojsonTypePoint : PlaceElemGeometryGeojsonType := "Point"

/-- Constant `ProfileDATA`. -/
def ProfileDATA : Profile := "DATA"

/-- Constant `ProfileINFO`. -/
def ProfileINFO : Profile := "INFO"

/-- Constant `ProfilePUBL`. -/
def ProfilePUBL : Profile := "PUBL"

/-- Constant `ProfileRAW`. -/
def ProfileRAW : Profile := "RAW"

/-- Constant `PubstatusCanceled`. -/
def PubstatusCanceled : Pubstatus := "canceled"

/-- Constant `PubstatusCommissioned`. -/
def PubstatusCommissioned : Pubstatus := "commissioned"

/-- Constant `PubstatusReplaced`. -/
def PubstatusReplaced : Pubstatus := "replaced"

/-- Constant `PubstatusUsable`. -/
def PubstatusUsable : Pubstatus := "usable"

/-- Constant `PubstatusWithheld`. -/
def PubstatusWithheld : Pubstatus := "withheld"

/-- Constant `RepresentationtypeAssociated`. -/
def RepresentationtypeAssociated : Representationtype := "associated"

/-- Constant `RepresentationtypeComplete`. -/
def RepresentationtypeComplete : Representationtype := "complete"

/-- Constant `RepresentationtypeIncomplete`. -/
def RepresentationtypeIncomplete : Representationtype := "incomplete"

/-- Constant `SectorEKO`. -/
def SectorEKO : Sector := "EKO"

/-- Constant `SectorFEA`. -/
def SectorFEA : Sector := "FEA"

/-- Constant `SectorINR`. -/
def SectorINR : Sector := "INR"

/-- Constant `SectorKLT`. -/
def SectorKLT : Sector := "KLT"

/-- Constant `SectorNOJ`. -/
def SectorNOJ : Sector := "NOJ"

/-- Constant `SectorPRM`. -/
def SectorPRM : Sector := "PRM"

/-- Constant `SectorSPT`. -/
def SectorSPT : Sector := "SPT"

/-- Constant `SectorUTR`. -/
def SectorUTR : Sector := "UTR"

/-- Constant `DocumentSignalsUpdatetypeKORR`. -/
def DocumentSignalsUpdatetypeKORR : DocumentSignalsUpdatetype := "KORR"

/-- Constant `DocumentSignalsUpdatetypeRA`. -/
def DocumentSignalsUpdatetypeRA : DocumentSignalsUpdatetype := "RÄ"

/-- Constant `DocumentSignalsUpdatetypeUV`. -/
def DocumentSignalsUpdatetypeUV : DocumentSignalsUpdatetype := "UV"

/-- Constant `TypeAudio`. -/
def TypeAudio : Type_ := "audio"

/-- Constant `TypeComponent`. -/
def TypeComponent : Type_ := "component"

/-- Constant `TypeComposite`. -/
def TypeComposite : Type_ := "composite"

/-- Constant `TypeEvent`. -/
def TypeEvent : Type_ := "event"

/-- Constant `TypeGraphic`. -/
def TypeGraphic : Type_ := "graphic"

/-- Constant `TypePicture`. -/
def TypePicture : Type_ := "picture"

/-- Constant `TypePlanning`. -/
def TypePlanning : Type_ := "planning"

/-- Constant `TypeText`. -/
def TypeText : Type_ := "text"

/-- Constant `TypeVideo`. -/
def TypeVideo : Type_ := "video"

/-- Variable `enumValues_AdviceElemRole`. -/
def enumValues_AdviceElemRole : List String := ["publish"]

/-- Variable `enumValues_PlaceElemGeometryGeojsonType`. -/
def enumValues_PlaceElemGeometryGeojsonType : List String := ["Point"]

/-- Variable `enumValues_Type`. -/
def enumValues_Type : List String :=
  ["text", "audio", "video", "picture", "graphic", "composite", "planning", "component",
   "event"]

/-- Variable `enumValues_Profile`. -/
def enumValues_Profile : List String := ["PUBL", "DATA", "INFO", "RAW"]

/-- Variable `enumValues_Pubstatus`. -/
def enumValues_Pubstatus : List String :=
  ["usable", "withheld", "canceled", "replaced", "commissioned"]

/-- Variable `enumValues_Representationtype`. -/
def enumValues_Representationtype : List String := ["complete", "incomplete", "associated"]

/-- Variable `enumValues_Sector`. -/
def enumValues_Sector : List String := ["INR", "UTR", "EKO", "KLT", "SPT", "FEA", "NOJ", "PRM"]

/-- The loop `for _, expected := range values { if reflect.DeepEqual(v, expected)
{ ok = true; break } }` of the enumeration methods: the final value of `ok`. -/
def enumLoop (v : String) : List String → Bool
  | [] => false
  | expected :: rest => if v = expected then true else enumLoop v rest

/-- The body shared by the `UnmarshalJSON` methods of the enumeration types:
decode a string, search it in the permitted values, assign it to the receiver
when found.  The result is the new value of the receiver, or the error
returned. -/
def enumUnmarshalJSON (values : List String) (b : Json) : Except Error String :=
  match unmarshalString b with
  | .error e => .error e
  | .ok v =>
    if !enumLoop v values then .error (.invalidValue values v)
    else .ok v

/-- Method `PlaceElemGeometryGeojsonType.UnmarshalJSON`. -/
def PlaceElemGeometryGeojsonType.UnmarshalJSON (b : Json) :
    Except Error PlaceElemGeometryGeojsonType :=
  enumUnmarshalJSON enumValues_PlaceElemGeometryGeojsonType b

/-- Method `Type.UnmarshalJSON`. -/
def Type_.UnmarshalJSON (b : Json) : Except Error Type_ :=
  enumUnmarshalJSON enumValues_Type b

/-- Method `Pubstatus.UnmarshalJSON`. -/
def Pubstatus.UnmarshalJSON (b : Json) : Except Error Pubstatus :=
  enumUnmarshalJSON enumValues_Pubstatus b

/-- Method `Profile.UnmarshalJSON`. -/
def Profile.UnmarshalJSON (b : Json) : Except Error Profile :=
  enumUnmarshalJSON enumValues_Profile b

/-- Method `Sector.UnmarshalJSON`. -/
def Sector.UnmarshalJSON (b : Json) : Except Error Sector :=
  enumUnmarshalJSON enumValues_Sector b

/-- Method `AdviceElemRole.UnmarshalJSON`. -/
def AdviceElemRole.UnmarshalJSON (b : Json) : Except Error AdviceElemRole :=
  enumUnmarshalJSON enumValues_AdviceElemRole b

/-- Method `Representationtype.UnmarshalJSON`. -/
def Representationtype.UnmarshalJSON (b : Json) : Except Error Representationtype :=
  enumUnmarshalJSON enumValues_Representationtype b

/-! ## Structs -/

/-- Go struct `Standard`; field defaults are the Go zero values. -/
structure Standard where
  Name : String := ""
  Schema : String := ""
  Version : String := ""

/-- The `json` keys of the fields of `Standard`, in declaration order. -/
def Standard.tags : List String :=
  ["name", "schema", "version"]

/-- Decode the member bound to key `t` into its field of `Standard`. -/
def Standard.setField (t : String) (v : Json) (s : Standard) :
    Except Error Standard :=
  match t with
  | "name" => (decodeString v s.Name).map fun a => { s with Name := a }
  | "schema" => (decodeString v s.Schema).map fun a => { s with Schema := a }
  | "version" => (decodeString v s.Version).map fun a => { s with Version := a }
  | _ => .ok s

/-- Decoder of `Standard`. -/
def Standard.decode (x : Env) : Dec Standard :=
  decodeStruct x Standard.tags Standard.setField

/-- Go struct `AdviceElemEnvironmentElem`; field defaults are the Go zero values. -/
structure AdviceElemEnvironmentElem where
  Code : String := ""
  Scheme : String := ""

/-- The `json` keys of the fields of `AdviceElemEnvironmentElem`, in declaration order. -/
def AdviceElemEnvironmentElem.tags : List String :=
  ["code", "scheme"]

/-- Decode the member bound to key `t` into its field of `AdviceElemEnvironmentElem`. -/
def AdviceElemEnvironmentElem.setField (t : String) (v : Json) (s : AdviceElemEnvironmentElem) :
    Except Error AdviceElemEnvironmentElem :=
  match t with
  | "code" => (decodeString v s.Code).map fun a => { s with Code := a }
  | "scheme" => (decodeString v s.Scheme).map fun a => { s with Scheme := a }
  | _ => .ok s

/-- Decoder of `AdviceElemEnvironmentElem`. -/
def AdviceElemEnvironmentElem.decode (x : Env) : Dec AdviceElemEnvironmentElem :=
  decodeStruct x AdviceElemEnvironmentElem.tags AdviceElemEnvironmentElem.setField

/-- Go struct `AdviceElemImportance`; field defaults are the Go zero values. -/
structure AdviceElemImportance where
  Code : String := ""
  Scheme : String := ""

/-- The `json` keys of the fields of `AdviceElemImportance`, in declaration order. -/
def AdviceElemImportance.tags : List String :=
  ["code", "scheme"]

/-- Decode the member bound to key `t` into its field of `AdviceElemImportance`. -/
def AdviceElemImportance.setField (t : String) (v : Json) (s : AdviceElemImportance) :
    Except Error AdviceElemImportance :=
  match t with
  | "code" => (decodeString v s.Code).map fun a => { s with Code := a }
  | "scheme" => (decodeString v s.Scheme).map fun a => { s with Scheme := a }
  | _ => .ok s

/-- Decoder of `AdviceElemImportance`. -/
def AdviceElemImportance.decode (x : Env) : Dec AdviceElemImportance :=
  decodeStruct x AdviceElemImportance.tags AdviceElemImportance.setField

/-- Go struct `AdviceElemLifetime`; field defaults are the Go zero values. -/
structure AdviceElemLifetime where
  Code : String := ""
  Scheme : String := ""

/-- The `json` keys of the fields of `AdviceElemLifetime`, in declaration order. -/
def AdviceElemLifetime.tags : List String :=
  ["code", "scheme"]

/-- Decode the member bound to key `t` into its field of `AdviceElemLifetime`. -/
def AdviceElemLifetime.setField (t : String) (v : Json) (s : AdviceElemLifetime) :
    Except Error AdviceElemLifetime :=
  match t with
  | "code" => (decodeString v s.Code).map fun a => { s with Code := a }
  | "scheme" => (decodeString v s.Scheme).map fun a => { s with Scheme := a }
  | _ => .ok s

/-- Decoder of `AdviceElemLifetime`. -/
def AdviceElemLifetime.decode (x : Env) : Dec AdviceElemLifetime :=
  decodeStruct x AdviceElemLifetime.tags AdviceElemLifetime.setField

/-- Go struct `AdviceElem`; field defaults are the Go zero values. -/
structure AdviceElem where
  Environment : GoSlice AdviceElemEnvironmentElem := none
  Importance : Option AdviceElemImportance := none
  Lifetime : Option AdviceElemLifetime := none
  Role : AdviceElemRole := ""

/-- The `json` keys of the fields of `AdviceElem`, in declaration order. -/
def AdviceElem.tags : List String :=
  ["environment", "importance", "lifetime", "role"]

/-- Decode the member bound to key `t` into its field of `AdviceElem`. -/
def AdviceElem.setField (x : Env) (t : String) (v : Json) (s : AdviceElem) :
    Except Error AdviceElem :=
  match t with
  | "environment" =>
    (decodeSlice {} (AdviceElemEnvironmentElem.decode x) v s.Environment).map fun a =>
      { s with Environment := a }
  | "importance" =>
    (decodePtr {} (AdviceElemImportance.decode x) v s.Importance).map fun a =>
      { s with Importance := a }
  | "lifetime" =>
    (decodePtr {} (AdviceElemLifetime.decode x) v s.Lifetime).map fun a =>
      { s with Lifetime := a }
  | "role" =>
    (decodeUnmarshaler AdviceElemRole.UnmarshalJSON v s.Role).map fun a => { s with Role := a }
  | _ => .ok s

/-- Decoder of `AdviceElem`. -/
def AdviceElem.decode (x : Env) : Dec AdviceElem :=
  decodeStruct x AdviceElem.tags (AdviceElem.setField x)

/-- Go struct `Altids`; field defaults are the Go zero values. -/
structure Altids where
  Originaltransmissionreference : String := ""

/-- The `json` keys of the fields of `Altids`, in declaration order. -/
def Altids.tags : List String :=
  ["originaltransmissionreference"]

/-- Decode the member bound to key `t` into its field of `Altids`. -/
def Altids.setField (t : String) (v : Json) (s : Altids) :
    Except Error Altids :=
  match t with
  | "originaltransmissionreference" =>
    (decodeString v s.Originaltransmissionreference).map fun a =>
      { s with Originaltransmissionreference := a }
  | _ => .ok s

/-- Decoder of `Altids`. -/
def Altids.decode (x : Env) : Dec Altids :=
  decodeStruct x Altids.tags Altids.setField

/-- Go struct `BodyEvent`; field defaults are the Go zero values. -/
structure BodyEvent where
  Accreditation : String := ""
  Address : String := ""
  Arena : String := ""
  Changedby : String := ""
  Changeddate : Option Time := none
  City : String := ""
  Country : String := ""
  Courtcasenumber : String := ""
  Createdby : String := ""
  Createddate : Option Time := none
  Eventphone : String := ""
  Eventstatus : String := ""
  EventstatusText : String := ""
  Eventtags : String := ""
  Eventtype : String := ""
  EventtypeText : String := ""
  Eventurl : String := ""
  Eventweb : String := ""
  Extraurl : String := ""
  Municipality : String := ""
  MunicipalityText : String := ""
  NoteExtra : String := ""
  NotePm : String := ""
  Organizer : String := ""
  Organizeraddress : String := ""
  Organizercity : String := ""
  Organizercountry : String := ""
  Organizermail : String := ""
  Organizerphone : String := ""
  Organizerurl : String := ""
  Region : String := ""
  RegionText : String := ""

/-- The `json` keys of the fields of `BodyEvent`, in declaration order. -/
def BodyEvent.tags : List String :=
  ["accreditation", "address", "arena", "changedby", "changeddate", "city", "country",
   "courtcasenumber", "createdby", "createddate", "eventphone", "eventstatus",
   "eventstatus_text", "eventtags", "eventtype", "eventtype_text", "eventurl", "eventweb",
   "extraurl", "municipality", "municipality_text", "note_extra", "note_pm", "organizer",
   "organizeraddress", "organizercity", "organizercountry", "organizermail",
   "organizerphone", "organizerurl", "region", "region_text"]

/-- Decode the member bound to key `t` into its field of `BodyEvent`. -/
def BodyEvent.setField (x : Env) (t : String) (v : Json) (s : BodyEvent) :
    Except Error BodyEvent :=
  match t with
  | "accreditation" => (decodeString v s.Accreditation).map fun a => { s with Accreditation := a }
  | "address" => (decodeString v s.Address).map fun a => { s with Address := a }
  | "arena" => (decodeString v s.Arena).map fun a => { s with Arena := a }
  | "changedby" => (decodeString v s.Changedby).map fun a => { s with Changedby := a }
  | "changeddate" =>
    (decodePtr {} (Time.decode x) v s.Changeddate).map fun a => { s with Changeddate := a }
  | "city" => (decodeString v s.City).map fun a => { s with City := a }
  | "country" => (decodeString v s.Country).map fun a => { s with Country := a }
  | "courtcasenumber" =>
    (decodeString v s.Courtcasenumber).map fun a => { s with Courtcasenumber := a }
  | "createdby" => (decodeString v s.Createdby).map fun a => { s with Createdby := a }
  | "createddate" =>
    (decodePtr {} (Time.decode x) v s.Createddate).map fun a => { s with Createddate := a }
  | "eventphone" => (decodeString v s.Eventphone).map fun a => { s with Eventphone := a }
  | "eventstatus" => (decodeString v s.Eventstatus).map fun a => { s with Eventstatus := a }
  | "eventstatus_text" =>
    (decodeString v s.EventstatusText).map fun a => { s with EventstatusText := a }
  | "eventtags" => (decodeString v s.Eventtags).map fun a => { s with Eventtags := a }
  | "eventtype" => (decodeString v s.Eventtype).map fun a => { s with Eventtype := a }
  | "eventtype_text" =>
    (decodeString v s.EventtypeText).map fun a => { s with EventtypeText := a }
  | "eventurl" => (decodeString v s.Eventurl).map fun a => { s with Eventurl := a }
  | "eventweb" => (decodeString v s.Eventweb).map fun a => { s with Eventweb := a }
  | "extraurl" => (decodeString v s.Extraurl).map fun a => { s with Extraurl := a }
  | "municipality" => (decodeString v s.Municipality).map fun a => { s with Municipality := a }
  | "municipality_text" =>
    (decodeString v s.MunicipalityText).map fun a => { s with MunicipalityText := a }
  | "note_extra" => (decodeString v s.NoteExtra).map fun a => { s with NoteExtra := a }
  | "note_pm" => (decodeString v s.NotePm).map fun a => { s with NotePm := a }
  | "organizer" => (decodeString v s.Organizer).map fun a => { s with Organizer := a }
  | "organizeraddress" =>
    (decodeString v s.Organizeraddress).map fun a => { s with Organizeraddress := a }
  | "organizercity" => (decodeString v s.Organizercity).map fun a => { s with Organizercity := a }
  | "organizercountry" =>
    (decodeString v s.Organizercountry).map fun a => { s with Organizercountry := a }
  | "organizermail" => (decodeString v s.Organizermail).map fun a => { s with Organizermail := a }
  | "organizerphone" =>
    (decodeString v s.Organizerphone).map fun a => { s with Organizerphone := a }
  | "organizerurl" => (decodeString v s.Organizerurl).map fun a => { s with Organizerurl := a }
  | "region" => (decodeString v s.Region).map fun a => { s with Region := a }
  | "region_text" => (decodeString v s.RegionText).map fun a => { s with RegionText := a }
  | _ => .ok s

/-- Decoder of `BodyEvent`. -/
def BodyEvent.decode (x : Env) : Dec BodyEvent :=
  decodeStruct x BodyEvent.tags (BodyEvent.setField x)

/-- Go struct `BylinesElem`; field defaults are the Go zero values. -/
structure BylinesElem where
  Affiliation : String := ""
  Byline : String := ""
  Email : String := ""
  Firstname : String := ""
  Initials : String := ""
  Internal : String := ""
  Jobtitle : String := ""
  Lastname : String := ""
  Phone : String := ""
  Role : String := ""

/-- The `json` keys of the fields of `BylinesElem`, in declaration order. -/
def BylinesElem.tags : List String :=
  ["affiliation", "byline", "email", "firstname", "initials", "internal", "jobtitle",
   "lastname", "phone", "role"]

/-- Decode the member bound to key `t` into its field of `BylinesElem`. -/
def BylinesElem.setField (t : String) (v : Json) (s : BylinesElem) :
    Except Error BylinesElem :=
  match t with
  | "affiliation" => (decodeString v s.Affiliation).map fun a => { s with Affiliation := a }
  | "byline" => (decodeString v s.Byline).map fun a => { s with Byline := a }
  | "email" => (decodeString v s.Email).map fun a => { s with Email := a }
  | "firstname" => (decodeString v s.Firstname).map fun a => { s with Firstname := a }
  | "initials" => (decodeString v s.Initials).map fun a => { s with Initials := a }
  | "internal" => (decodeString v s.Internal).map fun a => { s with Internal := a }
  | "jobtitle" => (decodeString v s.Jobtitle).map fun a => { s with Jobtitle := a }
  | "lastname" => (decodeString v s.Lastname).map fun a => { s with Lastname := a }
  | "phone" => (decodeString v s.Phone).map fun a => { s with Phone := a }
  | "role" => (decodeString v s.Role).map fun a => { s with Role := a }
  | _ => .ok s

/-- Decoder of `BylinesElem`. -/
def BylinesElem.decode (x : Env) : Dec BylinesElem :=
  decodeStruct x BylinesElem.tags BylinesElem.setField

/-- Go struct `EventElem`; field defaults are the Go zero values. -/
structure EventElem where
  Code : String := ""
  Name : String := ""
  Rel : String := ""
  Scheme : String := ""

/-- The `json` keys of the fields of `EventElem`, in declaration order. -/
def EventElem.tags : List String :=
  ["code", "name", "rel", "scheme"]

/-- Decode the member bound to key `t` into its field of `EventElem`. -/
def EventElem.setField (t : String) (v : Json) (s : EventElem) :
    Except Error EventElem :=
  match t with
  | "code" => (decodeString v s.Code).map fun a => { s with Code := a }
  | "name" => (decodeString v s.Name).map fun a => { s with Name := a }
  | "rel" => (decodeString v s.Rel).map fun a => { s with Rel := a }
  | "scheme" => (decodeString v s.Scheme).map fun a => { s with Scheme := a }
  | _ => .ok s

/-- Decoder of `EventElem`. -/
def EventElem.decode (x : Env) : Dec EventElem :=
  decodeStruct x EventElem.tags EventElem.setField

/-- Go struct `FixtureElem`; field defaults are the Go zero values. -/
structure FixtureElem where
  Code : String := ""
  Name : String := ""
  Rel : String := ""
  Scheme : String := ""

/-- The `json` keys of the fields of `FixtureElem`, in declaration order. -/
def FixtureElem.tags : List String :=
  ["code", "name", "rel", "scheme"]

/-- Decode the member bound to key `t` into its field of `FixtureElem`. -/
def FixtureElem.setField (t : String) (v : Json) (s : FixtureElem) :
    Except Error FixtureElem :=
  match t with
  | "code" => (decodeString v s.Code).map fun a => { s with Code := a }
  | "name" => (decodeString v s.Name).map fun a => { s with Name := a }
  | "rel" => (decodeString v s.Rel).map fun a => { s with Rel := a }
  | "scheme" => (decodeString v s.Scheme).map fun a => { s with Scheme := a }
  | _ => .ok s

/-- Decoder of `FixtureElem`. -/
def FixtureElem.decode (x : Env) : Dec FixtureElem :=
  decodeStruct x FixtureElem.tags FixtureElem.setField

/-- Go struct `GenreElem`; field defaults are the Go zero values. -/
structure GenreElem where
  Code : String := ""
  Name : String := ""
  Scheme : String := ""

/-- The `json` keys of the fields of `GenreElem`, in declaration order. -/
def GenreElem.tags : List String :=
  ["code", "name", "scheme"]

/-- Decode the member bound to key `t` into its field of `GenreElem`. -/
def GenreElem.setField (t : String) (v : Json) (s : GenreElem) :
    Except Error GenreElem :=
  match t with
  | "code" => (decodeString v s.Code).map fun a => { s with Code := a }
  | "name" => (decodeString v s.Name).map fun a => { s with Name := a }
  | "scheme" => (decodeString v s.Scheme).map fun a => { s with Scheme := a }
  | _ => .ok s

/-- Decoder of `GenreElem`. -/
def GenreElem.decode (x : Env) : Dec GenreElem :=
  decodeStruct x GenreElem.tags GenreElem.setField

/-- Go struct `Address`; field defaults are the Go zero values. -/
structure Address where
  Lines : GoSlice String := none
  Locality : String := ""
  Area : String := ""
  Postalcode : String := ""
  Country : String := ""

/-- The `json` keys of the fields of `Address`, in declaration order. -/
def Address.tags : List String :=
  ["lines", "locality", "area", "postalcode", "country"]

/-- Decode the member bound to key `t` into its field of `Address`. -/
def Address.setField (t : String) (v : Json) (s : Address) :
    Except Error Address :=
  match t with
  | "lines" => (decodeSlice "" decodeString v s.Lines).map fun a => { s with Lines := a }
  | "locality" => (decodeString v s.Locality).map fun a => { s with Locality := a }
  | "area" => (decodeString v s.Area).map fun a => { s with Area := a }
  | "postalcode" => (decodeString v s.Postalcode).map fun a => { s with Postalcode := a }
  | "country" => (decodeString v s.Country).map fun a => { s with Country := a }
  | _ => .ok s

/-- Decoder of `Address`. -/
def Address.decode (x : Env) : Dec Address :=
  decodeStruct x Address.tags Address.setField

/-- Go struct `ContactinfoType`; field defaults are the Go zero values. -/
structure ContactinfoType where
  Type_ : String := ""
  Role : String := ""
  Lang : String := ""
  Name : String := ""
  Value : String := ""
  Address : Address := {}

/-- The `json` keys of the fields of `ContactinfoType`, in declaration order. -/
def ContactinfoType.tags : List String :=
  ["type", "role", "lang", "name", "value", "address"]

/-- Decode the member bound to key `t` into its field of `ContactinfoType`. -/
def ContactinfoType.setField (x : Env) (t : String) (v : Json) (s : ContactinfoType) :
    Except Error ContactinfoType :=
  match t with
  | "type" => (decodeString v s.Type_).map fun a => { s with Type_ := a }
  | "role" => (decodeString v s.Role).map fun a => { s with Role := a }
  | "lang" => (decodeString v s.Lang).map fun a => { s with Lang := a }
  | "name" => (decodeString v s.Name).map fun a => { s with Name := a }
  | "value" => (decodeString v s.Value).map fun a => { s with Value := a }
  | "address" => (Address.decode x v s.Address).map fun a => { s with Address := a }
  | _ => .ok s

/-- Decoder of `ContactinfoType`. -/
def ContactinfoType.decode (x : Env) : Dec ContactinfoType :=
  decodeStruct x ContactinfoType.tags (ContactinfoType.setField x)

/-- Go struct `InfosourceElem`; field defaults are the Go zero values. -/
structure InfosourceElem where
  Code : String := ""
  Contactinfo : GoSlice ContactinfoType := none
  Name : String := ""
  Rel : String := ""
  Scheme : String := ""

/-- The `json` keys of the fields of `InfosourceElem`, in declaration order. -/
def InfosourceElem.tags : List String :=
  ["code", "contactinfo", "name", "rel", "scheme"]

/-- Decode the member bound to key `t` into its field of `InfosourceElem`. -/
def InfosourceElem.setField (x : Env) (t : String) (v : Json) (s : InfosourceElem) :
    Except Error InfosourceElem :=
  match t with
  | "code" => (decodeString v s.Code).map fun a => { s with Code := a }
  | "contactinfo" =>
    (decodeSlice {} (ContactinfoType.decode x) v s.Contactinfo).map fun a =>
      { s with Contactinfo := a }
  | "name" => (decodeString v s.Name).map fun a => { s with Name := a }
  | "rel" => (decodeString v s.Rel).map fun a => { s with Rel := a }
  | "scheme" => (decodeString v s.Scheme).map fun a => { s with Scheme := a }
  | _ => .ok s

/-- Decoder of `InfosourceElem`. -/
def InfosourceElem.decode (x : Env) : Dec InfosourceElem :=
  decodeStruct x InfosourceElem.tags (InfosourceElem.setField x)

/-- Go struct `ObjectElem`; field defaults are the Go zero values. -/
structure ObjectElem where
  Code : String := ""
  Name : String := ""
  Rel : String := ""
  Scheme : String := ""

/-- The `json` keys of the fields of `ObjectElem`, in declaration order. -/
def ObjectElem.tags : List String :=
  ["code", "name", "rel", "scheme"]

/-- Decode the member bound to key `t` into its field of `ObjectElem`. -/
def ObjectElem.setField (t : String) (v : Json) (s : ObjectElem) :
    Except Error ObjectElem :=
  match t with
  | "code" => (decodeString v s.Code).map fun a => { s with Code := a }
  | "name" => (decodeString v s.Name).map fun a => { s with Name := a }
  | "rel" => (decodeString v s.Rel).map fun a => { s with Rel := a }
  | "scheme" => (decodeString v s.Scheme).map fun a => { s with Scheme := a }
  | _ => .ok s

/-- Decoder of `ObjectElem`. -/
def ObjectElem.decode (x : Env) : Dec ObjectElem :=
  decodeStruct x ObjectElem.tags ObjectElem.setField

/-- Go struct `OrganisationElemSymbolsElem`; field defaults are the Go zero values. -/
structure OrganisationElemSymbolsElem where
  Exchange : String := ""
  Symbol : String := ""
  Symboltype : String := ""
  Ticker : String := ""

/-- The `json` keys of the fields of `OrganisationElemSymbolsElem`, in declaration order. -/
def OrganisationElemSymbolsElem.tags : List String :=
  ["exchange", "symbol", "symboltype", "ticker"]

/-- Decode the member bound to key `t` into its field of `OrganisationElemSymbolsElem`. -/
def OrganisationElemSymbolsElem.setField (t : String) (v : Json) (s : OrganisationElemSymbolsElem) :
    Except Error OrganisationElemSymbolsElem :=
  match t with
  | "exchange" => (decodeString v s.Exchange).map fun a => { s with Exchange := a }
  | "symbol" => (decodeString v s.Symbol).map fun a => { s with Symbol := a }
  | "symboltype" => (decodeString v s.Symboltype).map fun a => { s with Symboltype := a }
  | "ticker" => (decodeString v s.Ticker).map fun a => { s with Ticker := a }
  | _ => .ok s

/-- Decoder of `OrganisationElemSymbolsElem`. -/
def OrganisationElemSymbolsElem.decode (x : Env) : Dec OrganisationElemSymbolsElem :=
  decodeStruct x OrganisationElemSymbolsElem.tags OrganisationElemSymbolsElem.setField

/-- Go struct `OrganisationElem`; field defaults are the Go zero values. -/
structure OrganisationElem where
  Code : String := ""
  Contactinfo : GoSlice ContactinfoType := none
  Name : String := ""
  Rel : String := ""
  Scheme : String := ""
  Symbols : GoSlice OrganisationElemSymbolsElem := none

/-- The `json` keys of the fields of `OrganisationElem`, in declaration order. -/
def OrganisationElem.tags : List String :=
  ["code", "contactinfo", "name", "rel", "scheme", "symbols"]

/-- Decode the member bound to key `t` into its field of `OrganisationElem`. -/
def OrganisationElem.setField (x : Env) (t : String) (v : Json) (s : OrganisationElem) :
    Except Error OrganisationElem :=
  match t with
  | "code" => (decodeString v s.Code).map fun a => { s with Code := a }
  | "contactinfo" =>
    (decodeSlice {} (ContactinfoType.decode x) v s.Contactinfo).map fun a =>
      { s with Contactinfo := a }
  | "name" => (decodeString v s.Name).map fun a => { s with Name := a }
  | "rel" => (decodeString v s.Rel).map fun a => { s with Rel := a }
  | "scheme" => (decodeString v s.Scheme).map fun a => { s with Scheme := a }
  | "symbols" =>
    (decodeSlice {} (OrganisationElemSymbolsElem.decode x) v s.Symbols).map fun a =>
      { s with Symbols := a }
  | _ => .ok s

/-- Decoder of `OrganisationElem`. -/
def OrganisationElem.decode (x : Env) : Dec OrganisationElem :=
  decodeStruct x OrganisationElem.tags (OrganisationElem.setField x)

/-- Go struct `PersonElem`; field defaults are the Go zero values. -/
structure PersonElem where
  Code : String := ""
  Contactinfo : GoSlice ContactinfoType := none
  Name : String := ""
  Rel : String := ""
  Scheme : String := ""

/-- The `json` keys of the fields of `PersonElem`, in declaration order. -/
def PersonElem.tags : List String :=
  ["code", "contactinfo", "name", "rel", "scheme"]

/-- Decode the member bound to key `t` into its field of `PersonElem`. -/
def PersonElem.setField (x : Env) (t : String) (v : Json) (s : PersonElem) :
    Except Error PersonElem :=
  match t with
  | "code" => (decodeString v s.Code).map fun a => { s with Code := a }
  | "contactinfo" =>
    (decodeSlice {} (ContactinfoType.decode x) v s.Contactinfo).map fun a =>
      { s with Contactinfo := a }
  | "name" => (decodeString v s.Name).map fun a => { s with Name := a }
  | "rel" => (decodeString v s.Rel).map fun a => { s with Rel := a }
  | "scheme" => (decodeString v s.Scheme).map fun a => { s with Scheme := a }
  | _ => .ok s

/-- Decoder of `PersonElem`. -/
def PersonElem.decode (x : Env) : Dec PersonElem :=
  decodeStruct x PersonElem.tags (PersonElem.setField x)

/-- Go struct `PlaceElemGeometryGeojson`; field defaults are the Go zero values. -/
structure PlaceElemGeometryGeojson where
  Coordinates : GoSlice Float64 := none
  Type_ : PlaceElemGeometryGeojsonType := ""

/-- The `json` keys of the fields of `PlaceElemGeometryGeojson`, in declaration order. -/
def PlaceElemGeometryGeojson.tags : List String :=
  ["coordinates", "type"]

/-- Decode the member bound to key `t` into its field of `PlaceElemGeometryGeojson`. -/
def PlaceElemGeometryGeojson.setField (t : String) (v : Json) (s : PlaceElemGeometryGeojson) :
    Except Error PlaceElemGeometryGeojson :=
  match t with
  | "coordinates" =>
    (decodeSlice Float64.zero decodeFloat64 v s.Coordinates).map fun a =>
      { s with Coordinates := a }
  | "type" =>
    (decodeUnmarshaler PlaceElemGeometryGeojsonType.UnmarshalJSON v s.Type_).map fun a =>
      { s with Type_ := a }
  | _ => .ok s

/-- Decoder of `PlaceElemGeometryGeojson`. -/
def PlaceElemGeometryGeojson.decode (x : Env) : Dec PlaceElemGeometryGeojson :=
  decodeStruct x PlaceElemGeometryGeojson.tags PlaceElemGeometryGeojson.setField

/-- Go struct `PlaceElem`; field defaults are the Go zero values. -/
structure PlaceElem where
  Code : String := ""
  Contactinfo : GoSlice ContactinfoType := none
  GeometryGeojson : Option PlaceElemGeometryGeojson := none
  Name : String := ""
  Rel : String := ""
  Scheme : String := ""

/-- The `json` keys of the fields of `PlaceElem`, in declaration order. -/
def PlaceElem.tags : List String :=
  ["code", "contactinfo", "geometry_geojson", "name", "rel", "scheme"]

/-- Decode the member bound to key `t` into its field of `PlaceElem`. -/
def PlaceElem.setField (x : Env) (t : String) (v : Json) (s : PlaceElem) :
    Except Error PlaceElem :=
  match t with
  | "code" => (decodeString v s.Code).map fun a => { s with Code := a }
  | "contactinfo" =>
    (decodeSlice {} (ContactinfoType.decode x) v s.Contactinfo).map fun a =>
      { s with Contactinfo := a }
  | "geometry_geojson" =>
    (decodePtr {} (PlaceElemGeometryGeojson.decode x) v s.GeometryGeojson).map fun a =>
      { s with GeometryGeojson := a }
  | "name" => (decodeString v s.Name).map fun a => { s with Name := a }
  | "rel" => (decodeString v s.Rel).map fun a => { s with Rel := a }
  | "scheme" => (decodeString v s.Scheme).map fun a => { s with Scheme := a }
  | _ => .ok s

/-- Decoder of `PlaceElem`. -/
def PlaceElem.decode (x : Env) : Dec PlaceElem :=
  decodeStruct x PlaceElem.tags (PlaceElem.setField x)

/-- Go struct `ProductElem`; field defaults are the Go zero values. -/
structure ProductElem where
  Code : String := ""
  Name : String := ""
  Scheme : String := ""

/-- The `json` keys of the fields of `ProductElem`, in declaration order. -/
def ProductElem.tags : List String :=
  ["code", "name", "scheme"]

/-- Decode the member bound to key `t` into its field of `ProductElem`. -/
def ProductElem.setField (t : String) (v : Json) (s : ProductElem) :
    Except Error ProductElem :=
  match t with
  | "code" => (decodeString v s.Code).map fun a => { s with Code := a }
  | "name" => (decodeString v s.Name).map fun a => { s with Name := a }
  | "scheme" => (decodeString v s.Scheme).map fun a => { s with Scheme := a }
  | _ => .ok s

/-- Decoder of `ProductElem`. -/
def ProductElem.decode (x : Env) : Dec ProductElem :=
  decodeStruct x ProductElem.tags ProductElem.setField

/-- Go struct `Rendition`; field defaults are the Go zero values. -/
structure Rendition where
  Href : String := ""
  Mimetype : String := ""
  Title : String := ""
  Height : Int := 0
  Width : Int := 0
  SizeInBytes : Int := 0
  Usage : String := ""
  Variant : String := ""
  Unit : String := ""
  Bitrate : String := ""
  Duration : Float64 := Float64.zero
  Format : String := ""
  PrintSize : Float64 := Float64.zero

/-- The `json` keys of the fields of `Rendition`, in declaration order. -/
def Rendition.tags : List String :=
  ["href", "mimetype", "title", "height", "width", "sizeinbytes", "usage", "variant",
   "unit", "bitrate", "duration", "format", "printsize"]

/-- Decode the member bound to key `t` into its field of `Rendition`. -/
def Rendition.setField (t : String) (v : Json) (s : Rendition) :
    Except Error Rendition :=
  match t with
  | "href" => (decodeString v s.Href).map fun a => { s with Href := a }
  | "mimetype" => (decodeString v s.Mimetype).map fun a => { s with Mimetype := a }
  | "title" => (decodeString v s.Title).map fun a => { s with Title := a }
  | "height" => (decodeInt v s.Height).map fun a => { s with Height := a }
  | "width" => (decodeInt v s.Width).map fun a => { s with Width := a }
  | "sizeinbytes" => (decodeInt v s.SizeInBytes).map fun a => { s with SizeInBytes := a }
  | "usage" => (decodeString v s.Usage).map fun a => { s with Usage := a }
  | "variant" => (decodeString v s.Variant).map fun a => { s with Variant := a }
  | "unit" => (decodeString v s.Unit).map fun a => { s with Unit := a }
  | "bitrate" => (decodeString v s.Bitrate).map fun a => { s with Bitrate := a }
  | "duration" => (decodeFloat64 v s.Duration).map fun a => { s with Duration := a }
  | "format" => (decodeString v s.Format).map fun a => { s with Format := a }
  | "printsize" => (decodeFloat64 v s.PrintSize).map fun a => { s with PrintSize := a }
  | _ => .ok s

/-- Decoder of `Rendition`. -/
def Rendition.decode (x : Env) : Dec Rendition :=
  decodeStruct x Rendition.tags Rendition.setField

/-- Go `type Renditions map[string]Rendition`. -/
abbrev Renditions := GoMap Rendition

/-- Go struct `RevisionsElem`; field defaults are the Go zero values. -/
structure RevisionsElem where
  Replacing : GoSlice String := none
  Slug : String := ""
  Uri : String := ""
  Versioncreated : Option Time := none

/-- The `json` keys of the fields of `RevisionsElem`, in declaration order. -/
def RevisionsElem.tags : List String :=
  ["replacing", "slug", "uri", "versioncreated"]

/-- Decode the member bound to key `t` into its field of `RevisionsElem`. -/
def RevisionsElem.setField (x : Env) (t : String) (v : Json) (s : RevisionsElem) :
    Except Error RevisionsElem :=
  match t with
  | "replacing" =>
    (decodeSlice "" decodeString v s.Replacing).map fun a => { s with Replacing := a }
  | "slug" => (decodeString v s.Slug).map fun a => { s with Slug := a }
  | "uri" => (decodeString v s.Uri).map fun a => { s with Uri := a }
  | "versioncreated" =>
    (decodePtr {} (Time.decode x) v s.Versioncreated).map fun a => { s with Versioncreated := a }
  | _ => .ok s

/-- The call `json.Unmarshal(b, &plain)` of `RevisionsElem.UnmarshalJSON`, with
`plain` a zero value of the struct type of `RevisionsElem`. -/
def RevisionsElem.unmarshalPlain (x : Env) (b : Json) : Except Error RevisionsElem :=
  decodeStruct x RevisionsElem.tags (RevisionsElem.setField x) b {}

/-- Method `RevisionsElem.UnmarshalJSON`: the new value of the receiver, or the
error returned. -/
def RevisionsElem.UnmarshalJSON (x : Env) (b : Json) : Except Error RevisionsElem :=
  match unmarshalRaw b with
  | .error e => .error e
  | .ok raw =>
    if uriMissing raw then .error (.required "uri" "RevisionsElem")
    else
      match RevisionsElem.unmarshalPlain x b with
      | .error e => .error e
      | .ok plain => .ok plain

/-- Go struct `Rightsinfo`; field defaults are the Go zero values. -/
structure Rightsinfo where
  Encodedrights : String := ""
  Langid : String := ""
  Linkedrights : String := ""

/-- The `json` keys of the fields of `Rightsinfo`, in declaration order. -/
def Rightsinfo.tags : List String :=
  ["encodedrights", "langid", "linkedrights"]

/-- Decode the member bound to key `t` into its field of `Rightsinfo`. -/
def Rightsinfo.setField (t : String) (v : Json) (s : Rightsinfo) :
    Except Error Rightsinfo :=
  match t with
  | "encodedrights" => (decodeString v s.Encodedrights).map fun a => { s with Encodedrights := a }
  | "langid" => (decodeString v s.Langid).map fun a => { s with Langid := a }
  | "linkedrights" => (decodeString v s.Linkedrights).map fun a => { s with Linkedrights := a }
  | _ => .ok s

/-- Decoder of `Rightsinfo`. -/
def Rightsinfo.decode (x : Env) : Dec Rightsinfo :=
  decodeStruct x Rightsinfo.tags Rightsinfo.setField

/-- Go struct `Signals`; field defaults are the Go zero values. -/
structure Signals where
  Deliverytags : GoSlice String := none
  Multipagecount : Option Float64 := none
  Pagecode : String := ""
  Pageproduct : String := ""
  Pagevariant : String := ""
  Paginae : GoSlice String := none
  Retransmission : Option Bool := none
  Updatetype : Option DocumentSignalsUpdatetype := none

/-- The `json` keys of the fields of `Signals`, in declaration order. -/
def Signals.tags : List String :=
  ["deliverytags", "multipagecount", "pagecode", "pageproduct", "pagevariant", "paginae",
   "retransmission", "updatetype"]

/-- Decode the member bound to key `t` into its field of `Signals`. -/
def Signals.setField (t : String) (v : Json) (s : Signals) :
    Except Error Signals :=
  match t with
  | "deliverytags" =>
    (decodeSlice "" decodeString v s.Deliverytags).map fun a => { s with Deliverytags := a }
  | "multipagecount" =>
    (decodePtr Float64.zero decodeFloat64 v s.Multipagecount).map fun a =>
      { s with Multipagecount := a }
  | "pagecode" => (decodeString v s.Pagecode).map fun a => { s with Pagecode := a }
  | "pageproduct" => (decodeString v s.Pageproduct).map fun a => { s with Pageproduct := a }
  | "pagevariant" => (decodeString v s.Pagevariant).map fun a => { s with Pagevariant := a }
  | "paginae" => (decodeSlice "" decodeString v s.Paginae).map fun a => { s with Paginae := a }
  | "retransmission" =>
    (decodePtr false decodeBool v s.Retransmission).map fun a => { s with Retransmission := a }
  | "updatetype" =>
    (decodePtr "" decodeString v s.Updatetype).map fun a => { s with Updatetype := a }
  | _ => .ok s

/-- Decoder of `Signals`. -/
def Signals.decode (x : Env) : Dec Signals :=
  decodeStruct x Signals.tags Signals.setField

/-- Go struct `SubjectElem`; field defaults are the Go zero values. -/
structure SubjectElem where
  Code : String := ""
  Confidence : Option Int := none
  Creator : String := ""
  Name : String := ""
  Rel : String := ""
  Relevance : Option Int := none
  Scheme : String := ""

/-- The `json` keys of the fields of `SubjectElem`, in declaration order. -/
def SubjectElem.tags : List String :=
  ["code", "confidence", "creator", "name", "rel", "relevance", "scheme"]

/-- Decode the member bound to key `t` into its field of `SubjectElem`. -/
def SubjectElem.setField (t : String) (v : Json) (s : SubjectElem) :
    Except Error SubjectElem :=
  match t with
  | "code" => (decodeString v s.Code).map fun a => { s with Code := a }
  | "confidence" => (decodePtr 0 decodeInt v s.Confidence).map fun a => { s with Confidence := a }
  | "creator" => (decodeString v s.Creator).map fun a => { s with Creator := a }
  | "name" => (decodeString v s.Name).map fun a => { s with Name := a }
  | "rel" => (decodeString v s.Rel).map fun a => { s with Rel := a }
  | "relevance" => (decodePtr 0 decodeInt v s.Relevance).map fun a => { s with Relevance := a }
  | "scheme" => (decodeString v s.Scheme).map fun a => { s with Scheme := a }
  | _ => .ok s

/-- Decoder of `SubjectElem`. -/
def SubjectElem.decode (x : Env) : Dec SubjectElem :=
  decodeStruct x SubjectElem.tags SubjectElem.setField

/-- Go struct `TrustindicatorElem`; field defaults are the Go zero values. -/
structure TrustindicatorElem where
  Code : String := ""
  Href : String := ""
  Scheme : String := ""
  Title : String := ""

/-- The `json` keys of the fields of `TrustindicatorElem`, in declaration order. -/
def TrustindicatorElem.tags : List String :=
  ["code", "href", "scheme", "title"]

/-- Decode the member bound to key `t` into its field of `TrustindicatorElem`. -/
def TrustindicatorElem.setField (t : String) (v : Json) (s : TrustindicatorElem) :
    Except Error TrustindicatorElem :=
  match t with
  | "code" => (decodeString v s.Code).map fun a => { s with Code := a }
  | "href" => (decodeString v s.Href).map fun a => { s with Href := a }
  | "scheme" => (decodeString v s.Scheme).map fun a => { s with Scheme := a }
  | "title" => (decodeString v s.Title).map fun a => { s with Title := a }
  | _ => .ok s

/-- Decoder of `TrustindicatorElem`. -/
def TrustindicatorElem.decode (x : Env) : Dec TrustindicatorElem :=
  decodeStruct x TrustindicatorElem.tags TrustindicatorElem.setField

/-- The struct type of `Document`, i.e. the local `type Plain Document` of
`Document.UnmarshalJSON`, with the type `D` of embedded documents as a
parameter.  Field defaults are the Go zero values. -/
structure Plain (D : Type) where
  Standard : Standard := {}
  Advice : GoSlice AdviceElem := none
  Altids : Option Altids := none
  Assignments : Option (List (String × D)) := none
  Associations : Option (List (String × D)) := none
  BodyEvent : Option BodyEvent := none
  BodyHtml5 : String := ""
  BodyPages : BodyPages := none
  BodyRichhtml5 : String := ""
  BodySportsml : String := ""
  BodyText : String := ""
  Byline : String := ""
  Bylines : GoSlice BylinesElem := none
  Charcount : Option Float64 := none
  Commissioncode : String := ""
  Commissionedby : GoSlice String := none
  Contentcreated : Option Time := none
  Copyrightholder : String := ""
  Copyrightnotice : String := ""
  Date : Option SerializableDate := none
  Datetime : Option Time := none
  DescriptionText : String := ""
  DescriptionUsage : String := ""
  Ednote : String := ""
  Embargoed : Option Time := none
  Embargoedreason : String := ""
  Enddate : Option SerializableDate := none
  Enddatetime : Option Time := none
  Event : GoSlice EventElem := none
  Expires : Option Time := none
  Firstcreated : Option Time := none
  Fixture : GoSlice FixtureElem := none
  Genre : GoSlice GenreElem := none
  Headline : String := ""
  Infosource : GoSlice InfosourceElem := none
  Job : String := ""
  Language : String := ""
  Located : String := ""
  Mimetype : String := ""
  Newsvalue : Option Int := none
  Object : GoSlice ObjectElem := none
  Organisation : GoSlice OrganisationElem := none
  Originaltransmissionreference : String := ""
  Person : GoSlice PersonElem := none
  Place : GoSlice PlaceElem := none
  Product : GoSlice ProductElem := none
  Profile : Option Profile := none
  Pubstatus : Pubstatus := ""
  Renditions : Renditions := none
  Replacedby : String := ""
  Replacing : GoSlice String := none
  Representationtype : Option Representationtype := none
  Revisions : GoSlice RevisionsElem := none
  Rightsinfo : Option Rightsinfo := none
  Sector : Option Sector := none
  Signals : Signals := {}
  Slug : String := ""
  Slugline : String := ""
  Source : String := ""
  Subject : GoSlice SubjectElem := none
  Title : String := ""
  Trustindicator : GoSlice TrustindicatorElem := none
  Type_ : Type_ := ""
  Urgency : Int := 0
  Uri : String := ""
  Usageterms : String := ""
  Version : String := ""
  Versioncreated : Time := {}
  Versionstored : Option Time := none
  Webprio : Int := 0
  Week : Int := 0
  Wordcount : Int := 0

/-- The `json` keys of the fields of `Document`, in declaration order. -/
def Plain.tags : List String :=
  ["$standard", "advice", "altids", "assignments", "associations", "body_event",
   "body_html5", "body_pages", "body_richhtml5", "body_sportsml", "body_text", "byline",
   "bylines", "charcount", "commissioncode", "commissionedby", "contentcreated",
   "copyrightholder", "copyrightnotice", "date", "datetime", "description_text",
   "description_usage", "ednote", "embargoed", "embargoedreason", "enddate",
   "enddatetime", "event", "expires", "firstcreated", "fixture", "genre", "headline",
   "infosource", "job", "language", "located", "mimetype", "newsvalue", "object",
   "organisation", "originaltransmissionreference", "person", "place", "product",
   "profile", "pubstatus", "renditions", "replacedby", "replacing", "representationtype",
   "revisions", "rightsinfo", "sector", "signals", "slug", "slugline", "source",
   "subject", "title", "trustindicator", "type", "urgency", "uri", "usageterms",
   "version", "versioncreated", "versionstored", "webprio", "week", "wordcount"]

/-- Decode the member bound to key `t` into its field of the document struct,
for every field except `assignments` and `associations`, which hold embedded
documents. -/
def Plain.setLeaf {D : Type} (x : Env) (t : String) (v : Json) (s : Plain D) :
    Except Error (Plain D) :=
  match t with
  | "$standard" => (Standard.decode x v s.Standard).map fun a => { s with Standard := a }
  | "advice" =>
    (decodeSlice {} (AdviceElem.decode x) v s.Advice).map fun a => { s with Advice := a }
  | "altids" => (decodePtr {} (Altids.decode x) v s.Altids).map fun a => { s with Altids := a }
  | "body_event" =>
    (decodePtr {} (BodyEvent.decode x) v s.BodyEvent).map fun a => { s with BodyEvent := a }
  | "body_html5" => (decodeString v s.BodyHtml5).map fun a => { s with BodyHtml5 := a }
  | "body_pages" =>
    (decodeMap Any.nil decodeAny v s.BodyPages).map fun a => { s with BodyPages := a }
  | "body_richhtml5" =>
    (decodeString v s.BodyRichhtml5).map fun a => { s with BodyRichhtml5 := a }
  | "body_sportsml" => (decodeString v s.BodySportsml).map fun a => { s with BodySportsml := a }
  | "body_text" => (decodeString v s.BodyText).map fun a => { s with BodyText := a }
  | "byline" => (decodeString v s.Byline).map fun a => { s with Byline := a }
  | "bylines" =>
    (decodeSlice {} (BylinesElem.decode x) v s.Bylines).map fun a => { s with Bylines := a }
  | "charcount" =>
    (decodePtr Float64.zero decodeFloat64 v s.Charcount).map fun a => { s with Charcount := a }
  | "commissioncode" =>
    (decodeString v s.Commissioncode).map fun a => { s with Commissioncode := a }
  | "commissionedby" =>
    (decodeSlice "" decodeString v s.Commissionedby).map fun a => { s with Commissionedby := a }
  | "contentcreated" =>
    (decodePtr {} (Time.decode x) v s.Contentcreated).map fun a => { s with Contentcreated := a }
  | "copyrightholder" =>
    (decodeString v s.Copyrightholder).map fun a => { s with Copyrightholder := a }
  | "copyrightnotice" =>
    (decodeString v s.Copyrightnotice).map fun a => { s with Copyrightnotice := a }
  | "date" =>
    (decodePtr {} (SerializableDate.decode x) v s.Date).map fun a => { s with Date := a }
  | "datetime" =>
    (decodePtr {} (Time.decode x) v s.Datetime).map fun a => { s with Datetime := a }
  | "description_text" =>
    (decodeString v s.DescriptionText).map fun a => { s with DescriptionText := a }
  | "description_usage" =>
    (decodeString v s.DescriptionUsage).map fun a => { s with DescriptionUsage := a }
  | "ednote" => (decodeString v s.Ednote).map fun a => { s with Ednote := a }
  | "embargoed" =>
    (decodePtr {} (Time.decode x) v s.Embargoed).map fun a => { s with Embargoed := a }
  | "embargoedreason" =>
    (decodeString v s.Embargoedreason).map fun a => { s with Embargoedreason := a }
  | "enddate" =>
    (decodePtr {} (SerializableDate.decode x) v s.Enddate).map fun a => { s with Enddate := a }
  | "enddatetime" =>
    (decodePtr {} (Time.decode x) v s.Enddatetime).map fun a => { s with Enddatetime := a }
  | "event" => (decodeSlice {} (EventElem.decode x) v s.Event).map fun a => { s with Event := a }
  | "expires" => (decodePtr {} (Time.decode x) v s.Expires).map fun a => { s with Expires := a }
  | "firstcreated" =>
    (decodePtr {} (Time.decode x) v s.Firstcreated).map fun a => { s with Firstcreated := a }
  | "fixture" =>
    (decodeSlice {} (FixtureElem.decode x) v s.Fixture).map fun a => { s with Fixture := a }
  | "genre" => (decodeSlice {} (GenreElem.decode x) v s.Genre).map fun a => { s with Genre := a }
  | "headline" => (decodeString v s.Headline).map fun a => { s with Headline := a }
  | "infosource" =>
    (decodeSlice {} (InfosourceElem.decode x) v s.Infosource).map fun a =>
      { s with Infosource := a }
  | "job" => (decodeString v s.Job).map fun a => { s with Job := a }
  | "language" => (decodeString v s.Language).map fun a => { s with Language := a }
  | "located" => (decodeString v s.Located).map fun a => { s with Located := a }
  | "mimetype" => (decodeString v s.Mimetype).map fun a => { s with Mimetype := a }
  | "newsvalue" => (decodePtr 0 decodeInt v s.Newsvalue).map fun a => { s with Newsvalue := a }
  | "object" =>
    (decodeSlice {} (ObjectElem.decode x) v s.Object).map fun a => { s with Object := a }
  | "organisation" =>
    (decodeSlice {} (OrganisationElem.decode x) v s.Organisation).map fun a =>
      { s with Organisation := a }
  | "originaltransmissionreference" =>
    (decodeString v s.Originaltransmissionreference).map fun a =>
      { s with Originaltransmissionreference := a }
  | "person" =>
    (decodeSlice {} (PersonElem.decode x) v s.Person).map fun a => { s with Person := a }
  | "place" => (decodeSlice {} (PlaceElem.decode x) v s.Place).map fun a => { s with Place := a }
  | "product" =>
    (decodeSlice {} (ProductElem.decode x) v s.Product).map fun a => { s with Product := a }
  | "profile" =>
    (decodePtr "" (decodeUnmarshaler Profile.UnmarshalJSON) v s.Profile).map fun a =>
      { s with Profile := a }
  | "pubstatus" =>
    (decodeUnmarshaler Pubstatus.UnmarshalJSON v s.Pubstatus).map fun a =>
      { s with Pubstatus := a }
  | "renditions" =>
    (decodeMap {} (Rendition.decode x) v s.Renditions).map fun a => { s with Renditions := a }
  | "replacedby" => (decodeString v s.Replacedby).map fun a => { s with Replacedby := a }
  | "replacing" =>
    (decodeSlice "" decodeString v s.Replacing).map fun a => { s with Replacing := a }
  | "representationtype" =>
    (decodePtr "" (decodeUnmarshaler Representationtype.UnmarshalJSON) v s.Representationtype).map fun a =>
      { s with Representationtype := a }
  | "revisions" =>
    (decodeSlice {} (decodeUnmarshaler (RevisionsElem.UnmarshalJSON x)) v s.Revisions).map fun a =>
      { s with Revisions := a }
  | "rightsinfo" =>
    (decodePtr {} (Rightsinfo.decode x) v s.Rightsinfo).map fun a => { s with Rightsinfo := a }
  | "sector" =>
    (decodePtr "" (decodeUnmarshaler Sector.UnmarshalJSON) v s.Sector).map fun a =>
      { s with Sector := a }
  | "signals" => (Signals.decode x v s.Signals).map fun a => { s with Signals := a }
  | "slug" => (decodeString v s.Slug).map fun a => { s with Slug := a }
  | "slugline" => (decodeString v s.Slugline).map fun a => { s with Slugline := a }
  | "source" => (decodeString v s.Source).map fun a => { s with Source := a }
  | "subject" =>
    (decodeSlice {} (SubjectElem.decode x) v s.Subject).map fun a => { s with Subject := a }
  | "title" => (decodeString v s.Title).map fun a => { s with Title := a }
  | "trustindicator" =>
    (decodeSlice {} (TrustindicatorElem.decode x) v s.Trustindicator).map fun a =>
      { s with Trustindicator := a }
  | "type" => (decodeUnmarshaler Type_.UnmarshalJSON v s.Type_).map fun a => { s with Type_ := a }
  | "urgency" => (decodeInt v s.Urgency).map fun a => { s with Urgency := a }
  | "uri" => (decodeString v s.Uri).map fun a => { s with Uri := a }
  | "usageterms" => (decodeString v s.Usageterms).map fun a => { s with Usageterms := a }
  | "version" => (decodeString v s.Version).map fun a => { s with Version := a }
  | "versioncreated" =>
    (Time.decode x v s.Versioncreated).map fun a => { s with Versioncreated := a }
  | "versionstored" =>
    (decodePtr {} (Time.decode x) v s.Versionstored).map fun a => { s with Versionstored := a }
  | "webprio" => (decodeInt v s.Webprio).map fun a => { s with Webprio := a }
  | "week" => (decodeInt v s.Week).map fun a => { s with Week := a }
  | "wordcount" => (decodeInt v s.Wordcount).map fun a => { s with Wordcount := a }
  | _ => .ok s

/-- Go struct `Document`: its fields, with embedded documents of the same
type. -/
inductive Document where
  | mk (plain : Plain Document)

/-- The fields of a document. -/
def Document.plain : Document → Plain Document
  | .mk p => p

mutual
/-- Method `Document.UnmarshalJSON`: the new value of the receiver, or the error
returned.  The last match is the call `json.Unmarshal(b, &plain)` on a zero
`plain`, i.e. the struct decoder of the library applied to `b`.  The reader of
the library has no limit here; `Document.UnmarshalJSON.within` is the method
with the limits of the reader. -/
def Document.UnmarshalJSON (x : Env) (b : Json) : Except Error Document :=
  match unmarshalRaw b with
  | .error e => .error e
  | .ok raw =>
    if uriMissing raw then .error (.required "uri" "Document")
    else
      match b with
      | .null => .ok (.mk {})
      | .obj kvs =>
        match Document.decodeMembers x kvs {} with
        | .error e => .error e
        | .ok plain => .ok (.mk plain)
      | _ => .error .typeMismatch
/-- The struct decoder of the library on the members of a document object, in
input order (`decodeMembers` for the document struct). -/
def Document.decodeMembers (x : Env) :
    List (String × Json) → Plain Document → Except Error (Plain Document)
  | [], s => .ok s
  | (k, v) :: rest, s =>
    match resolveField x Plain.tags k with
    | none => Document.decodeMembers x rest s
    | some t =>
      if t = "assignments" then
        match Document.decodeMap x v s.Assignments with
        | .error e => .error e
        | .ok m => Document.decodeMembers x rest { s with Assignments := m }
      else if t = "associations" then
        match Document.decodeMap x v s.Associations with
        | .error e => .error e
        | .ok m => Document.decodeMembers x rest { s with Associations := m }
      else
        match Plain.setLeaf x t v s with
        | .error e => .error e
        | .ok s' => Document.decodeMembers x rest s'
/-- The map decoder of the library for `Assignments` and `Associations`
(`decodeMap` with `Document.UnmarshalJSON` for the values). -/
def Document.decodeMap (x : Env) : Json → GoMap Document → Except Error (GoMap Document)
  | .null, _ => .ok none
  | .obj kvs, cur =>
    match Document.decodeEntries x kvs (cur.getD []) with
    | .error e => .error e
    | .ok m => .ok (some m)
  | _, _ => .error .typeMismatch
/-- The members of an `assignments` or `associations` object: each value goes
through `Document.UnmarshalJSON` and is assigned under its key. -/
def Document.decodeEntries (x : Env) :
    List (String × Json) → List (String × Document) → Except Error (List (String × Document))
  | [], m => .ok m
  | (k, v) :: rest, m =>
    match Document.UnmarshalJSON x v with
    | .error e => .error (.reported e)
    | .ok d => Document.decodeEntries x rest (GoMap.set m k d)
end

/-! ## Encoding

The source declares no `MarshalJSON`: `json.Marshal` encodes every struct from its
`json` tags, a field tagged `omitempty` being left out when its value is empty
(false, 0, a nil pointer, an empty slice, map or string; a struct never is).
The model gives the JSON value, or the error of the call. -/

/-- The number literal of an integer. -/
def JsonNumber.ofInt (i : Int) : JsonNumber :=
  { negative := decide (i < 0), integer := i.natAbs }

/-- An encoder turns a Go value into a JSON value, or fails. -/
abbrev Enc (α : Type) := α → Except Error Json

/-- Encoder of Go `string`. -/
def encodeString : Enc String :=
  fun s => .ok (.str s)

/-- Encoder of Go `int`. -/
def encodeInt : Enc Int :=
  fun i => .ok (.num (JsonNumber.ofInt i))

/-- Encoder of Go `float64`. -/
def encodeFloat64 : Enc Float64 :=
  fun n => .ok (.num n)

/-- Encoder of Go `bool`. -/
def encodeBool : Enc Bool :=
  fun b => .ok (.bool b)

/-- Encoder of a pointer type `*T`: nil gives `null`. -/
def encodePtr {α : Type} (enc : Enc α) : Enc (Option α)
  | none => .ok .null
  | some a => enc a

/-- Encode the elements of a slice, left to right, stopping at the first
error. -/
def encodeElems {α : Type} (enc : Enc α) : List α → Except Error (List Json)
  | [] => .ok []
  | a :: rest =>
    match enc a with
    | .error e => .error e
    | .ok j =>
      match encodeElems enc rest with
      | .error e => .error e
      | .ok js => .ok (j :: js)

/-- Encoder of a slice type `[]T`: the nil slice gives `null`. -/
def encodeSlice {α : Type} (enc : Enc α) : Enc (GoSlice α)
  | none => .ok .null
  | some xs =>
    match encodeElems enc xs with
    | .error e => .error e
    | .ok js => .ok (.arr js)

/-- Insert a member into a member list that is sorted by key. -/
def insertByKey {α : Type} (k : String) (a : α) : List (String × α) → List (String × α)
  | [] => [(k, a)]
  | (k', a') :: rest =>
    if k' < k then (k', a') :: insertByKey k a rest else (k, a) :: (k', a') :: rest

/-- Sort members by key: the library writes the entries of a map in the order of
their keys. -/
def sortByKey {α : Type} : List (String × α) → List (String × α)
  | [] => []
  | (k, a) :: rest => insertByKey k a (sortByKey rest)

/-- Encode the values of the entries of a map, stopping at the first error. -/
def encodeEntries {α : Type} (enc : Enc α) :
    List (String × α) → Except Error (List (String × Json))
  | [] => .ok []
  | (k, a) :: rest =>
    match enc a with
    | .error e => .error e
    | .ok j =>
      match encodeEntries enc rest with
      | .error e => .error e
      | .ok es => .ok ((k, j) :: es)

/-- Encoder of a map type `map[string]T`: the nil map gives `null`, otherwise an
object with the entries in the order of their keys. -/
def encodeMap {α : Type} (enc : Enc α) : Enc (GoMap α)
  | none => .ok .null
  | some m =>
    match encodeEntries enc m with
    | .error e => .error e
    | .ok es => .ok (.obj (sortByKey es))

/-- The empty value of `omitempty` for Go `string`. -/
def emptyString (s : String) : Bool :=
  decide (s = "")

/-- The empty value of `omitempty` for Go `int`. -/
def emptyInt (i : Int) : Bool :=
  decide (i = 0)

/-- The empty value of `omitempty` for Go `float64`: the number is zero. -/
def emptyFloat64 (n : Float64) : Bool :=
  decide (n.integer = 0) && (n.fraction.getD []).all fun d => decide (d = 0)

/-- The empty value of `omitempty` for a pointer: nil. -/
def emptyPtr {α : Type} (p : Option α) : Bool :=
  p.isNone

/-- The empty value of `omitempty` for a slice: length 0. -/
def emptySlice {α : Type} (s : GoSlice α) : Bool :=
  (s.getD []).isEmpty

/-- The empty value of `omitempty` for a map: length 0. -/
def emptyMap {α : Type} (m : GoMap α) : Bool :=
  (m.getD []).isEmpty

/-- The members one struct field contributes to the encoded object: none when
the field is skipped, else its key with its encoded value. -/
def member (tag : String) (skip : Bool) (enc : Except Error Json) :
    Except Error (List (String × Json)) :=
  if skip then .ok []
  else
    match enc with
    | .error e => .error e
    | .ok j => .ok [(tag, j)]

/-- The members of all fields of a struct, in declaration order, or the first
error. -/
def joinMembers :
    List (Except Error (List (String × Json))) → Except Error (List (String × Json))
  | [] => .ok []
  | m :: rest =>
    match m with
    | .error e => .error e
    | .ok a =>
      match joinMembers rest with
      | .error e => .error e
      | .ok b => .ok (a ++ b)

/-- Encoder of a struct type from the members of its fields. -/
def encodeStruct (ms : List (Except Error (List (String × Json)))) : Except Error Json :=
  match joinMembers ms with
  | .error e => .error e
  | .ok l => .ok (.obj l)

mutual
/-- Encoding of a value of type `interface{}` as the generic decoder produces
it. -/
def Any.encode : Any → Json
  | .nil => .null
  | .bool b => .bool b
  | .float64 n => .num n
  | .string s => .str s
  | .slice xs => .arr (Any.encodeElems xs)
  | .map m => .obj (sortByKey (Any.encodeEntries m))
/-- Encoding of the elements of a `[]interface{}`. -/
def Any.encodeElems : List Any → List Json
  | [] => []
  | a :: rest => Any.encode a :: Any.encodeElems rest
/-- Encoding of the entries of a `map[string]interface{}`. -/
def Any.encodeEntries : List (String × Any) → List (String × Json)
  | [] => []
  | (k, a) :: rest => (k, Any.encode a) :: Any.encodeEntries rest
end

/-- Encoder of `interface{}`. -/
def encodeAny : Enc Any :=
  fun a => .ok (Any.encode a)

/-- Encoder of `time.Time` through its `MarshalJSON`. -/
def Time.encode (x : Env) : Enc Time :=
  fun t =>
    match x.formatTime t with
    | some s => .ok (.str s)
    | none => .error (.foreign "time.Time")

/-- Encoder of `SerializableDate` through its `MarshalJSON`. -/
def SerializableDate.encode (x : Env) : Enc SerializableDate :=
  fun d =>
    match x.formatDate d with
    | some j => .ok j
    | none => .error (.foreign "SerializableDate")

/-- Encoder of `Standard`: its fields in declaration order. -/
def Standard.encode (s : Standard) : Except Error Json :=
  encodeStruct
    [member "name" (emptyString s.Name) (encodeString s.Name),
     member "schema" (emptyString s.Schema) (encodeString s.Schema),
     member "version" (emptyString s.Version) (encodeString s.Version)]

/-- Encoder of `AdviceElemEnvironmentElem`: its fields in declaration order. -/
def AdviceElemEnvironmentElem.encode (s : AdviceElemEnvironmentElem) : Except Error Json :=
  encodeStruct
    [member "code" (emptyString s.Code) (encodeString s.Code),
     member "scheme" (emptyString s.Scheme) (encodeString s.Scheme)]

/-- Encoder of `AdviceElemImportance`: its fields in declaration order. -/
def AdviceElemImportance.encode (s : AdviceElemImportance) : Except Error Json :=
  encodeStruct
    [member "code" (emptyString s.Code) (encodeString s.Code),
     member "scheme" (emptyString s.Scheme) (encodeString s.Scheme)]

/-- Encoder of `AdviceElemLifetime`: its fields in declaration order. -/
def AdviceElemLifetime.encode (s : AdviceElemLifetime) : Except Error Json :=
  encodeStruct
    [member "code" (emptyString s.Code) (encodeString s.Code),
     member "scheme" (emptyString s.Scheme) (encodeString s.Scheme)]

/-- Encoder of `AdviceElem`: its fields in declaration order. -/
def AdviceElem.encode (s : AdviceElem) : Except Error Json :=
  encodeStruct
    [member "environment" (emptySlice s.Environment)
       (encodeSlice AdviceElemEnvironmentElem.encode s.Environment),
     member "importance" (emptyPtr s.Importance)
       (encodePtr AdviceElemImportance.encode s.Importance),
     member "lifetime" (emptyPtr s.Lifetime) (encodePtr AdviceElemLifetime.encode s.Lifetime),
     member "role" (emptyString s.Role) (encodeString s.Role)]

/-- Encoder of `Altids`: its fields in declaration order. -/
def Altids.encode (s : Altids) : Except Error Json :=
  encodeStruct
    [member "originaltransmissionreference" (emptyString s.Originaltransmissionreference)
       (encodeString s.Originaltransmissionreference)]

/-- Encoder of `BodyEvent`: its fields in declaration order. -/
def BodyEvent.encode (x : Env) (s : BodyEvent) : Except Error Json :=
  encodeStruct
    [member "accreditation" (emptyString s.Accreditation) (encodeString s.Accreditation),
     member "address" (emptyString s.Address) (encodeString s.Address),
     member "arena" (emptyString s.Arena) (encodeString s.Arena),
     member "changedby" (emptyString s.Changedby) (encodeString s.Changedby),
     member "changeddate" (emptyPtr s.Changeddate) (encodePtr (Time.encode x) s.Changeddate),
     member "city" (emptyString s.City) (encodeString s.City),
     member "country" (emptyString s.Country) (encodeString s.Country),
     member "courtcasenumber" (emptyString s.Courtcasenumber) (encodeString s.Courtcasenumber),
     member "createdby" (emptyString s.Createdby) (encodeString s.Createdby),
     member "createddate" (emptyPtr s.Createddate) (encodePtr (Time.encode x) s.Createddate),
     member "eventphone" (emptyString s.Eventphone) (encodeString s.Eventphone),
     member "eventstatus" (emptyString s.Eventstatus) (encodeString s.Eventstatus),
     member "eventstatus_text" (emptyString s.EventstatusText) (encodeString s.EventstatusText),
     member "eventtags" (emptyString s.Eventtags) (encodeString s.Eventtags),
     member "eventtype" (emptyString s.Eventtype) (encodeString s.Eventtype),
     member "eventtype_text" (emptyString s.EventtypeText) (encodeString s.EventtypeText),
     member "eventurl" (emptyString s.Eventurl) (encodeString s.Eventurl),
     member "eventweb" (emptyString s.Eventweb) (encodeString s.Eventweb),
     member "extraurl" (emptyString s.Extraurl) (encodeString s.Extraurl),
     member "municipality" (emptyString s.Municipality) (encodeString s.Municipality),
     member "municipality_text" (emptyString s.MunicipalityText)
       (encodeString s.MunicipalityText),
     member "note_extra" (emptyString s.NoteExtra) (encodeString s.NoteExtra),
     member "note_pm" (emptyString s.NotePm) (encodeString s.NotePm),
     member "organizer" (emptyString s.Organizer) (encodeString s.Organizer),
     member "organizeraddress" (emptyString s.Organizeraddress) (encodeString s.Organizeraddress),
     member "organizercity" (emptyString s.Organizercity) (encodeString s.Organizercity),
     member "organizercountry" (emptyString s.Organizercountry) (encodeString s.Organizercountry),
     member "organizermail" (emptyString s.Organizermail) (encodeString s.Organizermail),
     member "organizerphone" (emptyString s.Organizerphone) (encodeString s.Organizerphone),
     member "organizerurl" (emptyString s.Organizerurl) (encodeString s.Organizerurl),
     member "region" (emptyString s.Region) (encodeString s.Region),
     member "region_text" (emptyString s.RegionText) (encodeString s.RegionText)]

/-- Encoder of `BylinesElem`: its fields in declaration order. -/
def BylinesElem.encode (s : BylinesElem) : Except Error Json :=
  encodeStruct
    [member "affiliation" (emptyString s.Affiliation) (encodeString s.Affiliation),
     member "byline" (emptyString s.Byline) (encodeString s.Byline),
     member "email" (emptyString s.Email) (encodeString s.Email),
     member "firstname" (emptyString s.Firstname) (encodeString s.Firstname),
     member "initials" (emptyString s.Initials) (encodeString s.Initials),
     member "internal" (emptyString s.Internal) (encodeString s.Internal),
     member "jobtitle" (emptyString s.Jobtitle) (encodeString s.Jobtitle),
     member "lastname" (emptyString s.Lastname) (encodeString s.Lastname),
     member "phone" (emptyString s.Phone) (encodeString s.Phone),
     member "role" (emptyString s.Role) (encodeString s.Role)]

/-- Encoder of `EventElem`: its fields in declaration order. -/
def EventElem.encode (s : EventElem) : Except Error Json :=
  encodeStruct
    [member "code" (emptyString s.Code) (encodeString s.Code),
     member "name" (emptyString s.Name) (encodeString s.Name),
     member "rel" (emptyString s.Rel) (encodeString s.Rel),
     member "scheme" (emptyString s.Scheme) (encodeString s.Scheme)]

/-- Encoder of `FixtureElem`: its fields in declaration order. -/
def FixtureElem.encode (s : FixtureElem) : Except Error Json :=
  encodeStruct
    [member "code" (emptyString s.Code) (encodeString s.Code),
     member "name" (emptyString s.Name) (encodeString s.Name),
     member "rel" (emptyString s.Rel) (encodeString s.Rel),
     member "scheme" (emptyString s.Scheme) (encodeString s.Scheme)]

/-- Encoder of `GenreElem`: its fields in declaration order. -/
def GenreElem.encode (s : GenreElem) : Except Error Json :=
  encodeStruct
    [member "code" (emptyString s.Code) (encodeString s.Code),
     member "name" (emptyString s.Name) (encodeString s.Name),
     member "scheme" (emptyString s.Scheme) (encodeString s.Scheme)]

/-- Encoder of `Address`: its fields in declaration order. -/
def Address.encode (s : Address) : Except Error Json :=
  encodeStruct
    [member "lines" (emptySlice s.Lines) (encodeSlice encodeString s.Lines),
     member "locality" (emptyString s.Locality) (encodeString s.Locality),
     member "area" (emptyString s.Area) (encodeString s.Area),
     member "postalcode" (emptyString s.Postalcode) (encodeString s.Postalcode),
     member "country" (emptyString s.Country) (encodeString s.Country)]

/-- Encoder of `ContactinfoType`: its fields in declaration order. -/
def ContactinfoType.encode (s : ContactinfoType) : Except Error Json :=
  encodeStruct
    [member "type" (emptyString s.Type_) (encodeString s.Type_),
     member "role" (emptyString s.Role) (encodeString s.Role),
     member "lang" (emptyString s.Lang) (encodeString s.Lang),
     member "name" (emptyString s.Name) (encodeString s.Name),
     member "value" (emptyString s.Value) (encodeString s.Value),
     member "address" false (Address.encode s.Address)]

/-- Encoder of `InfosourceElem`: its fields in declaration order. -/
def InfosourceElem.encode (s : InfosourceElem) : Except Error Json :=
  encodeStruct
    [member "code" (emptyString s.Code) (encodeString s.Code),
     member "contactinfo" (emptySlice s.Contactinfo)
       (encodeSlice ContactinfoType.encode s.Contactinfo),
     member "name" (emptyString s.Name) (encodeString s.Name),
     member "rel" (emptyString s.Rel) (encodeString s.Rel),
     member "scheme" (emptyString s.Scheme) (encodeString s.Scheme)]

/-- Encoder of `ObjectElem`: its fields in declaration order. -/
def ObjectElem.encode (s : ObjectElem) : Except Error Json :=
  encodeStruct
    [member "code" (emptyString s.Code) (encodeString s.Code),
     member "name" (emptyString s.Name) (encodeString s.Name),
     member "rel" (emptyString s.Rel) (encodeString s.Rel),
     member "scheme" (emptyString s.Scheme) (encodeString s.Scheme)]

/-- Encoder of `OrganisationElemSymbolsElem`: its fields in declaration order. -/
def OrganisationElemSymbolsElem.encode (s : OrganisationElemSymbolsElem) : Except Error Json :=
  encodeStruct
    [member "exchange" (emptyString s.Exchange) (encodeString s.Exchange),
     member "symbol" (emptyString s.Symbol) (encodeString s.Symbol),
     member "symboltype" (emptyString s.Symboltype) (encodeString s.Symboltype),
     member "ticker" (emptyString s.Ticker) (encodeString s.Ticker)]

/-- Encoder of `OrganisationElem`: its fields in declaration order. -/
def OrganisationElem.encode (s : OrganisationElem) : Except Error Json :=
  encodeStruct
    [member "code" (emptyString s.Code) (encodeString s.Code),
     member "contactinfo" (emptySlice s.Contactinfo)
       (encodeSlice ContactinfoType.encode s.Contactinfo),
     member "name" (emptyString s.Name) (encodeString s.Name),
     member "rel" (emptyString s.Rel) (encodeString s.Rel),
     member "scheme" (emptyString s.Scheme) (encodeString s.Scheme),
     member "symbols" (emptySlice s.Symbols)
       (encodeSlice OrganisationElemSymbolsElem.encode s.Symbols)]

/-- Encoder of `PersonElem`: its fields in declaration order. -/
def PersonElem.encode (s : PersonElem) : Except Error Json :=
  encodeStruct
    [member "code" (emptyString s.Code) (encodeString s.Code),
     member "contactinfo" (emptySlice s.Contactinfo)
       (encodeSlice ContactinfoType.encode s.Contactinfo),
     member "name" (emptyString s.Name) (encodeString s.Name),
     member "rel" (emptyString s.Rel) (encodeString s.Rel),
     member "scheme" (emptyString s.Scheme) (encodeString s.Scheme)]

/-- Encoder of `PlaceElemGeometryGeojson`: its fields in declaration order. -/
def PlaceElemGeometryGeojson.encode (s : PlaceElemGeometryGeojson) : Except Error Json :=
  encodeStruct
    [member "coordinates" (emptySlice s.Coordinates) (encodeSlice encodeFloat64 s.Coordinates),
     member "type" (emptyString s.Type_) (encodeString s.Type_)]

/-- Encoder of `PlaceElem`: its fields in declaration order. -/
def PlaceElem.encode (s : PlaceElem) : Except Error Json :=
  encodeStruct
    [member "code" (emptyString s.Code) (encodeString s.Code),
     member "contactinfo" (emptySlice s.Contactinfo)
       (encodeSlice ContactinfoType.encode s.Contactinfo),
     member "geometry_geojson" (emptyPtr s.GeometryGeojson)
       (encodePtr PlaceElemGeometryGeojson.encode s.GeometryGeojson),
     member "name" (emptyString s.Name) (encodeString s.Name),
     member "rel" (emptyString s.Rel) (encodeString s.Rel),
     member "scheme" (emptyString s.Scheme) (encodeString s.Scheme)]

/-- Encoder of `ProductElem`: its fields in declaration order. -/
def ProductElem.encode (s : ProductElem) : Except Error Json :=
  encodeStruct
    [member "code" (emptyString s.Code) (encodeString s.Code),
     member "name" (emptyString s.Name) (encodeString s.Name),
     member "scheme" (emptyString s.Scheme) (encodeString s.Scheme)]

/-- Encoder of `Rendition`: its fields in declaration order. -/
def Rendition.encode (s : Rendition) : Except Error Json :=
  encodeStruct
    [member "href" (emptyString s.Href) (encodeString s.Href),
     member "mimetype" (emptyString s.Mimetype) (encodeString s.Mimetype),
     member "title" (emptyString s.Title) (encodeString s.Title),
     member "height" (emptyInt s.Height) (encodeInt s.Height),
     member "width" (emptyInt s.Width) (encodeInt s.Width),
     member "sizeinbytes" (emptyInt s.SizeInBytes) (encodeInt s.SizeInBytes),
     member "usage" (emptyString s.Usage) (encodeString s.Usage),
     member "variant" (emptyString s.Variant) (encodeString s.Variant),
     member "unit" (emptyString s.Unit) (encodeString s.Unit),
     member "bitrate" (emptyString s.Bitrate) (encodeString s.Bitrate),
     member "duration" (emptyFloat64 s.Duration) (encodeFloat64 s.Duration),
     member "format" (emptyString s.Format) (encodeString s.Format),
     member "printsize" (emptyFloat64 s.PrintSize) (encodeFloat64 s.PrintSize)]

/-- Encoder of `RevisionsElem`: its fields in declaration order. -/
def RevisionsElem.encode (x : Env) (s : RevisionsElem) : Except Error Json :=
  encodeStruct
    [member "replacing" (emptySlice s.Replacing) (encodeSlice encodeString s.Replacing),
     member "slug" (emptyString s.Slug) (encodeString s.Slug),
     member "uri" false (encodeString s.Uri),
     member "versioncreated" (emptyPtr s.Versioncreated)
       (encodePtr (Time.encode x) s.Versioncreated)]

/-- Encoder of `Rightsinfo`: its fields in declaration order. -/
def Rightsinfo.encode (s : Rightsinfo) : Except Error Json :=
  encodeStruct
    [member "encodedrights" (emptyString s.Encodedrights) (encodeString s.Encodedrights),
     member "langid" (emptyString s.Langid) (encodeString s.Langid),
     member "linkedrights" (emptyString s.Linkedrights) (encodeString s.Linkedrights)]

/-- Encoder of `Signals`: its fields in declaration order. -/
def Signals.encode (s : Signals) : Except Error Json :=
  encodeStruct
    [member "deliverytags" (emptySlice s.Deliverytags) (encodeSlice encodeString s.Deliverytags),
     member "multipagecount" (emptyPtr s.Multipagecount)
       (encodePtr encodeFloat64 s.Multipagecount),
     member "pagecode" (emptyString s.Pagecode) (encodeString s.Pagecode),
     member "pageproduct" (emptyString s.Pageproduct) (encodeString s.Pageproduct),
     member "pagevariant" (emptyString s.Pagevariant) (encodeString s.Pagevariant),
     member "paginae" (emptySlice s.Paginae) (encodeSlice encodeString s.Paginae),
     member "retransmission" (emptyPtr s.Retransmission) (encodePtr encodeBool s.Retransmission),
     member "updatetype" (emptyPtr s.Updatetype) (encodePtr encodeString s.Updatetype)]

/-- Encoder of `SubjectElem`: its fields in declaration order. -/
def SubjectElem.encode (s : SubjectElem) : Except Error Json :=
  encodeStruct
    [member "code" (emptyString s.Code) (encodeString s.Code),
     member "confidence" (emptyPtr s.Confidence) (encodePtr encodeInt s.Confidence),
     member "creator" (emptyString s.Creator) (encodeString s.Creator),
     member "name" (emptyString s.Name) (encodeString s.Name),
     member "rel" (emptyString s.Rel) (encodeString s.Rel),
     member "relevance" (emptyPtr s.Relevance) (encodePtr encodeInt s.Relevance),
     member "scheme" (emptyString s.Scheme) (encodeString s.Scheme)]

/-- Encoder of `TrustindicatorElem`: its fields in declaration order. -/
def TrustindicatorElem.encode (s : TrustindicatorElem) : Except Error Json :=
  encodeStruct
    [member "code" (emptyString s.Code) (encodeString s.Code),
     member "href" (emptyString s.Href) (encodeString s.Href),
     member "scheme" (emptyString s.Scheme) (encodeString s.Scheme),
     member "title" (emptyString s.Title) (encodeString s.Title)]

/-- The members of the fields of a document, in declaration order, given the
encodings of its two maps of embedded documents. -/
def Plain.members {D : Type} (x : Env) (s : Plain D)
    (assignments associations : Except Error Json) :
    List (Except Error (List (String × Json))) :=
  [member "$standard" false (Standard.encode s.Standard),
   member "advice" (emptySlice s.Advice) (encodeSlice AdviceElem.encode s.Advice),
   member "altids" (emptyPtr s.Altids) (encodePtr Altids.encode s.Altids),
   member "assignments" (emptyMap s.Assignments) assignments,
   member "associations" (emptyMap s.Associations) associations,
   member "body_event" (emptyPtr s.BodyEvent) (encodePtr (BodyEvent.encode x) s.BodyEvent),
   member "body_html5" (emptyString s.BodyHtml5) (encodeString s.BodyHtml5),
   member "body_pages" (emptyMap s.BodyPages) (encodeMap encodeAny s.BodyPages),
   member "body_richhtml5" (emptyString s.BodyRichhtml5) (encodeString s.BodyRichhtml5),
   member "body_sportsml" (emptyString s.BodySportsml) (encodeString s.BodySportsml),
   member "body_text" (emptyString s.BodyText) (encodeString s.BodyText),
   member "byline" (emptyString s.Byline) (encodeString s.Byline),
   member "bylines" (emptySlice s.Bylines) (encodeSlice BylinesElem.encode s.Bylines),
   member "charcount" (emptyPtr s.Charcount) (encodePtr encodeFloat64 s.Charcount),
   member "commissioncode" (emptyString s.Commissioncode) (encodeString s.Commissioncode),
   member "commissionedby" (emptySlice s.Commissionedby)
     (encodeSlice encodeString s.Commissionedby),
   member "contentcreated" (emptyPtr s.Contentcreated)
     (encodePtr (Time.encode x) s.Contentcreated),
   member "copyrightholder" (emptyString s.Copyrightholder) (encodeString s.Copyrightholder),
   member "copyrightnotice" (emptyString s.Copyrightnotice) (encodeString s.Copyrightnotice),
   member "date" (emptyPtr s.Date) (encodePtr (SerializableDate.encode x) s.Date),
   member "datetime" (emptyPtr s.Datetime) (encodePtr (Time.encode x) s.Datetime),
   member "description_text" (emptyString s.DescriptionText) (encodeString s.DescriptionText),
   member "description_usage" (emptyString s.DescriptionUsage) (encodeString s.DescriptionUsage),
   member "ednote" (emptyString s.Ednote) (encodeString s.Ednote),
   member "embargoed" (emptyPtr s.Embargoed) (encodePtr (Time.encode x) s.Embargoed),
   member "embargoedreason" (emptyString s.Embargoedreason) (encodeString s.Embargoedreason),
   member "enddate" (emptyPtr s.Enddate) (encodePtr (SerializableDate.encode x) s.Enddate),
   member "enddatetime" (emptyPtr s.Enddatetime) (encodePtr (Time.encode x) s.Enddatetime),
   member "event" (emptySlice s.Event) (encodeSlice EventElem.encode s.Event),
   member "expires" (emptyPtr s.Expires) (encodePtr (Time.encode x) s.Expires),
   member "firstcreated" (emptyPtr s.Firstcreated) (encodePtr (Time.encode x) s.Firstcreated),
   member "fixture" (emptySlice s.Fixture) (encodeSlice FixtureElem.encode s.Fixture),
   member "genre" (emptySlice s.Genre) (encodeSlice GenreElem.encode s.Genre),
   member "headline" (emptyString s.Headline) (encodeString s.Headline),
   member "infosource" (emptySlice s.Infosource) (encodeSlice InfosourceElem.encode s.Infosource),
   member "job" (emptyString s.Job) (encodeString s.Job),
   member "language" (emptyString s.Language) (encodeString s.Language),
   member "located" (emptyString s.Located) (encodeString s.Located),
   member "mimetype" (emptyString s.Mimetype) (encodeString s.Mimetype),
   member "newsvalue" (emptyPtr s.Newsvalue) (encodePtr encodeInt s.Newsvalue),
   member "object" (emptySlice s.Object) (encodeSlice ObjectElem.encode s.Object),
   member "organisation" (emptySlice s.Organisation)
     (encodeSlice OrganisationElem.encode s.Organisation),
   member "originaltransmissionreference" (emptyString s.Originaltransmissionreference)
     (encodeString s.Originaltransmissionreference),
   member "person" (emptySlice s.Person) (encodeSlice PersonElem.encode s.Person),
   member "place" (emptySlice s.Place) (encodeSlice PlaceElem.encode s.Place),
   member "product" (emptySlice s.Product) (encodeSlice ProductElem.encode s.Product),
   member "profile" (emptyPtr s.Profile) (encodePtr encodeString s.Profile),
   member "pubstatus" (emptyString s.Pubstatus) (encodeString s.Pubstatus),
   member "renditions" (emptyMap s.Renditions) (encodeMap Rendition.encode s.Renditions),
   member "replacedby" (emptyString s.Replacedby) (encodeString s.Replacedby),
   member "replacing" (emptySlice s.Replacing) (encodeSlice encodeString s.Replacing),
   member "representationtype" (emptyPtr s.Representationtype)
     (encodePtr encodeString s.Representationtype),
   member "revisions" (emptySlice s.Revisions) (encodeSlice (RevisionsElem.encode x) s.Revisions),
   member "rightsinfo" (emptyPtr s.Rightsinfo) (encodePtr Rightsinfo.encode s.Rightsinfo),
   member "sector" (emptyPtr s.Sector) (encodePtr encodeString s.Sector),
   member "signals" false (Signals.encode s.Signals),
   member "slug" (emptyString s.Slug) (encodeString s.Slug),
   member "slugline" (emptyString s.Slugline) (encodeString s.Slugline),
   member "source" (emptyString s.Source) (encodeString s.Source),
   member "subject" (emptySlice s.Subject) (encodeSlice SubjectElem.encode s.Subject),
   member "title" (emptyString s.Title) (encodeString s.Title),
   member "trustindicator" (emptySlice s.Trustindicator)
     (encodeSlice TrustindicatorElem.encode s.Trustindicator),
   member "type" (emptyString s.Type_) (encodeString s.Type_),
   member "urgency" (emptyInt s.Urgency) (encodeInt s.Urgency),
   member "uri" false (encodeString s.Uri),
   member "usageterms" (emptyString s.Usageterms) (encodeString s.Usageterms),
   member "version" (emptyString s.Version) (encodeString s.Version),
   member "versioncreated" false (Time.encode x s.Versioncreated),
   member "versionstored" (emptyPtr s.Versionstored) (encodePtr (Time.encode x) s.Versionstored),
   member "webprio" (emptyInt s.Webprio) (encodeInt s.Webprio),
   member "week" (emptyInt s.Week) (encodeInt s.Week),
   member "wordcount" (emptyInt s.Wordcount) (encodeInt s.Wordcount)]

mutual
/-- Encoder of `Document` (`json.Marshal` of a document): its fields in
declaration order. -/
def Document.encode (x : Env) : Document → Except Error Json
  | .mk s =>
    match s with
    | { Assignments := assignments, Associations := associations, .. } =>
      encodeStruct
        (Plain.members x s (Document.encodeMap x assignments)
          (Document.encodeMap x associations))
/-- Encoder of `Assignments` and `Associations` (`encodeMap` with
`Document.encode` for the values). -/
def Document.encodeMap (x : Env) : Option (List (String × Document)) → Except Error Json
  | none => .ok .null
  | some m =>
    match Document.encodeEntries x m with
    | .error e => .error e
    | .ok es => .ok (.obj (sortByKey es))
/-- The entries of an `assignments` or `associations` map, each value through
`Document.encode`. -/
def Document.encodeEntries (x : Env) :
    List (String × Document) → Except Error (List (String × Json))
  | [] => .ok []
  | (k, d) :: rest =>
    match Document.encode x d with
    | .error e => .error e
    | .ok j =>
      match Document.encodeEntries x rest with
      | .error e => .error e
      | .ok es => .ok ((k, j) :: es)
end

/-! ## Notions used to state the properties -/

/-- The members of an `associations` or `assignments` object of a document are
its embedded documents; `Embedded b top` says that the JSON value `b` is `top`
itself or is embedded in `top` at some depth. -/
inductive Embedded : Json → Json → Prop where
  | here (b : Json) : Embedded b b
  | under (b v : Json) (key k : String) (es kvs : List (String × Json)) :
      key = "associations" ∨ key = "assignments" →
      (key, Json.obj es) ∈ kvs → (k, v) ∈ es → Embedded b v → Embedded b (Json.obj kvs)

/-- The closed enumerations of the document level, by key, with the literal
sets of the interface description. -/
def documentEnum (k : String) : Option (List String) :=
  match k with
  | "type" =>
    some ["text", "audio", "video", "picture", "graphic", "composite", "planning",
      "component", "event"]
  | "profile" => some ["PUBL", "DATA", "INFO", "RAW"]
  | "pubstatus" => some ["usable", "withheld", "canceled", "replaced", "commissioned"]
  | "representationtype" => some ["complete", "incomplete", "associated"]
  | "sector" => some ["INR", "UTR", "EKO", "KLT", "SPT", "FEA", "NOJ", "PRM"]
  | _ => none

/-- Whether the field of a document with key `tag` holds the empty value of its
type: the empty string, a slice or map of length 0, a nil pointer, the number 0.
The struct-typed fields (`$standard`, `signals`, `versioncreated`) have no empty
value, and `uri` is not optional. -/
def Plain.emptyAt {D : Type} (s : Plain D) (tag : String) : Bool :=
  match tag with
  | "advice" => emptySlice s.Advice
  | "altids" => emptyPtr s.Altids
  | "assignments" => emptyMap s.Assignments
  | "associations" => emptyMap s.Associations
  | "body_event" => emptyPtr s.BodyEvent
  | "body_html5" => emptyString s.BodyHtml5
  | "body_pages" => emptyMap s.BodyPages
  | "body_richhtml5" => emptyString s.BodyRichhtml5
  | "body_sportsml" => emptyString s.BodySportsml
  | "body_text" => emptyString s.BodyText
  | "byline" => emptyString s.Byline
  | "bylines" => emptySlice s.Bylines
  | "charcount" => emptyPtr s.Charcount
  | "commissioncode" => emptyString s.Commissioncode
  | "commissionedby" => emptySlice s.Commissionedby
  | "contentcreated" => emptyPtr s.Contentcreated
  | "copyrightholder" => emptyString s.Copyrightholder
  | "copyrightnotice" => emptyString s.Copyrightnotice
  | "date" => emptyPtr s.Date
  | "datetime" => emptyPtr s.Datetime
  | "description_text" => emptyString s.DescriptionText
  | "description_usage" => emptyString s.DescriptionUsage
  | "ednote" => emptyString s.Ednote
  | "embargoed" => emptyPtr s.Embargoed
  | "embargoedreason" => emptyString s.Embargoedreason
  | "enddate" => emptyPtr s.Enddate
  | "enddatetime" => emptyPtr s.Enddatetime
  | "event" => emptySlice s.Event
  | "expires" => emptyPtr s.Expires
  | "firstcreated" => emptyPtr s.Firstcreated
  | "fixture" => emptySlice s.Fixture
  | "genre" => emptySlice s.Genre
  | "headline" => emptyString s.Headline
  | "infosource" => emptySlice s.Infosource
  | "job" => emptyString s.Job
  | "language" => emptyString s.Language
  | "located" => emptyString s.Located
  | "mimetype" => emptyString s.Mimetype
  | "newsvalue" => emptyPtr s.Newsvalue
  | "object" => emptySlice s.Object
  | "organisation" => emptySlice s.Organisation
  | "originaltransmissionreference" => emptyString s.Originaltransmissionreference
  | "person" => emptySlice s.Person
  | "place" => emptySlice s.Place
  | "product" => emptySlice s.Product
  | "profile" => emptyPtr s.Profile
  | "pubstatus" => emptyString s.Pubstatus
  | "renditions" => emptyMap s.Renditions
  | "replacedby" => emptyString s.Replacedby
  | "replacing" => emptySlice s.Replacing
  | "representationtype" => emptyPtr s.Representationtype
  | "revisions" => emptySlice s.Revisions
  | "rightsinfo" => emptyPtr s.Rightsinfo
  | "sector" => emptyPtr s.Sector
  | "slug" => emptyString s.Slug
  | "slugline" => emptyString s.Slugline
  | "source" => emptyString s.Source
  | "subject" => emptySlice s.Subject
  | "title" => emptyString s.Title
  | "trustindicator" => emptySlice s.Trustindicator
  | "type" => emptyString s.Type_
  | "urgency" => emptyInt s.Urgency
  | "usageterms" => emptyString s.Usageterms
  | "version" => emptyString s.Version
  | "versionstored" => emptyPtr s.Versionstored
  | "webprio" => emptyInt s.Webprio
  | "week" => emptyInt s.Week
  | "wordcount" => emptyInt s.Wordcount
  | _ => false

/-- The documents embedded in a decoded document: `Document.Reachable d' d` says
that `d'` is `d` itself or is held, at some depth, in the `Assignments` or
`Associations` of `d`. -/
inductive Document.Reachable : Document → Document → Prop where
  | here (d : Document) : Document.Reachable d d
  | assignment (d' d d1 : Document) (k : String) (m : List (String × Document)) :
      d.plain.Assignments = some m → (k, d1) ∈ m → Document.Reachable d' d1 →
      Document.Reachable d' d
  | association (d' d d1 : Document) (k : String) (m : List (String × Document)) :
      d.plain.Associations = some m → (k, d1) ∈ m → Document.Reachable d' d1 →
      Document.Reachable d' d

/-! ### Values on which encoder and decoder agree -/

/-- An integer within the range of Go `int`; every value of the Go type is. -/
def IntOk (i : Int) : Prop :=
  minInt ≤ i ∧ i ≤ maxInt

/-- A value of an enumeration type that is one of its permitted values. -/
def EnumOk (values : List String) (v : String) : Prop :=
  v ∈ values

/-- A value of an enumeration type that is empty or one of its permitted
values. -/
def EnumOrEmpty (values : List String) (v : String) : Prop :=
  v = "" ∨ v ∈ values

/-- A pointer that is nil or points to a value with the property `ok`. -/
def PtrOk {α : Type} (ok : α → Prop) (p : Option α) : Prop :=
  ∀ a, p = some a → ok a

/-- A slice all of whose elements have the property `ok`. -/
def SliceOk {α : Type} (ok : α → Prop) (s : GoSlice α) : Prop :=
  ∀ l, s = some l → ∀ a ∈ l, ok a

/-- A well-formed map (pairwise distinct keys) all of whose values have the
property `ok`. -/
def MapOk {α : Type} (ok : α → Prop) (m : GoMap α) : Prop :=
  ∀ l, m = some l → (l.map Prod.fst).Nodup ∧ ∀ kv ∈ l, ok kv.2

/-- A value of type `interface{}` all of whose maps, at any depth, are
well-formed (pairwise distinct keys). -/
inductive Any.WF : Any → Prop where
  | nil : Any.WF .nil
  | bool (b : Bool) : Any.WF (.bool b)
  | float64 (n : Float64) : Any.WF (.float64 n)
  | string (s : String) : Any.WF (.string s)
  | slice (xs : List Any) : (∀ a ∈ xs, Any.WF a) → Any.WF (.slice xs)
  | map (m : List (String × Any)) :
      (m.map Prod.fst).Nodup → (∀ kv ∈ m, Any.WF kv.2) → Any.WF (.map m)

/-- What is asked of the timestamps and dates held in a value. -/
structure Checks where
  /-- The property asked of every `time.Time`. -/
  time : Time → Prop
  /-- The property asked of every `SerializableDate`. -/
  date : SerializableDate → Prop

/-- Nothing is asked of timestamps and dates. -/
def Checks.free : Checks :=
  { time := fun _ => True
    date := fun _ => True }

/-- The timestamp is written by `MarshalJSON` and read back as the same value. -/
def TimeRoundTrips (x : Env) (t : Time) : Prop :=
  ∃ s, x.formatTime t = some s ∧ x.parseTime s = some t

/-- The date is written by `MarshalJSON`, not as `null`, and read back as the
same value. -/
def DateRoundTrips (x : Env) (d : SerializableDate) : Prop :=
  ∃ j, x.formatDate d = some j ∧ j ≠ Json.null ∧ x.parseDate j = some d

/-- Every timestamp and date is written and read back as the same value. -/
def Checks.roundTrip (x : Env) : Checks :=
  { time := TimeRoundTrips x
    date := DateRoundTrips x }

/-- The checks hold for what the decoder produces: for every parsed timestamp,
for the zero timestamp and for every parsed date. -/
structure Checks.Sound (x : Env) (c : Checks) : Prop where
  /-- Every timestamp that the parser returns passes. -/
  parsedTime : ∀ s t, x.parseTime s = some t → c.time t
  /-- The zero `time.Time` passes. -/
  zeroTime : c.time {}
  /-- Every date that the parser returns passes. -/
  parsedDate : ∀ j d, x.parseDate j = some d → c.date d

/-- Laws of the time and date codecs of the environment: a timestamp or date
that the parser returns, and the zero timestamp, is written by the formatter and
read back as the same value. -/
def Env.Lawful (x : Env) : Prop :=
  (Checks.roundTrip x).Sound x

/-! ### What a decode of the encoding gives back -/

/-- A `float64` as it comes back: a zero is the zero value. -/
def normFloat64 (n : Float64) : Float64 :=
  if emptyFloat64 n then Float64.zero else n

/-- A slice field as it comes back: a slice of length 0 is nil. -/
def normSlice {α : Type} (norm : α → α) (s : GoSlice α) : GoSlice α :=
  if emptySlice s then none else s.map (List.map norm)

/-- The entries of a map as they come back: in the order of their keys. -/
def normEntries {α : Type} (norm : α → α) (l : List (String × α)) : List (String × α) :=
  sortByKey (l.map fun kv => (kv.1, norm kv.2))

/-- A map field as it comes back: a map of length 0 is nil, the entries of
another map are in the order of their keys. -/
def normMap {α : Type} (norm : α → α) (m : GoMap α) : GoMap α :=
  if emptyMap m then none else m.map (normEntries norm)

mutual
/-- A value of type `interface{}` as it comes back: the entries of every map are
in the order of their keys. -/
def Any.normalize : Any → Any
  | .nil => .nil
  | .bool b => .bool b
  | .float64 n => .float64 n
  | .string s => .string s
  | .slice xs => .slice (Any.normalizeElems xs)
  | .map m => .map (sortByKey (Any.normalizeEntries m))
/-- The elements of a `[]interface{}` as they come back. -/
def Any.normalizeElems : List Any → List Any
  | [] => []
  | a :: rest => Any.normalize a :: Any.normalizeElems rest
/-- The entries of a `map[string]interface{}` as they come back, before they are
put in the order of their keys. -/
def Any.normalizeEntries : List (String × Any) → List (String × Any)
  | [] => []
  | (k, a) :: rest => (k, Any.normalize a) :: Any.normalizeEntries rest
end

/-- Decoding the encoding of `a` into the zero value gives `norm a`, and the
encoding is not `null`. -/
def RoundTrips {α : Type} (enc : Enc α) (dec : Dec α) (zero : α) (norm : α → α) (a : α) :
    Prop :=
  ∃ j, enc a = .ok j ∧ j ≠ Json.null ∧ dec j zero = .ok (norm a)

/-- Decoding the encoding of `a` into the zero value gives `norm a`. -/
def ElemRoundTrips {α : Type} (enc : Enc α) (dec : Dec α) (zero : α) (norm : α → α)
    (a : α) : Prop :=
  ∃ j, enc a = .ok j ∧ dec j zero = .ok (norm a)

/-- A struct field round-trips: either the field is left out of the encoding and
`norm a` is the zero value, or decoding its encoding into the zero value gives
`norm a`. -/
def FieldRoundTrips {α : Type} (skip : α → Bool) (enc : Enc α) (dec : Dec α) (zero : α)
    (norm : α → α) (a : α) : Prop :=
  (skip a = true ∧ norm a = zero) ∨
    (skip a = false ∧ ∃ j, enc a = .ok j ∧ dec j zero = .ok (norm a))

/-- A decoder keeps the property `ok`: the new value has it when the old value
had it. -/
def Preserves {α : Type} (ok : α → Prop) (dec : Dec α) : Prop :=
  ∀ v cur a, ok cur → dec v cur = .ok a → ok a

/-- A decoder into the zero value gives a value with the property `ok`. -/
def Fresh {α : Type} (ok : α → Prop) (zero : α) (dec : Dec α) : Prop :=
  ∀ v a, dec v zero = .ok a → ok a

/-- What the codec relies on in a value of `AdviceElem`. -/
structure AdviceElem.Good (s : AdviceElem) : Prop where
  Role : EnumOrEmpty enumValues_AdviceElemRole s.Role

/-- A value of `AdviceElem` as it comes back from a decode of its encoding. -/
def AdviceElem.normalize (s : AdviceElem) : AdviceElem :=
  { s with
    Environment := normSlice id s.Environment }

/-- What the codec relies on in a value of `BodyEvent`. -/
structure BodyEvent.Good (c : Checks) (s : BodyEvent) : Prop where
  Changeddate : PtrOk c.time s.Changeddate
  Createddate : PtrOk c.time s.Createddate

/-- A value of `Address` as it comes back from a decode of its encoding. -/
def Address.normalize (s : Address) : Address :=
  { s with
    Lines := normSlice id s.Lines }

/-- A value of `ContactinfoType` as it comes back from a decode of its encoding. -/
def ContactinfoType.normalize (s : ContactinfoType) : ContactinfoType :=
  { s with
    Address := Address.normalize s.Address }

/-- A value of `InfosourceElem` as it comes back from a decode of its encoding. -/
def InfosourceElem.normalize (s : InfosourceElem) : InfosourceElem :=
  { s with
    Contactinfo := normSlice ContactinfoType.normalize s.Contactinfo }

/-- A value of `OrganisationElem` as it comes back from a decode of its encoding. -/
def OrganisationElem.normalize (s : OrganisationElem) : OrganisationElem :=
  { s with
    Contactinfo := normSlice ContactinfoType.normalize s.Contactinfo
    Symbols := normSlice id s.Symbols }

/-- A value of `PersonElem` as it comes back from a decode of its encoding. -/
def PersonElem.normalize (s : PersonElem) : PersonElem :=
  { s with
    Contactinfo := normSlice ContactinfoType.normalize s.Contactinfo }

/-- What the codec relies on in a value of `PlaceElemGeometryGeojson`. -/
structure PlaceElemGeometryGeojson.Good (s : PlaceElemGeometryGeojson) : Prop where
  Type_ : EnumOrEmpty enumValues_PlaceElemGeometryGeojsonType s.Type_

/-- A value of `PlaceElemGeometryGeojson` as it comes back from a decode of its encoding. -/
def PlaceElemGeometryGeojson.normalize (s : PlaceElemGeometryGeojson) : PlaceElemGeometryGeojson
    :=
  { s with
    Coordinates := normSlice id s.Coordinates }

/-- What the codec relies on in a value of `PlaceElem`. -/
structure PlaceElem.Good (s : PlaceElem) : Prop where
  GeometryGeojson : PtrOk PlaceElemGeometryGeojson.Good s.GeometryGeojson

/-- A value of `PlaceElem` as it comes back from a decode of its encoding. -/
def PlaceElem.normalize (s : PlaceElem) : PlaceElem :=
  { s with
    Contactinfo := normSlice ContactinfoType.normalize s.Contactinfo
    GeometryGeojson := Option.map PlaceElemGeometryGeojson.normalize s.GeometryGeojson }

/-- What the codec relies on in a value of `Rendition`. -/
structure Rendition.Good (s : Rendition) : Prop where
  Height : IntOk s.Height
  Width : IntOk s.Width
  SizeInBytes : IntOk s.SizeInBytes

/-- A value of `Rendition` as it comes back from a decode of its encoding. -/
def Rendition.normalize (s : Rendition) : Rendition :=
  { s with
    Duration := normFloat64 s.Duration
    PrintSize := normFloat64 s.PrintSize }

/-- What the codec relies on in a value of `RevisionsElem`. -/
structure RevisionsElem.Good (c : Checks) (s : RevisionsElem) : Prop where
  Versioncreated : PtrOk c.time s.Versioncreated

/-- A value of `RevisionsElem` as it comes back from a decode of its encoding. -/
def RevisionsElem.normalize (s : RevisionsElem) : RevisionsElem :=
  { s with
    Replacing := normSlice id s.Replacing }

/-- A value of `Signals` as it comes back from a decode of its encoding. -/
def Signals.normalize (s : Signals) : Signals :=
  { s with
    Deliverytags := normSlice id s.Deliverytags
    Paginae := normSlice id s.Paginae }

/-- What the codec relies on in a value of `SubjectElem`. -/
structure SubjectElem.Good (s : SubjectElem) : Prop where
  Confidence : PtrOk IntOk s.Confidence
  Relevance : PtrOk IntOk s.Relevance

/-- What the codec relies on in the fields of a document other than
`Assignments` and `Associations`: numbers in range, enumeration fields empty or
permitted, timestamps and dates that pass the checks, well-formed maps. -/
structure Plain.GoodLeaf {D : Type} (c : Checks) (s : Plain D) : Prop where
  Advice : SliceOk AdviceElem.Good s.Advice
  BodyEvent : PtrOk (BodyEvent.Good c) s.BodyEvent
  BodyPages : MapOk Any.WF s.BodyPages
  Contentcreated : PtrOk c.time s.Contentcreated
  Date : PtrOk c.date s.Date
  Datetime : PtrOk c.time s.Datetime
  Embargoed : PtrOk c.time s.Embargoed
  Enddate : PtrOk c.date s.Enddate
  Enddatetime : PtrOk c.time s.Enddatetime
  Expires : PtrOk c.time s.Expires
  Firstcreated : PtrOk c.time s.Firstcreated
  Newsvalue : PtrOk IntOk s.Newsvalue
  Place : SliceOk PlaceElem.Good s.Place
  Profile : PtrOk (EnumOk enumValues_Profile) s.Profile
  Pubstatus : EnumOrEmpty enumValues_Pubstatus s.Pubstatus
  Renditions : MapOk Rendition.Good s.Renditions
  Representationtype : PtrOk (EnumOk enumValues_Representationtype) s.Representationtype
  Revisions : SliceOk (RevisionsElem.Good c) s.Revisions
  Sector : PtrOk (EnumOk enumValues_Sector) s.Sector
  Subject : SliceOk SubjectElem.Good s.Subject
  Type_ : EnumOrEmpty enumValues_Type s.Type_
  Urgency : IntOk s.Urgency
  Versioncreated : c.time s.Versioncreated
  Versionstored : PtrOk c.time s.Versionstored
  Webprio : IntOk s.Webprio
  Week : IntOk s.Week
  Wordcount : IntOk s.Wordcount

/-- The fields of a document other than `Assignments` and `Associations` as
they come back from a decode of the encoding. -/
def Plain.normalizeLeaf {D : Type} (s : Plain D) : Plain D :=
  { s with
    Advice := normSlice AdviceElem.normalize s.Advice
    BodyPages := normMap Any.normalize s.BodyPages
    Bylines := normSlice id s.Bylines
    Commissionedby := normSlice id s.Commissionedby
    Event := normSlice id s.Event
    Fixture := normSlice id s.Fixture
    Genre := normSlice id s.Genre
    Infosource := normSlice InfosourceElem.normalize s.Infosource
    Object := normSlice id s.Object
    Organisation := normSlice OrganisationElem.normalize s.Organisation
    Person := normSlice PersonElem.normalize s.Person
    Place := normSlice PlaceElem.normalize s.Place
    Product := normSlice id s.Product
    Renditions := normMap Rendition.normalize s.Renditions
    Replacing := normSlice id s.Replacing
    Revisions := normSlice RevisionsElem.normalize s.Revisions
    Signals := Signals.normalize s.Signals
    Subject := normSlice id s.Subject
    Trustindicator := normSlice id s.Trustindicator }

/-- What the codec relies on in a document: in its own fields and, at every
depth, in the documents held in its `Assignments` and `Associations`, which are
well-formed maps. -/
inductive Document.Good (c : Checks) : Document → Prop where
  | mk (s : Plain Document) :
      Plain.GoodLeaf c s →
      (∀ l, s.Assignments = some l → (l.map Prod.fst).Nodup) →
      (∀ l, s.Assignments = some l → ∀ kv ∈ l, Document.Good c kv.2) →
      (∀ l, s.Associations = some l → (l.map Prod.fst).Nodup) →
      (∀ l, s.Associations = some l → ∀ kv ∈ l, Document.Good c kv.2) →
      Document.Good c (.mk s)

mutual
/-- A document as it comes back from a decode of its encoding: every slice and
map of length 0 is nil, every zero number is the zero value, and the entries of
every map are in the order of their keys; at every depth. -/
def Document.normalize : Document → Document
  | .mk s =>
    match s with
    | { Assignments := assignments, Associations := associations, .. } =>
      .mk { Plain.normalizeLeaf s with
        Assignments := Document.normalizeMap assignments
        Associations := Document.normalizeMap associations }
/-- A map of embedded documents as it comes back (`normMap` with
`Document.normalize` for the values). -/
def Document.normalizeMap :
    Option (List (String × Document)) → Option (List (String × Document))
  | none => none
  | some m => if m.isEmpty then none else some (sortByKey (Document.normalizeEntries m))
/-- The entries of a map of embedded documents as they come back, before they
are put in the order of their keys. -/
def Document.normalizeEntries : List (String × Document) → List (String × Document)
  | [] => []
  | (k, d) :: rest => (k, Document.normalize d) :: Document.normalizeEntries rest
end

/-- The field setter of the document struct, as the member loop
`Document.decodeMembers` applies it: the member bound to key `t` is decoded into
its field. -/
def Document.setField (x : Env) (t : String) (v : Json) (s : Plain Document) :
    Except Error (Plain Document) :=
  if t = "assignments" then
    (Document.decodeMap x v s.Assignments).map fun m => { s with Assignments := m }
  else if t = "associations" then
    (Document.decodeMap x v s.Associations).map fun m => { s with Associations := m }
  else Plain.setLeaf x t v s

/-! ### Methods as transformers of their receiver -/

/-- The body shared by the `UnmarshalJSON` methods of the enumeration types, on
a receiver `j`: the value of the receiver when the method returns, and the error
returned, if any.  The receiver is assigned by `*j = T(v)`, the last statement
before `return nil`. -/
def enumUnmarshalJSON.call (values : List String) (b : Json) (j : String) :
    String × Option Error :=
  match unmarshalString b with
  | .error e => (j, some e)
  | .ok v =>
    if !enumLoop v values then (j, some (.invalidValue values v))
    else (v, none)

/-- Method `RevisionsElem.UnmarshalJSON` on a receiver `j`: the value of the
receiver when the method returns, and the error returned, if any.  The receiver
is assigned by `*j = RevisionsElem(plain)`, the last statement before
`return nil`. -/
def RevisionsElem.UnmarshalJSON.call (x : Env) (b : Json) (j : RevisionsElem) :
    RevisionsElem × Option Error :=
  match unmarshalRaw b with
  | .error e => (j, some e)
  | .ok raw =>
    if uriMissing raw then (j, some (.required "uri" "RevisionsElem"))
    else
      match RevisionsElem.unmarshalPlain x b with
      | .error e => (j, some e)
      | .ok plain => (plain, none)

/-- The call `json.Unmarshal(b, &plain)` of `Document.UnmarshalJSON`, with
`plain` a zero value of the struct type of `Document`. -/
def Document.unmarshalPlain (x : Env) (b : Json) : Except Error (Plain Document) :=
  match b with
  | .null => .ok {}
  | .obj kvs => Document.decodeMembers x kvs {}
  | _ => .error .typeMismatch

/-- Method `Document.UnmarshalJSON` on a receiver `j`: the value of the receiver
when the method returns, and the error returned, if any.  The receiver is
assigned by `*j = Document(plain)`, the last statement before `return nil`. -/
def Document.UnmarshalJSON.call (x : Env) (b : Json) (j : Document) :
    Document × Option Error :=
  match unmarshalRaw b with
  | .error e => (j, some e)
  | .ok raw =>
    if uriMissing raw then (j, some (.required "uri" "Document"))
    else
      match Document.unmarshalPlain x b with
      | .error e => (j, some e)
      | .ok plain => (.mk plain, none)

/-! ### What an error says -/

/-- The strings that an error of the decode path carries: the field and the
entity of a required-field error, the permitted values and the offending value
of an invalid-value error, the type name of an error of a foreign method; of an
error that the library reports, what its cause names; of the error of a struct
field, the Go type and field that the library puts before it and what its cause
names.  (The byte offset and the excerpt of the input that the library adds to
its messages are not modelled.) -/
def Error.strings : Error → List String
  | .required field entity => [field, entity]
  | .invalidValue expected v => expected ++ [v]
  | .typeMismatch => []
  | .foreign typeName => [typeName]
  | .reported cause => cause.strings
  | .limit => []
  | .atField typeName fieldName cause => typeName :: fieldName :: cause.strings

/-! ### Message texts -/

/-- The message of an error that the source builds from a literal:
`fmt.Errorf("field uri in Document: required")` and
`fmt.Errorf("field uri in RevisionsElem: required")`.  The other messages are
formatted by `%#v` or come from the library and are not modelled. -/
def Error.text : Error → Option String
  | .required field entity => some ("field " ++ field ++ " in " ++ entity ++ ": required")
  | _ => none

/-! ### The bytes handed to the method -/

/-- Method `Document.UnmarshalJSON` on the bytes `b` handed to it.  The parser
of the library (`parse`, not part of the repository) gives the JSON value the
bytes stand for, or its error when they are no JSON text; the first statement of
the method, `json.Unmarshal(b, &raw)`, returns that error and the method hands it
on. -/
def Document.UnmarshalJSON.onBytes (parse : List Nat → Except Error Json) (x : Env)
    (b : List Nat) : Except Error Document :=
  match parse b with
  | .error e => .error e
  | .ok v => Document.UnmarshalJSON x v

/-! ### Nesting -/

mutual
/-- The number of nodes of a JSON value: the measure of its size. -/
def Json.nodes : Json → Nat
  | .null => 1
  | .bool _ => 1
  | .num _ => 1
  | .str _ => 1
  | .arr xs => 1 + Json.nodesElems xs
  | .obj kvs => 1 + Json.nodesMembers kvs
/-- The number of nodes of the elements of an array. -/
def Json.nodesElems : List Json → Nat
  | [] => 0
  | v :: rest => Json.nodes v + Json.nodesElems rest
/-- The number of nodes of the member values of an object. -/
def Json.nodesMembers : List (String × Json) → Nat
  | [] => 0
  | (_, v) :: rest => Json.nodes v + Json.nodesMembers rest
end

/-- A document object with `n` documents below it, each the only association of
the one above: `{"uri": "a"}` for `n = 0`, and
`{"uri": "a", "associations": {"x": nested n}}` for `n + 1`. -/
def nested : Nat → Json
  | 0 => .obj [("uri", .str "a")]
  | n + 1 => .obj [("uri", .str "a"), ("associations", .obj [("x", nested n)])]

/-- The Document that `nested n` stands for. -/
def nestedDocument : Nat → Document
  | 0 => .mk { Uri := "a" }
  | n + 1 => .mk { Uri := "a", Associations := some [("x", nestedDocument n)] }

/-! ### Fields at their zero value -/

/-- `Plain.ZeroAt s k`: the field of `s` whose key is `k` holds the zero value of
its Go type (the empty string, 0, nil, the zero struct, the zero time); nothing
is said when `k` is no key of a field. -/
structure Plain.ZeroAt {D : Type} (s : Plain D) (k : String) : Prop where
  Standard : k = "$standard" → s.Standard = {}
  Advice : k = "advice" → s.Advice = none
  Altids : k = "altids" → s.Altids = none
  Assignments : k = "assignments" → s.Assignments = none
  Associations : k = "associations" → s.Associations = none
  BodyEvent : k = "body_event" → s.BodyEvent = none
  BodyHtml5 : k = "body_html5" → s.BodyHtml5 = ""
  BodyPages : k = "body_pages" → s.BodyPages = none
  BodyRichhtml5 : k = "body_richhtml5" → s.BodyRichhtml5 = ""
  BodySportsml : k = "body_sportsml" → s.BodySportsml = ""
  BodyText : k = "body_text" → s.BodyText = ""
  Byline : k = "byline" → s.Byline = ""
  Bylines : k = "bylines" → s.Bylines = none
  Charcount : k = "charcount" → s.Charcount = none
  Commissioncode : k = "commissioncode" → s.Commissioncode = ""
  Commissionedby : k = "commissionedby" → s.Commissionedby = none
  Contentcreated : k = "contentcreated" → s.Contentcreated = none
  Copyrightholder : k = "copyrightholder" → s.Copyrightholder = ""
  Copyrightnotice : k = "copyrightnotice" → s.Copyrightnotice = ""
  Date : k = "date" → s.Date = none
  Datetime : k = "datetime" → s.Datetime = none
  DescriptionText : k = "description_text" → s.DescriptionText = ""
  DescriptionUsage : k = "description_usage" → s.DescriptionUsage = ""
  Ednote : k = "ednote" → s.Ednote = ""
  Embargoed : k = "embargoed" → s.Embargoed = none
  Embargoedreason : k = "embargoedreason" → s.Embargoedreason = ""
  Enddate : k = "enddate" → s.Enddate = none
  Enddatetime : k = "enddatetime" → s.Enddatetime = none
  Event : k = "event" → s.Event = none
  Expires : k = "expires" → s.Expires = none
  Firstcreated : k = "firstcreated" → s.Firstcreated = none
  Fixture : k = "fixture" → s.Fixture = none
  Genre : k = "genre" → s.Genre = none
  Headline : k = "headline" → s.Headline = ""
  Infosource : k = "infosource" → s.Infosource = none
  Job : k = "job" → s.Job = ""
  Language : k = "language" → s.Language = ""
  Located : k = "located" → s.Located = ""
  Mimetype : k = "mimetype" → s.Mimetype = ""
  Newsvalue : k = "newsvalue" → s.Newsvalue = none
  Object : k = "object" → s.Object = none
  Organisation : k = "organisation" → s.Organisation = none
  Originaltransmissionreference : k = "originaltransmissionreference" → s.Originaltransmissionreference = ""
  Person : k = "person" → s.Person = none
  Place : k = "place" → s.Place = none
  Product : k = "product" → s.Product = none
  Profile : k = "profile" → s.Profile = none
  Pubstatus : k = "pubstatus" → s.Pubstatus = ""
  Renditions : k = "renditions" → s.Renditions = none
  Replacedby : k = "replacedby" → s.Replacedby = ""
  Replacing : k = "replacing" → s.Replacing = none
  Representationtype : k = "representationtype" → s.Representationtype = none
  Revisions : k = "revisions" → s.Revisions = none
  Rightsinfo : k = "rightsinfo" → s.Rightsinfo = none
  Sector : k = "sector" → s.Sector = none
  Signals : k = "signals" → s.Signals = {}
  Slug : k = "slug" → s.Slug = ""
  Slugline : k = "slugline" → s.Slugline = ""
  Source : k = "source" → s.Source = ""
  Subject : k = "subject" → s.Subject = none
  Title : k = "title" → s.Title = ""
  Trustindicator : k = "trustindicator" → s.Trustindicator = none
  Type_ : k = "type" → s.Type_ = ""
  Urgency : k = "urgency" → s.Urgency = 0
  Uri : k = "uri" → s.Uri = ""
  Usageterms : k = "usageterms" → s.Usageterms = ""
  Version : k = "version" → s.Version = ""
  Versioncreated : k = "versioncreated" → s.Versioncreated = {}
  Versionstored : k = "versionstored" → s.Versionstored = none
  Webprio : k = "webprio" → s.Webprio = 0
  Week : k = "week" → s.Week = 0
  Wordcount : k = "wordcount" → s.Wordcount = 0

/-- `RevisionsElem.ZeroAt s k`: the field of the revision entry `s` whose key is
`k` holds the zero value of its Go type. -/
structure RevisionsElem.ZeroAt (s : RevisionsElem) (k : String) : Prop where
  Replacing : k = "replacing" → s.Replacing = none
  Slug : k = "slug" → s.Slug = ""
  Uri : k = "uri" → s.Uri = ""
  Versioncreated : k = "versioncreated" → s.Versioncreated = none

/-! ### Shapes of JSON values -/

/-- The shapes of a JSON value other than `null`. -/
inductive Shape where
  | string
  | number
  | boolean
  | array
  | object
  deriving DecidableEq, Repr

/-- The shape of a JSON value; `null` has none. -/
def Json.shape : Json → Option Shape
  | .null => none
  | .bool _ => some .boolean
  | .num _ => some .number
  | .str _ => some .string
  | .arr _ => some .array
  | .obj _ => some .object

/-- The shape in which the declared Go type of each field of `Document` is
written: a string for `string`, the enumeration types, `time.Time` and
`SerializableDate`; a number for `int` and `float64`; an array for a slice; an
object for a struct and a map; the same for a pointer to one of these. -/
def Plain.shapes : List (String × Shape) :=
  [("$standard", Shape.object), ("advice", Shape.array), ("altids", Shape.object),
   ("assignments", Shape.object), ("associations", Shape.object), ("body_event",
   Shape.object), ("body_html5", Shape.string), ("body_pages", Shape.object),
   ("body_richhtml5", Shape.string), ("body_sportsml", Shape.string), ("body_text",
   Shape.string), ("byline", Shape.string), ("bylines", Shape.array), ("charcount",
   Shape.number), ("commissioncode", Shape.string), ("commissionedby", Shape.array),
   ("contentcreated", Shape.string), ("copyrightholder", Shape.string), ("copyrightnotice",
   Shape.string), ("date", Shape.string), ("datetime", Shape.string), ("description_text",
   Shape.string), ("description_usage", Shape.string), ("ednote", Shape.string),
   ("embargoed", Shape.string), ("embargoedreason", Shape.string), ("enddate",
   Shape.string), ("enddatetime", Shape.string), ("event", Shape.array), ("expires",
   Shape.string), ("firstcreated", Shape.string), ("fixture", Shape.array), ("genre",
   Shape.array), ("headline", Shape.string), ("infosource", Shape.array), ("job",
   Shape.string), ("language", Shape.string), ("located", Shape.string), ("mimetype",
   Shape.string), ("newsvalue", Shape.number), ("object", Shape.array), ("organisation",
   Shape.array), ("originaltransmissionreference", Shape.string), ("person", Shape.array),
   ("place", Shape.array), ("product", Shape.array), ("profile", Shape.string),
   ("pubstatus", Shape.string), ("renditions", Shape.object), ("replacedby", Shape.string),
   ("replacing", Shape.array), ("representationtype", Shape.string), ("revisions",
   Shape.array), ("rightsinfo", Shape.object), ("sector", Shape.string), ("signals",
   Shape.object), ("slug", Shape.string), ("slugline", Shape.string), ("source",
   Shape.string), ("subject", Shape.array), ("title", Shape.string), ("trustindicator",
   Shape.array), ("type", Shape.string), ("urgency", Shape.number), ("uri", Shape.string),
   ("usageterms", Shape.string), ("version", Shape.string), ("versioncreated",
   Shape.string), ("versionstored", Shape.string), ("webprio", Shape.number), ("week",
   Shape.number), ("wordcount", Shape.number)]

/-! ### Values whose timestamps can be written -/

/-- `MarshalJSON` of `time.Time` writes the timestamp (its year is within
`[0, 9999]`). -/
def Time.Formats (x : Env) (t : Time) : Prop :=
  (x.formatTime t).isSome = true

/-- `MarshalJSON` of `SerializableDate` writes the date. -/
def SerializableDate.Formats (x : Env) (d : SerializableDate) : Prop :=
  (x.formatDate d).isSome = true

/-- Every timestamp held in a value of `BodyEvent` is one that `MarshalJSON`
writes. -/
structure BodyEvent.Formats (x : Env) (s : BodyEvent) : Prop where
  Changeddate : PtrOk (Time.Formats x) s.Changeddate
  Createddate : PtrOk (Time.Formats x) s.Createddate

/-- Every timestamp held in a value of `RevisionsElem` is one that `MarshalJSON`
writes. -/
structure RevisionsElem.Formats (x : Env) (s : RevisionsElem) : Prop where
  Versioncreated : PtrOk (Time.Formats x) s.Versioncreated

/-- Every timestamp and date held in the fields of a document, other than its
embedded documents, is one that `MarshalJSON` writes. -/
structure Plain.FormatsLeaf {D : Type} (x : Env) (s : Plain D) : Prop where
  BodyEvent : PtrOk (BodyEvent.Formats x) s.BodyEvent
  Contentcreated : PtrOk (Time.Formats x) s.Contentcreated
  Date : PtrOk (SerializableDate.Formats x) s.Date
  Datetime : PtrOk (Time.Formats x) s.Datetime
  Embargoed : PtrOk (Time.Formats x) s.Embargoed
  Enddate : PtrOk (SerializableDate.Formats x) s.Enddate
  Enddatetime : PtrOk (Time.Formats x) s.Enddatetime
  Expires : PtrOk (Time.Formats x) s.Expires
  Firstcreated : PtrOk (Time.Formats x) s.Firstcreated
  Revisions : SliceOk (RevisionsElem.Formats x) s.Revisions
  Versioncreated : Time.Formats x s.Versioncreated
  Versionstored : PtrOk (Time.Formats x) s.Versionstored

/-- Every timestamp and date held in a document, at every depth of embedding,
is one that `MarshalJSON` writes. -/
inductive Document.Formats (x : Env) : Document → Prop where
  | mk (s : Plain Document) :
      Plain.FormatsLeaf x s →
      (∀ l, s.Assignments = some l → ∀ kv ∈ l, Document.Formats x kv.2) →
      (∀ l, s.Associations = some l → ∀ kv ∈ l, Document.Formats x kv.2) →
      Document.Formats x (.mk s)

/-! ### Limits of the reader of the library

Every `json.Unmarshal(b, &raw)` into a `map[string]interface{}` reads the whole
of `b` with the generic reader of the library, which stores every number as a
`float64` and follows arrays and objects to a fixed depth.  The definitions
whose name ends in `within` are the decode path with these limits, and with the
Go type and field that the struct decoder of the library puts before the error
of a field: of the document struct, and of the structs that hold an
enumeration.  The second call of the method, `json.Unmarshal(b, &plain)`, counts
levels of its own while it decodes (the document object is one); that count is
not modelled, and the statements that a decode succeeds ask for one level to
spare where it can matter. -/

/-- Limits of the generic reader of the JSON library, which is not part of the
repository. -/
structure Reader where
  /-- How deep arrays and objects may nest in a member of the object that is
  read (10000 in json-iterator). -/
  maxDepth : Nat
  /-- Whether a number literal is within the range of `float64`: the reader
  fails on a literal that is not (`strconv.ParseFloat` reports a range error). -/
  float64 : JsonNumber → Bool

/-- Whether the number that a literal denotes rounds to a finite `float64`: its
magnitude is below `2^1024 - 2^970`, halfway between the largest `float64` and
`2^1024`.  A literal too small for `float64` is read as zero and is within the
range. -/
def JsonNumber.inFloat64 (n : JsonNumber) : Bool :=
  let digits := n.fraction.getD []
  let mantissa : Nat := digits.foldl (fun a d => 10 * a + d.val) n.integer
  match n.exponent.getD 0 - (digits.length : Int) with
  | .ofNat k => decide (mantissa * 10 ^ k < 2 ^ 1024 - 2 ^ 970)
  | .negSucc k => decide (mantissa < (2 ^ 1024 - 2 ^ 970) * 10 ^ (k + 1))

/-- The reader of json-iterator: 10000 levels of nesting, numbers within
`float64`. -/
def Reader.jsoniter : Reader :=
  { maxDepth := 10000
    float64 := JsonNumber.inFloat64 }

mutual
/-- Whether the generic reader reads the value with `d` levels of nesting left:
a number must be within `float64`, an array or object takes one level and its
elements or member values are read with the levels that remain. -/
def Json.within (r : Reader) : Json → Nat → Bool
  | .null, _ => true
  | .bool _, _ => true
  | .num n, _ => r.float64 n
  | .str _, _ => true
  | .arr _, 0 => false
  | .arr xs, d + 1 => Json.withinElems r xs d
  | .obj _, 0 => false
  | .obj kvs, d + 1 => Json.withinMembers r kvs d
/-- Whether the generic reader reads every element of an array. -/
def Json.withinElems (r : Reader) : List Json → Nat → Bool
  | [], _ => true
  | v :: rest, d => Json.within r v d && Json.withinElems r rest d
/-- Whether the generic reader reads every member value of an object. -/
def Json.withinMembers (r : Reader) : List (String × Json) → Nat → Bool
  | [], _ => true
  | (_, v) :: rest, d => Json.within r v d && Json.withinMembers r rest d
end

/-- The call `json.Unmarshal(b, &raw)` with `raw` a nil `map[string]interface{}`
and the limits of the reader: an object whose members the reader reads gives the
map of its members, an object with a number outside `float64` or with nesting
beyond the limit is an error. -/
def unmarshalRaw.within (r : Reader) : Json → Except Error (GoMap Any)
  | .null => .ok none
  | .obj kvs =>
    if Json.withinMembers r kvs r.maxDepth then .ok (some (Json.readMembers kvs []))
    else .error .limit
  | _ => .error .typeMismatch

/-- Method `RevisionsElem.UnmarshalJSON` with the limits of the reader. -/
def RevisionsElem.UnmarshalJSON.within (r : Reader) (x : Env) (b : Json) :
    Except Error RevisionsElem :=
  match unmarshalRaw.within r b with
  | .error e => .error e
  | .ok raw =>
    if uriMissing raw then .error (.required "uri" "RevisionsElem")
    else
      match RevisionsElem.unmarshalPlain x b with
      | .error e => .error e
      | .ok plain => .ok plain

/-- The name of the Go field of `Document` that carries the `json` key `t`, as the
struct decoder of the library writes it before an error of the field. -/
def Plain.goField (t : String) : String :=
  match t with
  | "$standard" => "Standard"
  | "advice" => "Advice"
  | "altids" => "Altids"
  | "assignments" => "Assignments"
  | "associations" => "Associations"
  | "body_event" => "BodyEvent"
  | "body_html5" => "BodyHtml5"
  | "body_pages" => "BodyPages"
  | "body_richhtml5" => "BodyRichhtml5"
  | "body_sportsml" => "BodySportsml"
  | "body_text" => "BodyText"
  | "byline" => "Byline"
  | "bylines" => "Bylines"
  | "charcount" => "Charcount"
  | "commissioncode" => "Commissioncode"
  | "commissionedby" => "Commissionedby"
  | "contentcreated" => "Contentcreated"
  | "copyrightholder" => "Copyrightholder"
  | "copyrightnotice" => "Copyrightnotice"
  | "date" => "Date"
  | "datetime" => "Datetime"
  | "description_text" => "DescriptionText"
  | "description_usage" => "DescriptionUsage"
  | "ednote" => "Ednote"
  | "embargoed" => "Embargoed"
  | "embargoedreason" => "Embargoedreason"
  | "enddate" => "Enddate"
  | "enddatetime" => "Enddatetime"
  | "event" => "Event"
  | "expires" => "Expires"
  | "firstcreated" => "Firstcreated"
  | "fixture" => "Fixture"
  | "genre" => "Genre"
  | "headline" => "Headline"
  | "infosource" => "Infosource"
  | "job" => "Job"
  | "language" => "Language"
  | "located" => "Located"
  | "mimetype" => "Mimetype"
  | "newsvalue" => "Newsvalue"
  | "object" => "Object"
  | "organisation" => "Organisation"
  | "originaltransmissionreference" => "Originaltransmissionreference"
  | "person" => "Person"
  | "place" => "Place"
  | "product" => "Product"
  | "profile" => "Profile"
  | "pubstatus" => "Pubstatus"
  | "renditions" => "Renditions"
  | "replacedby" => "Replacedby"
  | "replacing" => "Replacing"
  | "representationtype" => "Representationtype"
  | "revisions" => "Revisions"
  | "rightsinfo" => "Rightsinfo"
  | "sector" => "Sector"
  | "signals" => "Signals"
  | "slug" => "Slug"
  | "slugline" => "Slugline"
  | "source" => "Source"
  | "subject" => "Subject"
  | "title" => "Title"
  | "trustindicator" => "Trustindicator"
  | "type" => "Type"
  | "urgency" => "Urgency"
  | "uri" => "Uri"
  | "usageterms" => "Usageterms"
  | "version" => "Version"
  | "versioncreated" => "Versioncreated"
  | "versionstored" => "Versionstored"
  | "webprio" => "Webprio"
  | "week" => "Week"
  | "wordcount" => "Wordcount"
  | _ => ""

/-- The decoder of one field with the Go type and the Go field before its
error, as the struct decoder of the library reports the error of a field. -/
def atFieldOf {σ : Type} (typeName : String) (goField : String → String)
    (setField : String → Json → σ → Except Error σ) (t : String) (v : Json) (s : σ) :
    Except Error σ :=
  match setField t v s with
  | .error e => .error (.atField typeName (goField t) e)
  | .ok s2 => .ok s2

/-- The name of the Go field of `AdviceElem` that carries the `json` key `t`. -/
def AdviceElem.goField (t : String) : String :=
  match t with
  | "environment" => "Environment"
  | "importance" => "Importance"
  | "lifetime" => "Lifetime"
  | "role" => "Role"
  | _ => ""

/-- Decoder of `AdviceElem` with the Go type and field before the error of a
field. -/
def AdviceElem.decode.within (x : Env) : Dec AdviceElem :=
  decodeStruct x AdviceElem.tags
    (atFieldOf "ttninjs.AdviceElem" AdviceElem.goField (AdviceElem.setField x))

/-- The name of the Go field of `PlaceElemGeometryGeojson` that carries the
`json` key `t`. -/
def PlaceElemGeometryGeojson.goField (t : String) : String :=
  match t with
  | "coordinates" => "Coordinates"
  | "type" => "Type"
  | _ => ""

/-- Decoder of `PlaceElemGeometryGeojson` with the Go type and field before the
error of a field. -/
def PlaceElemGeometryGeojson.decode.within (x : Env) : Dec PlaceElemGeometryGeojson :=
  decodeStruct x PlaceElemGeometryGeojson.tags
    (atFieldOf "ttninjs.PlaceElemGeometryGeojson" PlaceElemGeometryGeojson.goField
      PlaceElemGeometryGeojson.setField)

/-- The name of the Go field of `PlaceElem` that carries the `json` key `t`. -/
def PlaceElem.goField (t : String) : String :=
  match t with
  | "code" => "Code"
  | "contactinfo" => "Contactinfo"
  | "geometry_geojson" => "GeometryGeojson"
  | "name" => "Name"
  | "rel" => "Rel"
  | "scheme" => "Scheme"
  | _ => ""

/-- Decode the member bound to key `t` into its field of `PlaceElem`, the
geometry through `PlaceElemGeometryGeojson.decode.within`. -/
def PlaceElem.setField.within (x : Env) (t : String) (v : Json) (s : PlaceElem) :
    Except Error PlaceElem :=
  if t = "geometry_geojson" then
    (decodePtr {} (PlaceElemGeometryGeojson.decode.within x) v s.GeometryGeojson).map fun a =>
      { s with GeometryGeojson := a }
  else PlaceElem.setField x t v s

/-- Decoder of `PlaceElem` with the Go type and field before the error of a
field. -/
def PlaceElem.decode.within (x : Env) : Dec PlaceElem :=
  decodeStruct x PlaceElem.tags
    (atFieldOf "ttninjs.PlaceElem" PlaceElem.goField (PlaceElem.setField.within x))

/-- The struct decoder of the library on the member bound to key `t`, for every
field of the document struct except `assignments` and `associations`: the field
is decoded as by `Plain.setLeaf`, a revision entry through
`RevisionsElem.UnmarshalJSON.within`, and an error gets the Go type and field
before it.  Inside the field, the Go type and field are put before an error in
the two structs that hold an enumeration, `AdviceElem` and `PlaceElem` with its
geometry.  (The prefixes that the decoders of the other nested structs and of
the slices add inside the error are not modelled.) -/
def Plain.setLeaf.within (r : Reader) (x : Env) (t : String) (v : Json)
    (s : Plain Document) : Except Error (Plain Document) :=
  atFieldOf "ttninjs.Plain" Plain.goField
    (fun t v s =>
      if t = "revisions" then
        (decodeSlice {} (decodeUnmarshaler (RevisionsElem.UnmarshalJSON.within r x)) v
          s.Revisions).map fun a => { s with Revisions := a }
      else if t = "advice" then
        (decodeSlice {} (AdviceElem.decode.within x) v s.Advice).map fun a =>
          { s with Advice := a }
      else if t = "place" then
        (decodeSlice {} (PlaceElem.decode.within x) v s.Place).map fun a =>
          { s with Place := a }
      else Plain.setLeaf x t v s)
    t v s

mutual
/-- Method `Document.UnmarshalJSON` with the limits of the reader: the new value
of the receiver, or the error returned. -/
def Document.UnmarshalJSON.within (r : Reader) (x : Env) (b : Json) :
    Except Error Document :=
  match unmarshalRaw.within r b with
  | .error e => .error e
  | .ok raw =>
    if uriMissing raw then .error (.required "uri" "Document")
    else
      match b with
      | .null => .ok (.mk {})
      | .obj kvs =>
        match Document.decodeMembers.within r x kvs {} with
        | .error e => .error e
        | .ok plain => .ok (.mk plain)
      | _ => .error .typeMismatch
/-- The struct decoder of the library on the members of a document object, in
input order, with the limits of the reader in the methods it calls and the Go
type and field before the error of a field. -/
def Document.decodeMembers.within (r : Reader) (x : Env) :
    List (String × Json) → Plain Document → Except Error (Plain Document)
  | [], s => .ok s
  | (k, v) :: rest, s =>
    match resolveField x Plain.tags k with
    | none => Document.decodeMembers.within r x rest s
    | some t =>
      if t = "assignments" then
        match Document.decodeMap.within r x v s.Assignments with
        | .error e => .error (.atField "ttninjs.Plain" "Assignments" e)
        | .ok m => Document.decodeMembers.within r x rest { s with Assignments := m }
      else if t = "associations" then
        match Document.decodeMap.within r x v s.Associations with
        | .error e => .error (.atField "ttninjs.Plain" "Associations" e)
        | .ok m => Document.decodeMembers.within r x rest { s with Associations := m }
      else
        match Plain.setLeaf.within r x t v s with
        | .error e => .error e
        | .ok s2 => Document.decodeMembers.within r x rest s2
/-- The map decoder of the library for `Assignments` and `Associations`, with
`Document.UnmarshalJSON.within` for the values. -/
def Document.decodeMap.within (r : Reader) (x : Env) :
    Json → GoMap Document → Except Error (GoMap Document)
  | .null, _ => .ok none
  | .obj kvs, cur =>
    match Document.decodeEntries.within r x kvs (cur.getD []) with
    | .error e => .error e
    | .ok m => .ok (some m)
  | _, _ => .error .typeMismatch
/-- The members of an `assignments` or `associations` object: each value goes
through `Document.UnmarshalJSON.within` and is assigned under its key. -/
def Document.decodeEntries.within (r : Reader) (x : Env) :
    List (String × Json) → List (String × Document) →
      Except Error (List (String × Document))
  | [], m => .ok m
  | (k, v) :: rest, m =>
    match Document.UnmarshalJSON.within r x v with
    | .error e => .error (.reported e)
    | .ok d => Document.decodeEntries.within r x rest (GoMap.set m k d)
end

/-! ### What an error names -/

/-- The error names the field, the offending value and every permitted value:
each is among the strings that the error carries. -/
def Error.Names (e : Error) (fieldName v : String) (vs : List String) : Prop :=
  fieldName ∈ e.strings ∧ v ∈ e.strings ∧ ∀ w ∈ vs, w ∈ e.strings

/-! ### Depth of embedding, counted -/

/-- `EmbeddedAt n b top`: the JSON value `b` is embedded in `top` through `n`
levels of `associations` or `assignments`. -/
inductive EmbeddedAt : Nat → Json → Json → Prop where
  | here (b : Json) : EmbeddedAt 0 b b
  | under (n : Nat) (b v : Json) (key k : String) (es kvs : List (String × Json)) :
      key = "associations" ∨ key = "assignments" →
      (key, Json.obj es) ∈ kvs → (k, v) ∈ es → EmbeddedAt n b v →
      EmbeddedAt (n + 1) b (Json.obj kvs)

/-- The encoding of `nestedDocument n`, given the text `stamp` of the zero
time: every document of the chain is written with the members `$standard`,
`signals` and `versioncreated` that a document always has. -/
def nestedEncoding (stamp : String) : Nat → Json
  | 0 =>
    .obj [("$standard", .obj []), ("signals", .obj []), ("uri", .str "a"),
      ("versioncreated", .str stamp)]
  | n + 1 =>
    .obj [("$standard", .obj []), ("associations", .obj [("x", nestedEncoding stamp n)]),
      ("signals", .obj []), ("uri", .str "a"), ("versioncreated", .str stamp)]

/-! ### The year of a timestamp -/

/-- The year of a timestamp in its zone, in the proleptic Gregorian calendar, as
`time.Time.Year` of the Go library gives it: second 0 of the zone's clock is the
start of year 1, a cycle of 400 years has 146097 days, a century 36524, four
years 1461. -/
def Time.year (t : Time) : Int :=
  let days := Int.fdiv (t.sec + t.offset) 86400
  let d400 := Int.fmod days 146097
  let n100 := min (Int.fdiv d400 36524) 3
  let d100 := d400 - 36524 * n100
  let d4 := Int.fmod d100 1461
  let n1 := min (Int.fdiv d4 365) 3
  400 * Int.fdiv days 146097 + 100 * n100 + 4 * Int.fdiv d100 1461 + n1 + 1

/-- The check of `time.Time.MarshalJSON` in the Go library: a timestamp whose
year is outside `[0, 9999]` is not written, the method returns an error. -/
def Env.ChecksYear (x : Env) : Prop :=
  ∀ t : Time, Time.year t < 0 ∨ 9999 < Time.year t → x.formatTime t = none

/-! ## Properties -/

/-! ### Maps -/

/-- Reading a map after an assignment. -/
theorem GoMap.get_set {α : Type} (m : List (String × α)) (k k' : String) (a : α) :
    GoMap.get (GoMap.set m k a) k' = if k = k' then some a else GoMap.get m k' := by
  induction m with
  | nil => simp only [GoMap.set, GoMap.get]
  | cons hd tl ih =>
    obtain ⟨k0, v0⟩ := hd
    by_cases h0 : k0 = k
    · subst h0
      by_cases h1 : k0 = k'
      · simp only [GoMap.set, GoMap.get, if_true, if_pos h1]
      · simp only [GoMap.set, GoMap.get, if_true, if_neg h1]
    · by_cases h1 : k0 = k'
      · have h2 : ¬ k = k' := fun h => h0 (h1.trans h.symm)
        simp only [GoMap.set, GoMap.get, if_neg h0, if_pos h1, if_neg h2]
      · simp only [GoMap.set, GoMap.get, if_neg h0, if_neg h1, ih]

/-- When every `uri` member of an object is null, the raw map holds no `uri`
or a nil one. -/
theorem uri_readMembers (kvs : List (String × Json)) (m : List (String × Any))
    (hm : GoMap.get m "uri" = none ∨ GoMap.get m "uri" = some Any.nil)
    (h : ∀ v, ("uri", v) ∈ kvs → v = Json.null) :
    GoMap.get (Json.readMembers kvs m) "uri" = none ∨
      GoMap.get (Json.readMembers kvs m) "uri" = some Any.nil := by
  induction kvs generalizing m with
  | nil => simpa only [Json.readMembers] using hm
  | cons hd tl ih =>
    obtain ⟨k, v⟩ := hd
    rw [Json.readMembers]
    apply ih
    · rw [GoMap.get_set]
      by_cases hk : k = "uri"
      · subst hk
        have hv : v = Json.null := h v (List.mem_cons_self _ _)
        subst hv
        right
        simp only [if_true, Json.read]
      · simpa only [if_neg hk] using hm
    · intro w hw
      exact h w (List.mem_cons_of_mem _ hw)

/-- The required-field test fires on an object whose `uri` members are all null
(or absent). -/
theorem uriMissing_of_lacks (kvs : List (String × Json))
    (h : ∀ v, ("uri", v) ∈ kvs → v = Json.null) :
    uriMissing (some (Json.readMembers kvs [])) = true := by
  have := uri_readMembers kvs [] (Or.inl rfl) h
  unfold uriMissing
  rcases this with h1 | h1 <;> simp only [Option.getD, h1]

/-- A document object without a non-null `uri` gets the required-field error. -/
theorem Document.UnmarshalJSON_lacksUri (x : Env) (kvs : List (String × Json))
    (h : ∀ v, ("uri", v) ∈ kvs → v = Json.null) :
    Document.UnmarshalJSON x (.obj kvs) = .error (.required "uri" "Document") := by
  rw [Document.UnmarshalJSON]
  simp only [unmarshalRaw, uriMissing_of_lacks kvs h, if_true]

/-- A key that is the tag of a field binds to that field. -/
theorem resolveField_of_mem (x : Env) (tags : List String) (k : String) (h : k ∈ tags) :
    resolveField x tags k = some k := by
  simp only [resolveField, if_pos h]

/-- The search loop of the enumeration methods decides membership. -/
theorem enumLoop_iff (v : String) (vs : List String) : enumLoop v vs = true ↔ v ∈ vs := by
  induction vs with
  | nil => simp [enumLoop]
  | cons a tl ih =>
    by_cases h : v = a
    · simp [enumLoop, h]
    · simp [enumLoop, h, ih]

/-- An enumeration method on a JSON string. -/
theorem enumUnmarshalJSON_str (vs : List String) (v : String) :
    enumUnmarshalJSON vs (.str v) =
      if v ∈ vs then .ok v else .error (.invalidValue vs v) := by
  unfold enumUnmarshalJSON unmarshalString decodeString
  by_cases h : v ∈ vs
  · have := (enumLoop_iff v vs).2 h
    simp [this, h]
  · have : enumLoop v vs = false := by
      cases hl : enumLoop v vs
      · rfl
      · exact absurd ((enumLoop_iff v vs).1 hl) h
    simp [this, h]

/-- The library calling an enumeration method on a JSON string. -/
theorem decodeUnmarshaler_enum_str (vs : List String) (v cur : String) :
    decodeUnmarshaler (enumUnmarshalJSON vs) (.str v) cur =
      if v ∈ vs then .ok v else .error (.reported (.invalidValue vs v)) := by
  unfold decodeUnmarshaler
  rw [enumUnmarshalJSON_str]
  by_cases h : v ∈ vs <;> simp [h]

/-- A member that fails at the head of any member list, from any state, makes
every member list that contains it fail. -/
theorem Document.decodeMembers_fail_of_mem (x : Env) (k : String) (w : Json)
    (hfail : ∀ rest s, ∃ e, Document.decodeMembers x ((k, w) :: rest) s = .error e)
    (kvs : List (String × Json)) (hmem : (k, w) ∈ kvs) :
    ∀ s, ∃ e, Document.decodeMembers x kvs s = .error e := by
  induction kvs with
  | nil => cases hmem
  | cons hd tl ih =>
    intro s
    rcases List.mem_cons.1 hmem with h | h
    · rw [← h]
      exact hfail tl s
    · have ih' := ih h
      obtain ⟨k', v'⟩ := hd
      rw [Document.decodeMembers]
      cases resolveField x Plain.tags k' with
      | none => exact ih' s
      | some t =>
        simp only []
        split
        · cases Document.decodeMap x v' s.Assignments with
          | error e => exact ⟨e, rfl⟩
          | ok m => exact ih' _
        · split
          · cases Document.decodeMap x v' s.Associations with
            | error e => exact ⟨e, rfl⟩
            | ok m => exact ih' _
          · cases Plain.setLeaf x t v' s with
            | error e => exact ⟨e, rfl⟩
            | ok s' => exact ih' _

/-- A document object whose members fail to decode fails to decode. -/
theorem Document.UnmarshalJSON_fail_of_members (x : Env) (kvs : List (String × Json))
    (h : ∀ s, ∃ e, Document.decodeMembers x kvs s = .error e) :
    ∃ e, Document.UnmarshalJSON x (.obj kvs) = .error e := by
  rw [Document.UnmarshalJSON]
  simp only [unmarshalRaw]
  split
  · exact ⟨_, rfl⟩
  · obtain ⟨e, he⟩ := h {}
    refine ⟨e, ?_⟩
    simp only [he]

/-- One step of the member loop at a field other than the two maps of embedded
documents. -/
theorem Document.decodeMembers_leaf (x : Env) (k : String) (v : Json)
    (rest : List (String × Json)) (s : Plain Document)
    (hk : k ∈ Plain.tags) (h1 : k ≠ "assignments") (h2 : k ≠ "associations") :
    Document.decodeMembers x ((k, v) :: rest) s =
      match Plain.setLeaf x k v s with
      | .error e => .error e
      | .ok s' => Document.decodeMembers x rest s' := by
  rw [Document.decodeMembers, resolveField_of_mem x _ _ hk]
  simp only [if_neg h1, if_neg h2]

/-- A member whose field setter fails from every state fails every member list
that contains it. -/
theorem Document.decodeMembers_fail_of_leaf (x : Env) (k : String) (w : Json)
    (hk : k ∈ Plain.tags) (h1 : k ≠ "assignments") (h2 : k ≠ "associations")
    (hfail : ∀ s : Plain Document, ∃ e, Plain.setLeaf x k w s = .error e)
    (kvs : List (String × Json)) (hmem : (k, w) ∈ kvs) :
    ∀ s, ∃ e, Document.decodeMembers x kvs s = .error e := by
  apply Document.decodeMembers_fail_of_mem x k w _ kvs hmem
  intro rest s
  obtain ⟨e, he⟩ := hfail s
  refine ⟨e, ?_⟩
  rw [Document.decodeMembers_leaf x k w rest s hk h1 h2, he]

/-- An embedded value that fails makes the entries of its map fail. -/
theorem Document.decodeEntries_fail_of_mem (x : Env) (k : String) (v : Json)
    (hv : ∃ e, Document.UnmarshalJSON x v = .error e)
    (es : List (String × Json)) (hmem : (k, v) ∈ es) :
    ∀ m, ∃ e, Document.decodeEntries x es m = .error e := by
  induction es with
  | nil => cases hmem
  | cons hd tl ih =>
    intro m
    obtain ⟨k', v'⟩ := hd
    rw [Document.decodeEntries]
    rcases List.mem_cons.1 hmem with h | h
    · obtain ⟨e, he⟩ := hv
      cases h
      exact ⟨.reported e, by simp only [he]⟩
    · cases Document.UnmarshalJSON x v' with
      | error e => exact ⟨_, rfl⟩
      | ok d => exact ih h _

/-- An embedded value that fails makes the members of the embedding document
fail. -/
theorem Document.decodeMembers_fail_of_embedded (x : Env) (key k : String) (v : Json)
    (es : List (String × Json))
    (hkey : key = "associations" ∨ key = "assignments")
    (hv : ∃ e, Document.UnmarshalJSON x v = .error e) (hmem : (k, v) ∈ es)
    (kvs : List (String × Json)) (hkvs : (key, Json.obj es) ∈ kvs) :
    ∀ s, ∃ e, Document.decodeMembers x kvs s = .error e := by
  apply Document.decodeMembers_fail_of_mem x key (.obj es) _ kvs hkvs
  intro rest s
  have hmap : ∀ cur, ∃ e, Document.decodeMap x (.obj es) cur = .error e := by
    intro cur
    obtain ⟨e, he⟩ := Document.decodeEntries_fail_of_mem x k v hv es hmem (cur.getD [])
    exact ⟨e, by rw [Document.decodeMap]; simp only [he]⟩
  rcases hkey with h | h
  · subst h
    obtain ⟨e, he⟩ := hmap s.Associations
    refine ⟨e, ?_⟩
    rw [Document.decodeMembers, resolveField_of_mem x _ _ (by decide)]
    simp only [he]
    rfl
  · subst h
    obtain ⟨e, he⟩ := hmap s.Assignments
    refine ⟨e, ?_⟩
    rw [Document.decodeMembers, resolveField_of_mem x _ _ (by decide)]
    simp only [he]
    rfl

/-- Failure of an embedded value, at any depth, is failure of the whole decode. -/
theorem Document.UnmarshalJSON_fail_of_embedded (x : Env) (b top : Json)
    (hemb : Embedded b top) (hb : ∃ e, Document.UnmarshalJSON x b = .error e) :
    ∃ e, Document.UnmarshalJSON x top = .error e := by
  induction hemb with
  | here => exact hb
  | under v key k es kvs hkey hkvs hmem _ ih =>
    exact Document.UnmarshalJSON_fail_of_members x kvs
      (Document.decodeMembers_fail_of_embedded x key k v es hkey ih hmem kvs hkvs)

/-- The setter of `type` on a JSON string. -/
theorem Plain.setLeaf_type (x : Env) (v : String) (s : Plain Document) :
    Plain.setLeaf x "type" (.str v) s =
      if v ∈ enumValues_Type then .ok { s with Type_ := v }
      else .error (.reported (.invalidValue enumValues_Type v)) := by
  show (decodeUnmarshaler (enumUnmarshalJSON enumValues_Type) (.str v) s.Type_).map _ = _
  rw [decodeUnmarshaler_enum_str]
  by_cases h : v ∈ enumValues_Type
  · rw [if_pos h, if_pos h]; rfl
  · rw [if_neg h, if_neg h]; rfl

/-- The setter of `pubstatus` on a JSON string. -/
theorem Plain.setLeaf_pubstatus (x : Env) (v : String) (s : Plain Document) :
    Plain.setLeaf x "pubstatus" (.str v) s =
      if v ∈ enumValues_Pubstatus then .ok { s with Pubstatus := v }
      else .error (.reported (.invalidValue enumValues_Pubstatus v)) := by
  show (decodeUnmarshaler (enumUnmarshalJSON enumValues_Pubstatus) (.str v) s.Pubstatus).map _ = _
  rw [decodeUnmarshaler_enum_str]
  by_cases h : v ∈ enumValues_Pubstatus
  · rw [if_pos h, if_pos h]; rfl
  · rw [if_neg h, if_neg h]; rfl

/-- The library decoding a JSON string into a pointer to an enumeration. -/
theorem decodePtr_enum_str (vs : List String) (v : String) (cur : Option String) :
    decodePtr "" (decodeUnmarshaler (enumUnmarshalJSON vs)) (.str v) cur =
      if v ∈ vs then .ok (some v) else .error (.reported (.invalidValue vs v)) := by
  show (decodeUnmarshaler (enumUnmarshalJSON vs) (.str v) (cur.getD "")).map some = _
  rw [decodeUnmarshaler_enum_str]
  by_cases h : v ∈ vs
  · rw [if_pos h, if_pos h]; rfl
  · rw [if_neg h, if_neg h]; rfl

/-- The setter of `profile` on a JSON string. -/
theorem Plain.setLeaf_profile (x : Env) (v : String) (s : Plain Document) :
    Plain.setLeaf x "profile" (.str v) s =
      if v ∈ enumValues_Profile then .ok { s with Profile := some v }
      else .error (.reported (.invalidValue enumValues_Profile v)) := by
  show (decodePtr "" (decodeUnmarshaler (enumUnmarshalJSON enumValues_Profile)) (.str v)
    s.Profile).map _ = _
  rw [decodePtr_enum_str]
  by_cases h : v ∈ enumValues_Profile
  · rw [if_pos h, if_pos h]; rfl
  · rw [if_neg h, if_neg h]; rfl

/-- The setter of `representationtype` on a JSON string. -/
theorem Plain.setLeaf_representationtype (x : Env) (v : String) (s : Plain Document) :
    Plain.setLeaf x "representationtype" (.str v) s =
      if v ∈ enumValues_Representationtype then .ok { s with Representationtype := some v }
      else .error (.reported (.invalidValue enumValues_Representationtype v)) := by
  show (decodePtr "" (decodeUnmarshaler (enumUnmarshalJSON enumValues_Representationtype))
    (.str v) s.Representationtype).map _ = _
  rw [decodePtr_enum_str]
  by_cases h : v ∈ enumValues_Representationtype
  · rw [if_pos h, if_pos h]; rfl
  · rw [if_neg h, if_neg h]; rfl

/-- The setter of `sector` on a JSON string. -/
theorem Plain.setLeaf_sector (x : Env) (v : String) (s : Plain Document) :
    Plain.setLeaf x "sector" (.str v) s =
      if v ∈ enumValues_Sector then .ok { s with Sector := some v }
      else .error (.reported (.invalidValue enumValues_Sector v)) := by
  show (decodePtr "" (decodeUnmarshaler (enumUnmarshalJSON enumValues_Sector)) (.str v)
    s.Sector).map _ = _
  rw [decodePtr_enum_str]
  by_cases h : v ∈ enumValues_Sector
  · rw [if_pos h, if_pos h]; rfl
  · rw [if_neg h, if_neg h]; rfl

/-- A document-level enumeration member with a value outside its set fails
from any state. -/
theorem Plain.setLeaf_invalid_enum (x : Env) (k v : String) (vs : List String)
    (hk : documentEnum k = some vs) (hv : v ∉ vs) (s : Plain Document) :
    k ∈ Plain.tags ∧ k ≠ "assignments" ∧ k ≠ "associations" ∧
      ∃ e, Plain.setLeaf x k (.str v) s = .error e := by
  unfold documentEnum at hk
  split at hk
  · cases hk
    exact ⟨by decide, by decide, by decide, _, by rw [Plain.setLeaf_type]; exact if_neg hv⟩
  · cases hk
    exact ⟨by decide, by decide, by decide, _, by rw [Plain.setLeaf_profile]; exact if_neg hv⟩
  · cases hk
    exact ⟨by decide, by decide, by decide, _, by rw [Plain.setLeaf_pubstatus]; exact if_neg hv⟩
  · cases hk
    exact ⟨by decide, by decide, by decide, _,
      by rw [Plain.setLeaf_representationtype]; exact if_neg hv⟩
  · cases hk
    exact ⟨by decide, by decide, by decide, _, by rw [Plain.setLeaf_sector]; exact if_neg hv⟩
  · cases hk

/-- A document object with a document-level enumeration member outside its set
fails to decode. -/
theorem Document.UnmarshalJSON_invalid_enum (x : Env) (kvs : List (String × Json))
    (k v : String) (vs : List String) (hmem : (k, Json.str v) ∈ kvs)
    (hk : documentEnum k = some vs) (hv : v ∉ vs) :
    ∃ e, Document.UnmarshalJSON x (.obj kvs) = .error e := by
  have h := fun s => Plain.setLeaf_invalid_enum x k v vs hk hv s
  obtain ⟨h1, h2, h3, _⟩ := h {}
  exact Document.UnmarshalJSON_fail_of_members x kvs
    (Document.decodeMembers_fail_of_leaf x k (.str v) h1 h2 h3 (fun s => (h s).2.2.2) kvs hmem)

/-! ### Slices -/

/-- An element that fails makes the element list fail. -/
theorem decodeElems_fail_of_mem {α : Type} (zero : α) (dec : Dec α) (v : Json)
    (hv : ∃ e, dec v zero = .error e) (xs : List Json) (hmem : v ∈ xs) :
    ∃ e, decodeElems zero dec xs = .error e := by
  induction xs with
  | nil => cases hmem
  | cons hd tl ih =>
    rw [decodeElems]
    rcases List.mem_cons.1 hmem with h | h
    · obtain ⟨e, he⟩ := hv
      subst h
      exact ⟨e, by simp only [he]⟩
    · cases dec hd zero with
      | error e => exact ⟨e, rfl⟩
      | ok a =>
        obtain ⟨e, he⟩ := ih h
        exact ⟨e, by simp only [he]⟩

/-- An element that fails makes the slice decoder fail. -/
theorem decodeSlice_fail_of_mem {α : Type} (zero : α) (dec : Dec α) (v : Json)
    (hv : ∃ e, dec v zero = .error e) (xs : List Json) (hmem : v ∈ xs) (cur : GoSlice α) :
    ∃ e, decodeSlice zero dec (.arr xs) cur = .error e := by
  obtain ⟨e, he⟩ := decodeElems_fail_of_mem zero dec v hv xs hmem
  exact ⟨e, by simp only [decodeSlice, he]; rfl⟩

/-! ### Revisions -/

/-- A revision entry without a non-null `uri` gets the required-field error. -/
theorem RevisionsElem.UnmarshalJSON_entry_lacksUri (x : Env) (es : List (String × Json))
    (h : ∀ v, ("uri", v) ∈ es → v = Json.null) :
    RevisionsElem.UnmarshalJSON x (.obj es) = .error (.required "uri" "RevisionsElem") := by
  unfold RevisionsElem.UnmarshalJSON
  simp only [unmarshalRaw, uriMissing_of_lacks es h, if_true]

/-- The setter of `revisions` fails on an array with an entry that lacks `uri`. -/
theorem Plain.setLeaf_revisions_fail (x : Env) (xs : List Json) (es : List (String × Json))
    (hmem : Json.obj es ∈ xs) (h : ∀ v, ("uri", v) ∈ es → v = Json.null)
    (s : Plain Document) :
    ∃ e, Plain.setLeaf x "revisions" (.arr xs) s = .error e := by
  have hv : ∃ e, decodeUnmarshaler (RevisionsElem.UnmarshalJSON x) (.obj es) {} = .error e :=
    ⟨.reported (.required "uri" "RevisionsElem"),
      by simp only [decodeUnmarshaler, RevisionsElem.UnmarshalJSON_entry_lacksUri x es h]⟩
  obtain ⟨e, he⟩ := decodeSlice_fail_of_mem ({} : RevisionsElem)
    (decodeUnmarshaler (RevisionsElem.UnmarshalJSON x)) (.obj es) hv xs hmem s.Revisions
  refine ⟨e, ?_⟩
  show (decodeSlice {} (decodeUnmarshaler (RevisionsElem.UnmarshalJSON x)) (.arr xs)
    s.Revisions).map _ = _
  rw [he]
  rfl

/-! ### Documents with `uri` and one more member -/

/-- After the required-field test, the document decode is the member loop on a
zero struct. -/
theorem Document.UnmarshalJSON_obj (x : Env) (kvs : List (String × Json))
    (h : uriMissing (some (Json.readMembers kvs [])) = false) :
    Document.UnmarshalJSON x (.obj kvs) =
      match Document.decodeMembers x kvs {} with
      | .error e => .error e
      | .ok plain => .ok (.mk plain) := by
  rw [Document.UnmarshalJSON]
  simp only [unmarshalRaw, h]
  rfl

/-- The decode of `{"uri": u, k: w}` for a field `k` other than `uri` and the two
maps of embedded documents. -/
theorem Document.UnmarshalJSON_uri_field (x : Env) (u k : String) (w : Json)
    (hk : k ∈ Plain.tags) (h0 : k ≠ "uri") (h1 : k ≠ "assignments") (h2 : k ≠ "associations") :
    Document.UnmarshalJSON x (.obj [("uri", .str u), (k, w)]) =
      match Plain.setLeaf x k w { ({} : Plain Document) with Uri := u } with
      | .error e => .error e
      | .ok plain => .ok (.mk plain) := by
  have hm : uriMissing (some (Json.readMembers [("uri", .str u), (k, w)] [])) = false := by
    simp only [Json.readMembers, GoMap.set, Json.read, if_neg (Ne.symm h0), uriMissing,
      Option.getD, GoMap.get, if_true]
  rw [Document.UnmarshalJSON_obj x _ hm,
    Document.decodeMembers_leaf x "uri" _ _ _ (by decide) (by decide) (by decide),
    show Plain.setLeaf x "uri" (.str u) ({} : Plain Document) =
      .ok { ({} : Plain Document) with Uri := u } from rfl]
  simp only []
  rw [Document.decodeMembers_leaf x k _ _ _ hk h1 h2]
  cases Plain.setLeaf x k w { ({} : Plain Document) with Uri := u } <;> rfl

/-- The result of decoding `{"uri": u, k: w}` when the setter of `k` has the
shape of a validated enumeration. -/
theorem Document.UnmarshalJSON_uri_enum (x : Env) (u k : String) (w : Json)
    (hk : k ∈ Plain.tags) (h0 : k ≠ "uri") (h1 : k ≠ "assignments") (h2 : k ≠ "associations")
    (P : Prop) [Decidable P] (good : Plain Document) (bad : Error)
    (hset : Plain.setLeaf x k w { ({} : Plain Document) with Uri := u } =
      if P then .ok good else .error bad) :
    ((∃ d, Document.UnmarshalJSON x (.obj [("uri", .str u), (k, w)]) = .ok d) ↔ P) ∧
      (∀ d, Document.UnmarshalJSON x (.obj [("uri", .str u), (k, w)]) = .ok d →
        d = .mk good) := by
  rw [Document.UnmarshalJSON_uri_field x u k w hk h0 h1 h2, hset]
  by_cases hP : P
  · simp only [if_pos hP]
    refine ⟨⟨fun _ => hP, fun _ => ⟨_, rfl⟩⟩, ?_⟩
    intro d hd
    cases hd
    rfl
  · simp only [if_neg hP]
    refine ⟨⟨fun ⟨d, hd⟩ => (by cases hd), fun h => absurd h hP⟩, ?_⟩
    intro d hd
    cases hd

/-! ### One embedded document -/

/-- The map decoder for embedded documents on an object of one member. -/
theorem Document.decodeMap_singleton (x : Env) (k : String) (v : Json) :
    Document.decodeMap x (.obj [(k, v)]) none =
      match Document.UnmarshalJSON x v with
      | .error e => .error (.reported e)
      | .ok d => .ok (some [(k, d)]) := by
  rw [Document.decodeMap, Document.decodeEntries]
  cases Document.UnmarshalJSON x v <;> rfl

/-- The decode of `{"uri": u, "associations": {k: v}}`. -/
theorem Document.UnmarshalJSON_uri_associations (x : Env) (u k : String) (v : Json) :
    Document.UnmarshalJSON x (.obj [("uri", .str u), ("associations", .obj [(k, v)])]) =
      match Document.UnmarshalJSON x v with
      | .error e => .error (.reported e)
      | .ok d =>
        .ok (.mk { ({} : Plain Document) with Uri := u, Associations := some [(k, d)] }) := by
  have hm : uriMissing (some (Json.readMembers
      [("uri", .str u), ("associations", .obj [(k, v)])] [])) = false := rfl
  rw [Document.UnmarshalJSON_obj x _ hm,
    Document.decodeMembers_leaf x "uri" _ _ _ (by decide) (by decide) (by decide),
    show Plain.setLeaf x "uri" (.str u) ({} : Plain Document) =
      .ok { ({} : Plain Document) with Uri := u } from rfl]
  simp only []
  rw [Document.decodeMembers, resolveField_of_mem x _ _ (by decide)]
  simp only [String.reduceEq, if_true, if_false]
  rw [Document.decodeMap_singleton]
  cases Document.UnmarshalJSON x v <;> rfl

/-- The decode of `{"uri": u, "assignments": {k: v}}`. -/
theorem Document.UnmarshalJSON_uri_assignments (x : Env) (u k : String) (v : Json) :
    Document.UnmarshalJSON x (.obj [("uri", .str u), ("assignments", .obj [(k, v)])]) =
      match Document.UnmarshalJSON x v with
      | .error e => .error (.reported e)
      | .ok d =>
        .ok (.mk { ({} : Plain Document) with Uri := u, Assignments := some [(k, d)] }) := by
  have hm : uriMissing (some (Json.readMembers
      [("uri", .str u), ("assignments", .obj [(k, v)])] [])) = false := rfl
  rw [Document.UnmarshalJSON_obj x _ hm,
    Document.decodeMembers_leaf x "uri" _ _ _ (by decide) (by decide) (by decide),
    show Plain.setLeaf x "uri" (.str u) ({} : Plain Document) =
      .ok { ({} : Plain Document) with Uri := u } from rfl]
  simp only []
  rw [Document.decodeMembers, resolveField_of_mem x _ _ (by decide)]
  simp only [String.reduceEq, if_true, if_false]
  rw [Document.decodeMap_singleton]
  cases Document.UnmarshalJSON x v <;> rfl

/-! ### Advice -/

/-- The slice decoder on an array of one element. -/
theorem decodeSlice_singleton {α : Type} (zero : α) (dec : Dec α) (j : Json) (cur : GoSlice α) :
    decodeSlice zero dec (.arr [j]) cur = (dec j zero).map fun a => some [a] := by
  simp only [decodeSlice, decodeElems]
  cases dec j zero <;> rfl

/-- One step of the member loop of the library at a key that is a tag. -/
theorem decodeMembers_cons_of_mem {σ : Type} (x : Env) (tags : List String)
    (setField : String → Json → σ → Except Error σ) (k : String) (v : Json)
    (rest : List (String × Json)) (s : σ) (hk : k ∈ tags) :
    decodeMembers x tags setField ((k, v) :: rest) s =
      match setField k v s with
      | .error e => .error e
      | .ok s' => decodeMembers x tags setField rest s' := by
  rw [decodeMembers, resolveField_of_mem x _ _ hk]

/-- The decoder of `AdviceElem` on `{"role": v}`. -/
theorem AdviceElem.decode_role (x : Env) (v : String) :
    AdviceElem.decode x (.obj [("role", .str v)]) {} =
      if v ∈ enumValues_AdviceElemRole then .ok { Role := v }
      else .error (.reported (.invalidValue enumValues_AdviceElemRole v)) := by
  have h1 : AdviceElem.decode x (.obj [("role", .str v)]) {} =
      decodeMembers x AdviceElem.tags (AdviceElem.setField x) [("role", .str v)] {} := rfl
  have h2 : AdviceElem.setField x "role" (.str v) {} =
      (decodeUnmarshaler (enumUnmarshalJSON enumValues_AdviceElemRole) (.str v) "").map
        fun a => { Role := a } := rfl
  rw [h1, decodeMembers_cons_of_mem x _ _ _ _ _ _ (by decide), h2, decodeUnmarshaler_enum_str]
  by_cases h : v ∈ enumValues_AdviceElemRole
  · rw [if_pos h, if_pos h]; rfl
  · rw [if_neg h, if_neg h]; rfl

/-- The setter of `advice` on `[{"role": v}]`. -/
theorem Plain.setLeaf_advice_role (x : Env) (v : String) (s : Plain Document) :
    Plain.setLeaf x "advice" (.arr [.obj [("role", .str v)]]) s =
      if v ∈ enumValues_AdviceElemRole then .ok { s with Advice := some [{ Role := v }] }
      else .error (.reported (.invalidValue enumValues_AdviceElemRole v)) := by
  have h1 : Plain.setLeaf x "advice" (.arr [.obj [("role", .str v)]]) s =
      (decodeSlice {} (AdviceElem.decode x) (.arr [.obj [("role", .str v)]]) s.Advice).map
        fun a => { s with Advice := a } := rfl
  rw [h1, decodeSlice_singleton, AdviceElem.decode_role]
  by_cases h : v ∈ enumValues_AdviceElemRole
  · rw [if_pos h, if_pos h]; rfl
  · rw [if_neg h, if_neg h]; rfl

/-- The setter of `advice` fails on an array with an element `{"role": v}`,
`v` not `publish`. -/
theorem Plain.setLeaf_advice_fail (x : Env) (xs : List Json) (v : String)
    (hmem : Json.obj [("role", .str v)] ∈ xs) (hv : v ≠ "publish") (s : Plain Document) :
    ∃ e, Plain.setLeaf x "advice" (.arr xs) s = .error e := by
  have hv' : v ∉ enumValues_AdviceElemRole := by
    intro h
    exact hv (List.mem_singleton.1 h)
  have hd : ∃ e, AdviceElem.decode x (.obj [("role", .str v)]) {} = .error e :=
    ⟨_, by rw [AdviceElem.decode_role]; exact if_neg hv'⟩
  obtain ⟨e, he⟩ := decodeSlice_fail_of_mem ({} : AdviceElem) (AdviceElem.decode x) _ hd xs
    hmem s.Advice
  refine ⟨e, ?_⟩
  show (decodeSlice {} (AdviceElem.decode x) (.arr xs) s.Advice).map _ = _
  rw [he]
  rfl

/-! ### The claims -/

/-- C1: for every JSON object that has no `uri` member, or whose `uri` members
are null, `Document.UnmarshalJSON` returns the required-field error
`field uri in Document: required` and no Document. -/
theorem C1_missing_uri_is_required_error (x : Env) (kvs : List (String × Json))
    (h : ∀ v, ("uri", v) ∈ kvs → v = Json.null) :
    Document.UnmarshalJSON x (.obj kvs) = .error (.required "uri" "Document") ∧
      ∀ d, Document.UnmarshalJSON x (.obj kvs) ≠ .ok d := by
  have h1 := Document.UnmarshalJSON_lacksUri x kvs h
  refine ⟨h1, ?_⟩
  intro d hd
  rw [h1] at hd
  cases hd

/-- C1 at the input `{"headline": "x"}`: it has no `uri` member and decoding it
fails with the required-field error. -/
theorem C1_missing_uri_is_required_error_witness :
    (∀ v, ("uri", v) ∈ [("headline", Json.str "x")] → v = Json.null) ∧
      Document.UnmarshalJSON Env.basic (.obj [("headline", .str "x")]) =
        .error (.required "uri" "Document") :=
  have h : ∀ v, ("uri", v) ∈ [("headline", Json.str "x")] → v = Json.null := by
    intro v hv
    simp at hv
  ⟨h, (C1_missing_uri_is_required_error Env.basic _ h).1⟩

/-- C2: the values under `associations` and `assignments` go through
`Document.UnmarshalJSON` like the top level, at every depth.  For a value `b`
embedded in `top` at any depth: when decoding `b` fails, decoding `top` fails;
in particular when `b` is an object without a non-null `uri`, or an object with
a member of a document-level enumeration whose value is outside its set.  And
the result for a document with one embedded value is the result of
`Document.UnmarshalJSON` on that value, stored under its key. -/
theorem C2_embedded_documents_fail_the_whole_decode (x : Env) (b top : Json)
    (hemb : Embedded b top) :
    ((∃ e, Document.UnmarshalJSON x b = .error e) →
        ∃ e, Document.UnmarshalJSON x top = .error e) ∧
      (∀ kvs, b = Json.obj kvs →
        ((∀ v, ("uri", v) ∈ kvs → v = Json.null) ∨
          ∃ k v vs, (k, Json.str v) ∈ kvs ∧ documentEnum k = some vs ∧ v ∉ vs) →
        ∃ e, Document.UnmarshalJSON x top = .error e) ∧
      (∀ u k v,
        Document.UnmarshalJSON x (.obj [("uri", .str u), ("associations", .obj [(k, v)])]) =
          match Document.UnmarshalJSON x v with
          | .error e => .error (.reported e)
          | .ok d =>
            .ok (.mk { ({} : Plain Document) with
              Uri := u, Associations := some [(k, d)] })) ∧
      ∀ u k v,
        Document.UnmarshalJSON x (.obj [("uri", .str u), ("assignments", .obj [(k, v)])]) =
          match Document.UnmarshalJSON x v with
          | .error e => .error (.reported e)
          | .ok d =>
            .ok (.mk { ({} : Plain Document) with
              Uri := u, Assignments := some [(k, d)] }) := by
  refine ⟨Document.UnmarshalJSON_fail_of_embedded x b top hemb, ?_,
    Document.UnmarshalJSON_uri_associations x, Document.UnmarshalJSON_uri_assignments x⟩
  intro kvs hb hbad
  subst hb
  apply Document.UnmarshalJSON_fail_of_embedded x _ top hemb
  rcases hbad with h | ⟨k, v, vs, hmem, hk, hv⟩
  · exact ⟨_, Document.UnmarshalJSON_lacksUri x kvs h⟩
  · exact Document.UnmarshalJSON_invalid_enum x kvs k v vs hmem hk hv

/-- C2 at the input `{"uri": "a", "associations": {"x": {"pubstatus":
"nonsense"}}}`: the embedded object carries an invalid `pubstatus`, and decoding
the outer document fails. -/
theorem C2_embedded_documents_fail_the_whole_decode_witness :
    Embedded (.obj [("pubstatus", .str "nonsense")])
        (.obj [("uri", .str "a"),
          ("associations", .obj [("x", .obj [("pubstatus", .str "nonsense")])])]) ∧
      ∃ e, Document.UnmarshalJSON Env.basic
        (.obj [("uri", .str "a"),
          ("associations", .obj [("x", .obj [("pubstatus", .str "nonsense")])])]) =
          .error e :=
  have hemb : Embedded (.obj [("pubstatus", .str "nonsense")])
      (.obj [("uri", .str "a"),
        ("associations", .obj [("x", .obj [("pubstatus", .str "nonsense")])])]) :=
    Embedded.under _ _ "associations" "x" _ _ (Or.inl rfl)
      (List.mem_cons_of_mem _ (List.mem_cons_self _ _)) (List.mem_cons_self _ _)
      (Embedded.here _)
  ⟨hemb, (C2_embedded_documents_fail_the_whole_decode Env.basic _ _ hemb).2.1 _ rfl
    (Or.inr ⟨"pubstatus", "nonsense", _, List.mem_cons_self _ _, rfl, by decide⟩)⟩

/-- C3: for every document whose `revisions` array contains an object that has
no `uri` member or only null ones, `RevisionsElem.UnmarshalJSON` returns the
required-field error for that entry and `Document.UnmarshalJSON` fails; for
`{"uri":"a","revisions":[{"slug":"s"}]}` the error of the document decode is the
reported required-field error of the revision entry. -/
theorem C3_revision_without_uri_fails (x : Env) (kvs : List (String × Json))
    (xs : List Json) (es : List (String × Json))
    (hrev : ("revisions", Json.arr xs) ∈ kvs) (hmem : Json.obj es ∈ xs)
    (h : ∀ v, ("uri", v) ∈ es → v = Json.null) :
    RevisionsElem.UnmarshalJSON x (.obj es) = .error (.required "uri" "RevisionsElem") ∧
      (∃ e, Document.UnmarshalJSON x (.obj kvs) = .error e) ∧
      Document.UnmarshalJSON x
        (.obj [("uri", .str "a"), ("revisions", .arr [.obj [("slug", .str "s")]])]) =
        .error (.reported (.required "uri" "RevisionsElem")) := by
  refine ⟨RevisionsElem.UnmarshalJSON_entry_lacksUri x es h, ?_, rfl⟩
  exact Document.UnmarshalJSON_fail_of_members x kvs
    (Document.decodeMembers_fail_of_leaf x "revisions" (.arr xs) (by decide) (by decide)
      (by decide) (Plain.setLeaf_revisions_fail x xs es hmem h) kvs hrev)

/-- C3 at the input `{"uri":"a","revisions":[{"slug":"s"}]}`. -/
theorem C3_revision_without_uri_fails_witness :
    (∀ v, ("uri", v) ∈ [("slug", Json.str "s")] → v = Json.null) ∧
      ∃ e, Document.UnmarshalJSON Env.basic
        (.obj [("uri", .str "a"), ("revisions", .arr [.obj [("slug", .str "s")]])]) =
          .error e :=
  have h : ∀ v, ("uri", v) ∈ [("slug", Json.str "s")] → v = Json.null := by
    intro v hv
    simp at hv
  ⟨h, (C3_revision_without_uri_fails Env.basic
    [("uri", .str "a"), ("revisions", .arr [.obj [("slug", .str "s")]])]
    [.obj [("slug", .str "s")]] [("slug", .str "s")]
    (List.mem_cons_of_mem _ (List.mem_cons_self _ _)) (List.mem_cons_self _ _) h).2.1⟩

/-- C4: decoding `{"uri": u, "type": v}` succeeds exactly when `v` is one of
text, audio, video, picture, graphic, composite, planning, component, event; on
success the decoded `Type` is `v`; `{"uri": "a", "type": "bogus"}` fails. -/
theorem C4_type_is_validated (x : Env) (u v : String) :
    ((∃ d, Document.UnmarshalJSON x (.obj [("uri", .str u), ("type", .str v)]) = .ok d) ↔
        v ∈ ["text", "audio", "video", "picture", "graphic", "composite", "planning",
          "component", "event"]) ∧
      (∀ d, Document.UnmarshalJSON x (.obj [("uri", .str u), ("type", .str v)]) = .ok d →
        d.plain.Type_ = v) ∧
      ∃ e, Document.UnmarshalJSON x (.obj [("uri", .str "a"), ("type", .str "bogus")]) =
        .error e := by
  have h := Document.UnmarshalJSON_uri_enum x u "type" (.str v) (by decide) (by decide)
    (by decide) (by decide) _ _ _ (Plain.setLeaf_type x v _)
  refine ⟨h.1, ?_, ⟨_, rfl⟩⟩
  intro d hd
  rw [h.2 d hd]
  rfl

/-- C5: decoding `{"uri": u, "pubstatus": v}` succeeds exactly when `v` is one
of usable, withheld, canceled, replaced, commissioned; on success the decoded
`Pubstatus` is `v`. -/
theorem C5_pubstatus_is_validated (x : Env) (u v : String) :
    ((∃ d, Document.UnmarshalJSON x (.obj [("uri", .str u), ("pubstatus", .str v)]) =
        .ok d) ↔
        v ∈ ["usable", "withheld", "canceled", "replaced", "commissioned"]) ∧
      ∀ d, Document.UnmarshalJSON x (.obj [("uri", .str u), ("pubstatus", .str v)]) =
        .ok d → d.plain.Pubstatus = v := by
  have h := Document.UnmarshalJSON_uri_enum x u "pubstatus" (.str v) (by decide) (by decide)
    (by decide) (by decide) _ _ _ (Plain.setLeaf_pubstatus x v _)
  refine ⟨h.1, ?_⟩
  intro d hd
  rw [h.2 d hd]
  rfl

/-- C6: decoding `{"uri": u, "profile": v}` succeeds exactly when `v` is one of
PUBL, DATA, INFO, RAW; on success the decoded `Profile` is present and is
`v`. -/
theorem C6_profile_is_validated (x : Env) (u v : String) :
    ((∃ d, Document.UnmarshalJSON x (.obj [("uri", .str u), ("profile", .str v)]) =
        .ok d) ↔
        v ∈ ["PUBL", "DATA", "INFO", "RAW"]) ∧
      ∀ d, Document.UnmarshalJSON x (.obj [("uri", .str u), ("profile", .str v)]) =
        .ok d → d.plain.Profile = some v := by
  have h := Document.UnmarshalJSON_uri_enum x u "profile" (.str v) (by decide) (by decide)
    (by decide) (by decide) _ _ _ (Plain.setLeaf_profile x v _)
  refine ⟨h.1, ?_⟩
  intro d hd
  rw [h.2 d hd]
  rfl

/-- C7: decoding `{"uri": u, "representationtype": v}` succeeds exactly when `v`
is one of complete, incomplete, associated; on success the decoded
`Representationtype` is present and is `v`. -/
theorem C7_representationtype_is_validated (x : Env) (u v : String) :
    ((∃ d, Document.UnmarshalJSON x
        (.obj [("uri", .str u), ("representationtype", .str v)]) = .ok d) ↔
        v ∈ ["complete", "incomplete", "associated"]) ∧
      ∀ d, Document.UnmarshalJSON x
        (.obj [("uri", .str u), ("representationtype", .str v)]) = .ok d →
        d.plain.Representationtype = some v := by
  have h := Document.UnmarshalJSON_uri_enum x u "representationtype" (.str v) (by decide)
    (by decide) (by decide) (by decide) _ _ _ (Plain.setLeaf_representationtype x v _)
  refine ⟨h.1, ?_⟩
  intro d hd
  rw [h.2 d hd]
  rfl

/-- C8: the deprecated `sector` is validated: decoding `{"uri": u, "sector": v}`
succeeds exactly when `v` is one of INR, UTR, EKO, KLT, SPT, FEA, NOJ, PRM; on
success the decoded `Sector` is present and is `v`. -/
theorem C8_sector_is_validated (x : Env) (u v : String) :
    ((∃ d, Document.UnmarshalJSON x (.obj [("uri", .str u), ("sector", .str v)]) =
        .ok d) ↔
        v ∈ ["INR", "UTR", "EKO", "KLT", "SPT", "FEA", "NOJ", "PRM"]) ∧
      ∀ d, Document.UnmarshalJSON x (.obj [("uri", .str u), ("sector", .str v)]) =
        .ok d → d.plain.Sector = some v := by
  have h := Document.UnmarshalJSON_uri_enum x u "sector" (.str v) (by decide) (by decide)
    (by decide) (by decide) _ _ _ (Plain.setLeaf_sector x v _)
  refine ⟨h.1, ?_⟩
  intro d hd
  rw [h.2 d hd]
  rfl

/-- C9 (the code at the failing input): `signals.updatetype` has no validating
`UnmarshalJSON`; decoding `{"uri": u, "signals": {"updatetype": v}}` succeeds for
every string `v` and stores `v`, also for `v` outside KORR, RÄ, UV. -/
theorem C9_updatetype_is_not_validated (x : Env) (u v : String) :
    ∃ d, Document.UnmarshalJSON x
        (.obj [("uri", .str u), ("signals", .obj [("updatetype", .str v)])]) = .ok d ∧
      d.plain.Signals.Updatetype = some v :=
  ⟨_, rfl, rfl⟩

/-- C10: decoding `{"uri": u, "advice": [{"role": v}]}` succeeds exactly when
`v` is `publish`; and every document whose `advice` array contains an element
`{"role": v}` with another `v` fails. -/
theorem C10_advice_role_is_validated (x : Env) (u v : String) :
    ((∃ d, Document.UnmarshalJSON x
        (.obj [("uri", .str u), ("advice", .arr [.obj [("role", .str v)]])]) = .ok d) ↔
        v = "publish") ∧
      ∀ kvs xs, ("advice", Json.arr xs) ∈ kvs → Json.obj [("role", .str v)] ∈ xs →
        v ≠ "publish" → ∃ e, Document.UnmarshalJSON x (.obj kvs) = .error e := by
  have h := Document.UnmarshalJSON_uri_enum x u "advice" (.arr [.obj [("role", .str v)]])
    (by decide) (by decide) (by decide) (by decide) _ _ _ (Plain.setLeaf_advice_role x v _)
  refine ⟨h.1.trans List.mem_singleton, ?_⟩
  intro kvs xs hkvs hxs hv
  exact Document.UnmarshalJSON_fail_of_members x kvs
    (Document.decodeMembers_fail_of_leaf x "advice" (.arr xs) (by decide) (by decide)
      (by decide) (Plain.setLeaf_advice_fail x xs v hxs hv) kvs hkvs)

/-! ### Encoded structs -/

/-- The encoder of a document is the struct encoder on the members of its
fields. -/
theorem Document.encode_mk (x : Env) (s : Plain Document) :
    Document.encode x (.mk s) =
      encodeStruct (Plain.members x s (Document.encodeMap x s.Assignments)
        (Document.encodeMap x s.Associations)) := by
  cases s
  rfl

/-- A successful struct encoding is the object of its joined members. -/
theorem encodeStruct_ok (ms : List (Except Error (List (String × Json)))) (j : Json)
    (h : encodeStruct ms = .ok j) : ∃ l, joinMembers ms = .ok l ∧ j = .obj l := by
  unfold encodeStruct at h
  cases hj : joinMembers ms with
  | error e => rw [hj] at h; cases h
  | ok l => rw [hj] at h; cases h; exact ⟨l, rfl, rfl⟩

/-- The joined members are the members of the fields, nothing else. -/
theorem joinMembers_mem (ms : List (Except Error (List (String × Json))))
    (l : List (String × Json)) (h : joinMembers ms = .ok l) (kv : String × Json) :
    kv ∈ l ↔ ∃ a, Except.ok a ∈ ms ∧ kv ∈ a := by
  induction ms generalizing l with
  | nil =>
    rw [joinMembers] at h
    cases h
    simp
  | cons m rest ih =>
    cases m with
    | error e => rw [joinMembers] at h; cases h
    | ok a =>
      rw [joinMembers] at h
      cases hr : joinMembers rest with
      | error e => simp only [hr] at h; cases h
      | ok b =>
        simp only [hr] at h
        cases h
        rw [List.mem_append, ih b hr]
        constructor
        · rintro (h1 | ⟨a', h1, h2⟩)
          · exact ⟨a, List.mem_cons_self _ _, h1⟩
          · exact ⟨a', List.mem_cons_of_mem _ h1, h2⟩
        · rintro ⟨a', h1, h2⟩
          rcases List.mem_cons.1 h1 with h3 | h3
          · cases h3
            exact Or.inl h2
          · exact Or.inr ⟨a', h3, h2⟩

/-- A member contributed by a field: the field is not skipped, the key is its tag
and the value is its encoding. -/
theorem member_ok (tag : String) (skip : Bool) (enc : Except Error Json)
    (a : List (String × Json)) (h : member tag skip enc = .ok a) (kv : String × Json)
    (hkv : kv ∈ a) : skip = false ∧ kv.1 = tag ∧ enc = .ok kv.2 := by
  unfold member at h
  cases skip with
  | true =>
    simp only [if_true] at h
    cases h
    cases hkv
  | false =>
    cases enc with
    | error e => cases h
    | ok j =>
      cases h
      rw [List.mem_singleton] at hkv
      subst hkv
      exact ⟨rfl, rfl, rfl⟩


/-- Every member of an encoded document with key `uri` holds the `Uri` field. -/
theorem Plain.members_uri (x : Env) (s : Plain Document) (ea eb : Except Error Json) :
    ∀ m ∈ Plain.members x s ea eb, ∀ a kv, m = Except.ok a → kv ∈ a → kv.1 = "uri" →
      kv.2 = Json.str s.Uri := by
  simp only [Plain.members, List.forall_mem_cons]
  refine ⟨?_, ?_, ?_, ?_, ?_, ?_, ?_, ?_, ?_, ?_, ?_, ?_, ?_, ?_, ?_, ?_, ?_, ?_, ?_, ?_, ?_, ?_, ?_, ?_,
    ?_, ?_, ?_, ?_, ?_, ?_, ?_, ?_, ?_, ?_, ?_, ?_, ?_, ?_, ?_, ?_, ?_, ?_, ?_, ?_, ?_, ?_, ?_, ?_,
    ?_, ?_, ?_, ?_, ?_, ?_, ?_, ?_, ?_, ?_, ?_, ?_, ?_, ?_, ?_, ?_, ?_, ?_, ?_, ?_, ?_, ?_, ?_, ?_,
    ?_⟩
  all_goals
    first
    | (intro a kv hm hkv hk
       obtain ⟨_, h1, h2⟩ := member_ok _ _ _ _ hm kv hkv
       first
       | exact absurd (h1.symm.trans hk) (by decide)
       | exact (Except.ok.inj h2).symm)
    | (intro m hm; cases hm)

/-- An encoded document has exactly its `Uri` under the key `uri`. -/
theorem Document.encode_uri (x : Env) (d : Document) (j : Json)
    (h : Document.encode x d = .ok j) :
    ∃ kvs, j = .obj kvs ∧ ("uri", Json.str d.plain.Uri) ∈ kvs ∧
      ∀ v, ("uri", v) ∈ kvs → v = Json.str d.plain.Uri := by
  obtain ⟨s⟩ := d
  rw [Document.encode_mk] at h
  obtain ⟨l, hl, rfl⟩ := encodeStruct_ok _ _ h
  refine ⟨l, rfl, ?_, ?_⟩
  · rw [joinMembers_mem _ l hl]
    refine ⟨[("uri", .str s.Uri)], ?_, List.mem_singleton.2 rfl⟩
    exact @List.getElem?_mem _ _ 64 _ rfl
  · intro v hv
    obtain ⟨a, ha, hkv⟩ := (joinMembers_mem _ l hl _).1 hv
    exact Plain.members_uri x s _ _ _ ha a _ rfl hkv rfl


/-- No member of an encoded document belongs to a field that holds its empty
value. -/
theorem Plain.members_emptyAt (x : Env) (s : Plain Document) (ea eb : Except Error Json) :
    ∀ m ∈ Plain.members x s ea eb, ∀ a kv, m = Except.ok a → kv ∈ a →
      Plain.emptyAt s kv.1 = false := by
  simp only [Plain.members, List.forall_mem_cons]
  refine ⟨?_, ?_, ?_, ?_, ?_, ?_, ?_, ?_, ?_, ?_, ?_, ?_, ?_, ?_, ?_, ?_, ?_, ?_, ?_, ?_, ?_, ?_, ?_, ?_,
    ?_, ?_, ?_, ?_, ?_, ?_, ?_, ?_, ?_, ?_, ?_, ?_, ?_, ?_, ?_, ?_, ?_, ?_, ?_, ?_, ?_, ?_, ?_, ?_,
    ?_, ?_, ?_, ?_, ?_, ?_, ?_, ?_, ?_, ?_, ?_, ?_, ?_, ?_, ?_, ?_, ?_, ?_, ?_, ?_, ?_, ?_, ?_, ?_,
    ?_⟩
  all_goals
    first
    | (intro a kv hm hkv
       obtain ⟨k, v⟩ := kv
       obtain ⟨h0, h1, _⟩ := member_ok _ _ _ _ hm (k, v) hkv
       cases h1
       exact h0)
    | (intro m hm; cases hm)

/-- An encoded revision entry has exactly its `Uri` under the key `uri`. -/
theorem RevisionsElem.encode_entry_uri (x : Env) (r : RevisionsElem) (j : Json)
    (h : RevisionsElem.encode x r = .ok j) :
    ∃ kvs, j = .obj kvs ∧ ("uri", Json.str r.Uri) ∈ kvs ∧
      ∀ v, ("uri", v) ∈ kvs → v = Json.str r.Uri := by
  obtain ⟨l, hl, rfl⟩ := encodeStruct_ok _ _ h
  refine ⟨l, rfl, ?_, ?_⟩
  · rw [joinMembers_mem _ l hl]
    refine ⟨[("uri", .str r.Uri)], ?_, List.mem_singleton.2 rfl⟩
    exact @List.getElem?_mem _ _ 2 _ rfl
  · intro v hv
    obtain ⟨a, ha, hkv⟩ := (joinMembers_mem _ l hl _).1 hv
    simp only [List.mem_cons, List.mem_singleton, List.not_mem_nil, or_false] at ha
    rcases ha with ha | ha | ha | ha
    all_goals
      obtain ⟨_, h1, h2⟩ := member_ok _ _ _ _ ha.symm _ hkv
      first
      | exact absurd (show "uri" = _ from h1) (by decide)
      | exact (Except.ok.inj h2).symm


/-! ### Unknown keys -/

/-- Reading a key of the raw map depends on the starting map only through that
key. -/
theorem GoMap.get_readMembers_congr (kvs : List (String × Json)) (m m' : List (String × Any))
    (q : String) (h : GoMap.get m q = GoMap.get m' q) :
    GoMap.get (Json.readMembers kvs m) q = GoMap.get (Json.readMembers kvs m') q := by
  induction kvs generalizing m m' with
  | nil => simpa only [Json.readMembers] using h
  | cons hd tl ih =>
    obtain ⟨k, v⟩ := hd
    rw [Json.readMembers, Json.readMembers]
    apply ih
    rw [GoMap.get_set, GoMap.get_set, h]

/-- A member with another key does not change what the raw map holds for a key. -/
theorem GoMap.get_readMembers_skip (pre post : List (String × Json)) (k : String) (v : Json)
    (m : List (String × Any)) (q : String) (hk : k ≠ q) :
    GoMap.get (Json.readMembers (pre ++ (k, v) :: post) m) q =
      GoMap.get (Json.readMembers (pre ++ post) m) q := by
  induction pre generalizing m with
  | nil =>
    rw [List.nil_append, List.nil_append, Json.readMembers]
    apply GoMap.get_readMembers_congr
    rw [GoMap.get_set, if_neg hk]
  | cons hd tl ih =>
    obtain ⟨k', v'⟩ := hd
    rw [List.cons_append, List.cons_append, Json.readMembers, Json.readMembers]
    exact ih _

/-- A member with a key other than `uri` does not change the required-field test. -/
theorem uriMissing_skip (pre post : List (String × Json)) (k : String) (v : Json)
    (hk : k ≠ "uri") :
    uriMissing (some (Json.readMembers (pre ++ (k, v) :: post) [])) =
      uriMissing (some (Json.readMembers (pre ++ post) [])) := by
  unfold uriMissing
  simp only [Option.getD]
  rw [GoMap.get_readMembers_skip pre post k v [] "uri" hk]

/-- The member loop skips a member whose key binds to no field. -/
theorem Document.decodeMembers_skip (x : Env) (pre post : List (String × Json)) (k : String)
    (v : Json) (hk : resolveField x Plain.tags k = none) (s : Plain Document) :
    Document.decodeMembers x (pre ++ (k, v) :: post) s =
      Document.decodeMembers x (pre ++ post) s := by
  induction pre generalizing s with
  | nil => rw [List.nil_append, List.nil_append, Document.decodeMembers, hk]
  | cons hd tl ih =>
    obtain ⟨k', v'⟩ := hd
    rw [List.cons_append, List.cons_append, Document.decodeMembers, Document.decodeMembers]
    cases resolveField x Plain.tags k' with
    | none => exact ih s
    | some t =>
      simp only []
      split
      · cases Document.decodeMap x v' s.Assignments with
        | error e => rfl
        | ok m => exact ih _
      · split
        · cases Document.decodeMap x v' s.Associations with
          | error e => rfl
          | ok m => exact ih _
        · cases Plain.setLeaf x t v' s with
          | error e => rfl
          | ok s' => exact ih _

/-- A key that binds to no field is not a tag. -/
theorem resolveField_none_ne (x : Env) (tags : List String) (k q : String) (hq : q ∈ tags)
    (hk : resolveField x tags k = none) : k ≠ q := by
  intro h
  subst h
  rw [resolveField_of_mem x tags k hq] at hk
  cases hk

/-- A member whose key binds to no field does not change the document decode. -/
theorem Document.UnmarshalJSON_skip (x : Env) (pre post : List (String × Json)) (k : String)
    (v : Json) (hk : resolveField x Plain.tags k = none) :
    Document.UnmarshalJSON x (.obj (pre ++ (k, v) :: post)) =
      Document.UnmarshalJSON x (.obj (pre ++ post)) := by
  have hne : k ≠ "uri" := resolveField_none_ne x Plain.tags k "uri" (by decide) hk
  rw [Document.UnmarshalJSON, Document.UnmarshalJSON]
  simp only [unmarshalRaw, uriMissing_skip pre post k v hne,
    Document.decodeMembers_skip x pre post k v hk]

/-! ### What a successful decode says about the input -/

/-- A value that decodes as a document is an object with a `uri` member that is
not null. -/
theorem Document.UnmarshalJSON_ok_obj (x : Env) (b : Json) (d : Document)
    (h : Document.UnmarshalJSON x b = .ok d) :
    ∃ kvs, b = .obj kvs ∧ ∃ v, ("uri", v) ∈ kvs ∧ v ≠ Json.null := by
  cases b with
  | obj kvs =>
    refine ⟨kvs, rfl, ?_⟩
    by_contra hno
    have hl : ∀ v, ("uri", v) ∈ kvs → v = Json.null := by
      intro v hv
      by_contra hne
      exact hno ⟨v, hv, hne⟩
    rw [Document.UnmarshalJSON_lacksUri x kvs hl] at h
    cases h
  | null => cases h
  | bool _ => cases h
  | num _ => cases h
  | str _ => cases h
  | arr _ => cases h

/-- A value that decodes as a revision entry is an object with a `uri` member
that is not null. -/
theorem RevisionsElem.UnmarshalJSON_entry_ok_obj (x : Env) (b : Json) (r : RevisionsElem)
    (h : RevisionsElem.UnmarshalJSON x b = .ok r) :
    ∃ es, b = .obj es ∧ ∃ v, ("uri", v) ∈ es ∧ v ≠ Json.null := by
  cases b with
  | obj es =>
    refine ⟨es, rfl, ?_⟩
    by_contra hno
    have hl : ∀ v, ("uri", v) ∈ es → v = Json.null := by
      intro v hv
      by_contra hne
      exact hno ⟨v, hv, hne⟩
    rw [RevisionsElem.UnmarshalJSON_entry_lacksUri x es hl] at h
    cases h
  | null => cases h
  | bool _ => cases h
  | num _ => cases h
  | str _ => cases h
  | arr _ => cases h

/-- The setter of `revisions` fails on an array with an element that fails. -/
theorem Plain.setLeaf_revisions_fail_of_elem (x : Env) (xs : List Json) (e : Json)
    (hmem : e ∈ xs) (he : ∃ err, RevisionsElem.UnmarshalJSON x e = .error err)
    (s : Plain Document) :
    ∃ err, Plain.setLeaf x "revisions" (.arr xs) s = .error err := by
  obtain ⟨err, herr⟩ := he
  have hv : ∃ e', decodeUnmarshaler (RevisionsElem.UnmarshalJSON x) e {} = .error e' :=
    ⟨.reported err, by simp only [decodeUnmarshaler, herr]⟩
  obtain ⟨e', he'⟩ := decodeSlice_fail_of_mem ({} : RevisionsElem)
    (decodeUnmarshaler (RevisionsElem.UnmarshalJSON x)) e hv xs hmem s.Revisions
  refine ⟨e', ?_⟩
  show (decodeSlice {} (decodeUnmarshaler (RevisionsElem.UnmarshalJSON x)) (.arr xs)
    s.Revisions).map _ = _
  rw [he']
  rfl

/-- In a document object that decodes, every element of a `revisions` array is an
object with a `uri` member that is not null. -/
theorem Document.UnmarshalJSON_ok_revisions (x : Env) (kvs : List (String × Json))
    (d : Document) (h : Document.UnmarshalJSON x (.obj kvs) = .ok d) (xs : List Json)
    (e : Json) (hrev : ("revisions", Json.arr xs) ∈ kvs) (he : e ∈ xs) :
    ∃ es, e = .obj es ∧ ∃ v, ("uri", v) ∈ es ∧ v ≠ Json.null := by
  cases hr : RevisionsElem.UnmarshalJSON x e with
  | ok r => exact RevisionsElem.UnmarshalJSON_entry_ok_obj x e r hr
  | error err =>
    exfalso
    obtain ⟨e', he'⟩ := Document.UnmarshalJSON_fail_of_members x kvs
      (Document.decodeMembers_fail_of_leaf x "revisions" (.arr xs) (by decide) (by decide)
        (by decide) (Plain.setLeaf_revisions_fail_of_elem x xs e he ⟨err, hr⟩) kvs hrev)
    rw [he'] at h
    cases h

/-- When a document decodes, every value embedded in it decodes. -/
theorem Document.UnmarshalJSON_ok_embedded (x : Env) (b top : Json) (d : Document)
    (h : Document.UnmarshalJSON x top = .ok d) (hemb : Embedded b top) :
    ∃ d', Document.UnmarshalJSON x b = .ok d' := by
  cases hb : Document.UnmarshalJSON x b with
  | ok d' => exact ⟨d', rfl⟩
  | error e =>
    exfalso
    obtain ⟨e', he'⟩ := Document.UnmarshalJSON_fail_of_embedded x b top hemb ⟨e, hb⟩
    rw [he'] at h
    cases h


/-! ### Place geometry -/

/-- A member that fails from every state fails every member list that contains
it (member loop of the library). -/
theorem decodeMembers_fail_of_member {σ : Type} (x : Env) (tags : List String)
    (setField : String → Json → σ → Except Error σ) (k : String) (w : Json)
    (hk : k ∈ tags) (hfail : ∀ s, ∃ e, setField k w s = .error e)
    (kvs : List (String × Json)) (hmem : (k, w) ∈ kvs) :
    ∀ s, ∃ e, decodeMembers x tags setField kvs s = .error e := by
  induction kvs with
  | nil => cases hmem
  | cons hd tl ih =>
    intro s
    obtain ⟨k', v'⟩ := hd
    rw [decodeMembers]
    rcases List.mem_cons.1 hmem with h | h
    · cases h
      obtain ⟨e, he⟩ := hfail s
      rw [resolveField_of_mem x tags k hk]
      exact ⟨e, by simp only [he]⟩
    · cases resolveField x tags k' with
      | none => exact ih h s
      | some t =>
        simp only []
        cases setField t v' s with
        | error e => exact ⟨e, rfl⟩
        | ok s' => exact ih h s'

/-- The decoder of the place geometry on `{"type": v}`. -/
theorem PlaceElemGeometryGeojson.decode_type (x : Env) (v : String) :
    PlaceElemGeometryGeojson.decode x (.obj [("type", .str v)]) {} =
      if v ∈ enumValues_PlaceElemGeometryGeojsonType then .ok { Type_ := v }
      else .error (.reported (.invalidValue enumValues_PlaceElemGeometryGeojsonType v)) := by
  have h1 : PlaceElemGeometryGeojson.decode x (.obj [("type", .str v)]) {} =
      decodeMembers x PlaceElemGeometryGeojson.tags PlaceElemGeometryGeojson.setField
        [("type", .str v)] {} := rfl
  have h2 : PlaceElemGeometryGeojson.setField "type" (.str v) {} =
      (decodeUnmarshaler (enumUnmarshalJSON enumValues_PlaceElemGeometryGeojsonType)
        (.str v) "").map fun a => { Type_ := a } := rfl
  rw [h1, decodeMembers_cons_of_mem x _ _ _ _ _ _ (by decide), h2, decodeUnmarshaler_enum_str]
  by_cases h : v ∈ enumValues_PlaceElemGeometryGeojsonType
  · rw [if_pos h, if_pos h]; rfl
  · rw [if_neg h, if_neg h]; rfl

/-- The decoder of `PlaceElem` on `{"geometry_geojson": g}`. -/
theorem PlaceElem.decode_geometry (x : Env) (g : Json) (hg : g ≠ Json.null) :
    PlaceElem.decode x (.obj [("geometry_geojson", g)]) {} =
      (PlaceElemGeometryGeojson.decode x g {}).map fun a => { GeometryGeojson := some a } := by
  have h1 : PlaceElem.decode x (.obj [("geometry_geojson", g)]) {} =
      decodeMembers x PlaceElem.tags (PlaceElem.setField x) [("geometry_geojson", g)] {} := rfl
  have h2 : PlaceElem.setField x "geometry_geojson" g {} =
      (decodePtr {} (PlaceElemGeometryGeojson.decode x) g none).map
        fun a => { GeometryGeojson := a } := rfl
  have h3 : decodePtr {} (PlaceElemGeometryGeojson.decode x) g none =
      (PlaceElemGeometryGeojson.decode x g {}).map some := by
    cases g <;> first | rfl | exact absurd rfl hg
  rw [h1, decodeMembers_cons_of_mem x _ _ _ _ _ _ (by decide), h2, h3]
  cases PlaceElemGeometryGeojson.decode x g {} <;> rfl

/-- The setter of `place` on `[{"geometry_geojson": {"type": v}}]`. -/
theorem Plain.setLeaf_place_type (x : Env) (v : String) (s : Plain Document) :
    Plain.setLeaf x "place" (.arr [.obj [("geometry_geojson", .obj [("type", .str v)])]]) s =
      if v ∈ enumValues_PlaceElemGeometryGeojsonType then
        .ok { s with Place := some [{ GeometryGeojson := some { Type_ := v } }] }
      else .error (.reported (.invalidValue enumValues_PlaceElemGeometryGeojsonType v)) := by
  have h1 : Plain.setLeaf x "place"
      (.arr [.obj [("geometry_geojson", .obj [("type", .str v)])]]) s =
      (decodeSlice {} (PlaceElem.decode x)
        (.arr [.obj [("geometry_geojson", .obj [("type", .str v)])]]) s.Place).map
        fun a => { s with Place := a } := rfl
  rw [h1, decodeSlice_singleton, PlaceElem.decode_geometry x _ (by intro h; cases h),
    PlaceElemGeometryGeojson.decode_type]
  by_cases h : v ∈ enumValues_PlaceElemGeometryGeojsonType
  · rw [if_pos h, if_pos h]; rfl
  · rw [if_neg h, if_neg h]; rfl

/-- The setter of `place` fails on an array with an element whose geometry has a
`type` other than `Point`. -/
theorem Plain.setLeaf_place_fail (x : Env) (xs : List Json) (es gs : List (String × Json))
    (v : String) (hxs : Json.obj es ∈ xs) (hes : ("geometry_geojson", Json.obj gs) ∈ es)
    (hgs : ("type", Json.str v) ∈ gs) (hv : v ≠ "Point") (s : Plain Document) :
    ∃ e, Plain.setLeaf x "place" (.arr xs) s = .error e := by
  have hv' : v ∉ enumValues_PlaceElemGeometryGeojsonType := by
    intro h
    exact hv (List.mem_singleton.1 h)
  have h1 : ∀ st : PlaceElemGeometryGeojson,
      ∃ e, PlaceElemGeometryGeojson.setField "type" (.str v) st = .error e := by
    intro st
    refine ⟨.reported (.invalidValue enumValues_PlaceElemGeometryGeojsonType v), ?_⟩
    show (decodeUnmarshaler (enumUnmarshalJSON enumValues_PlaceElemGeometryGeojsonType)
      (.str v) st.Type_).map _ = _
    rw [decodeUnmarshaler_enum_str, if_neg hv']
    rfl
  have h2 : ∀ cur, ∃ e, PlaceElemGeometryGeojson.decode x (.obj gs) cur = .error e :=
    decodeMembers_fail_of_member x _ _ "type" (.str v) (by decide) h1 gs hgs
  have h3 : ∀ st : PlaceElem,
      ∃ e, PlaceElem.setField x "geometry_geojson" (.obj gs) st = .error e := by
    intro st
    obtain ⟨e, he⟩ := h2 (st.GeometryGeojson.getD {})
    refine ⟨e, ?_⟩
    show ((PlaceElemGeometryGeojson.decode x (.obj gs) (st.GeometryGeojson.getD {})).map
      some).map _ = _
    rw [he]
    rfl
  have h4 : ∃ e, PlaceElem.decode x (.obj es) {} = .error e :=
    decodeMembers_fail_of_member x _ _ "geometry_geojson" (.obj gs) (by decide) h3 es hes {}
  obtain ⟨e, he⟩ := decodeSlice_fail_of_mem ({} : PlaceElem) (PlaceElem.decode x) _ h4 xs
    hxs s.Place
  refine ⟨e, ?_⟩
  show (decodeSlice {} (PlaceElem.decode x) (.arr xs) s.Place).map _ = _
  rw [he]
  rfl

/-! ### The claims, continued -/

/-- C11: decoding `{"uri": u, "place": [{"geometry_geojson": {"type": v}}]}`
succeeds exactly when `v` is `Point`; and every document whose `place` array
contains an element whose `geometry_geojson` object has a `type` member with
another string fails. -/
theorem C11_geometry_type_is_validated (x : Env) (u v : String) :
    ((∃ d, Document.UnmarshalJSON x
        (.obj [("uri", .str u),
          ("place", .arr [.obj [("geometry_geojson", .obj [("type", .str v)])]])]) = .ok d) ↔
        v = "Point") ∧
      ∀ kvs xs es gs, ("place", Json.arr xs) ∈ kvs → Json.obj es ∈ xs →
        ("geometry_geojson", Json.obj gs) ∈ es → ("type", Json.str v) ∈ gs →
        v ≠ "Point" → ∃ e, Document.UnmarshalJSON x (.obj kvs) = .error e := by
  have h := Document.UnmarshalJSON_uri_enum x u "place"
    (.arr [.obj [("geometry_geojson", .obj [("type", .str v)])]])
    (by decide) (by decide) (by decide) (by decide) _ _ _ (Plain.setLeaf_place_type x v _)
  refine ⟨h.1.trans List.mem_singleton, ?_⟩
  intro kvs xs es gs hkvs hxs hes hgs hv
  exact Document.UnmarshalJSON_fail_of_members x kvs
    (Document.decodeMembers_fail_of_leaf x "place" (.arr xs) (by decide) (by decide)
      (by decide) (Plain.setLeaf_place_fail x xs es gs v hxs hes hgs hv) kvs hkvs)

/-- C13 (as stated, refuted): the empty string is accepted as `uri`.  Decoding
`{"uri": ""}` succeeds with `Uri = ""`, and so does a document with an empty
`uri` on itself, on a revision entry and on an embedded document. -/
theorem C13_empty_uri_is_accepted :
    (∃ d, Document.UnmarshalJSON Env.basic (.obj [("uri", .str "")]) = .ok d ∧
      d.plain.Uri = "") ∧
    ∃ d, Document.UnmarshalJSON Env.basic
      (.obj [("uri", .str ""), ("revisions", .arr [.obj [("uri", .str "")]]),
        ("associations", .obj [("x", .obj [("uri", .str "")])])]) = .ok d ∧
      d.plain.Uri = "" ∧
      d.plain.Revisions = some [{ Uri := "" }] ∧
      d.plain.Associations = some [("x", .mk { Uri := "" })] :=
  ⟨⟨_, rfl, rfl⟩, ⟨_, rfl, rfl, rfl, rfl⟩⟩

/-- C13 (as amended): when the decode of `top` succeeds, every value `b`
embedded in `top` at any depth (`top` itself included) is an object with a `uri`
member that is not null, and every element of a `revisions` array of `b` is an
object with a `uri` member that is not null.  Whether the string is empty is not
checked. -/
theorem C13_uri_is_present_and_not_null_at_every_level (x : Env) (top b : Json)
    (d : Document) (h : Document.UnmarshalJSON x top = .ok d) (hemb : Embedded b top) :
    ∃ kvs, b = Json.obj kvs ∧ (∃ v, ("uri", v) ∈ kvs ∧ v ≠ Json.null) ∧
      ∀ xs e, ("revisions", Json.arr xs) ∈ kvs → e ∈ xs →
        ∃ es, e = Json.obj es ∧ ∃ v, ("uri", v) ∈ es ∧ v ≠ Json.null := by
  obtain ⟨d', hd'⟩ := Document.UnmarshalJSON_ok_embedded x b top d h hemb
  obtain ⟨kvs, rfl, hu⟩ := Document.UnmarshalJSON_ok_obj x b d' hd'
  exact ⟨kvs, rfl, hu, fun xs e hrev he =>
    Document.UnmarshalJSON_ok_revisions x kvs d' hd' xs e hrev he⟩

/-- C13 (as amended) at the input `{"uri": "", "associations": {"x": {"uri":
""}}}`, for the embedded object: the decode succeeds, and the embedded object has
a `uri` member that is not null. -/
theorem C13_uri_is_present_and_not_null_at_every_level_witness :
    Embedded (.obj [("uri", .str "")])
        (.obj [("uri", .str ""), ("associations", .obj [("x", .obj [("uri", .str "")])])]) ∧
      ∃ kvs, Json.obj [("uri", .str "")] = Json.obj kvs ∧
        (∃ v, ("uri", v) ∈ kvs ∧ v ≠ Json.null) ∧
        ∀ xs e, ("revisions", Json.arr xs) ∈ kvs → e ∈ xs →
          ∃ es, e = Json.obj es ∧ ∃ v, ("uri", v) ∈ es ∧ v ≠ Json.null :=
  have hemb : Embedded (.obj [("uri", .str "")])
      (.obj [("uri", .str ""), ("associations", .obj [("x", .obj [("uri", .str "")])])]) :=
    Embedded.under _ _ "associations" "x" _ _ (Or.inl rfl)
      (List.mem_cons_of_mem _ (List.mem_cons_self _ _)) (List.mem_cons_self _ _)
      (Embedded.here _)
  ⟨hemb, C13_uri_is_present_and_not_null_at_every_level Env.basic _ _
    (.mk { Uri := "", Associations := some [("x", .mk { Uri := "" })] }) (by rfl) hemb⟩

/-- C14: decoding `{"uri": s}` succeeds for every string `s` and gives the
document whose `Uri` is `s` and whose other fields all are at their zero value;
in particular the enumeration fields are empty or absent and `Versioncreated` is
the zero time. -/
theorem C14_uri_is_the_only_required_field (x : Env) (s : String) :
    Document.UnmarshalJSON x (.obj [("uri", .str s)]) = .ok (.mk { Uri := s }) ∧
      (Document.mk { Uri := s }).plain.Uri = s ∧
      (Document.mk { Uri := s }).plain.Type_ = "" ∧
      (Document.mk { Uri := s }).plain.Pubstatus = "" ∧
      (Document.mk { Uri := s }).plain.Profile = none ∧
      (Document.mk { Uri := s }).plain.Representationtype = none ∧
      (Document.mk { Uri := s }).plain.Sector = none ∧
      (Document.mk { Uri := s }).plain.Versioncreated = {} :=
  ⟨rfl, rfl, rfl, rfl, rfl, rfl, rfl, rfl⟩

/-- C15 (as stated, refuted): keys are matched without regard to case, so a key
that is no field name can still bind to a field.  `TYPE` is not a tag of the
model, `{"uri": "a"}` decodes, and `{"uri": "a", "TYPE": "bogus"}` fails. -/
theorem C15_key_that_differs_in_case_is_not_ignored :
    "TYPE" ∉ Plain.tags ∧
      (∃ d, Document.UnmarshalJSON Env.basic (.obj [("uri", .str "a")]) = .ok d) ∧
      ∃ e, Document.UnmarshalJSON Env.basic
        (.obj [("uri", .str "a"), ("TYPE", .str "bogus")]) = .error e :=
  ⟨by decide, ⟨_, rfl⟩, ⟨.reported (.invalidValue enumValues_Type "bogus"), by rfl⟩⟩

/-- C18 (the code at the failing input): a Document whose optional fields all
are zero encodes to an object with four keys, not one: the struct-typed fields
`$standard` and `signals` and the zero `versioncreated` are written although
their tags say `omitempty`. -/
theorem C18_zero_document_encodes_four_keys (u : String) :
    Document.encode Env.basic (.mk { Uri := u }) =
      .ok (.obj [("$standard", .obj []), ("signals", .obj []), ("uri", .str u),
        ("versioncreated", .str "0001-01-01T00:00:00Z")]) :=
  rfl

/-- C19: when the encode of a Document succeeds, the encoded object has no
member for a field that holds its empty value (empty string, slice or map of
length 0, nil pointer, number 0). -/
theorem C19_empty_optional_fields_are_omitted (x : Env) (d : Document)
    (kvs : List (String × Json)) (tag : String)
    (henc : Document.encode x d = .ok (.obj kvs))
    (hempty : Plain.emptyAt d.plain tag = true) :
    ∀ v, (tag, v) ∉ kvs := by
  obtain ⟨s⟩ := d
  rw [Document.encode_mk] at henc
  obtain ⟨l, hl, hj⟩ := encodeStruct_ok _ _ henc
  cases hj
  intro v hv
  obtain ⟨a, ha, hkv⟩ := (joinMembers_mem _ _ hl _).1 hv
  have := Plain.members_emptyAt x s _ _ _ ha a _ rfl hkv
  rw [show (Document.mk s).plain = s from rfl] at hempty
  rw [hempty] at this
  cases this

/-- C19 at a Document with `Headline = ""`: it encodes, and the encoded object
has no `headline` member. -/
theorem C19_empty_optional_fields_are_omitted_witness :
    Document.encode Env.basic (.mk { Uri := "a", Headline := "" }) =
        .ok (.obj [("$standard", .obj []), ("signals", .obj []), ("uri", .str "a"),
          ("versioncreated", .str "0001-01-01T00:00:00Z")]) ∧
      Plain.emptyAt (Document.mk { Uri := "a", Headline := "" }).plain "headline" = true ∧
      ∀ v, ("headline", v) ∉ [("$standard", Json.obj []), ("signals", .obj []),
        ("uri", .str "a"), ("versioncreated", .str "0001-01-01T00:00:00Z")] :=
  ⟨rfl, rfl, C19_empty_optional_fields_are_omitted Env.basic
    (.mk { Uri := "a", Headline := "" }) _ "headline" rfl rfl⟩

/-- C20: when the encode of a Document succeeds, the result is an object that
has a `uri` member holding `Uri`, and no other `uri` member, whatever `Uri` is;
the same holds for the encoding of a revision entry. -/
theorem C20_uri_is_always_emitted (x : Env) (d : Document) (j : Json)
    (h : Document.encode x d = .ok j) :
    (∃ kvs, j = .obj kvs ∧ ("uri", Json.str d.plain.Uri) ∈ kvs ∧
      ∀ v, ("uri", v) ∈ kvs → v = Json.str d.plain.Uri) ∧
    ∀ (r : RevisionsElem) (jr : Json), RevisionsElem.encode x r = .ok jr →
      ∃ kvs, jr = .obj kvs ∧ ("uri", Json.str r.Uri) ∈ kvs ∧
        ∀ v, ("uri", v) ∈ kvs → v = Json.str r.Uri :=
  ⟨Document.encode_uri x d j h, RevisionsElem.encode_entry_uri x⟩

/-- C20 at the Document whose `Uri` is the empty string: it encodes, and the
object has the member `"uri": ""`. -/
theorem C20_uri_is_always_emitted_witness :
    Document.encode Env.basic (.mk { Uri := "" }) =
        .ok (.obj [("$standard", .obj []), ("signals", .obj []), ("uri", .str ""),
          ("versioncreated", .str "0001-01-01T00:00:00Z")]) ∧
      ∃ kvs, Json.obj [("$standard", .obj []), ("signals", .obj []), ("uri", .str ""),
          ("versioncreated", .str "0001-01-01T00:00:00Z")] = .obj kvs ∧
        ("uri", Json.str "") ∈ kvs ∧ ∀ v, ("uri", v) ∈ kvs → v = Json.str "" :=
  ⟨rfl, (C20_uri_is_always_emitted Env.basic (.mk { Uri := "" }) _ rfl).1⟩

/-! ### Round trips of the library types -/

/-- A round trip with an encoding that is not `null` is a round trip. -/
theorem RoundTrips.elem {α : Type} {enc : Enc α} {dec : Dec α} {zero : α} {norm : α → α}
    {a : α} (h : RoundTrips enc dec zero norm a) : ElemRoundTrips enc dec zero norm a :=
  let ⟨j, h1, _, h3⟩ := h
  ⟨j, h1, h3⟩

/-- Every string round-trips. -/
theorem roundTrips_string (a : String) : RoundTrips encodeString decodeString "" id a :=
  ⟨.str a, rfl, nofun, rfl⟩

/-- The literal written for an integer reads as that integer. -/
theorem JsonNumber.ofInt_value (i : Int) :
    (if (JsonNumber.ofInt i).negative then -((JsonNumber.ofInt i).integer : Int)
      else ((JsonNumber.ofInt i).integer : Int)) = i := by
  simp only [JsonNumber.ofInt]
  by_cases h : i < 0
  · simp only [h, decide_True, if_true]
    omega
  · simp only [h, decide_False, Bool.false_eq_true, if_false]
    omega

/-- Every integer in the range of `int` round-trips. -/
theorem roundTrips_int (i : Int) (h : IntOk i) : RoundTrips encodeInt decodeInt 0 id i := by
  refine ⟨.num (JsonNumber.ofInt i), rfl, nofun, ?_⟩
  have h1 : (JsonNumber.ofInt i).fraction = none := rfl
  have h2 : (JsonNumber.ofInt i).exponent = none := rfl
  simp only [decodeInt, JsonNumber.ofInt_value, h1, h2, true_and, id]
  exact if_pos h

/-- Every number round-trips. -/
theorem roundTrips_float64 (n : Float64) :
    RoundTrips encodeFloat64 decodeFloat64 Float64.zero id n :=
  ⟨.num n, rfl, nofun, rfl⟩

/-- Every boolean round-trips. -/
theorem roundTrips_bool (b : Bool) : RoundTrips encodeBool decodeBool false id b :=
  ⟨.bool b, rfl, nofun, rfl⟩

/-- A permitted value of an enumeration round-trips. -/
theorem roundTrips_enum (values : List String) (v : String) (h : EnumOk values v) :
    RoundTrips encodeString (decodeUnmarshaler (enumUnmarshalJSON values)) "" id v := by
  refine ⟨.str v, rfl, nofun, ?_⟩
  rw [decodeUnmarshaler_enum_str]
  exact if_pos h

/-- A timestamp that the environment writes and reads back round-trips. -/
theorem Time_roundTrips (x : Env) (t : Time) (h : TimeRoundTrips x t) :
    RoundTrips (Time.encode x) (Time.decode x) {} id t := by
  obtain ⟨s, h1, h2⟩ := h
  refine ⟨.str s, ?_, nofun, ?_⟩
  · simp only [Time.encode, h1]
  · simp only [Time.decode, h2, id]

/-- A date that the environment writes and reads back round-trips. -/
theorem SerializableDate_roundTrips (x : Env) (d : SerializableDate)
    (h : DateRoundTrips x d) :
    RoundTrips (SerializableDate.encode x) (SerializableDate.decode x) {} id d := by
  obtain ⟨j, h1, h2, h3⟩ := h
  refine ⟨j, ?_, h2, ?_⟩
  · simp only [SerializableDate.encode, h1]
  · simp only [SerializableDate.decode, h3, id]

/-! ### Round trips of struct fields -/

/-- A field that is always written round-trips when its value does. -/
theorem fieldRoundTrips_always {α : Type} {enc : Enc α} {dec : Dec α} {zero : α}
    {norm : α → α} {a : α} (h : ElemRoundTrips enc dec zero norm a) :
    FieldRoundTrips (fun _ => false) enc dec zero norm a :=
  Or.inr ⟨rfl, h⟩

/-- An optional string field round-trips. -/
theorem fieldRoundTrips_string (a : String) :
    FieldRoundTrips emptyString encodeString decodeString "" id a := by
  by_cases h : a = ""
  · exact Or.inl ⟨by simp only [emptyString, h, decide_True], h⟩
  · exact Or.inr ⟨by simp only [emptyString, h, decide_False], (roundTrips_string a).elem⟩

/-- An optional integer field round-trips. -/
theorem fieldRoundTrips_int (i : Int) (h : IntOk i) :
    FieldRoundTrips emptyInt encodeInt decodeInt 0 id i := by
  by_cases h0 : i = 0
  · exact Or.inl ⟨by simp only [emptyInt, h0, decide_True], h0⟩
  · exact Or.inr ⟨by simp only [emptyInt, h0, decide_False], (roundTrips_int i h).elem⟩

/-- An optional number field round-trips, up to the form of zero. -/
theorem fieldRoundTrips_float64 (n : Float64) :
    FieldRoundTrips emptyFloat64 encodeFloat64 decodeFloat64 Float64.zero normFloat64 n := by
  cases h : emptyFloat64 n
  · refine Or.inr ⟨h, .num n, rfl, ?_⟩
    simp only [normFloat64, h, Bool.false_eq_true, if_false]
    rfl
  · exact Or.inl ⟨h, by simp only [normFloat64, h, if_true]⟩

/-- An optional enumeration field round-trips when it is empty or holds a
permitted value. -/
theorem fieldRoundTrips_enum (values : List String) (v : String)
    (h : EnumOrEmpty values v) :
    FieldRoundTrips emptyString encodeString (decodeUnmarshaler (enumUnmarshalJSON values))
      "" id v := by
  by_cases h0 : v = ""
  · exact Or.inl ⟨by simp only [emptyString, h0, decide_True], h0⟩
  · refine Or.inr ⟨by simp only [emptyString, h0, decide_False], ?_⟩
    exact (roundTrips_enum values v (h.resolve_left h0)).elem

/-- The pointer decoder on a value that is not `null`. -/
theorem decodePtr_of_ne_null {α : Type} (zero : α) (dec : Dec α) (j : Json)
    (cur : Option α) (h : j ≠ Json.null) :
    decodePtr zero dec j cur = (dec j (cur.getD zero)).map some := by
  cases j with
  | null => exact absurd rfl h
  | _ => rfl

/-- An optional pointer field round-trips when the value it points to does. -/
theorem fieldRoundTrips_ptr {α : Type} (ok : α → Prop) {enc : Enc α} {dec : Dec α} {zero : α}
    {norm : α → α} (h : ∀ a, ok a → RoundTrips enc dec zero norm a) (p : Option α)
    (hp : PtrOk ok p) :
    FieldRoundTrips emptyPtr (encodePtr enc) (decodePtr zero dec) none (Option.map norm) p := by
  cases p with
  | none => exact Or.inl ⟨rfl, rfl⟩
  | some a =>
    obtain ⟨j, h1, h2, h3⟩ := h a (hp a rfl)
    refine Or.inr ⟨rfl, j, h1, ?_⟩
    rw [decodePtr_of_ne_null zero dec j none h2]
    show (dec j zero).map some = _
    rw [h3]
    rfl

/-- An optional pointer field round-trips exactly when the value it points to
does. -/
theorem fieldRoundTrips_ptr_id {α : Type} (ok : α → Prop) {enc : Enc α} {dec : Dec α}
    {zero : α} (h : ∀ a, ok a → RoundTrips enc dec zero id a) (p : Option α)
    (hp : PtrOk ok p) :
    FieldRoundTrips emptyPtr (encodePtr enc) (decodePtr zero dec) none id p := by
  have := fieldRoundTrips_ptr ok h p hp
  rwa [show Option.map (id : α → α) = id from funext fun o => by cases o <;> rfl] at this

/-- The elements of a slice round-trip one by one. -/
theorem encodeElems_decodeElems {α : Type} (ok : α → Prop) {enc : Enc α} {dec : Dec α}
    {zero : α} {norm : α → α} (h : ∀ a, ok a → ElemRoundTrips enc dec zero norm a)
    (l : List α) (hl : ∀ a ∈ l, ok a) :
    ∃ js, encodeElems enc l = .ok js ∧ decodeElems zero dec js = .ok (l.map norm) := by
  induction l with
  | nil => exact ⟨[], rfl, rfl⟩
  | cons a rest ih =>
    obtain ⟨j, h1, h2⟩ := h a (hl a (List.mem_cons_self _ _))
    obtain ⟨js, h3, h4⟩ := ih fun b hb => hl b (List.mem_cons_of_mem _ hb)
    refine ⟨j :: js, ?_, ?_⟩
    · simp only [encodeElems, h1, h3]
    · simp only [decodeElems, h2, h4, List.map_cons]

/-- An optional slice field round-trips when its elements do; a slice of length
0 comes back nil. -/
theorem fieldRoundTrips_slice {α : Type} (ok : α → Prop) {enc : Enc α} {dec : Dec α}
    {zero : α} {norm : α → α} (h : ∀ a, ok a → ElemRoundTrips enc dec zero norm a)
    (s : GoSlice α) (hs : SliceOk ok s) :
    FieldRoundTrips emptySlice (encodeSlice enc) (decodeSlice zero dec) none (normSlice norm)
      s := by
  cases s with
  | none => exact Or.inl ⟨rfl, rfl⟩
  | some l =>
    cases l with
    | nil => exact Or.inl ⟨rfl, rfl⟩
    | cons a rest =>
      obtain ⟨js, h1, h2⟩ := encodeElems_decodeElems ok h (a :: rest) (hs _ rfl)
      refine Or.inr ⟨rfl, .arr js, ?_, ?_⟩
      · simp only [encodeSlice, h1]
      · simp only [decodeSlice, h2]
        rfl

/-! ### Round trips of maps -/

/-- Assignment under a key that the map does not hold appends the entry. -/
theorem GoMap.set_of_not_mem {α : Type} (m : List (String × α)) (k : String) (a : α)
    (h : k ∉ m.map Prod.fst) : GoMap.set m k a = m ++ [(k, a)] := by
  induction m with
  | nil => rfl
  | cons hd tl ih =>
    obtain ⟨k0, v0⟩ := hd
    have h0 : ¬ k0 = k := fun e => h (by simp [e])
    have h1 : k ∉ tl.map Prod.fst := fun e => h (by simp [e])
    simp only [GoMap.set, if_neg h0, ih h1, List.cons_append]

/-- An entry of a map after an assignment is the assigned entry or was in the
map. -/
theorem GoMap.mem_set {α : Type} (m : List (String × α)) (k : String) (a : α)
    (kv : String × α) (h : kv ∈ GoMap.set m k a) : kv = (k, a) ∨ kv ∈ m := by
  induction m with
  | nil =>
    simp only [GoMap.set, List.mem_singleton] at h
    exact Or.inl h
  | cons hd tl ih =>
    obtain ⟨k0, v0⟩ := hd
    by_cases h0 : k0 = k
    · simp only [GoMap.set, if_pos h0, List.mem_cons] at h
      rcases h with h | h
      · exact Or.inl h
      · exact Or.inr (List.mem_cons_of_mem _ h)
    · simp only [GoMap.set, if_neg h0, List.mem_cons] at h
      rcases h with h | h
      · exact Or.inr (h ▸ List.mem_cons_self _ _)
      · rcases ih h with h | h
        · exact Or.inl h
        · exact Or.inr (List.mem_cons_of_mem _ h)

/-- The keys of a map after an assignment are the keys it had, and the assigned
key. -/
theorem GoMap.mem_keys_set {α : Type} (m : List (String × α)) (k k' : String) (a : α)
    (h : k' ∈ (GoMap.set m k a).map Prod.fst) : k' = k ∨ k' ∈ m.map Prod.fst := by
  obtain ⟨kv, h1, h2⟩ := List.mem_map.1 h
  rcases GoMap.mem_set m k a kv h1 with h3 | h3
  · exact Or.inl (by rw [← h2, h3])
  · exact Or.inr (List.mem_map.2 ⟨kv, h3, h2⟩)

/-- Assignment keeps the keys of a map pairwise distinct. -/
theorem GoMap.nodup_set {α : Type} (m : List (String × α)) (k : String) (a : α)
    (h : (m.map Prod.fst).Nodup) : ((GoMap.set m k a).map Prod.fst).Nodup := by
  induction m with
  | nil => simp [GoMap.set]
  | cons hd tl ih =>
    obtain ⟨k0, v0⟩ := hd
    simp only [List.map_cons, List.nodup_cons] at h
    by_cases h0 : k0 = k
    · simp only [GoMap.set, if_pos h0, List.map_cons, List.nodup_cons]
      exact ⟨h0 ▸ h.1, h.2⟩
    · simp only [GoMap.set, if_neg h0, List.map_cons, List.nodup_cons]
      refine ⟨fun hmem => ?_, ih h.2⟩
      rcases GoMap.mem_keys_set tl k k0 a hmem with h1 | h1
      · exact h0 h1
      · exact h.1 h1

/-- The keys of a member list after an insertion by key. -/
theorem insertByKey_keys_perm {α : Type} (k : String) (a : α) (l : List (String × α)) :
    ((insertByKey k a l).map Prod.fst).Perm (k :: l.map Prod.fst) := by
  induction l with
  | nil => exact List.Perm.refl _
  | cons hd tl ih =>
    obtain ⟨k0, v0⟩ := hd
    by_cases h : k0 < k
    · simp only [insertByKey, if_pos h, List.map_cons]
      exact (List.Perm.cons k0 ih).trans (List.Perm.swap k k0 _)
    · simp only [insertByKey, if_neg h, List.map_cons]
      exact List.Perm.refl _

/-- Sorting by key permutes the keys. -/
theorem sortByKey_keys_perm {α : Type} (l : List (String × α)) :
    ((sortByKey l).map Prod.fst).Perm (l.map Prod.fst) := by
  induction l with
  | nil => exact List.Perm.refl _
  | cons hd tl ih =>
    obtain ⟨k0, v0⟩ := hd
    simp only [sortByKey, List.map_cons]
    exact (insertByKey_keys_perm k0 v0 (sortByKey tl)).trans (List.Perm.cons k0 ih)

/-- Sorting by key keeps the members. -/
theorem mem_sortByKey {α : Type} (l : List (String × α)) (kv : String × α) :
    kv ∈ sortByKey l ↔ kv ∈ l := by
  have hins : ∀ (k : String) (a : α) (m : List (String × α)),
      kv ∈ insertByKey k a m ↔ kv = (k, a) ∨ kv ∈ m := by
    intro k a m
    induction m with
    | nil => simp [insertByKey]
    | cons hd tl ih =>
      obtain ⟨k0, v0⟩ := hd
      by_cases h : k0 < k
      · simp only [insertByKey, if_pos h, List.mem_cons, ih]
        tauto
      · simp only [insertByKey, if_neg h, List.mem_cons]
  induction l with
  | nil => simp [sortByKey]
  | cons hd tl ih =>
    obtain ⟨k0, v0⟩ := hd
    simp only [sortByKey, hins, ih, List.mem_cons]

/-- Insertion by key acts alike on two member lists with the same keys. -/
theorem forall₂_insertByKey {α β : Type} (R : String × α → String × β → Prop)
    (hR : ∀ e b, R e b → e.1 = b.1) (k : String) (a : α) (b : β) (hab : R (k, a) (k, b))
    (l1 : List (String × α)) (l2 : List (String × β)) (h : List.Forall₂ R l1 l2) :
    List.Forall₂ R (insertByKey k a l1) (insertByKey k b l2) := by
  induction h with
  | nil => exact List.Forall₂.cons hab List.Forall₂.nil
  | cons hhd htl ih =>
    rename_i e1 e2 t1 t2
    obtain ⟨k1, v1⟩ := e1
    obtain ⟨k2, v2⟩ := e2
    have hk : k1 = k2 := hR _ _ hhd
    subst hk
    by_cases hlt : k1 < k
    · simp only [insertByKey, if_pos hlt]
      exact List.Forall₂.cons hhd ih
    · simp only [insertByKey, if_neg hlt]
      exact List.Forall₂.cons hab (List.Forall₂.cons hhd htl)

/-- Sorting by key acts alike on two member lists with the same keys. -/
theorem forall₂_sortByKey {α β : Type} (R : String × α → String × β → Prop)
    (hR : ∀ e b, R e b → e.1 = b.1) (l1 : List (String × α)) (l2 : List (String × β))
    (h : List.Forall₂ R l1 l2) : List.Forall₂ R (sortByKey l1) (sortByKey l2) := by
  induction h with
  | nil => exact List.Forall₂.nil
  | cons hhd htl ih =>
    rename_i e1 e2 t1 t2
    obtain ⟨k1, v1⟩ := e1
    obtain ⟨k2, v2⟩ := e2
    have hk : k1 = k2 := hR _ _ hhd
    subst hk
    simp only [sortByKey]
    exact forall₂_insertByKey R hR k1 v1 v2 hhd _ _ ih

/-- Decoding members whose values decode to the values of `t`, under the keys of
`t`, appends `t` to a map that holds none of these keys. -/
theorem decodeEntries_of_forall₂ {α : Type} (zero : α) (dec : Dec α)
    (es : List (String × Json)) (t : List (String × α))
    (h : List.Forall₂ (fun e b => e.1 = b.1 ∧ dec e.2 zero = .ok b.2) es t) :
    ∀ acc : List (String × α), ((acc ++ t).map Prod.fst).Nodup →
      decodeEntries zero dec es acc = .ok (acc ++ t) := by
  induction h with
  | nil =>
    intro acc _
    simp only [decodeEntries, List.append_nil]
  | cons hhd htl ih =>
    rename_i e b es' t'
    intro acc hnd
    obtain ⟨k, v⟩ := e
    obtain ⟨k', w⟩ := b
    obtain ⟨hk, hv⟩ := hhd
    simp only at hk hv
    subst hk
    have hnot : k ∉ acc.map Prod.fst := by
      intro hmem
      rw [List.map_append, List.map_cons] at hnd
      have := (List.nodup_append.1 hnd).2.2
      exact this hmem (List.mem_cons_self _ _)
    have hnd' : (((acc ++ [(k, w)]) ++ t').map Prod.fst).Nodup := by
      rw [List.append_assoc]
      exact hnd
    simp only [decodeEntries, hv, GoMap.set_of_not_mem acc k w hnot]
    rw [ih _ hnd', List.append_assoc]
    rfl

/-- The values of the entries of a map round-trip one by one. -/
theorem encodeEntries_forall₂ {α : Type} (ok : α → Prop) {enc : Enc α} {dec : Dec α}
    {zero : α} {norm : α → α} (h : ∀ a, ok a → ElemRoundTrips enc dec zero norm a)
    (l : List (String × α)) (hl : ∀ kv ∈ l, ok kv.2) :
    ∃ es, encodeEntries enc l = .ok es ∧
      List.Forall₂ (fun e b => e.1 = b.1 ∧ dec e.2 zero = .ok b.2) es
        (l.map fun kv => (kv.1, norm kv.2)) := by
  induction l with
  | nil => exact ⟨[], rfl, List.Forall₂.nil⟩
  | cons hd tl ih =>
    obtain ⟨k, a⟩ := hd
    obtain ⟨j, h1, h2⟩ := h a (hl (k, a) (List.mem_cons_self _ _))
    obtain ⟨es, h3, h4⟩ := ih fun kv hkv => hl kv (List.mem_cons_of_mem _ hkv)
    refine ⟨(k, j) :: es, ?_, ?_⟩
    · simp only [encodeEntries, h1, h3]
    · exact List.Forall₂.cons ⟨rfl, h2⟩ h4

/-- The entries of a well-formed map round-trip: they come back in the order of
their keys. -/
theorem encodeEntries_decodeEntries {α : Type} (ok : α → Prop) {enc : Enc α} {dec : Dec α}
    {zero : α} {norm : α → α} (h : ∀ a, ok a → ElemRoundTrips enc dec zero norm a)
    (l : List (String × α)) (hnd : (l.map Prod.fst).Nodup) (hl : ∀ kv ∈ l, ok kv.2) :
    ∃ es, encodeEntries enc l = .ok es ∧
      decodeEntries zero dec (sortByKey es) [] = .ok (normEntries norm l) := by
  obtain ⟨es, h1, h2⟩ := encodeEntries_forall₂ ok h l hl
  refine ⟨es, h1, ?_⟩
  have h3 := forall₂_sortByKey _ (fun _ _ hr => hr.1) _ _ h2
  have h4 := decodeEntries_of_forall₂ zero dec _ _ h3 [] (by
    rw [List.nil_append]
    refine (sortByKey_keys_perm _).nodup_iff.2 ?_
    rw [List.map_map]
    exact hnd)
  rw [h4]
  rfl

/-- An optional map field round-trips when its values do; a map of length 0
comes back nil, the entries of another map in the order of their keys. -/
theorem fieldRoundTrips_map {α : Type} (ok : α → Prop) {enc : Enc α} {dec : Dec α}
    {zero : α} {norm : α → α} (h : ∀ a, ok a → ElemRoundTrips enc dec zero norm a)
    (m : GoMap α) (hm : MapOk ok m) :
    FieldRoundTrips emptyMap (encodeMap enc) (decodeMap zero dec) none (normMap norm) m := by
  cases m with
  | none => exact Or.inl ⟨rfl, rfl⟩
  | some l =>
    cases l with
    | nil => exact Or.inl ⟨rfl, rfl⟩
    | cons kv rest =>
      obtain ⟨hnd, hl⟩ := hm _ rfl
      obtain ⟨es, h1, h2⟩ := encodeEntries_decodeEntries ok h (kv :: rest) hnd hl
      refine Or.inr ⟨rfl, .obj (sortByKey es), ?_, ?_⟩
      · simp only [encodeMap, h1]
      · simp only [decodeMap, Option.getD, h2]
        rfl

/-! ### Round trips of `interface{}` values -/

/-- The map decoder for `interface{}` values is the generic decoder. -/
theorem decodeEntries_decodeAny (kvs : List (String × Json)) (m : List (String × Any)) :
    decodeEntries Any.nil decodeAny kvs m = .ok (Json.readMembers kvs m) := by
  induction kvs generalizing m with
  | nil => rfl
  | cons hd tl ih =>
    obtain ⟨k, v⟩ := hd
    simp only [decodeEntries, decodeAny, Json.readMembers]
    exact ih _

/-- Reading the encoded elements of a `[]interface{}`. -/
theorem Any.readElems_encodeElems (xs : List Any)
    (h : ∀ a ∈ xs, Json.read (Any.encode a) = Any.normalize a) :
    Json.readElems (Any.encodeElems xs) = Any.normalizeElems xs := by
  induction xs with
  | nil => rfl
  | cons b rest ih =>
    simp only [Any.encodeElems, Json.readElems, Any.normalizeElems]
    rw [h b (List.mem_cons_self _ _), ih fun c hc => h c (List.mem_cons_of_mem _ hc)]

/-- The encoded entries of a `map[string]interface{}` read as its entries. -/
theorem Any.forall₂_encodeEntries (m : List (String × Any))
    (h : ∀ kv ∈ m, Json.read (Any.encode kv.2) = Any.normalize kv.2) :
    List.Forall₂ (fun (e : String × Json) (b : String × Any) =>
        e.1 = b.1 ∧ decodeAny e.2 Any.nil = .ok b.2)
      (Any.encodeEntries m) (Any.normalizeEntries m) := by
  induction m with
  | nil => exact List.Forall₂.nil
  | cons kv rest ih =>
    obtain ⟨k, b⟩ := kv
    simp only [Any.encodeEntries, Any.normalizeEntries]
    refine List.Forall₂.cons ⟨rfl, ?_⟩ (ih fun c hc => h c (List.mem_cons_of_mem _ hc))
    simp only [decodeAny]
    rw [h (k, b) (List.mem_cons_self _ _)]

/-- The keys of the entries of a `map[string]interface{}` as they come back. -/
theorem Any.normalizeEntries_keys (m : List (String × Any)) :
    (Any.normalizeEntries m).map Prod.fst = m.map Prod.fst := by
  induction m with
  | nil => rfl
  | cons kv rest ih =>
    obtain ⟨k, b⟩ := kv
    simp only [Any.normalizeEntries, List.map_cons, ih]

/-- Reading the encoding of a well-formed `interface{}` value gives the value
with the entries of every map in the order of their keys. -/
theorem Any.read_encode (a : Any) (h : Any.WF a) : Json.read (Any.encode a) = Any.normalize a := by
  induction h with
  | nil => rfl
  | bool b => rfl
  | float64 n => rfl
  | string s => rfl
  | slice xs _ ih =>
    simp only [Any.encode, Json.read, Any.normalize, Any.readElems_encodeElems xs ih]
  | map m hnd _ ih =>
    have h3 := forall₂_sortByKey _ (fun _ _ hr => hr.1) _ _ (Any.forall₂_encodeEntries m ih)
    have h4 := decodeEntries_of_forall₂ Any.nil decodeAny _ _ h3 [] (by
      rw [List.nil_append]
      refine (sortByKey_keys_perm _).nodup_iff.2 ?_
      rw [Any.normalizeEntries_keys]
      exact hnd)
    rw [decodeEntries_decodeAny] at h4
    simp only [Any.encode, Json.read, Any.normalize]
    rw [Except.ok.inj h4]
    rfl

/-- Every well-formed `interface{}` value round-trips, up to the order of map
entries. -/
theorem Any_roundTrips (a : Any) (h : Any.WF a) :
    ElemRoundTrips encodeAny decodeAny Any.nil Any.normalize a :=
  ⟨Any.encode a, rfl, by simp only [decodeAny, Any.read_encode a h]⟩

mutual
/-- The generic decoder gives well-formed values. -/
theorem Json.read_wf : ∀ j : Json, Any.WF (Json.read j)
  | .null => Any.WF.nil
  | .bool b => Any.WF.bool b
  | .num n => Any.WF.float64 n
  | .str s => Any.WF.string s
  | .arr xs => Any.WF.slice _ (Json.readElems_wf xs)
  | .obj kvs =>
    Any.WF.map _ (Json.readMembers_wf kvs [] List.nodup_nil (fun _ h => nomatch h)).1
      (Json.readMembers_wf kvs [] List.nodup_nil (fun _ h => nomatch h)).2
/-- The generic decoder gives well-formed elements. -/
theorem Json.readElems_wf : ∀ xs : List Json, ∀ a ∈ Json.readElems xs, Any.WF a
  | [], _, h => nomatch h
  | v :: rest, a, h => by
    rw [Json.readElems, List.mem_cons] at h
    rcases h with h | h
    · exact h ▸ Json.read_wf v
    · exact Json.readElems_wf rest a h
/-- The generic decoder keeps a map well-formed. -/
theorem Json.readMembers_wf : ∀ (kvs : List (String × Json)) (m : List (String × Any)),
    (m.map Prod.fst).Nodup → (∀ kv ∈ m, Any.WF kv.2) →
      ((Json.readMembers kvs m).map Prod.fst).Nodup ∧
        ∀ kv ∈ Json.readMembers kvs m, Any.WF kv.2
  | [], m, h1, h2 => ⟨h1, h2⟩
  | (k, v) :: rest, m, h1, h2 => by
    rw [Json.readMembers]
    refine Json.readMembers_wf rest _ (GoMap.nodup_set m k _ h1) ?_
    intro kv hkv
    rcases GoMap.mem_set m k _ kv hkv with h | h
    · rw [h]
      exact Json.read_wf v
    · exact h2 kv h
end

/-! ### What the decoders of the library types produce -/

/-- A mapped result that is a success comes from a success. -/
theorem Except.map_eq_ok {ε α β : Type} (f : α → β) (e : Except ε α) (b : β)
    (h : e.map f = .ok b) : ∃ a, e = .ok a ∧ f a = b := by
  cases e with
  | error e => cases h
  | ok a => exact ⟨a, rfl, Except.ok.inj h⟩

/-- A decoder that keeps a property of the zero value gives it to fresh values. -/
theorem Preserves.fresh {α : Type} {ok : α → Prop} {dec : Dec α} (h : Preserves ok dec)
    (zero : α) (hz : ok zero) : Fresh ok zero dec :=
  fun v a ha => h v zero a hz ha

/-- The `int` decoder keeps the range. -/
theorem preserves_int : Preserves IntOk decodeInt := by
  intro v cur a hcur h
  cases v with
  | null => cases h; exact hcur
  | num n =>
    have h' : (if n.fraction = none ∧ n.exponent = none ∧
        minInt ≤ (if n.negative then -(n.integer : Int) else (n.integer : Int)) ∧
        (if n.negative then -(n.integer : Int) else (n.integer : Int)) ≤ maxInt
      then Except.ok (if n.negative then -(n.integer : Int) else (n.integer : Int))
      else Except.error Error.typeMismatch) = Except.ok a := h
    by_cases hr : n.fraction = none ∧ n.exponent = none ∧
        minInt ≤ (if n.negative then -(n.integer : Int) else (n.integer : Int)) ∧
        (if n.negative then -(n.integer : Int) else (n.integer : Int)) ≤ maxInt
    · rw [if_pos hr] at h'
      cases h'
      exact hr.2.2
    · rw [if_neg hr] at h'
      cases h'
  | _ => cases h

/-- Zero is in the range of `int`. -/
theorem intOk_zero : IntOk 0 := by
  constructor <;> decide

/-- The methods of the enumeration types give permitted values only. -/
theorem enumUnmarshalJSON_ok (values : List String) (b : Json) (v : String)
    (h : enumUnmarshalJSON values b = .ok v) : v ∈ values := by
  unfold enumUnmarshalJSON at h
  split at h
  · cases h
  · rename_i w _
    by_cases hl : enumLoop w values = true
    · simp only [hl, Bool.not_true, Bool.false_eq_true, if_false] at h
      cases h
      exact (enumLoop_iff _ _).1 hl
    · simp only [hl, Bool.not_false, if_true] at h
      cases h

/-- The library decoding through an enumeration method gives a permitted
value, whatever the target held. -/
theorem preserves_enum (values : List String) (ok : String → Prop)
    (hok : ∀ v, v ∈ values → ok v) :
    Preserves ok (decodeUnmarshaler (enumUnmarshalJSON values)) := by
  intro v cur a _ h
  unfold decodeUnmarshaler at h
  split at h
  · rename_i w hw
    cases h
    exact hok _ (enumUnmarshalJSON_ok values v _ hw)
  · cases h

/-- The library decoding through an enumeration method into a fresh value
gives a permitted value. -/
theorem fresh_enum (values : List String) :
    Fresh (EnumOk values) "" (decodeUnmarshaler (enumUnmarshalJSON values)) := by
  intro v a h
  unfold decodeUnmarshaler at h
  split at h
  · rename_i w hw
    cases h
    exact enumUnmarshalJSON_ok values v _ hw
  · cases h

/-- The timestamp decoder keeps a sound check. -/
theorem Time_preserves (x : Env) (c : Checks) (hc : c.Sound x) :
    Preserves c.time (Time.decode x) := by
  intro v cur a hcur h
  cases v with
  | null => cases h; exact hcur
  | str s =>
    simp only [Time.decode] at h
    split at h
    · rename_i t ht
      cases h
      exact hc.parsedTime s _ ht
    · cases h
  | _ => cases h

/-- A date that the date decoder gives is a date that the parser returns. -/
theorem SerializableDate.decode_ok (x : Env) (v : Json) (cur a : SerializableDate)
    (h : SerializableDate.decode x v cur = .ok a) : x.parseDate v = some a := by
  simp only [SerializableDate.decode] at h
  split at h
  · rename_i d hd
    cases h
    exact hd
  · cases h

/-- The date decoder gives dates that pass a sound check, whatever the target
held. -/
theorem SerializableDate_preserves (x : Env) (c : Checks) (hc : c.Sound x) :
    Preserves c.date (SerializableDate.decode x) :=
  fun v cur a _ h => hc.parsedDate v a (SerializableDate.decode_ok x v cur a h)

/-- The date decoder into a fresh value gives dates that pass a sound check. -/
theorem SerializableDate_fresh (x : Env) (c : Checks) (hc : c.Sound x) :
    Fresh c.date {} (SerializableDate.decode x) :=
  fun v a h => hc.parsedDate v a (SerializableDate.decode_ok x v {} a h)

/-- The pointer decoder keeps the property of the value pointed to. -/
theorem preserves_ptr {α : Type} {ok : α → Prop} {zero : α} {dec : Dec α}
    (hf : Fresh ok zero dec) (hp : Preserves ok dec) :
    Preserves (PtrOk ok) (decodePtr zero dec) := by
  intro v cur p hcur h
  by_cases hv : v = Json.null
  · subst hv
    cases h
    intro a ha
    cases ha
  · rw [decodePtr_of_ne_null zero dec v cur hv] at h
    obtain ⟨a, h1, h2⟩ := Except.map_eq_ok _ _ _ h
    subst h2
    intro b hb
    cases hb
    cases cur with
    | none => exact hf v _ h1
    | some c => exact hp v c _ (hcur c rfl) h1

/-- The element decoder gives elements with the property of fresh values. -/
theorem decodeElems_ok {α : Type} {ok : α → Prop} {zero : α} {dec : Dec α}
    (hf : Fresh ok zero dec) (xs : List Json) (l : List α)
    (h : decodeElems zero dec xs = .ok l) : ∀ a ∈ l, ok a := by
  induction xs generalizing l with
  | nil =>
    cases h
    intro a ha
    cases ha
  | cons v rest ih =>
    simp only [decodeElems] at h
    split at h
    · cases h
    · rename_i a ha
      split at h
      · cases h
      · rename_i as has
        cases h
        intro b hb
        rcases List.mem_cons.1 hb with hb | hb
        · exact hb ▸ hf v a ha
        · exact ih as has b hb

/-- The slice decoder gives elements with the property of fresh values. -/
theorem preserves_slice {α : Type} {ok : α → Prop} {zero : α} {dec : Dec α}
    (hf : Fresh ok zero dec) : Preserves (SliceOk ok) (decodeSlice zero dec) := by
  intro v cur s _ h
  cases v with
  | null =>
    cases h
    intro l hl
    cases hl
  | arr xs =>
    obtain ⟨l, h1, h2⟩ := Except.map_eq_ok _ _ _ h
    subst h2
    intro l' hl'
    cases hl'
    exact decodeElems_ok hf xs l h1
  | _ => cases h

/-- The entry decoder keeps a map well-formed, with values that have the
property of fresh values. -/
theorem decodeEntries_ok {α : Type} {ok : α → Prop} {zero : α} {dec : Dec α}
    (hf : Fresh ok zero dec) (kvs : List (String × Json)) (m l : List (String × α))
    (hm : (m.map Prod.fst).Nodup ∧ ∀ kv ∈ m, ok kv.2)
    (h : decodeEntries zero dec kvs m = .ok l) :
    (l.map Prod.fst).Nodup ∧ ∀ kv ∈ l, ok kv.2 := by
  induction kvs generalizing m with
  | nil =>
    cases h
    exact hm
  | cons hd tl ih =>
    obtain ⟨k, v⟩ := hd
    simp only [decodeEntries] at h
    split at h
    · cases h
    · rename_i a ha
      refine ih (GoMap.set m k a) ⟨GoMap.nodup_set m k a hm.1, ?_⟩ h
      intro kv hkv
      rcases GoMap.mem_set m k a kv hkv with h1 | h1
      · rw [h1]
        exact hf v a ha
      · exact hm.2 kv h1

/-- The map decoder keeps a map well-formed, with values that have the property
of fresh values. -/
theorem preserves_map {α : Type} {ok : α → Prop} {zero : α} {dec : Dec α}
    (hf : Fresh ok zero dec) : Preserves (MapOk ok) (decodeMap zero dec) := by
  intro v cur m hcur h
  cases v with
  | null =>
    cases h
    intro l hl
    cases hl
  | obj kvs =>
    obtain ⟨l, h1, h2⟩ := Except.map_eq_ok _ _ _ h
    subst h2
    intro l' hl'
    cases hl'
    refine decodeEntries_ok hf kvs (cur.getD []) l ?_ h1
    cases cur with
    | none => exact ⟨List.nodup_nil, fun _ hkv => nomatch hkv⟩
    | some c => exact hcur c rfl
  | _ => cases h

/-- The decoder of `interface{}` gives well-formed values. -/
theorem fresh_any : Fresh Any.WF Any.nil decodeAny := by
  intro v a h
  cases h
  exact Json.read_wf v

/-- A nil pointer has every pointer property. -/
theorem ptrOk_none {α : Type} (ok : α → Prop) : PtrOk ok none :=
  fun _ h => nomatch h

/-- A nil slice has every slice property. -/
theorem sliceOk_none {α : Type} (ok : α → Prop) : SliceOk ok none :=
  fun _ h => nomatch h

/-- A nil map has every map property. -/
theorem mapOk_none {α : Type} (ok : α → Prop) : MapOk ok none :=
  fun _ h => nomatch h

/-! ### Structs, member by member -/

/-- The struct decoder keeps every property that each field setter keeps. -/
theorem decodeMembers_preserves {σ : Type} (x : Env) (tags : List String)
    (setField : String → Json → σ → Except Error σ) (P : σ → Prop)
    (hP : ∀ t v s s', P s → setField t v s = .ok s' → P s')
    (kvs : List (String × Json)) (s s' : σ) (hs : P s)
    (h : decodeMembers x tags setField kvs s = .ok s') : P s' := by
  induction kvs generalizing s with
  | nil =>
    cases h
    exact hs
  | cons hd tl ih =>
    obtain ⟨k, v⟩ := hd
    rw [decodeMembers] at h
    split at h
    · exact ih s hs h
    · rename_i t _
      split at h
      · cases h
      · rename_i s1 hs1
        exact ih s1 (hP t v s s1 hs hs1) h

/-- The struct decoder keeps every property that each field setter keeps. -/
theorem decodeStruct_preserves {σ : Type} (x : Env) (tags : List String)
    (setField : String → Json → σ → Except Error σ) (P : σ → Prop)
    (hP : ∀ t v s s', P s → setField t v s = .ok s' → P s') :
    Preserves P (decodeStruct x tags setField) := by
  intro v cur a hcur h
  cases v with
  | null => cases h; exact hcur
  | obj kvs => exact decodeMembers_preserves x tags setField P hP kvs cur a hcur h
  | _ => cases h

/-- One field of a struct round trip: when the field round-trips and the
remaining fields do from the state with this field set, all do from the state
with this field at zero. -/
theorem roundTrip_step {σ α : Type} {x : Env} {tags : List String}
    {setField : String → Json → σ → Except Error σ} {tag : String} {skip : α → Bool}
    {enc : Enc α} {dec : Dec α} {zero : α} {norm : α → α} {a : α}
    {rest : List (Except Error (List (String × Json)))} {st final : σ}
    (hf : FieldRoundTrips skip enc dec zero norm a) (put : α → σ)
    (htag : tag ∈ tags)
    (hset : ∀ j, setField tag j st = (dec j zero).map put)
    (hst : put zero = st)
    (hrest : ∃ l, joinMembers rest = .ok l ∧
      decodeMembers x tags setField l (put (norm a)) = .ok final) :
    ∃ l, joinMembers (member tag (skip a) (enc a) :: rest) = .ok l ∧
      decodeMembers x tags setField l st = .ok final := by
  obtain ⟨l, h1, h2⟩ := hrest
  rcases hf with ⟨hs, hz⟩ | ⟨hs, j, hj, hd⟩
  · refine ⟨l, ?_, ?_⟩
    · simp only [joinMembers, member, hs, if_true, h1, List.nil_append]
    · rw [hz, hst] at h2
      exact h2
  · refine ⟨(tag, j) :: l, ?_, ?_⟩
    · simp only [joinMembers, member, hs, Bool.false_eq_true, if_false, hj, h1,
        List.singleton_append]
    · rw [decodeMembers, resolveField_of_mem x tags tag htag]
      simp only [hset, hd]
      exact h2

/-- The end of a struct round trip: no field is left. -/
theorem roundTrip_done {σ : Type} (x : Env) (tags : List String)
    (setField : String → Json → σ → Except Error σ) (st : σ) :
    ∃ l, joinMembers [] = .ok l ∧ decodeMembers x tags setField l st = .ok st :=
  ⟨[], rfl, rfl⟩

/-- A struct round-trips when its members do. -/
theorem roundTrips_struct {σ : Type} (x : Env) (tags : List String)
    (setField : String → Json → σ → Except Error σ)
    (ms : List (Except Error (List (String × Json)))) (zero final : σ)
    (h : ∃ l, joinMembers ms = .ok l ∧ decodeMembers x tags setField l zero = .ok final) :
    ∃ j, encodeStruct ms = .ok j ∧ j ≠ Json.null ∧
      decodeStruct x tags setField j zero = .ok final := by
  obtain ⟨l, h1, h2⟩ := h
  exact ⟨.obj l, by simp only [encodeStruct, h1], nofun, h2⟩

/-- A value of `Standard` round-trips. -/
theorem Standard_roundTrips (x : Env) (s : Standard) :
    RoundTrips Standard.encode (Standard.decode x) {} id s := by
  refine roundTrips_struct x Standard.tags Standard.setField _ {} _ ?_
  refine roundTrip_step (fieldRoundTrips_string s.Name) _ (by decide) (fun _ => rfl) rfl ?_
  dsimp only
  refine roundTrip_step (fieldRoundTrips_string s.Schema) _ (by decide) (fun _ => rfl) rfl ?_
  dsimp only
  refine roundTrip_step (fieldRoundTrips_string s.Version) _ (by decide) (fun _ => rfl) rfl ?_
  dsimp only
  exact roundTrip_done x _ _ _

/-- A value of `AdviceElemEnvironmentElem` round-trips. -/
theorem AdviceElemEnvironmentElem_roundTrips (x : Env) (s : AdviceElemEnvironmentElem) :
    RoundTrips AdviceElemEnvironmentElem.encode (AdviceElemEnvironmentElem.decode x) {} id s := by
  refine roundTrips_struct x AdviceElemEnvironmentElem.tags AdviceElemEnvironmentElem.setField _
    {} _ ?_
  refine roundTrip_step (fieldRoundTrips_string s.Code) _ (by decide) (fun _ => rfl) rfl ?_
  dsimp only
  refine roundTrip_step (fieldRoundTrips_string s.Scheme) _ (by decide) (fun _ => rfl) rfl ?_
  dsimp only
  exact roundTrip_done x _ _ _

/-- A value of `AdviceElemImportance` round-trips. -/
theorem AdviceElemImportance_roundTrips (x : Env) (s : AdviceElemImportance) :
    RoundTrips AdviceElemImportance.encode (AdviceElemImportance.decode x) {} id s := by
  refine roundTrips_struct x AdviceElemImportance.tags AdviceElemImportance.setField _ {} _ ?_
  refine roundTrip_step (fieldRoundTrips_string s.Code) _ (by decide) (fun _ => rfl) rfl ?_
  dsimp only
  refine roundTrip_step (fieldRoundTrips_string s.Scheme) _ (by decide) (fun _ => rfl) rfl ?_
  dsimp only
  exact roundTrip_done x _ _ _

/-- A value of `AdviceElemLifetime` round-trips. -/
theorem AdviceElemLifetime_roundTrips (x : Env) (s : AdviceElemLifetime) :
    RoundTrips AdviceElemLifetime.encode (AdviceElemLifetime.decode x) {} id s := by
  refine roundTrips_struct x AdviceElemLifetime.tags AdviceElemLifetime.setField _ {} _ ?_
  refine roundTrip_step (fieldRoundTrips_string s.Code) _ (by decide) (fun _ => rfl) rfl ?_
  dsimp only
  refine roundTrip_step (fieldRoundTrips_string s.Scheme) _ (by decide) (fun _ => rfl) rfl ?_
  dsimp only
  exact roundTrip_done x _ _ _

/-- The zero value of `AdviceElem` has what the codec relies on. -/
theorem AdviceElem_good_zero : AdviceElem.Good ({} : AdviceElem) :=
  ⟨Or.inl rfl⟩

/-- Every field setter of `AdviceElem` keeps what the codec relies on. -/
theorem AdviceElem_setField_good (x : Env) (t : String) (v : Json)
    (s s' : AdviceElem) (hg : AdviceElem.Good s) (h : AdviceElem.setField x t v s = .ok s') :
    AdviceElem.Good s' := by
  unfold AdviceElem.setField at h
  split at h
  all_goals
    first
    | (cases h; exact hg)
    | (obtain ⟨a, h1, h2⟩ := Except.map_eq_ok _ _ _ h
       subst h2
       first
       | exact { hg with }
       | exact { hg with Role := ((preserves_enum enumValues_AdviceElemRole (EnumOrEmpty
           enumValues_AdviceElemRole) fun _ h => Or.inr h) _ _ _ hg.Role h1) })

/-- The decoder of `AdviceElem` keeps what the codec relies on. -/
theorem AdviceElem_preserves (x : Env) :
    Preserves AdviceElem.Good (AdviceElem.decode x) :=
  decodeStruct_preserves x AdviceElem.tags (AdviceElem.setField x) _ (AdviceElem_setField_good x)

/-- A value of `AdviceElem` with what the codec relies on round-trips, up to empty slices and the
form of zero. -/
theorem AdviceElem_roundTrips (x : Env) (s : AdviceElem) (hg : AdviceElem.Good s) :
    RoundTrips AdviceElem.encode (AdviceElem.decode x) {} AdviceElem.normalize s := by
  refine roundTrips_struct x AdviceElem.tags (AdviceElem.setField x) _ {} _ ?_
  refine roundTrip_step (fieldRoundTrips_slice (fun _ => True) (fun a _ =>
    (AdviceElemEnvironmentElem_roundTrips x a).elem) s.Environment (fun _ _ _ _ => trivial)) _ (by
    decide) (fun _ => rfl) rfl ?_
  dsimp only
  refine roundTrip_step (fieldRoundTrips_ptr_id (fun _ => True) (fun a _ =>
    AdviceElemImportance_roundTrips x a) s.Importance (fun _ _ => trivial)) _ (by decide) (fun _
    => rfl) rfl ?_
  dsimp only
  refine roundTrip_step (fieldRoundTrips_ptr_id (fun _ => True) (fun a _ =>
    AdviceElemLifetime_roundTrips x a) s.Lifetime (fun _ _ => trivial)) _ (by decide) (fun _ =>
    rfl) rfl ?_
  dsimp only
  refine roundTrip_step (fieldRoundTrips_enum enumValues_AdviceElemRole s.Role hg.Role) _ (by
    decide) (fun _ => rfl) rfl ?_
  dsimp only
  exact roundTrip_done x _ _ _

/-- A value of `Altids` round-trips. -/
theorem Altids_roundTrips (x : Env) (s : Altids) :
    RoundTrips Altids.encode (Altids.decode x) {} id s := by
  refine roundTrips_struct x Altids.tags Altids.setField _ {} _ ?_
  refine roundTrip_step (fieldRoundTrips_string s.Originaltransmissionreference) _ (by decide)
    (fun _ => rfl) rfl ?_
  dsimp only
  exact roundTrip_done x _ _ _

/-- The zero value of `BodyEvent` has what the codec relies on. -/
theorem BodyEvent_good_zero (c : Checks) : BodyEvent.Good c ({} : BodyEvent) :=
  ⟨ptrOk_none _, ptrOk_none _⟩

/-- Every field setter of `BodyEvent` keeps what the codec relies on. -/
theorem BodyEvent_setField_good (x : Env) (c : Checks) (hc : c.Sound x) (t : String) (v : Json)
    (s s' : BodyEvent) (hg : BodyEvent.Good c s) (h : BodyEvent.setField x t v s = .ok s') :
    BodyEvent.Good c s' := by
  unfold BodyEvent.setField at h
  split at h
  all_goals
    first
    | (cases h; exact hg)
    | (obtain ⟨a, h1, h2⟩ := Except.map_eq_ok _ _ _ h
       subst h2
       first
       | exact { hg with }
       | exact { hg with Changeddate := ((preserves_ptr ((Time_preserves x c hc).fresh {}
           hc.zeroTime) (Time_preserves x c hc)) _ _ _ hg.Changeddate h1) }
       | exact { hg with Createddate := ((preserves_ptr ((Time_preserves x c hc).fresh {}
           hc.zeroTime) (Time_preserves x c hc)) _ _ _ hg.Createddate h1) })

/-- The decoder of `BodyEvent` keeps what the codec relies on. -/
theorem BodyEvent_preserves (x : Env) (c : Checks) (hc : c.Sound x) :
    Preserves (BodyEvent.Good c) (BodyEvent.decode x) :=
  decodeStruct_preserves x BodyEvent.tags (BodyEvent.setField x) _ (BodyEvent_setField_good x c
    hc)

/-- A value of `BodyEvent` with what the codec relies on round-trips. -/
theorem BodyEvent_roundTrips (x : Env) (s : BodyEvent) (hg : BodyEvent.Good (Checks.roundTrip x)
    s) :
    RoundTrips (BodyEvent.encode x) (BodyEvent.decode x) {} id s := by
  refine roundTrips_struct x BodyEvent.tags (BodyEvent.setField x) _ {} _ ?_
  refine roundTrip_step (fieldRoundTrips_string s.Accreditation) _ (by decide) (fun _ => rfl) rfl
    ?_
  dsimp only
  refine roundTrip_step (fieldRoundTrips_string s.Address) _ (by decide) (fun _ => rfl) rfl ?_
  dsimp only
  refine roundTrip_step (fieldRoundTrips_string s.Arena) _ (by decide) (fun _ => rfl) rfl ?_
  dsimp only
  refine roundTrip_step (fieldRoundTrips_string s.Changedby) _ (by decide) (fun _ => rfl) rfl ?_
  dsimp only
  refine roundTrip_step (fieldRoundTrips_ptr_id (TimeRoundTrips x) (Time_roundTrips x)
    s.Changeddate hg.Changeddate) _ (by decide) (fun _ => rfl) rfl ?_
  dsimp only
  refine roundTrip_step (fieldRoundTrips_string s.City) _ (by decide) (fun _ => rfl) rfl ?_
  dsimp only
  refine roundTrip_step (fieldRoundTrips_string s.Country) _ (by decide) (fun _ => rfl) rfl ?_
  dsimp only
  refine roundTrip_step (fieldRoundTrips_string s.Courtcasenumber) _ (by decide) (fun _ => rfl)
    rfl ?_
  dsimp only
  refine roundTrip_step (fieldRoundTrips_string s.Createdby) _ (by decide) (fun _ => rfl) rfl ?_
  dsimp only
  refine roundTrip_step (fieldRoundTrips_ptr_id (TimeRoundTrips x) (Time_roundTrips x)
    s.Createddate hg.Createddate) _ (by decide) (fun _ => rfl) rfl ?_
  dsimp only
  refine roundTrip_step (fieldRoundTrips_string s.Eventphone) _ (by decide) (fun _ => rfl) rfl ?_
  dsimp only
  refine roundTrip_step (fieldRoundTrips_string s.Eventstatus) _ (by decide) (fun _ => rfl) rfl ?_
  dsimp only
  refine roundTrip_step (fieldRoundTrips_string s.EventstatusText) _ (by decide) (fun _ => rfl)
    rfl ?_
  dsimp only
  refine roundTrip_step (fieldRoundTrips_string s.Eventtags) _ (by decide) (fun _ => rfl) rfl ?_
  dsimp only
  refine roundTrip_step (fieldRoundTrips_string s.Eventtype) _ (by decide) (fun _ => rfl) rfl ?_
  dsimp only
  refine roundTrip_step (fieldRoundTrips_string s.EventtypeText) _ (by decide) (fun _ => rfl) rfl
    ?_
  dsimp only
  refine roundTrip_step (fieldRoundTrips_string s.Eventurl) _ (by decide) (fun _ => rfl) rfl ?_
  dsimp only
  refine roundTrip_step (fieldRoundTrips_string s.Eventweb) _ (by decide) (fun _ => rfl) rfl ?_
  dsimp only
  refine roundTrip_step (fieldRoundTrips_string s.Extraurl) _ (by decide) (fun _ => rfl) rfl ?_
  dsimp only
  refine roundTrip_step (fieldRoundTrips_string s.Municipality) _ (by decide) (fun _ => rfl) rfl
    ?_
  dsimp only
  refine roundTrip_step (fieldRoundTrips_string s.MunicipalityText) _ (by decide) (fun _ => rfl)
    rfl ?_
  dsimp only
  refine roundTrip_step (fieldRoundTrips_string s.NoteExtra) _ (by decide) (fun _ => rfl) rfl ?_
  dsimp only
  refine roundTrip_step (fieldRoundTrips_string s.NotePm) _ (by decide) (fun _ => rfl) rfl ?_
  dsimp only
  refine roundTrip_step (fieldRoundTrips_string s.Organizer) _ (by decide) (fun _ => rfl) rfl ?_
  dsimp only
  refine roundTrip_step (fieldRoundTrips_string s.Organizeraddress) _ (by decide) (fun _ => rfl)
    rfl ?_
  dsimp only
  refine roundTrip_step (fieldRoundTrips_string s.Organizercity) _ (by decide) (fun _ => rfl) rfl
    ?_
  dsimp only
  refine roundTrip_step (fieldRoundTrips_string s.Organizercountry) _ (by decide) (fun _ => rfl)
    rfl ?_
  dsimp only
  refine roundTrip_step (fieldRoundTrips_string s.Organizermail) _ (by decide) (fun _ => rfl) rfl
    ?_
  dsimp only
  refine roundTrip_step (fieldRoundTrips_string s.Organizerphone) _ (by decide) (fun _ => rfl) rfl
    ?_
  dsimp only
  refine roundTrip_step (fieldRoundTrips_string s.Organizerurl) _ (by decide) (fun _ => rfl) rfl
    ?_
  dsimp only
  refine roundTrip_step (fieldRoundTrips_string s.Region) _ (by decide) (fun _ => rfl) rfl ?_
  dsimp only
  refine roundTrip_step (fieldRoundTrips_string s.RegionText) _ (by decide) (fun _ => rfl) rfl ?_
  dsimp only
  exact roundTrip_done x _ _ _

/-- A value of `BylinesElem` round-trips. -/
theorem BylinesElem_roundTrips (x : Env) (s : BylinesElem) :
    RoundTrips BylinesElem.encode (BylinesElem.decode x) {} id s := by
  refine roundTrips_struct x BylinesElem.tags BylinesElem.setField _ {} _ ?_
  refine roundTrip_step (fieldRoundTrips_string s.Affiliation) _ (by decide) (fun _ => rfl) rfl ?_
  dsimp only
  refine roundTrip_step (fieldRoundTrips_string s.Byline) _ (by decide) (fun _ => rfl) rfl ?_
  dsimp only
  refine roundTrip_step (fieldRoundTrips_string s.Email) _ (by decide) (fun _ => rfl) rfl ?_
  dsimp only
  refine roundTrip_step (fieldRoundTrips_string s.Firstname) _ (by decide) (fun _ => rfl) rfl ?_
  dsimp only
  refine roundTrip_step (fieldRoundTrips_string s.Initials) _ (by decide) (fun _ => rfl) rfl ?_
  dsimp only
  refine roundTrip_step (fieldRoundTrips_string s.Internal) _ (by decide) (fun _ => rfl) rfl ?_
  dsimp only
  refine roundTrip_step (fieldRoundTrips_string s.Jobtitle) _ (by decide) (fun _ => rfl) rfl ?_
  dsimp only
  refine roundTrip_step (fieldRoundTrips_string s.Lastname) _ (by decide) (fun _ => rfl) rfl ?_
  dsimp only
  refine roundTrip_step (fieldRoundTrips_string s.Phone) _ (by decide) (fun _ => rfl) rfl ?_
  dsimp only
  refine roundTrip_step (fieldRoundTrips_string s.Role) _ (by decide) (fun _ => rfl) rfl ?_
  dsimp only
  exact roundTrip_done x _ _ _

/-- A value of `EventElem` round-trips. -/
theorem EventElem_roundTrips (x : Env) (s : EventElem) :
    RoundTrips EventElem.encode (EventElem.decode x) {} id s := by
  refine roundTrips_struct x EventElem.tags EventElem.setField _ {} _ ?_
  refine roundTrip_step (fieldRoundTrips_string s.Code) _ (by decide) (fun _ => rfl) rfl ?_
  dsimp only
  refine roundTrip_step (fieldRoundTrips_string s.Name) _ (by decide) (fun _ => rfl) rfl ?_
  dsimp only
  refine roundTrip_step (fieldRoundTrips_string s.Rel) _ (by decide) (fun _ => rfl) rfl ?_
  dsimp only
  refine roundTrip_step (fieldRoundTrips_string s.Scheme) _ (by decide) (fun _ => rfl) rfl ?_
  dsimp only
  exact roundTrip_done x _ _ _

/-- A value of `FixtureElem` round-trips. -/
theorem FixtureElem_roundTrips (x : Env) (s : FixtureElem) :
    RoundTrips FixtureElem.encode (FixtureElem.decode x) {} id s := by
  refine roundTrips_struct x FixtureElem.tags FixtureElem.setField _ {} _ ?_
  refine roundTrip_step (fieldRoundTrips_string s.Code) _ (by decide) (fun _ => rfl) rfl ?_
  dsimp only
  refine roundTrip_step (fieldRoundTrips_string s.Name) _ (by decide) (fun _ => rfl) rfl ?_
  dsimp only
  refine roundTrip_step (fieldRoundTrips_string s.Rel) _ (by decide) (fun _ => rfl) rfl ?_
  dsimp only
  refine roundTrip_step (fieldRoundTrips_string s.Scheme) _ (by decide) (fun _ => rfl) rfl ?_
  dsimp only
  exact roundTrip_done x _ _ _

/-- A value of `GenreElem` round-trips. -/
theorem GenreElem_roundTrips (x : Env) (s : GenreElem) :
    RoundTrips GenreElem.encode (GenreElem.decode x) {} id s := by
  refine roundTrips_struct x GenreElem.tags GenreElem.setField _ {} _ ?_
  refine roundTrip_step (fieldRoundTrips_string s.Code) _ (by decide) (fun _ => rfl) rfl ?_
  dsimp only
  refine roundTrip_step (fieldRoundTrips_string s.Name) _ (by decide) (fun _ => rfl) rfl ?_
  dsimp only
  refine roundTrip_step (fieldRoundTrips_string s.Scheme) _ (by decide) (fun _ => rfl) rfl ?_
  dsimp only
  exact roundTrip_done x _ _ _

/-- A value of `Address` round-trips, up to empty slices and the form of zero. -/
theorem Address_roundTrips (x : Env) (s : Address) :
    RoundTrips Address.encode (Address.decode x) {} Address.normalize s := by
  refine roundTrips_struct x Address.tags Address.setField _ {} _ ?_
  refine roundTrip_step (fieldRoundTrips_slice (fun _ => True) (fun a _ => (roundTrips_string
    a).elem) s.Lines (fun _ _ _ _ => trivial)) _ (by decide) (fun _ => rfl) rfl ?_
  dsimp only
  refine roundTrip_step (fieldRoundTrips_string s.Locality) _ (by decide) (fun _ => rfl) rfl ?_
  dsimp only
  refine roundTrip_step (fieldRoundTrips_string s.Area) _ (by decide) (fun _ => rfl) rfl ?_
  dsimp only
  refine roundTrip_step (fieldRoundTrips_string s.Postalcode) _ (by decide) (fun _ => rfl) rfl ?_
  dsimp only
  refine roundTrip_step (fieldRoundTrips_string s.Country) _ (by decide) (fun _ => rfl) rfl ?_
  dsimp only
  exact roundTrip_done x _ _ _

/-- A value of `ContactinfoType` round-trips, up to empty slices and the form of zero. -/
theorem ContactinfoType_roundTrips (x : Env) (s : ContactinfoType) :
    RoundTrips ContactinfoType.encode (ContactinfoType.decode x) {} ContactinfoType.normalize s :=
      by
  refine roundTrips_struct x ContactinfoType.tags (ContactinfoType.setField x) _ {} _ ?_
  refine roundTrip_step (fieldRoundTrips_string s.Type_) _ (by decide) (fun _ => rfl) rfl ?_
  dsimp only
  refine roundTrip_step (fieldRoundTrips_string s.Role) _ (by decide) (fun _ => rfl) rfl ?_
  dsimp only
  refine roundTrip_step (fieldRoundTrips_string s.Lang) _ (by decide) (fun _ => rfl) rfl ?_
  dsimp only
  refine roundTrip_step (fieldRoundTrips_string s.Name) _ (by decide) (fun _ => rfl) rfl ?_
  dsimp only
  refine roundTrip_step (fieldRoundTrips_string s.Value) _ (by decide) (fun _ => rfl) rfl ?_
  dsimp only
  refine roundTrip_step (fieldRoundTrips_always (Address_roundTrips x s.Address).elem) _ (by
    decide) (fun _ => rfl) rfl ?_
  dsimp only
  exact roundTrip_done x _ _ _

/-- A value of `InfosourceElem` round-trips, up to empty slices and the form of zero. -/
theorem InfosourceElem_roundTrips (x : Env) (s : InfosourceElem) :
    RoundTrips InfosourceElem.encode (InfosourceElem.decode x) {} InfosourceElem.normalize s := by
  refine roundTrips_struct x InfosourceElem.tags (InfosourceElem.setField x) _ {} _ ?_
  refine roundTrip_step (fieldRoundTrips_string s.Code) _ (by decide) (fun _ => rfl) rfl ?_
  dsimp only
  refine roundTrip_step (fieldRoundTrips_slice (fun _ => True) (fun a _ =>
    (ContactinfoType_roundTrips x a).elem) s.Contactinfo (fun _ _ _ _ => trivial)) _ (by decide)
    (fun _ => rfl) rfl ?_
  dsimp only
  refine roundTrip_step (fieldRoundTrips_string s.Name) _ (by decide) (fun _ => rfl) rfl ?_
  dsimp only
  refine roundTrip_step (fieldRoundTrips_string s.Rel) _ (by decide) (fun _ => rfl) rfl ?_
  dsimp only
  refine roundTrip_step (fieldRoundTrips_string s.Scheme) _ (by decide) (fun _ => rfl) rfl ?_
  dsimp only
  exact roundTrip_done x _ _ _

/-- A value of `ObjectElem` round-trips. -/
theorem ObjectElem_roundTrips (x : Env) (s : ObjectElem) :
    RoundTrips ObjectElem.encode (ObjectElem.decode x) {} id s := by
  refine roundTrips_struct x ObjectElem.tags ObjectElem.setField _ {} _ ?_
  refine roundTrip_step (fieldRoundTrips_string s.Code) _ (by decide) (fun _ => rfl) rfl ?_
  dsimp only
  refine roundTrip_step (fieldRoundTrips_string s.Name) _ (by decide) (fun _ => rfl) rfl ?_
  dsimp only
  refine roundTrip_step (fieldRoundTrips_string s.Rel) _ (by decide) (fun _ => rfl) rfl ?_
  dsimp only
  refine roundTrip_step (fieldRoundTrips_string s.Scheme) _ (by decide) (fun _ => rfl) rfl ?_
  dsimp only
  exact roundTrip_done x _ _ _

/-- A value of `OrganisationElemSymbolsElem` round-trips. -/
theorem OrganisationElemSymbolsElem_roundTrips (x : Env) (s : OrganisationElemSymbolsElem) :
    RoundTrips OrganisationElemSymbolsElem.encode (OrganisationElemSymbolsElem.decode x) {} id s
      := by
  refine roundTrips_struct x OrganisationElemSymbolsElem.tags OrganisationElemSymbolsElem.setField
    _ {} _ ?_
  refine roundTrip_step (fieldRoundTrips_string s.Exchange) _ (by decide) (fun _ => rfl) rfl ?_
  dsimp only
  refine roundTrip_step (fieldRoundTrips_string s.Symbol) _ (by decide) (fun _ => rfl) rfl ?_
  dsimp only
  refine roundTrip_step (fieldRoundTrips_string s.Symboltype) _ (by decide) (fun _ => rfl) rfl ?_
  dsimp only
  refine roundTrip_step (fieldRoundTrips_string s.Ticker) _ (by decide) (fun _ => rfl) rfl ?_
  dsimp only
  exact roundTrip_done x _ _ _

/-- A value of `OrganisationElem` round-trips, up to empty slices and the form of zero. -/
theorem OrganisationElem_roundTrips (x : Env) (s : OrganisationElem) :
    RoundTrips OrganisationElem.encode (OrganisationElem.decode x) {} OrganisationElem.normalize s
      := by
  refine roundTrips_struct x OrganisationElem.tags (OrganisationElem.setField x) _ {} _ ?_
  refine roundTrip_step (fieldRoundTrips_string s.Code) _ (by decide) (fun _ => rfl) rfl ?_
  dsimp only
  refine roundTrip_step (fieldRoundTrips_slice (fun _ => True) (fun a _ =>
    (ContactinfoType_roundTrips x a).elem) s.Contactinfo (fun _ _ _ _ => trivial)) _ (by decide)
    (fun _ => rfl) rfl ?_
  dsimp only
  refine roundTrip_step (fieldRoundTrips_string s.Name) _ (by decide) (fun _ => rfl) rfl ?_
  dsimp only
  refine roundTrip_step (fieldRoundTrips_string s.Rel) _ (by decide) (fun _ => rfl) rfl ?_
  dsimp only
  refine roundTrip_step (fieldRoundTrips_string s.Scheme) _ (by decide) (fun _ => rfl) rfl ?_
  dsimp only
  refine roundTrip_step (fieldRoundTrips_slice (fun _ => True) (fun a _ =>
    (OrganisationElemSymbolsElem_roundTrips x a).elem) s.Symbols (fun _ _ _ _ => trivial)) _ (by
    decide) (fun _ => rfl) rfl ?_
  dsimp only
  exact roundTrip_done x _ _ _

/-- A value of `PersonElem` round-trips, up to empty slices and the form of zero. -/
theorem PersonElem_roundTrips (x : Env) (s : PersonElem) :
    RoundTrips PersonElem.encode (PersonElem.decode x) {} PersonElem.normalize s := by
  refine roundTrips_struct x PersonElem.tags (PersonElem.setField x) _ {} _ ?_
  refine roundTrip_step (fieldRoundTrips_string s.Code) _ (by decide) (fun _ => rfl) rfl ?_
  dsimp only
  refine roundTrip_step (fieldRoundTrips_slice (fun _ => True) (fun a _ =>
    (ContactinfoType_roundTrips x a).elem) s.Contactinfo (fun _ _ _ _ => trivial)) _ (by decide)
    (fun _ => rfl) rfl ?_
  dsimp only
  refine roundTrip_step (fieldRoundTrips_string s.Name) _ (by decide) (fun _ => rfl) rfl ?_
  dsimp only
  refine roundTrip_step (fieldRoundTrips_string s.Rel) _ (by decide) (fun _ => rfl) rfl ?_
  dsimp only
  refine roundTrip_step (fieldRoundTrips_string s.Scheme) _ (by decide) (fun _ => rfl) rfl ?_
  dsimp only
  exact roundTrip_done x _ _ _

/-- The zero value of `PlaceElemGeometryGeojson` has what the codec relies on. -/
theorem PlaceElemGeometryGeojson_good_zero : PlaceElemGeometryGeojson.Good ({} :
    PlaceElemGeometryGeojson) :=
  ⟨Or.inl rfl⟩

/-- Every field setter of `PlaceElemGeometryGeojson` keeps what the codec relies on. -/
theorem PlaceElemGeometryGeojson_setField_good (t : String) (v : Json)
    (s s' : PlaceElemGeometryGeojson) (hg : PlaceElemGeometryGeojson.Good s) (h :
    PlaceElemGeometryGeojson.setField t v s = .ok s') :
    PlaceElemGeometryGeojson.Good s' := by
  unfold PlaceElemGeometryGeojson.setField at h
  split at h
  all_goals
    first
    | (cases h; exact hg)
    | (obtain ⟨a, h1, h2⟩ := Except.map_eq_ok _ _ _ h
       subst h2
       first
       | exact { hg with }
       | exact { hg with Type_ := ((preserves_enum enumValues_PlaceElemGeometryGeojsonType
           (EnumOrEmpty enumValues_PlaceElemGeometryGeojsonType) fun _ h => Or.inr h) _ _ _
           hg.Type_ h1) })

/-- The decoder of `PlaceElemGeometryGeojson` keeps what the codec relies on. -/
theorem PlaceElemGeometryGeojson_preserves (x : Env) :
    Preserves PlaceElemGeometryGeojson.Good (PlaceElemGeometryGeojson.decode x) :=
  decodeStruct_preserves x PlaceElemGeometryGeojson.tags PlaceElemGeometryGeojson.setField _
    PlaceElemGeometryGeojson_setField_good

/-- A value of `PlaceElemGeometryGeojson` with what the codec relies on round-trips, up to empty
slices and the form of zero. -/
theorem PlaceElemGeometryGeojson_roundTrips (x : Env) (s : PlaceElemGeometryGeojson) (hg :
    PlaceElemGeometryGeojson.Good s) :
    RoundTrips PlaceElemGeometryGeojson.encode (PlaceElemGeometryGeojson.decode x) {}
      PlaceElemGeometryGeojson.normalize s := by
  refine roundTrips_struct x PlaceElemGeometryGeojson.tags PlaceElemGeometryGeojson.setField _ {}
    _ ?_
  refine roundTrip_step (fieldRoundTrips_slice (fun _ => True) (fun a _ => (roundTrips_float64
    a).elem) s.Coordinates (fun _ _ _ _ => trivial)) _ (by decide) (fun _ => rfl) rfl ?_
  dsimp only
  refine roundTrip_step (fieldRoundTrips_enum enumValues_PlaceElemGeometryGeojsonType s.Type_
    hg.Type_) _ (by decide) (fun _ => rfl) rfl ?_
  dsimp only
  exact roundTrip_done x _ _ _

/-- The zero value of `PlaceElem` has what the codec relies on. -/
theorem PlaceElem_good_zero : PlaceElem.Good ({} : PlaceElem) :=
  ⟨ptrOk_none _⟩

/-- Every field setter of `PlaceElem` keeps what the codec relies on. -/
theorem PlaceElem_setField_good (x : Env) (t : String) (v : Json)
    (s s' : PlaceElem) (hg : PlaceElem.Good s) (h : PlaceElem.setField x t v s = .ok s') :
    PlaceElem.Good s' := by
  unfold PlaceElem.setField at h
  split at h
  all_goals
    first
    | (cases h; exact hg)
    | (obtain ⟨a, h1, h2⟩ := Except.map_eq_ok _ _ _ h
       subst h2
       first
       | exact { hg with }
       | exact { hg with GeometryGeojson := ((preserves_ptr ((PlaceElemGeometryGeojson_preserves
           x).fresh {} PlaceElemGeometryGeojson_good_zero) (PlaceElemGeometryGeojson_preserves x))
           _ _ _ hg.GeometryGeojson h1) })

/-- The decoder of `PlaceElem` keeps what the codec relies on. -/
theorem PlaceElem_preserves (x : Env) :
    Preserves PlaceElem.Good (PlaceElem.decode x) :=
  decodeStruct_preserves x PlaceElem.tags (PlaceElem.setField x) _ (PlaceElem_setField_good x)

/-- A value of `PlaceElem` with what the codec relies on round-trips, up to empty slices and the
form of zero. -/
theorem PlaceElem_roundTrips (x : Env) (s : PlaceElem) (hg : PlaceElem.Good s) :
    RoundTrips PlaceElem.encode (PlaceElem.decode x) {} PlaceElem.normalize s := by
  refine roundTrips_struct x PlaceElem.tags (PlaceElem.setField x) _ {} _ ?_
  refine roundTrip_step (fieldRoundTrips_string s.Code) _ (by decide) (fun _ => rfl) rfl ?_
  dsimp only
  refine roundTrip_step (fieldRoundTrips_slice (fun _ => True) (fun a _ =>
    (ContactinfoType_roundTrips x a).elem) s.Contactinfo (fun _ _ _ _ => trivial)) _ (by decide)
    (fun _ => rfl) rfl ?_
  dsimp only
  refine roundTrip_step (fieldRoundTrips_ptr PlaceElemGeometryGeojson.Good
    (PlaceElemGeometryGeojson_roundTrips x) s.GeometryGeojson hg.GeometryGeojson) _ (by decide)
    (fun _ => rfl) rfl ?_
  dsimp only
  refine roundTrip_step (fieldRoundTrips_string s.Name) _ (by decide) (fun _ => rfl) rfl ?_
  dsimp only
  refine roundTrip_step (fieldRoundTrips_string s.Rel) _ (by decide) (fun _ => rfl) rfl ?_
  dsimp only
  refine roundTrip_step (fieldRoundTrips_string s.Scheme) _ (by decide) (fun _ => rfl) rfl ?_
  dsimp only
  exact roundTrip_done x _ _ _

/-- A value of `ProductElem` round-trips. -/
theorem ProductElem_roundTrips (x : Env) (s : ProductElem) :
    RoundTrips ProductElem.encode (ProductElem.decode x) {} id s := by
  refine roundTrips_struct x ProductElem.tags ProductElem.setField _ {} _ ?_
  refine roundTrip_step (fieldRoundTrips_string s.Code) _ (by decide) (fun _ => rfl) rfl ?_
  dsimp only
  refine roundTrip_step (fieldRoundTrips_string s.Name) _ (by decide) (fun _ => rfl) rfl ?_
  dsimp only
  refine roundTrip_step (fieldRoundTrips_string s.Scheme) _ (by decide) (fun _ => rfl) rfl ?_
  dsimp only
  exact roundTrip_done x _ _ _

/-- The zero value of `Rendition` has what the codec relies on. -/
theorem Rendition_good_zero : Rendition.Good ({} : Rendition) :=
  ⟨intOk_zero, intOk_zero, intOk_zero⟩

/-- Every field setter of `Rendition` keeps what the codec relies on. -/
theorem Rendition_setField_good (t : String) (v : Json)
    (s s' : Rendition) (hg : Rendition.Good s) (h : Rendition.setField t v s = .ok s') :
    Rendition.Good s' := by
  unfold Rendition.setField at h
  split at h
  all_goals
    first
    | (cases h; exact hg)
    | (obtain ⟨a, h1, h2⟩ := Except.map_eq_ok _ _ _ h
       subst h2
       first
       | exact { hg with }
       | exact { hg with Height := (preserves_int _ _ _ hg.Height h1) }
       | exact { hg with Width := (preserves_int _ _ _ hg.Width h1) }
       | exact { hg with SizeInBytes := (preserves_int _ _ _ hg.SizeInBytes h1) })

/-- The decoder of `Rendition` keeps what the codec relies on. -/
theorem Rendition_preserves (x : Env) :
    Preserves Rendition.Good (Rendition.decode x) :=
  decodeStruct_preserves x Rendition.tags Rendition.setField _ Rendition_setField_good

/-- A value of `Rendition` with what the codec relies on round-trips, up to empty slices and the
form of zero. -/
theorem Rendition_roundTrips (x : Env) (s : Rendition) (hg : Rendition.Good s) :
    RoundTrips Rendition.encode (Rendition.decode x) {} Rendition.normalize s := by
  refine roundTrips_struct x Rendition.tags Rendition.setField _ {} _ ?_
  refine roundTrip_step (fieldRoundTrips_string s.Href) _ (by decide) (fun _ => rfl) rfl ?_
  dsimp only
  refine roundTrip_step (fieldRoundTrips_string s.Mimetype) _ (by decide) (fun _ => rfl) rfl ?_
  dsimp only
  refine roundTrip_step (fieldRoundTrips_string s.Title) _ (by decide) (fun _ => rfl) rfl ?_
  dsimp only
  refine roundTrip_step (fieldRoundTrips_int s.Height hg.Height) _ (by decide) (fun _ => rfl) rfl
    ?_
  dsimp only
  refine roundTrip_step (fieldRoundTrips_int s.Width hg.Width) _ (by decide) (fun _ => rfl) rfl ?_
  dsimp only
  refine roundTrip_step (fieldRoundTrips_int s.SizeInBytes hg.SizeInBytes) _ (by decide) (fun _ =>
    rfl) rfl ?_
  dsimp only
  refine roundTrip_step (fieldRoundTrips_string s.Usage) _ (by decide) (fun _ => rfl) rfl ?_
  dsimp only
  refine roundTrip_step (fieldRoundTrips_string s.Variant) _ (by decide) (fun _ => rfl) rfl ?_
  dsimp only
  refine roundTrip_step (fieldRoundTrips_string s.Unit) _ (by decide) (fun _ => rfl) rfl ?_
  dsimp only
  refine roundTrip_step (fieldRoundTrips_string s.Bitrate) _ (by decide) (fun _ => rfl) rfl ?_
  dsimp only
  refine roundTrip_step (fieldRoundTrips_float64 s.Duration) _ (by decide) (fun _ => rfl) rfl ?_
  dsimp only
  refine roundTrip_step (fieldRoundTrips_string s.Format) _ (by decide) (fun _ => rfl) rfl ?_
  dsimp only
  refine roundTrip_step (fieldRoundTrips_float64 s.PrintSize) _ (by decide) (fun _ => rfl) rfl ?_
  dsimp only
  exact roundTrip_done x _ _ _

/-- The zero value of `RevisionsElem` has what the codec relies on. -/
theorem RevisionsElem_good_zero (c : Checks) : RevisionsElem.Good c ({} : RevisionsElem) :=
  ⟨ptrOk_none _⟩

/-- Every field setter of `RevisionsElem` keeps what the codec relies on. -/
theorem RevisionsElem_setField_good (x : Env) (c : Checks) (hc : c.Sound x) (t : String) (v : Json)
    (s s' : RevisionsElem) (hg : RevisionsElem.Good c s) (h : RevisionsElem.setField x t v s = .ok
    s') :
    RevisionsElem.Good c s' := by
  unfold RevisionsElem.setField at h
  split at h
  all_goals
    first
    | (cases h; exact hg)
    | (obtain ⟨a, h1, h2⟩ := Except.map_eq_ok _ _ _ h
       subst h2
       first
       | exact { hg with }
       | exact { hg with Versioncreated := ((preserves_ptr ((Time_preserves x c hc).fresh {}
           hc.zeroTime) (Time_preserves x c hc)) _ _ _ hg.Versioncreated h1) })

/-- The decoder of `RevisionsElem` keeps what the codec relies on. -/
theorem RevisionsElem_preserves (x : Env) (c : Checks) (hc : c.Sound x) :
    Preserves (RevisionsElem.Good c) (decodeStruct x RevisionsElem.tags (RevisionsElem.setField
      x)) :=
  decodeStruct_preserves x RevisionsElem.tags (RevisionsElem.setField x) _
    (RevisionsElem_setField_good x c hc)

/-- A value of `RevisionsElem` with what the codec relies on round-trips, up to empty slices and
the form of zero. -/
theorem RevisionsElem_roundTrips (x : Env) (s : RevisionsElem) (hg : RevisionsElem.Good
    (Checks.roundTrip x) s) :
    RoundTrips (RevisionsElem.encode x) (decodeStruct x RevisionsElem.tags (RevisionsElem.setField
      x)) {} RevisionsElem.normalize s := by
  refine roundTrips_struct x RevisionsElem.tags (RevisionsElem.setField x) _ {} _ ?_
  refine roundTrip_step (fieldRoundTrips_slice (fun _ => True) (fun a _ => (roundTrips_string
    a).elem) s.Replacing (fun _ _ _ _ => trivial)) _ (by decide) (fun _ => rfl) rfl ?_
  dsimp only
  refine roundTrip_step (fieldRoundTrips_string s.Slug) _ (by decide) (fun _ => rfl) rfl ?_
  dsimp only
  refine roundTrip_step (fieldRoundTrips_always (roundTrips_string s.Uri).elem) _ (by decide) (fun
    _ => rfl) rfl ?_
  dsimp only
  refine roundTrip_step (fieldRoundTrips_ptr_id (TimeRoundTrips x) (Time_roundTrips x)
    s.Versioncreated hg.Versioncreated) _ (by decide) (fun _ => rfl) rfl ?_
  dsimp only
  exact roundTrip_done x _ _ _

/-- The raw map of an object all of whose `uri` members hold the string `u`
holds that string under `uri`. -/
theorem GoMap.get_readMembers_uri (kvs : List (String × Json)) (m : List (String × Any))
    (u : String) (h : ∀ v, ("uri", v) ∈ kvs → v = Json.str u)
    (hm : GoMap.get m "uri" = some (Any.string u) ∨ ("uri", Json.str u) ∈ kvs) :
    GoMap.get (Json.readMembers kvs m) "uri" = some (Any.string u) := by
  induction kvs generalizing m with
  | nil =>
    rcases hm with hm | hm
    · exact hm
    · cases hm
  | cons hd tl ih =>
    obtain ⟨k, v⟩ := hd
    rw [Json.readMembers]
    refine ih _ (fun w hw => h w (List.mem_cons_of_mem _ hw)) ?_
    rw [GoMap.get_set]
    by_cases hk : k = "uri"
    · subst hk
      rw [if_pos rfl, h v (List.mem_cons_self _ _)]
      exact Or.inl rfl
    · rw [if_neg hk]
      rcases hm with hm | hm
      · exact Or.inl hm
      · rcases List.mem_cons.1 hm with e | e
        · exact absurd (congrArg Prod.fst e).symm hk
        · exact Or.inr e

/-- The required-field test passes on an object that has a `uri` member and
whose `uri` members all hold the same string. -/
theorem uriMissing_of_uri (kvs : List (String × Json)) (u : String)
    (hmem : ("uri", Json.str u) ∈ kvs) (h : ∀ v, ("uri", v) ∈ kvs → v = Json.str u) :
    uriMissing (some (Json.readMembers kvs [])) = false := by
  unfold uriMissing
  simp only [Option.getD, GoMap.get_readMembers_uri kvs [] u h (Or.inr hmem)]

/-- The method of `RevisionsElem` gives values with what the codec relies on. -/
theorem RevisionsElem_fresh_method (x : Env) (c : Checks) (hc : c.Sound x) :
    Fresh (RevisionsElem.Good c) {} (decodeUnmarshaler (RevisionsElem.UnmarshalJSON x)) := by
  intro v a h
  unfold decodeUnmarshaler at h
  split at h
  · rename_i r hr
    cases h
    unfold RevisionsElem.UnmarshalJSON at hr
    split at hr
    · cases hr
    · split at hr
      · cases hr
      · split at hr
        · cases hr
        · rename_i p hp
          cases hr
          exact (RevisionsElem_preserves x c hc).fresh {} (RevisionsElem_good_zero c) v _ hp
  · cases h

/-- A revision entry with what the codec relies on round-trips through its
method, up to empty slices. -/
theorem RevisionsElem_roundTrips_method (x : Env) (r : RevisionsElem)
    (hg : RevisionsElem.Good (Checks.roundTrip x) r) :
    RoundTrips (RevisionsElem.encode x) (decodeUnmarshaler (RevisionsElem.UnmarshalJSON x)) {}
      RevisionsElem.normalize r := by
  obtain ⟨j, h1, h2, h3⟩ := RevisionsElem_roundTrips x r hg
  obtain ⟨kvs, rfl, hmem, hall⟩ := RevisionsElem.encode_entry_uri x r j h1
  refine ⟨_, h1, h2, ?_⟩
  have h4 : RevisionsElem.unmarshalPlain x (.obj kvs) = .ok (RevisionsElem.normalize r) := h3
  simp only [decodeUnmarshaler, RevisionsElem.UnmarshalJSON, unmarshalRaw,
    uriMissing_of_uri kvs r.Uri hmem hall, Bool.false_eq_true, if_false, h4]

/-- A value of `Rightsinfo` round-trips. -/
theorem Rightsinfo_roundTrips (x : Env) (s : Rightsinfo) :
    RoundTrips Rightsinfo.encode (Rightsinfo.decode x) {} id s := by
  refine roundTrips_struct x Rightsinfo.tags Rightsinfo.setField _ {} _ ?_
  refine roundTrip_step (fieldRoundTrips_string s.Encodedrights) _ (by decide) (fun _ => rfl) rfl
    ?_
  dsimp only
  refine roundTrip_step (fieldRoundTrips_string s.Langid) _ (by decide) (fun _ => rfl) rfl ?_
  dsimp only
  refine roundTrip_step (fieldRoundTrips_string s.Linkedrights) _ (by decide) (fun _ => rfl) rfl
    ?_
  dsimp only
  exact roundTrip_done x _ _ _

/-- A value of `Signals` round-trips, up to empty slices and the form of zero. -/
theorem Signals_roundTrips (x : Env) (s : Signals) :
    RoundTrips Signals.encode (Signals.decode x) {} Signals.normalize s := by
  refine roundTrips_struct x Signals.tags Signals.setField _ {} _ ?_
  refine roundTrip_step (fieldRoundTrips_slice (fun _ => True) (fun a _ => (roundTrips_string
    a).elem) s.Deliverytags (fun _ _ _ _ => trivial)) _ (by decide) (fun _ => rfl) rfl ?_
  dsimp only
  refine roundTrip_step (fieldRoundTrips_ptr_id (fun _ => True) (fun a _ => roundTrips_float64 a)
    s.Multipagecount (fun _ _ => trivial)) _ (by decide) (fun _ => rfl) rfl ?_
  dsimp only
  refine roundTrip_step (fieldRoundTrips_string s.Pagecode) _ (by decide) (fun _ => rfl) rfl ?_
  dsimp only
  refine roundTrip_step (fieldRoundTrips_string s.Pageproduct) _ (by decide) (fun _ => rfl) rfl ?_
  dsimp only
  refine roundTrip_step (fieldRoundTrips_string s.Pagevariant) _ (by decide) (fun _ => rfl) rfl ?_
  dsimp only
  refine roundTrip_step (fieldRoundTrips_slice (fun _ => True) (fun a _ => (roundTrips_string
    a).elem) s.Paginae (fun _ _ _ _ => trivial)) _ (by decide) (fun _ => rfl) rfl ?_
  dsimp only
  refine roundTrip_step (fieldRoundTrips_ptr_id (fun _ => True) (fun a _ => roundTrips_bool a)
    s.Retransmission (fun _ _ => trivial)) _ (by decide) (fun _ => rfl) rfl ?_
  dsimp only
  refine roundTrip_step (fieldRoundTrips_ptr_id (fun _ => True) (fun a _ => roundTrips_string a)
    s.Updatetype (fun _ _ => trivial)) _ (by decide) (fun _ => rfl) rfl ?_
  dsimp only
  exact roundTrip_done x _ _ _

/-- The zero value of `SubjectElem` has what the codec relies on. -/
theorem SubjectElem_good_zero : SubjectElem.Good ({} : SubjectElem) :=
  ⟨ptrOk_none _, ptrOk_none _⟩

/-- Every field setter of `SubjectElem` keeps what the codec relies on. -/
theorem SubjectElem_setField_good (t : String) (v : Json)
    (s s' : SubjectElem) (hg : SubjectElem.Good s) (h : SubjectElem.setField t v s = .ok s') :
    SubjectElem.Good s' := by
  unfold SubjectElem.setField at h
  split at h
  all_goals
    first
    | (cases h; exact hg)
    | (obtain ⟨a, h1, h2⟩ := Except.map_eq_ok _ _ _ h
       subst h2
       first
       | exact { hg with }
       | exact { hg with Confidence := ((preserves_ptr (preserves_int.fresh 0 intOk_zero)
           preserves_int) _ _ _ hg.Confidence h1) }
       | exact { hg with Relevance := ((preserves_ptr (preserves_int.fresh 0 intOk_zero)
           preserves_int) _ _ _ hg.Relevance h1) })

/-- The decoder of `SubjectElem` keeps what the codec relies on. -/
theorem SubjectElem_preserves (x : Env) :
    Preserves SubjectElem.Good (SubjectElem.decode x) :=
  decodeStruct_preserves x SubjectElem.tags SubjectElem.setField _ SubjectElem_setField_good

/-- A value of `SubjectElem` with what the codec relies on round-trips. -/
theorem SubjectElem_roundTrips (x : Env) (s : SubjectElem) (hg : SubjectElem.Good s) :
    RoundTrips SubjectElem.encode (SubjectElem.decode x) {} id s := by
  refine roundTrips_struct x SubjectElem.tags SubjectElem.setField _ {} _ ?_
  refine roundTrip_step (fieldRoundTrips_string s.Code) _ (by decide) (fun _ => rfl) rfl ?_
  dsimp only
  refine roundTrip_step (fieldRoundTrips_ptr_id IntOk roundTrips_int s.Confidence hg.Confidence) _
    (by decide) (fun _ => rfl) rfl ?_
  dsimp only
  refine roundTrip_step (fieldRoundTrips_string s.Creator) _ (by decide) (fun _ => rfl) rfl ?_
  dsimp only
  refine roundTrip_step (fieldRoundTrips_string s.Name) _ (by decide) (fun _ => rfl) rfl ?_
  dsimp only
  refine roundTrip_step (fieldRoundTrips_string s.Rel) _ (by decide) (fun _ => rfl) rfl ?_
  dsimp only
  refine roundTrip_step (fieldRoundTrips_ptr_id IntOk roundTrips_int s.Relevance hg.Relevance) _
    (by decide) (fun _ => rfl) rfl ?_
  dsimp only
  refine roundTrip_step (fieldRoundTrips_string s.Scheme) _ (by decide) (fun _ => rfl) rfl ?_
  dsimp only
  exact roundTrip_done x _ _ _

/-- A value of `TrustindicatorElem` round-trips. -/
theorem TrustindicatorElem_roundTrips (x : Env) (s : TrustindicatorElem) :
    RoundTrips TrustindicatorElem.encode (TrustindicatorElem.decode x) {} id s := by
  refine roundTrips_struct x TrustindicatorElem.tags TrustindicatorElem.setField _ {} _ ?_
  refine roundTrip_step (fieldRoundTrips_string s.Code) _ (by decide) (fun _ => rfl) rfl ?_
  dsimp only
  refine roundTrip_step (fieldRoundTrips_string s.Href) _ (by decide) (fun _ => rfl) rfl ?_
  dsimp only
  refine roundTrip_step (fieldRoundTrips_string s.Scheme) _ (by decide) (fun _ => rfl) rfl ?_
  dsimp only
  refine roundTrip_step (fieldRoundTrips_string s.Title) _ (by decide) (fun _ => rfl) rfl ?_
  dsimp only
  exact roundTrip_done x _ _ _

/-- The zero value of the document struct has what the codec relies on. -/
theorem Plain_good_zero {x : Env} (c : Checks) (hc : c.Sound x) :
    Plain.GoodLeaf c ({} : Plain Document) :=
  ⟨sliceOk_none _, ptrOk_none _, mapOk_none _, ptrOk_none _, ptrOk_none _, ptrOk_none _,
    ptrOk_none _, ptrOk_none _, ptrOk_none _, ptrOk_none _, ptrOk_none _, ptrOk_none _,
    sliceOk_none _, ptrOk_none _, Or.inl rfl, mapOk_none _, ptrOk_none _, sliceOk_none _,
    ptrOk_none _, sliceOk_none _, Or.inl rfl, intOk_zero, hc.zeroTime, ptrOk_none _, intOk_zero,
    intOk_zero, intOk_zero⟩

/-- Every field setter of the document struct keeps what the codec relies on,
and leaves the two maps of embedded documents as they are. -/
theorem Plain_setLeaf_good (x : Env) (c : Checks) (hc : c.Sound x) (t : String)
    (ht : t ∈ Plain.tags) (v : Json) (s s' : Plain Document) (hg : Plain.GoodLeaf c s)
    (h : Plain.setLeaf x t v s = .ok s') :
    Plain.GoodLeaf c s' ∧ s'.Assignments = s.Assignments ∧
      s'.Associations = s.Associations := by
  simp only [Plain.tags, List.mem_cons, List.mem_singleton, List.not_mem_nil, or_false] at ht
  rcases ht with rfl | rfl | rfl | rfl | rfl | rfl | rfl | rfl | rfl | rfl | rfl | rfl | rfl | rfl
    | rfl | rfl | rfl | rfl | rfl | rfl | rfl | rfl | rfl | rfl | rfl | rfl | rfl | rfl | rfl |
    rfl | rfl | rfl | rfl | rfl | rfl | rfl | rfl | rfl | rfl | rfl | rfl | rfl | rfl | rfl | rfl
    | rfl | rfl | rfl | rfl | rfl | rfl | rfl | rfl | rfl | rfl | rfl | rfl | rfl | rfl | rfl |
    rfl | rfl | rfl | rfl | rfl | rfl | rfl | rfl | rfl | rfl | rfl | rfl
  · obtain ⟨a, h1, h2⟩ := Except.map_eq_ok _ _ _ h
    subst h2
    exact ⟨{ hg with }, rfl, rfl⟩
  · obtain ⟨a, h1, h2⟩ := Except.map_eq_ok _ _ _ h
    subst h2
    exact ⟨{ hg with Advice := ((preserves_slice ((AdviceElem_preserves x).fresh {}
      AdviceElem_good_zero)) _ _ _ hg.Advice h1) }, rfl, rfl⟩
  · obtain ⟨a, h1, h2⟩ := Except.map_eq_ok _ _ _ h
    subst h2
    exact ⟨{ hg with }, rfl, rfl⟩
  · cases h
    exact ⟨hg, rfl, rfl⟩
  · cases h
    exact ⟨hg, rfl, rfl⟩
  · obtain ⟨a, h1, h2⟩ := Except.map_eq_ok _ _ _ h
    subst h2
    exact ⟨{ hg with BodyEvent := ((preserves_ptr ((BodyEvent_preserves x c hc).fresh {}
      (BodyEvent_good_zero c)) (BodyEvent_preserves x c hc)) _ _ _ hg.BodyEvent h1) }, rfl, rfl⟩
  · obtain ⟨a, h1, h2⟩ := Except.map_eq_ok _ _ _ h
    subst h2
    exact ⟨{ hg with }, rfl, rfl⟩
  · obtain ⟨a, h1, h2⟩ := Except.map_eq_ok _ _ _ h
    subst h2
    exact ⟨{ hg with BodyPages := ((preserves_map fresh_any) _ _ _ hg.BodyPages h1) }, rfl, rfl⟩
  · obtain ⟨a, h1, h2⟩ := Except.map_eq_ok _ _ _ h
    subst h2
    exact ⟨{ hg with }, rfl, rfl⟩
  · obtain ⟨a, h1, h2⟩ := Except.map_eq_ok _ _ _ h
    subst h2
    exact ⟨{ hg with }, rfl, rfl⟩
  · obtain ⟨a, h1, h2⟩ := Except.map_eq_ok _ _ _ h
    subst h2
    exact ⟨{ hg with }, rfl, rfl⟩
  · obtain ⟨a, h1, h2⟩ := Except.map_eq_ok _ _ _ h
    subst h2
    exact ⟨{ hg with }, rfl, rfl⟩
  · obtain ⟨a, h1, h2⟩ := Except.map_eq_ok _ _ _ h
    subst h2
    exact ⟨{ hg with }, rfl, rfl⟩
  · obtain ⟨a, h1, h2⟩ := Except.map_eq_ok _ _ _ h
    subst h2
    exact ⟨{ hg with }, rfl, rfl⟩
  · obtain ⟨a, h1, h2⟩ := Except.map_eq_ok _ _ _ h
    subst h2
    exact ⟨{ hg with }, rfl, rfl⟩
  · obtain ⟨a, h1, h2⟩ := Except.map_eq_ok _ _ _ h
    subst h2
    exact ⟨{ hg with }, rfl, rfl⟩
  · obtain ⟨a, h1, h2⟩ := Except.map_eq_ok _ _ _ h
    subst h2
    exact ⟨{ hg with Contentcreated := ((preserves_ptr ((Time_preserves x c hc).fresh {}
      hc.zeroTime) (Time_preserves x c hc)) _ _ _ hg.Contentcreated h1) }, rfl, rfl⟩
  · obtain ⟨a, h1, h2⟩ := Except.map_eq_ok _ _ _ h
    subst h2
    exact ⟨{ hg with }, rfl, rfl⟩
  · obtain ⟨a, h1, h2⟩ := Except.map_eq_ok _ _ _ h
    subst h2
    exact ⟨{ hg with }, rfl, rfl⟩
  · obtain ⟨a, h1, h2⟩ := Except.map_eq_ok _ _ _ h
    subst h2
    exact ⟨{ hg with Date := ((preserves_ptr (SerializableDate_fresh x c hc)
      (SerializableDate_preserves x c hc)) _ _ _ hg.Date h1) }, rfl, rfl⟩
  · obtain ⟨a, h1, h2⟩ := Except.map_eq_ok _ _ _ h
    subst h2
    exact ⟨{ hg with Datetime := ((preserves_ptr ((Time_preserves x c hc).fresh {} hc.zeroTime)
      (Time_preserves x c hc)) _ _ _ hg.Datetime h1) }, rfl, rfl⟩
  · obtain ⟨a, h1, h2⟩ := Except.map_eq_ok _ _ _ h
    subst h2
    exact ⟨{ hg with }, rfl, rfl⟩
  · obtain ⟨a, h1, h2⟩ := Except.map_eq_ok _ _ _ h
    subst h2
    exact ⟨{ hg with }, rfl, rfl⟩
  · obtain ⟨a, h1, h2⟩ := Except.map_eq_ok _ _ _ h
    subst h2
    exact ⟨{ hg with }, rfl, rfl⟩
  · obtain ⟨a, h1, h2⟩ := Except.map_eq_ok _ _ _ h
    subst h2
    exact ⟨{ hg with Embargoed := ((preserves_ptr ((Time_preserves x c hc).fresh {} hc.zeroTime)
      (Time_preserves x c hc)) _ _ _ hg.Embargoed h1) }, rfl, rfl⟩
  · obtain ⟨a, h1, h2⟩ := Except.map_eq_ok _ _ _ h
    subst h2
    exact ⟨{ hg with }, rfl, rfl⟩
  · obtain ⟨a, h1, h2⟩ := Except.map_eq_ok _ _ _ h
    subst h2
    exact ⟨{ hg with Enddate := ((preserves_ptr (SerializableDate_fresh x c hc)
      (SerializableDate_preserves x c hc)) _ _ _ hg.Enddate h1) }, rfl, rfl⟩
  · obtain ⟨a, h1, h2⟩ := Except.map_eq_ok _ _ _ h
    subst h2
    exact ⟨{ hg with Enddatetime := ((preserves_ptr ((Time_preserves x c hc).fresh {} hc.zeroTime)
      (Time_preserves x c hc)) _ _ _ hg.Enddatetime h1) }, rfl, rfl⟩
  · obtain ⟨a, h1, h2⟩ := Except.map_eq_ok _ _ _ h
    subst h2
    exact ⟨{ hg with }, rfl, rfl⟩
  · obtain ⟨a, h1, h2⟩ := Except.map_eq_ok _ _ _ h
    subst h2
    exact ⟨{ hg with Expires := ((preserves_ptr ((Time_preserves x c hc).fresh {} hc.zeroTime)
      (Time_preserves x c hc)) _ _ _ hg.Expires h1) }, rfl, rfl⟩
  · obtain ⟨a, h1, h2⟩ := Except.map_eq_ok _ _ _ h
    subst h2
    exact ⟨{ hg with Firstcreated := ((preserves_ptr ((Time_preserves x c hc).fresh {}
      hc.zeroTime) (Time_preserves x c hc)) _ _ _ hg.Firstcreated h1) }, rfl, rfl⟩
  · obtain ⟨a, h1, h2⟩ := Except.map_eq_ok _ _ _ h
    subst h2
    exact ⟨{ hg with }, rfl, rfl⟩
  · obtain ⟨a, h1, h2⟩ := Except.map_eq_ok _ _ _ h
    subst h2
    exact ⟨{ hg with }, rfl, rfl⟩
  · obtain ⟨a, h1, h2⟩ := Except.map_eq_ok _ _ _ h
    subst h2
    exact ⟨{ hg with }, rfl, rfl⟩
  · obtain ⟨a, h1, h2⟩ := Except.map_eq_ok _ _ _ h
    subst h2
    exact ⟨{ hg with }, rfl, rfl⟩
  · obtain ⟨a, h1, h2⟩ := Except.map_eq_ok _ _ _ h
    subst h2
    exact ⟨{ hg with }, rfl, rfl⟩
  · obtain ⟨a, h1, h2⟩ := Except.map_eq_ok _ _ _ h
    subst h2
    exact ⟨{ hg with }, rfl, rfl⟩
  · obtain ⟨a, h1, h2⟩ := Except.map_eq_ok _ _ _ h
    subst h2
    exact ⟨{ hg with }, rfl, rfl⟩
  · obtain ⟨a, h1, h2⟩ := Except.map_eq_ok _ _ _ h
    subst h2
    exact ⟨{ hg with }, rfl, rfl⟩
  · obtain ⟨a, h1, h2⟩ := Except.map_eq_ok _ _ _ h
    subst h2
    exact ⟨{ hg with Newsvalue := ((preserves_ptr (preserves_int.fresh 0 intOk_zero)
      preserves_int) _ _ _ hg.Newsvalue h1) }, rfl, rfl⟩
  · obtain ⟨a, h1, h2⟩ := Except.map_eq_ok _ _ _ h
    subst h2
    exact ⟨{ hg with }, rfl, rfl⟩
  · obtain ⟨a, h1, h2⟩ := Except.map_eq_ok _ _ _ h
    subst h2
    exact ⟨{ hg with }, rfl, rfl⟩
  · obtain ⟨a, h1, h2⟩ := Except.map_eq_ok _ _ _ h
    subst h2
    exact ⟨{ hg with }, rfl, rfl⟩
  · obtain ⟨a, h1, h2⟩ := Except.map_eq_ok _ _ _ h
    subst h2
    exact ⟨{ hg with }, rfl, rfl⟩
  · obtain ⟨a, h1, h2⟩ := Except.map_eq_ok _ _ _ h
    subst h2
    exact ⟨{ hg with Place := ((preserves_slice ((PlaceElem_preserves x).fresh {}
      PlaceElem_good_zero)) _ _ _ hg.Place h1) }, rfl, rfl⟩
  · obtain ⟨a, h1, h2⟩ := Except.map_eq_ok _ _ _ h
    subst h2
    exact ⟨{ hg with }, rfl, rfl⟩
  · obtain ⟨a, h1, h2⟩ := Except.map_eq_ok _ _ _ h
    subst h2
    exact ⟨{ hg with Profile := ((preserves_ptr (fresh_enum enumValues_Profile) (preserves_enum
      enumValues_Profile (EnumOk enumValues_Profile) fun _ h => h)) _ _ _ hg.Profile h1) }, rfl,
      rfl⟩
  · obtain ⟨a, h1, h2⟩ := Except.map_eq_ok _ _ _ h
    subst h2
    exact ⟨{ hg with Pubstatus := ((preserves_enum enumValues_Pubstatus (EnumOrEmpty
      enumValues_Pubstatus) fun _ h => Or.inr h) _ _ _ hg.Pubstatus h1) }, rfl, rfl⟩
  · obtain ⟨a, h1, h2⟩ := Except.map_eq_ok _ _ _ h
    subst h2
    exact ⟨{ hg with Renditions := ((preserves_map ((Rendition_preserves x).fresh {}
      Rendition_good_zero)) _ _ _ hg.Renditions h1) }, rfl, rfl⟩
  · obtain ⟨a, h1, h2⟩ := Except.map_eq_ok _ _ _ h
    subst h2
    exact ⟨{ hg with }, rfl, rfl⟩
  · obtain ⟨a, h1, h2⟩ := Except.map_eq_ok _ _ _ h
    subst h2
    exact ⟨{ hg with }, rfl, rfl⟩
  · obtain ⟨a, h1, h2⟩ := Except.map_eq_ok _ _ _ h
    subst h2
    exact ⟨{ hg with Representationtype := ((preserves_ptr (fresh_enum
      enumValues_Representationtype) (preserves_enum enumValues_Representationtype (EnumOk
      enumValues_Representationtype) fun _ h => h)) _ _ _ hg.Representationtype h1) }, rfl, rfl⟩
  · obtain ⟨a, h1, h2⟩ := Except.map_eq_ok _ _ _ h
    subst h2
    exact ⟨{ hg with Revisions := ((preserves_slice (RevisionsElem_fresh_method x c hc)) _ _ _
      hg.Revisions h1) }, rfl, rfl⟩
  · obtain ⟨a, h1, h2⟩ := Except.map_eq_ok _ _ _ h
    subst h2
    exact ⟨{ hg with }, rfl, rfl⟩
  · obtain ⟨a, h1, h2⟩ := Except.map_eq_ok _ _ _ h
    subst h2
    exact ⟨{ hg with Sector := ((preserves_ptr (fresh_enum enumValues_Sector) (preserves_enum
      enumValues_Sector (EnumOk enumValues_Sector) fun _ h => h)) _ _ _ hg.Sector h1) }, rfl, rfl⟩
  · obtain ⟨a, h1, h2⟩ := Except.map_eq_ok _ _ _ h
    subst h2
    exact ⟨{ hg with }, rfl, rfl⟩
  · obtain ⟨a, h1, h2⟩ := Except.map_eq_ok _ _ _ h
    subst h2
    exact ⟨{ hg with }, rfl, rfl⟩
  · obtain ⟨a, h1, h2⟩ := Except.map_eq_ok _ _ _ h
    subst h2
    exact ⟨{ hg with }, rfl, rfl⟩
  · obtain ⟨a, h1, h2⟩ := Except.map_eq_ok _ _ _ h
    subst h2
    exact ⟨{ hg with }, rfl, rfl⟩
  · obtain ⟨a, h1, h2⟩ := Except.map_eq_ok _ _ _ h
    subst h2
    exact ⟨{ hg with Subject := ((preserves_slice ((SubjectElem_preserves x).fresh {}
      SubjectElem_good_zero)) _ _ _ hg.Subject h1) }, rfl, rfl⟩
  · obtain ⟨a, h1, h2⟩ := Except.map_eq_ok _ _ _ h
    subst h2
    exact ⟨{ hg with }, rfl, rfl⟩
  · obtain ⟨a, h1, h2⟩ := Except.map_eq_ok _ _ _ h
    subst h2
    exact ⟨{ hg with }, rfl, rfl⟩
  · obtain ⟨a, h1, h2⟩ := Except.map_eq_ok _ _ _ h
    subst h2
    exact ⟨{ hg with Type_ := ((preserves_enum enumValues_Type (EnumOrEmpty enumValues_Type) fun _
      h => Or.inr h) _ _ _ hg.Type_ h1) }, rfl, rfl⟩
  · obtain ⟨a, h1, h2⟩ := Except.map_eq_ok _ _ _ h
    subst h2
    exact ⟨{ hg with Urgency := (preserves_int _ _ _ hg.Urgency h1) }, rfl, rfl⟩
  · obtain ⟨a, h1, h2⟩ := Except.map_eq_ok _ _ _ h
    subst h2
    exact ⟨{ hg with }, rfl, rfl⟩
  · obtain ⟨a, h1, h2⟩ := Except.map_eq_ok _ _ _ h
    subst h2
    exact ⟨{ hg with }, rfl, rfl⟩
  · obtain ⟨a, h1, h2⟩ := Except.map_eq_ok _ _ _ h
    subst h2
    exact ⟨{ hg with }, rfl, rfl⟩
  · obtain ⟨a, h1, h2⟩ := Except.map_eq_ok _ _ _ h
    subst h2
    exact ⟨{ hg with Versioncreated := ((Time_preserves x c hc) _ _ _ hg.Versioncreated h1) },
      rfl, rfl⟩
  · obtain ⟨a, h1, h2⟩ := Except.map_eq_ok _ _ _ h
    subst h2
    exact ⟨{ hg with Versionstored := ((preserves_ptr ((Time_preserves x c hc).fresh {}
      hc.zeroTime) (Time_preserves x c hc)) _ _ _ hg.Versionstored h1) }, rfl, rfl⟩
  · obtain ⟨a, h1, h2⟩ := Except.map_eq_ok _ _ _ h
    subst h2
    exact ⟨{ hg with Webprio := (preserves_int _ _ _ hg.Webprio h1) }, rfl, rfl⟩
  · obtain ⟨a, h1, h2⟩ := Except.map_eq_ok _ _ _ h
    subst h2
    exact ⟨{ hg with Week := (preserves_int _ _ _ hg.Week h1) }, rfl, rfl⟩
  · obtain ⟨a, h1, h2⟩ := Except.map_eq_ok _ _ _ h
    subst h2
    exact ⟨{ hg with Wordcount := (preserves_int _ _ _ hg.Wordcount h1) }, rfl, rfl⟩

/-- The fields of a document round-trip through the struct encoder and the
member loop, when the two maps of embedded documents do. -/
theorem Plain_roundTrips (x : Env) (s : Plain Document)
    (hg : Plain.GoodLeaf (Checks.roundTrip x) s)
    (hassignments : FieldRoundTrips emptyMap (Document.encodeMap x) (Document.decodeMap x)
      none Document.normalizeMap s.Assignments)
    (hassociations : FieldRoundTrips emptyMap (Document.encodeMap x) (Document.decodeMap x)
      none Document.normalizeMap s.Associations) :
    ∃ l, joinMembers (Plain.members x s (Document.encodeMap x s.Assignments)
        (Document.encodeMap x s.Associations)) = .ok l ∧
      decodeMembers x Plain.tags (Document.setField x) l {} =
        .ok { Plain.normalizeLeaf s with
          Assignments := Document.normalizeMap s.Assignments
          Associations := Document.normalizeMap s.Associations } := by
  unfold Plain.members
  refine roundTrip_step (fieldRoundTrips_always (Standard_roundTrips x s.Standard).elem) _ (by
    decide) (fun _ => rfl) rfl ?_
  dsimp only
  refine roundTrip_step (fieldRoundTrips_slice AdviceElem.Good (fun a h => (AdviceElem_roundTrips
    x a h).elem) s.Advice hg.Advice) _ (by decide) (fun _ => rfl) rfl ?_
  dsimp only
  refine roundTrip_step (fieldRoundTrips_ptr_id (fun _ => True) (fun a _ => Altids_roundTrips x a)
    s.Altids (fun _ _ => trivial)) _ (by decide) (fun _ => rfl) rfl ?_
  dsimp only
  refine roundTrip_step hassignments _ (by decide) (fun _ => rfl) rfl ?_
  dsimp only
  refine roundTrip_step hassociations _ (by decide) (fun _ => rfl) rfl ?_
  dsimp only
  refine roundTrip_step (fieldRoundTrips_ptr_id (BodyEvent.Good (Checks.roundTrip x))
    (BodyEvent_roundTrips x) s.BodyEvent hg.BodyEvent) _ (by decide) (fun _ => rfl) rfl ?_
  dsimp only
  refine roundTrip_step (fieldRoundTrips_string s.BodyHtml5) _ (by decide) (fun _ => rfl) rfl ?_
  dsimp only
  refine roundTrip_step (fieldRoundTrips_map Any.WF Any_roundTrips s.BodyPages hg.BodyPages) _ (by
    decide) (fun _ => rfl) rfl ?_
  dsimp only
  refine roundTrip_step (fieldRoundTrips_string s.BodyRichhtml5) _ (by decide) (fun _ => rfl) rfl
    ?_
  dsimp only
  refine roundTrip_step (fieldRoundTrips_string s.BodySportsml) _ (by decide) (fun _ => rfl) rfl
    ?_
  dsimp only
  refine roundTrip_step (fieldRoundTrips_string s.BodyText) _ (by decide) (fun _ => rfl) rfl ?_
  dsimp only
  refine roundTrip_step (fieldRoundTrips_string s.Byline) _ (by decide) (fun _ => rfl) rfl ?_
  dsimp only
  refine roundTrip_step (fieldRoundTrips_slice (fun _ => True) (fun a _ => (BylinesElem_roundTrips
    x a).elem) s.Bylines (fun _ _ _ _ => trivial)) _ (by decide) (fun _ => rfl) rfl ?_
  dsimp only
  refine roundTrip_step (fieldRoundTrips_ptr_id (fun _ => True) (fun a _ => roundTrips_float64 a)
    s.Charcount (fun _ _ => trivial)) _ (by decide) (fun _ => rfl) rfl ?_
  dsimp only
  refine roundTrip_step (fieldRoundTrips_string s.Commissioncode) _ (by decide) (fun _ => rfl) rfl
    ?_
  dsimp only
  refine roundTrip_step (fieldRoundTrips_slice (fun _ => True) (fun a _ => (roundTrips_string
    a).elem) s.Commissionedby (fun _ _ _ _ => trivial)) _ (by decide) (fun _ => rfl) rfl ?_
  dsimp only
  refine roundTrip_step (fieldRoundTrips_ptr_id (TimeRoundTrips x) (Time_roundTrips x)
    s.Contentcreated hg.Contentcreated) _ (by decide) (fun _ => rfl) rfl ?_
  dsimp only
  refine roundTrip_step (fieldRoundTrips_string s.Copyrightholder) _ (by decide) (fun _ => rfl)
    rfl ?_
  dsimp only
  refine roundTrip_step (fieldRoundTrips_string s.Copyrightnotice) _ (by decide) (fun _ => rfl)
    rfl ?_
  dsimp only
  refine roundTrip_step (fieldRoundTrips_ptr_id (DateRoundTrips x) (SerializableDate_roundTrips x)
    s.Date hg.Date) _ (by decide) (fun _ => rfl) rfl ?_
  dsimp only
  refine roundTrip_step (fieldRoundTrips_ptr_id (TimeRoundTrips x) (Time_roundTrips x) s.Datetime
    hg.Datetime) _ (by decide) (fun _ => rfl) rfl ?_
  dsimp only
  refine roundTrip_step (fieldRoundTrips_string s.DescriptionText) _ (by decide) (fun _ => rfl)
    rfl ?_
  dsimp only
  refine roundTrip_step (fieldRoundTrips_string s.DescriptionUsage) _ (by decide) (fun _ => rfl)
    rfl ?_
  dsimp only
  refine roundTrip_step (fieldRoundTrips_string s.Ednote) _ (by decide) (fun _ => rfl) rfl ?_
  dsimp only
  refine roundTrip_step (fieldRoundTrips_ptr_id (TimeRoundTrips x) (Time_roundTrips x) s.Embargoed
    hg.Embargoed) _ (by decide) (fun _ => rfl) rfl ?_
  dsimp only
  refine roundTrip_step (fieldRoundTrips_string s.Embargoedreason) _ (by decide) (fun _ => rfl)
    rfl ?_
  dsimp only
  refine roundTrip_step (fieldRoundTrips_ptr_id (DateRoundTrips x) (SerializableDate_roundTrips x)
    s.Enddate hg.Enddate) _ (by decide) (fun _ => rfl) rfl ?_
  dsimp only
  refine roundTrip_step (fieldRoundTrips_ptr_id (TimeRoundTrips x) (Time_roundTrips x)
    s.Enddatetime hg.Enddatetime) _ (by decide) (fun _ => rfl) rfl ?_
  dsimp only
  refine roundTrip_step (fieldRoundTrips_slice (fun _ => True) (fun a _ => (EventElem_roundTrips x
    a).elem) s.Event (fun _ _ _ _ => trivial)) _ (by decide) (fun _ => rfl) rfl ?_
  dsimp only
  refine roundTrip_step (fieldRoundTrips_ptr_id (TimeRoundTrips x) (Time_roundTrips x) s.Expires
    hg.Expires) _ (by decide) (fun _ => rfl) rfl ?_
  dsimp only
  refine roundTrip_step (fieldRoundTrips_ptr_id (TimeRoundTrips x) (Time_roundTrips x)
    s.Firstcreated hg.Firstcreated) _ (by decide) (fun _ => rfl) rfl ?_
  dsimp only
  refine roundTrip_step (fieldRoundTrips_slice (fun _ => True) (fun a _ => (FixtureElem_roundTrips
    x a).elem) s.Fixture (fun _ _ _ _ => trivial)) _ (by decide) (fun _ => rfl) rfl ?_
  dsimp only
  refine roundTrip_step (fieldRoundTrips_slice (fun _ => True) (fun a _ => (GenreElem_roundTrips x
    a).elem) s.Genre (fun _ _ _ _ => trivial)) _ (by decide) (fun _ => rfl) rfl ?_
  dsimp only
  refine roundTrip_step (fieldRoundTrips_string s.Headline) _ (by decide) (fun _ => rfl) rfl ?_
  dsimp only
  refine roundTrip_step (fieldRoundTrips_slice (fun _ => True) (fun a _ =>
    (InfosourceElem_roundTrips x a).elem) s.Infosource (fun _ _ _ _ => trivial)) _ (by decide)
    (fun _ => rfl) rfl ?_
  dsimp only
  refine roundTrip_step (fieldRoundTrips_string s.Job) _ (by decide) (fun _ => rfl) rfl ?_
  dsimp only
  refine roundTrip_step (fieldRoundTrips_string s.Language) _ (by decide) (fun _ => rfl) rfl ?_
  dsimp only
  refine roundTrip_step (fieldRoundTrips_string s.Located) _ (by decide) (fun _ => rfl) rfl ?_
  dsimp only
  refine roundTrip_step (fieldRoundTrips_string s.Mimetype) _ (by decide) (fun _ => rfl) rfl ?_
  dsimp only
  refine roundTrip_step (fieldRoundTrips_ptr_id IntOk roundTrips_int s.Newsvalue hg.Newsvalue) _
    (by decide) (fun _ => rfl) rfl ?_
  dsimp only
  refine roundTrip_step (fieldRoundTrips_slice (fun _ => True) (fun a _ => (ObjectElem_roundTrips
    x a).elem) s.Object (fun _ _ _ _ => trivial)) _ (by decide) (fun _ => rfl) rfl ?_
  dsimp only
  refine roundTrip_step (fieldRoundTrips_slice (fun _ => True) (fun a _ =>
    (OrganisationElem_roundTrips x a).elem) s.Organisation (fun _ _ _ _ => trivial)) _ (by decide)
    (fun _ => rfl) rfl ?_
  dsimp only
  refine roundTrip_step (fieldRoundTrips_string s.Originaltransmissionreference) _ (by decide)
    (fun _ => rfl) rfl ?_
  dsimp only
  refine roundTrip_step (fieldRoundTrips_slice (fun _ => True) (fun a _ => (PersonElem_roundTrips
    x a).elem) s.Person (fun _ _ _ _ => trivial)) _ (by decide) (fun _ => rfl) rfl ?_
  dsimp only
  refine roundTrip_step (fieldRoundTrips_slice PlaceElem.Good (fun a h => (PlaceElem_roundTrips x
    a h).elem) s.Place hg.Place) _ (by decide) (fun _ => rfl) rfl ?_
  dsimp only
  refine roundTrip_step (fieldRoundTrips_slice (fun _ => True) (fun a _ => (ProductElem_roundTrips
    x a).elem) s.Product (fun _ _ _ _ => trivial)) _ (by decide) (fun _ => rfl) rfl ?_
  dsimp only
  refine roundTrip_step (fieldRoundTrips_ptr_id (EnumOk enumValues_Profile) (roundTrips_enum
    enumValues_Profile) s.Profile hg.Profile) _ (by decide) (fun _ => rfl) rfl ?_
  dsimp only
  refine roundTrip_step (fieldRoundTrips_enum enumValues_Pubstatus s.Pubstatus hg.Pubstatus) _ (by
    decide) (fun _ => rfl) rfl ?_
  dsimp only
  refine roundTrip_step (fieldRoundTrips_map Rendition.Good (fun a h => ((Rendition_roundTrips x)
    a h).elem) s.Renditions hg.Renditions) _ (by decide) (fun _ => rfl) rfl ?_
  dsimp only
  refine roundTrip_step (fieldRoundTrips_string s.Replacedby) _ (by decide) (fun _ => rfl) rfl ?_
  dsimp only
  refine roundTrip_step (fieldRoundTrips_slice (fun _ => True) (fun a _ => (roundTrips_string
    a).elem) s.Replacing (fun _ _ _ _ => trivial)) _ (by decide) (fun _ => rfl) rfl ?_
  dsimp only
  refine roundTrip_step (fieldRoundTrips_ptr_id (EnumOk enumValues_Representationtype)
    (roundTrips_enum enumValues_Representationtype) s.Representationtype hg.Representationtype) _
    (by decide) (fun _ => rfl) rfl ?_
  dsimp only
  refine roundTrip_step (fieldRoundTrips_slice (RevisionsElem.Good (Checks.roundTrip x)) (fun a h
    => (RevisionsElem_roundTrips_method x a h).elem) s.Revisions hg.Revisions) _ (by decide) (fun
    _ => rfl) rfl ?_
  dsimp only
  refine roundTrip_step (fieldRoundTrips_ptr_id (fun _ => True) (fun a _ => Rightsinfo_roundTrips
    x a) s.Rightsinfo (fun _ _ => trivial)) _ (by decide) (fun _ => rfl) rfl ?_
  dsimp only
  refine roundTrip_step (fieldRoundTrips_ptr_id (EnumOk enumValues_Sector) (roundTrips_enum
    enumValues_Sector) s.Sector hg.Sector) _ (by decide) (fun _ => rfl) rfl ?_
  dsimp only
  refine roundTrip_step (fieldRoundTrips_always (Signals_roundTrips x s.Signals).elem) _ (by
    decide) (fun _ => rfl) rfl ?_
  dsimp only
  refine roundTrip_step (fieldRoundTrips_string s.Slug) _ (by decide) (fun _ => rfl) rfl ?_
  dsimp only
  refine roundTrip_step (fieldRoundTrips_string s.Slugline) _ (by decide) (fun _ => rfl) rfl ?_
  dsimp only
  refine roundTrip_step (fieldRoundTrips_string s.Source) _ (by decide) (fun _ => rfl) rfl ?_
  dsimp only
  refine roundTrip_step (fieldRoundTrips_slice SubjectElem.Good (fun a h =>
    (SubjectElem_roundTrips x a h).elem) s.Subject hg.Subject) _ (by decide) (fun _ => rfl) rfl ?_
  dsimp only
  refine roundTrip_step (fieldRoundTrips_string s.Title) _ (by decide) (fun _ => rfl) rfl ?_
  dsimp only
  refine roundTrip_step (fieldRoundTrips_slice (fun _ => True) (fun a _ =>
    (TrustindicatorElem_roundTrips x a).elem) s.Trustindicator (fun _ _ _ _ => trivial)) _ (by
    decide) (fun _ => rfl) rfl ?_
  dsimp only
  refine roundTrip_step (fieldRoundTrips_enum enumValues_Type s.Type_ hg.Type_) _ (by decide) (fun
    _ => rfl) rfl ?_
  dsimp only
  refine roundTrip_step (fieldRoundTrips_int s.Urgency hg.Urgency) _ (by decide) (fun _ => rfl)
    rfl ?_
  dsimp only
  refine roundTrip_step (fieldRoundTrips_always (roundTrips_string s.Uri).elem) _ (by decide) (fun
    _ => rfl) rfl ?_
  dsimp only
  refine roundTrip_step (fieldRoundTrips_string s.Usageterms) _ (by decide) (fun _ => rfl) rfl ?_
  dsimp only
  refine roundTrip_step (fieldRoundTrips_string s.Version) _ (by decide) (fun _ => rfl) rfl ?_
  dsimp only
  refine roundTrip_step (fieldRoundTrips_always (Time_roundTrips x s.Versioncreated
    hg.Versioncreated).elem) _ (by decide) (fun _ => rfl) rfl ?_
  dsimp only
  refine roundTrip_step (fieldRoundTrips_ptr_id (TimeRoundTrips x) (Time_roundTrips x)
    s.Versionstored hg.Versionstored) _ (by decide) (fun _ => rfl) rfl ?_
  dsimp only
  refine roundTrip_step (fieldRoundTrips_int s.Webprio hg.Webprio) _ (by decide) (fun _ => rfl)
    rfl ?_
  dsimp only
  refine roundTrip_step (fieldRoundTrips_int s.Week hg.Week) _ (by decide) (fun _ => rfl) rfl ?_
  dsimp only
  refine roundTrip_step (fieldRoundTrips_int s.Wordcount hg.Wordcount) _ (by decide) (fun _ =>
    rfl) rfl ?_
  dsimp only
  exact roundTrip_done x _ _ _

/-! ### The document decoder as an instance of the struct and map decoders -/

/-- A key binds to a field of the struct only. -/
theorem resolveField_mem (x : Env) (tags : List String) (k t : String)
    (h : resolveField x tags k = some t) : t ∈ tags := by
  unfold resolveField at h
  split at h
  · cases h
    assumption
  · split at h
    · cases h
      assumption
    · cases h

/-- The member loop of the document decoder is the struct decoder of the
library with the field setter of the document struct. -/
theorem Document.decodeMembers_eq (x : Env) (kvs : List (String × Json))
    (s : Plain Document) :
    Document.decodeMembers x kvs s =
      Ttninjs.decodeMembers x Plain.tags (Document.setField x) kvs s := by
  induction kvs generalizing s with
  | nil => rfl
  | cons hd tl ih =>
    obtain ⟨k, v⟩ := hd
    rw [Document.decodeMembers, Ttninjs.decodeMembers]
    cases resolveField x Plain.tags k with
    | none => exact ih s
    | some t =>
      simp only [Document.setField]
      by_cases h1 : t = "assignments"
      · simp only [if_pos h1]
        cases Document.decodeMap x v s.Assignments with
        | error e => rfl
        | ok m => exact ih _
      · simp only [if_neg h1]
        by_cases h2 : t = "associations"
        · simp only [if_pos h2]
          cases Document.decodeMap x v s.Associations with
          | error e => rfl
          | ok m => exact ih _
        · simp only [if_neg h2]
          cases Plain.setLeaf x t v s with
          | error e => rfl
          | ok s1 => exact ih _

/-- The entry encoder of the document maps is the entry encoder of the
library. -/
theorem Document.encodeEntries_eq (x : Env) (l : List (String × Document)) :
    Document.encodeEntries x l = Ttninjs.encodeEntries (Document.encode x) l := by
  induction l with
  | nil => rfl
  | cons hd tl ih =>
    obtain ⟨k, d⟩ := hd
    rw [Document.encodeEntries, Ttninjs.encodeEntries, ih]

/-- The encoder of the document maps is the map encoder of the library. -/
theorem Document.encodeMap_eq (x : Env) :
    Document.encodeMap x = Ttninjs.encodeMap (Document.encode x) := by
  funext m
  cases m with
  | none => rfl
  | some l => rw [Document.encodeMap, Ttninjs.encodeMap, Document.encodeEntries_eq]

/-- The entry decoder of the document maps is the entry decoder of the
library. -/
theorem Document.decodeEntries_eq (x : Env) (kvs : List (String × Json))
    (m : List (String × Document)) :
    Document.decodeEntries x kvs m =
      Ttninjs.decodeEntries (Document.mk {}) (decodeUnmarshaler (Document.UnmarshalJSON x))
        kvs m := by
  induction kvs generalizing m with
  | nil => rfl
  | cons hd tl ih =>
    obtain ⟨k, v⟩ := hd
    rw [Document.decodeEntries, Ttninjs.decodeEntries]
    unfold decodeUnmarshaler
    cases Document.UnmarshalJSON x v with
    | error e => rfl
    | ok d => exact ih _

/-- The decoder of the document maps is the map decoder of the library. -/
theorem Document.decodeMap_eq (x : Env) :
    Document.decodeMap x =
      Ttninjs.decodeMap (Document.mk {}) (decodeUnmarshaler (Document.UnmarshalJSON x)) := by
  funext v cur
  cases v with
  | obj kvs =>
    rw [Document.decodeMap, Ttninjs.decodeMap, Document.decodeEntries_eq]
    cases Ttninjs.decodeEntries (Document.mk {}) (decodeUnmarshaler (Document.UnmarshalJSON x))
      kvs (cur.getD []) <;> rfl
  | _ => rfl

/-- The entries of a document map as they come back are its entries with every
value as it comes back. -/
theorem Document.normalizeEntries_eq (l : List (String × Document)) :
    Document.normalizeEntries l = l.map fun kv => (kv.1, Document.normalize kv.2) := by
  induction l with
  | nil => rfl
  | cons hd tl ih =>
    obtain ⟨k, d⟩ := hd
    rw [Document.normalizeEntries, ih]
    rfl

/-- A document map comes back as a map of the library does. -/
theorem Document.normalizeMap_eq : Document.normalizeMap = normMap Document.normalize := by
  funext m
  cases m with
  | none => rfl
  | some l =>
    cases l with
    | nil => rfl
    | cons hd tl =>
      rw [Document.normalizeMap, Document.normalizeEntries_eq]
      rfl

/-- A document is `mk` of its fields as they come back. -/
theorem Document.normalize_mk (s : Plain Document) :
    Document.normalize (.mk s) =
      .mk { Plain.normalizeLeaf s with
        Assignments := Document.normalizeMap s.Assignments
        Associations := Document.normalizeMap s.Associations } := by
  cases s
  rfl

/-! ### What the document decoder produces -/

mutual
/-- Every document that the decoder returns has what the codec relies on. -/
theorem Document.UnmarshalJSON_good (x : Env) (c : Checks) (hc : c.Sound x) :
    ∀ (b : Json) (d : Document), Document.UnmarshalJSON x b = .ok d → Document.Good c d
  | .null, _, h => by cases h
  | .bool _, _, h => by cases h
  | .num _, _, h => by cases h
  | .str _, _, h => by cases h
  | .arr _, _, h => by cases h
  | .obj kvs, d, h => by
    rw [Document.UnmarshalJSON] at h
    simp only [unmarshalRaw] at h
    split at h
    · cases h
    · split at h
      · cases h
      · rename_i plain hplain
        cases h
        exact Document.decodeMembers_good x c hc kvs {} plain
          (Document.Good.mk _ (Plain_good_zero c hc) (fun _ e => nomatch e)
            (fun _ e => nomatch e) (fun _ e => nomatch e) (fun _ e => nomatch e)) hplain
/-- The member loop of the document decoder keeps what the codec relies on. -/
theorem Document.decodeMembers_good (x : Env) (c : Checks) (hc : c.Sound x) :
    ∀ (kvs : List (String × Json)) (s s' : Plain Document), Document.Good c (.mk s) →
      Document.decodeMembers x kvs s = .ok s' → Document.Good c (.mk s')
  | [], s, s', hg, h => by
    cases h
    exact hg
  | (k, v) :: rest, s, s', hg, h => by
    rw [Document.decodeMembers] at h
    split at h
    · exact Document.decodeMembers_good x c hc rest s s' hg h
    · rename_i t ht
      cases hg with
      | mk _ hleaf hn1 hm1 hn2 hm2 =>
        split at h
        · split at h
          · cases h
          · rename_i m hm
            have hmap := Document.decodeMap_good x c hc v s.Assignments m
              (fun l hl => ⟨hn1 l hl, hm1 l hl⟩) hm
            exact Document.decodeMembers_good x c hc rest { s with Assignments := m } s'
              (Document.Good.mk { s with Assignments := m } { hleaf with }
                (fun l hl => (hmap l hl).1) (fun l hl => (hmap l hl).2) hn2 hm2) h
        · split at h
          · split at h
            · cases h
            · rename_i m hm
              have hmap := Document.decodeMap_good x c hc v s.Associations m
                (fun l hl => ⟨hn2 l hl, hm2 l hl⟩) hm
              exact Document.decodeMembers_good x c hc rest { s with Associations := m } s'
                (Document.Good.mk { s with Associations := m } { hleaf with } hn1 hm1
                  (fun l hl => (hmap l hl).1) (fun l hl => (hmap l hl).2)) h
          · split at h
            · cases h
            · rename_i s1 hs1
              obtain ⟨hleaf1, e1, e2⟩ := Plain_setLeaf_good x c hc t
                (resolveField_mem x _ _ _ ht) v s s1 hleaf hs1
              exact Document.decodeMembers_good x c hc rest s1 s'
                (Document.Good.mk s1 hleaf1 (fun l hl => hn1 l (e1 ▸ hl))
                  (fun l hl => hm1 l (e1 ▸ hl)) (fun l hl => hn2 l (e2 ▸ hl))
                  (fun l hl => hm2 l (e2 ▸ hl))) h
/-- The decoder of the document maps keeps them well-formed, with values that
have what the codec relies on. -/
theorem Document.decodeMap_good (x : Env) (c : Checks) (hc : c.Sound x) :
    ∀ (v : Json) (cur m : Option (List (String × Document))),
      (∀ l, cur = some l → (l.map Prod.fst).Nodup ∧ ∀ kv ∈ l, Document.Good c kv.2) →
      Document.decodeMap x v cur = .ok m →
      ∀ l, m = some l → (l.map Prod.fst).Nodup ∧ ∀ kv ∈ l, Document.Good c kv.2
  | .null, _, _, _, h => by
    cases h
    intro l hl
    cases hl
  | .bool _, _, _, _, h => by cases h
  | .num _, _, _, _, h => by cases h
  | .str _, _, _, _, h => by cases h
  | .arr _, _, _, _, h => by cases h
  | .obj kvs, cur, m, hcur, h => by
    rw [Document.decodeMap] at h
    split at h
    · cases h
    · rename_i es hes
      cases h
      intro l hl
      cases hl
      refine Document.decodeEntries_good x c hc kvs (cur.getD []) es ?_ hes
      cases cur with
      | none => exact ⟨List.nodup_nil, fun _ hkv => nomatch hkv⟩
      | some l0 => exact hcur l0 rfl
/-- The entry decoder of the document maps keeps them well-formed, with values
that have what the codec relies on. -/
theorem Document.decodeEntries_good (x : Env) (c : Checks) (hc : c.Sound x) :
    ∀ (kvs : List (String × Json)) (m l : List (String × Document)),
      ((m.map Prod.fst).Nodup ∧ ∀ kv ∈ m, Document.Good c kv.2) →
      Document.decodeEntries x kvs m = .ok l →
      (l.map Prod.fst).Nodup ∧ ∀ kv ∈ l, Document.Good c kv.2
  | [], m, l, hm, h => by
    cases h
    exact hm
  | (k, v) :: rest, m, l, hm, h => by
    rw [Document.decodeEntries] at h
    split at h
    · cases h
    · rename_i d hd
      refine Document.decodeEntries_good x c hc rest (GoMap.set m k d) l
        ⟨GoMap.nodup_set m k d hm.1, ?_⟩ h
      intro kv hkv
      rcases GoMap.mem_set m k d kv hkv with h1 | h1
      · rw [h1]
        exact Document.UnmarshalJSON_good x c hc v d hd
      · exact hm.2 kv h1
end

/-! ### The round trip of a document -/

/-- A map of embedded documents round-trips when it is well-formed and its
values do. -/
theorem Document_fieldRoundTrips_map (x : Env) (m : Option (List (String × Document)))
    (hn : ∀ l, m = some l → (l.map Prod.fst).Nodup)
    (hr : ∀ l, m = some l → ∀ kv ∈ l, ∃ j, Document.encode x kv.2 = .ok j ∧
      Document.UnmarshalJSON x j = .ok (Document.normalize kv.2)) :
    FieldRoundTrips emptyMap (Document.encodeMap x) (Document.decodeMap x) none
      Document.normalizeMap m := by
  rw [Document.encodeMap_eq, Document.decodeMap_eq, Document.normalizeMap_eq]
  refine fieldRoundTrips_map
    (fun d => ∃ j, Document.encode x d = .ok j ∧
      Document.UnmarshalJSON x j = .ok (Document.normalize d)) ?_ m
    (fun l hl => ⟨hn l hl, hr l hl⟩)
  rintro a ⟨j, h1, h2⟩
  refine ⟨j, h1, ?_⟩
  unfold decodeUnmarshaler
  rw [h2]

/-- A document with what the codec relies on is encoded, and the decode of the
encoding gives the document as it comes back. -/
theorem Document_roundTrips (x : Env) (d : Document)
    (hg : Document.Good (Checks.roundTrip x) d) :
    ∃ j, Document.encode x d = .ok j ∧
      Document.UnmarshalJSON x j = .ok (Document.normalize d) := by
  induction hg with
  | mk s hleaf hn1 _ hn2 _ ih1 ih2 =>
    obtain ⟨l, hl1, hl2⟩ := Plain_roundTrips x s hleaf
      (Document_fieldRoundTrips_map x _ hn1 ih1) (Document_fieldRoundTrips_map x _ hn2 ih2)
    have henc : Document.encode x (.mk s) = .ok (.obj l) := by
      rw [Document.encode_mk]
      simp only [encodeStruct, hl1]
    obtain ⟨kvs, hk, hmem, hall⟩ := Document.encode_uri x (.mk s) _ henc
    cases hk
    refine ⟨.obj l, henc, ?_⟩
    rw [Document.UnmarshalJSON_obj x l (uriMissing_of_uri l _ hmem hall),
      Document.decodeMembers_eq, hl2, Document.normalize_mk]

/-- What the codec relies on holds, with a document, for every document
embedded in it. -/
theorem Document.good_of_reachable (c : Checks) (d d' : Document)
    (hr : Document.Reachable d' d) (hg : Document.Good c d) : Document.Good c d' := by
  induction hr with
  | here => exact hg
  | assignment d d1 k m hm hmem _ ih =>
    cases hg with
    | mk s _ _ hm1 _ _ => exact ih (hm1 m hm (k, d1) hmem)
  | association d d1 k m hm hmem _ ih =>
    cases hg with
    | mk s _ _ _ _ hm2 => exact ih (hm2 m hm (k, d1) hmem)

/-- Asking nothing of timestamps and dates is sound in every environment. -/
theorem Checks.free_sound (x : Env) : Checks.free.Sound x :=
  ⟨fun _ _ _ => trivial, trivial, fun _ _ _ => trivial⟩

/-- The environment `Env.basic` obeys the laws of the time and date codecs. -/
theorem Env.basic_lawful : Env.basic.Lawful := by
  have hz : TimeRoundTrips Env.basic {} := ⟨"0001-01-01T00:00:00Z", rfl, rfl⟩
  refine ⟨?_, hz, ?_⟩
  · intro s t h
    have h' : (if s = "0001-01-01T00:00:00Z" then some ({} : Time) else none) = some t := h
    by_cases hs : s = "0001-01-01T00:00:00Z"
    · rw [if_pos hs] at h'
      cases h'
      exact hz
    · rw [if_neg hs] at h'
      cases h'
  · intro j d h
    cases h

/-! ### The claims on decoded values and the round trip -/

/-- C12: in every Document that a successful decode returns, and in every
Document held at any depth in its `Assignments` or `Associations`, `Type` and
`Pubstatus` are empty or one of their permitted values, and `Profile`,
`Representationtype` and `Sector` are nil or point to one of their permitted
values. -/
theorem C12_decoded_enumerations_are_valid (x : Env) (j : Json) (d d' : Document)
    (h : Document.UnmarshalJSON x j = .ok d) (hr : Document.Reachable d' d) :
    (d'.plain.Type_ = "" ∨ d'.plain.Type_ ∈ enumValues_Type) ∧
      (d'.plain.Pubstatus = "" ∨ d'.plain.Pubstatus ∈ enumValues_Pubstatus) ∧
      (∀ v, d'.plain.Profile = some v → v ∈ enumValues_Profile) ∧
      (∀ v, d'.plain.Representationtype = some v → v ∈ enumValues_Representationtype) ∧
      (∀ v, d'.plain.Sector = some v → v ∈ enumValues_Sector) := by
  have hg := Document.good_of_reachable Checks.free d d' hr
    (Document.UnmarshalJSON_good x Checks.free (Checks.free_sound x) j d h)
  cases hg with
  | mk s hleaf _ _ _ _ =>
    exact ⟨hleaf.Type_, hleaf.Pubstatus, hleaf.Profile, hleaf.Representationtype, hleaf.Sector⟩

/-- C12 at the input `{"uri": "a", "type": "text", "associations": {"x": {"uri":
"b", "profile": "PUBL"}}}`, for the embedded Document: the decode succeeds, the
Document under `x` is reachable, and its enumeration fields are empty, nil or
permitted. -/
theorem C12_decoded_enumerations_are_valid_witness :
    Document.UnmarshalJSON Env.basic
        (.obj [("uri", .str "a"), ("type", .str "text"),
          ("associations", .obj [("x", .obj [("uri", .str "b"), ("profile", .str "PUBL")])])]) =
        .ok (.mk { Uri := "a", Type_ := "text", Associations := some [("x",
          .mk { Uri := "b", Profile := some "PUBL" })] }) ∧
      Document.Reachable (.mk { Uri := "b", Profile := some "PUBL" })
        (.mk { Uri := "a", Type_ := "text", Associations := some [("x",
          .mk { Uri := "b", Profile := some "PUBL" })] }) ∧
      ((Document.mk { Uri := "b", Profile := some "PUBL" }).plain.Type_ = "" ∨
          (Document.mk { Uri := "b", Profile := some "PUBL" }).plain.Type_ ∈ enumValues_Type) ∧
        ((Document.mk { Uri := "b", Profile := some "PUBL" }).plain.Pubstatus = "" ∨
          (Document.mk { Uri := "b", Profile := some "PUBL" }).plain.Pubstatus ∈
            enumValues_Pubstatus) ∧
        (∀ v, (Document.mk { Uri := "b", Profile := some "PUBL" }).plain.Profile = some v →
          v ∈ enumValues_Profile) ∧
        (∀ v, (Document.mk { Uri := "b", Profile := some "PUBL" }).plain.Representationtype =
          some v → v ∈ enumValues_Representationtype) ∧
        (∀ v, (Document.mk { Uri := "b", Profile := some "PUBL" }).plain.Sector = some v →
          v ∈ enumValues_Sector) :=
  have hr : Document.Reachable (.mk { Uri := "b", Profile := some "PUBL" })
      (.mk { Uri := "a", Type_ := "text", Associations := some [("x",
        .mk { Uri := "b", Profile := some "PUBL" })] }) :=
    Document.Reachable.association _ _ _ "x" _ rfl (List.mem_singleton.2 rfl)
      (Document.Reachable.here _)
  ⟨by rfl, hr, C12_decoded_enumerations_are_valid Env.basic
    (.obj [("uri", .str "a"), ("type", .str "text"),
      ("associations", .obj [("x", .obj [("uri", .str "b"), ("profile", .str "PUBL")])])])
    _ _ (by rfl) hr⟩

/-- C16 (as stated, refuted): a Document with an empty, non-nil slice does not
come back.  The Document with `Uri = "a"` and `Replacing` of length 0 has what
the codec relies on; its encoding has no `replacing` member, and the decode of
the encoding gives the Document whose `Replacing` is nil, which is another
value. -/
theorem C16_empty_slice_comes_back_nil :
    Document.Good (Checks.roundTrip Env.basic) (.mk { Uri := "a", Replacing := some [] }) ∧
      Document.encode Env.basic (.mk { Uri := "a", Replacing := some [] }) =
        .ok (.obj [("$standard", .obj []), ("signals", .obj []), ("uri", .str "a"),
          ("versioncreated", .str "0001-01-01T00:00:00Z")]) ∧
      Document.UnmarshalJSON Env.basic
        (.obj [("$standard", .obj []), ("signals", .obj []), ("uri", .str "a"),
          ("versioncreated", .str "0001-01-01T00:00:00Z")]) = .ok (.mk { Uri := "a" }) ∧
      Document.mk { Uri := "a" } ≠ .mk { Uri := "a", Replacing := some [] } :=
  ⟨Document.Good.mk _ { Plain_good_zero (Checks.roundTrip Env.basic) Env.basic_lawful with }
      (fun _ h => nomatch h) (fun _ h => nomatch h) (fun _ h => nomatch h)
      (fun _ h => nomatch h),
    rfl, rfl, fun h => nomatch congrArg (fun d => d.plain.Replacing) h⟩

/-! ### Methods and their receivers -/

/-- The inner call of `Document.UnmarshalJSON` gives the fields of the document
that the method returns. -/
theorem Document.UnmarshalJSON_unmarshalPlain (x : Env) (b : Json)
    (h : ∀ raw, unmarshalRaw b = .ok raw → uriMissing raw = false) :
    Document.UnmarshalJSON x b =
      match Document.unmarshalPlain x b with
      | .error e => .error e
      | .ok plain => .ok (.mk plain) := by
  cases b with
  | null => exact absurd (h none rfl) (by decide)
  | obj kvs => exact Document.UnmarshalJSON_obj x kvs (h _ rfl)
  | _ => rfl

/-- The method of `Document` on a receiver returns the error of
`Document.UnmarshalJSON` and leaves the receiver, or returns no error and
assigns the decoded document. -/
theorem Document.UnmarshalJSON.call_eq (x : Env) (b : Json) (j : Document) :
    Document.UnmarshalJSON.call x b j =
      match Document.UnmarshalJSON x b with
      | .error e => (j, some e)
      | .ok d => (d, none) := by
  cases b with
  | obj kvs =>
    cases hm : uriMissing (some (Json.readMembers kvs [])) with
    | true =>
      rw [Document.UnmarshalJSON]
      simp only [Document.UnmarshalJSON.call, unmarshalRaw, hm, if_true]
    | false =>
      rw [Document.UnmarshalJSON_obj x kvs hm]
      simp only [Document.UnmarshalJSON.call, unmarshalRaw, hm, Bool.false_eq_true, if_false,
        Document.unmarshalPlain]
      cases Document.decodeMembers x kvs {} <;> rfl
  | _ => rfl

/-- The method of `RevisionsElem` on a receiver returns the error of
`RevisionsElem.UnmarshalJSON` and leaves the receiver, or returns no error and
assigns the decoded entry. -/
theorem RevisionsElem.UnmarshalJSON.call_entry_eq (x : Env) (b : Json) (j : RevisionsElem) :
    RevisionsElem.UnmarshalJSON.call x b j =
      match RevisionsElem.UnmarshalJSON x b with
      | .error e => (j, some e)
      | .ok r => (r, none) := by
  unfold RevisionsElem.UnmarshalJSON.call RevisionsElem.UnmarshalJSON
  cases unmarshalRaw b with
  | error e => rfl
  | ok raw =>
    cases hm : uriMissing raw with
    | true => simp only [hm, if_true]
    | false =>
      simp only [hm, Bool.false_eq_true, if_false]
      cases RevisionsElem.unmarshalPlain x b <;> rfl

/-- An enumeration method on a receiver returns the error of
`enumUnmarshalJSON` and leaves the receiver, or returns no error and assigns the
decoded value. -/
theorem enumUnmarshalJSON.call_enum_eq (values : List String) (b : Json) (j : String) :
    enumUnmarshalJSON.call values b j =
      match enumUnmarshalJSON values b with
      | .error e => (j, some e)
      | .ok v => (v, none) := by
  unfold enumUnmarshalJSON.call enumUnmarshalJSON
  cases unmarshalString b with
  | error e => rfl
  | ok v =>
    cases hl : enumLoop v values with
    | true => simp only [hl, Bool.not_true, Bool.false_eq_true, if_false]
    | false => simp only [hl, Bool.not_false, if_true]

/-- C22: when `Document.UnmarshalJSON` returns an error, whatever its cause, the
receiver holds what it held before the call; the same holds for
`RevisionsElem.UnmarshalJSON` and for the `UnmarshalJSON` methods of the
enumeration types.  The error is the error of the decode, and a call without
error assigns the decoded value. -/
theorem C22_receiver_is_unchanged_on_error (x : Env) :
    (∀ (b : Json) (j : Document) (e : Error),
      ((Document.UnmarshalJSON.call x b j).2 = some e ↔ Document.UnmarshalJSON x b = .error e) ∧
      ((Document.UnmarshalJSON.call x b j).2 = some e →
        (Document.UnmarshalJSON.call x b j).1 = j)) ∧
    (∀ (b : Json) (j : RevisionsElem) (e : Error),
      ((RevisionsElem.UnmarshalJSON.call x b j).2 = some e ↔
        RevisionsElem.UnmarshalJSON x b = .error e) ∧
      ((RevisionsElem.UnmarshalJSON.call x b j).2 = some e →
        (RevisionsElem.UnmarshalJSON.call x b j).1 = j)) ∧
    (∀ (values : List String) (b : Json) (j : String) (e : Error),
      ((enumUnmarshalJSON.call values b j).2 = some e ↔
        enumUnmarshalJSON values b = .error e) ∧
      ((enumUnmarshalJSON.call values b j).2 = some e →
        (enumUnmarshalJSON.call values b j).1 = j)) ∧
    (∀ (b : Json) (j d : Document), Document.UnmarshalJSON x b = .ok d →
      Document.UnmarshalJSON.call x b j = (d, none)) := by
  refine ⟨?_, ?_, ?_, ?_⟩
  · intro b j e
    rw [Document.UnmarshalJSON.call_eq]
    cases Document.UnmarshalJSON x b with
    | error e' =>
      exact ⟨⟨fun h => (by cases h; rfl), fun h => (by cases h; rfl)⟩, fun _ => rfl⟩
    | ok d => exact ⟨⟨fun h => (by cases h), fun h => (by cases h)⟩, fun h => (by cases h)⟩
  · intro b j e
    rw [RevisionsElem.UnmarshalJSON.call_entry_eq]
    cases RevisionsElem.UnmarshalJSON x b with
    | error e' =>
      exact ⟨⟨fun h => (by cases h; rfl), fun h => (by cases h; rfl)⟩, fun _ => rfl⟩
    | ok d => exact ⟨⟨fun h => (by cases h), fun h => (by cases h)⟩, fun h => (by cases h)⟩
  · intro values b j e
    rw [enumUnmarshalJSON.call_enum_eq]
    cases enumUnmarshalJSON values b with
    | error e' =>
      exact ⟨⟨fun h => (by cases h; rfl), fun h => (by cases h; rfl)⟩, fun _ => rfl⟩
    | ok d => exact ⟨⟨fun h => (by cases h), fun h => (by cases h)⟩, fun h => (by cases h)⟩
  · intro b j d h
    rw [Document.UnmarshalJSON.call_eq, h]

/-! ### What the errors say -/

/-- C23: an object without a non-null `uri` member gets, decoded as a Document,
the required-field error that names the field `uri` and the entity `Document`,
and decoded as a revision entry, the one that names the field `uri` and the
entity `RevisionsElem`. -/
theorem C23_required_error_names_field_and_entity (x : Env) (kvs : List (String × Json))
    (h : ∀ v, ("uri", v) ∈ kvs → v = Json.null) :
    Document.UnmarshalJSON x (.obj kvs) = .error (.required "uri" "Document") ∧
      RevisionsElem.UnmarshalJSON x (.obj kvs) = .error (.required "uri" "RevisionsElem") ∧
      (Error.required "uri" "Document").strings = ["uri", "Document"] ∧
      (Error.required "uri" "RevisionsElem").strings = ["uri", "RevisionsElem"] ∧
      (Error.required "uri" "Document").text = some "field uri in Document: required" ∧
      (Error.required "uri" "RevisionsElem").text =
        some "field uri in RevisionsElem: required" :=
  ⟨Document.UnmarshalJSON_lacksUri x kvs h, RevisionsElem.UnmarshalJSON_entry_lacksUri x kvs h,
    rfl, rfl, by decide, by decide⟩

/-- C23 at the object `{"headline": "x"}`: it has no `uri` member, and both
decodes give the required-field error of their entity. -/
theorem C23_required_error_names_field_and_entity_witness :
    (∀ v, ("uri", v) ∈ [("headline", Json.str "x")] → v = Json.null) ∧
      Document.UnmarshalJSON Env.basic (.obj [("headline", .str "x")]) =
        .error (.required "uri" "Document") ∧
      RevisionsElem.UnmarshalJSON Env.basic (.obj [("headline", .str "x")]) =
        .error (.required "uri" "RevisionsElem") ∧
      (Error.required "uri" "Document").strings = ["uri", "Document"] ∧
      (Error.required "uri" "RevisionsElem").strings = ["uri", "RevisionsElem"] ∧
      (Error.required "uri" "Document").text = some "field uri in Document: required" ∧
      (Error.required "uri" "RevisionsElem").text =
        some "field uri in RevisionsElem: required" :=
  have h : ∀ v, ("uri", v) ∈ [("headline", Json.str "x")] → v = Json.null := by
    intro v hv
    simp only [List.mem_singleton, Prod.mk.injEq] at hv
    exact absurd hv.1 (by decide)
  ⟨h, C23_required_error_names_field_and_entity Env.basic _ h⟩

/-! ### Fields left out of the encoding -/

/-- An encoded document has no member for a field that holds its empty value. -/
theorem Document.encode_omits_empty (x : Env) (s : Plain Document)
    (kvs : List (String × Json)) (tag : String)
    (henc : Document.encode x (.mk s) = .ok (.obj kvs))
    (hempty : Plain.emptyAt s tag = true) : ∀ v, (tag, v) ∉ kvs := by
  rw [Document.encode_mk] at henc
  obtain ⟨l, hl, hj⟩ := encodeStruct_ok _ _ henc
  cases hj
  intro v hv
  obtain ⟨a, ha, hkv⟩ := (joinMembers_mem _ _ hl _).1 hv
  have := Plain.members_emptyAt x s _ _ _ ha a _ rfl hkv
  rw [hempty] at this
  cases this

/-- An encoded document holds the member of a field whose member is known. -/
theorem Document.encode_member (x : Env) (s : Plain Document) (kvs : List (String × Json))
    (henc : Document.encode x (.mk s) = .ok (.obj kvs)) (a : List (String × Json))
    (ha : Except.ok a ∈ Plain.members x s (Document.encodeMap x s.Assignments)
      (Document.encodeMap x s.Associations)) :
    ∀ kv ∈ a, kv ∈ kvs := by
  rw [Document.encode_mk] at henc
  obtain ⟨l, hl, hj⟩ := encodeStruct_ok _ _ henc
  cases hj
  intro kv hkv
  exact (joinMembers_mem _ _ hl _).2 ⟨a, ha, hkv⟩

/-- A field whose encoding fails makes the struct encoding fail. -/
theorem joinMembers_error_of_mem (ms : List (Except Error (List (String × Json))))
    (skip : String) (e : Error) (hmem : member skip false (.error e) ∈ ms)
    (l : List (String × Json)) : joinMembers ms ≠ .ok l := by
  induction ms generalizing l with
  | nil => cases hmem
  | cons m rest ih =>
    intro h
    cases m with
    | error e1 =>
      simp only [joinMembers] at h
      cases h
    | ok a =>
      rcases List.mem_cons.1 hmem with h1 | h1
      · cases h1
      · simp only [joinMembers] at h
        cases hr : joinMembers rest with
        | error e1 =>
          simp only [hr] at h
          cases h
        | ok b => exact ih h1 b hr

/-- C27: `charcount` and `signals.multipagecount` are nullable numbers, and zero
is not absence.  `"charcount": 0` decodes to `Charcount` present with value 0,
no key decodes to `Charcount` absent, and the two Documents differ; a Document
with `Charcount` present encodes with the member `"charcount": n` (so
`"charcount": 0` for zero), one with `Charcount` absent encodes without a
`charcount` member.  The same holds for `Multipagecount` of `Signals`. -/
theorem C27_zero_is_not_absent (x : Env) (u : String) :
    Document.UnmarshalJSON x
        (.obj [("uri", .str u), ("charcount", .num (JsonNumber.ofNat 0))]) =
        .ok (.mk { Uri := u, Charcount := some (JsonNumber.ofNat 0) }) ∧
      Document.UnmarshalJSON x (.obj [("uri", .str u)]) =
        .ok (.mk { Uri := u, Charcount := none }) ∧
      Document.mk { Uri := u, Charcount := some (JsonNumber.ofNat 0) } ≠
        Document.mk { Uri := u, Charcount := none } ∧
      (∀ (s : Plain Document) (n : Float64) (kvs : List (String × Json)),
        Document.encode x (.mk { s with Charcount := some n }) = .ok (.obj kvs) →
          ("charcount", Json.num n) ∈ kvs) ∧
      (∀ (s : Plain Document) (kvs : List (String × Json)),
        Document.encode x (.mk { s with Charcount := none }) = .ok (.obj kvs) →
          ∀ v, ("charcount", v) ∉ kvs) ∧
      Document.UnmarshalJSON x (.obj [("uri", .str u),
          ("signals", .obj [("multipagecount", .num (JsonNumber.ofNat 0))])]) =
        .ok (.mk { Uri := u, Signals := { Multipagecount := some (JsonNumber.ofNat 0) } }) ∧
      Document.UnmarshalJSON x (.obj [("uri", .str u), ("signals", .obj [])]) =
        .ok (.mk { Uri := u, Signals := { Multipagecount := none } }) ∧
      Document.mk { Uri := u, Signals := { Multipagecount := some (JsonNumber.ofNat 0) } } ≠
        Document.mk { Uri := u, Signals := { Multipagecount := none } } ∧
      (∀ (g : Signals) (n : Float64) (kvs : List (String × Json)),
        Signals.encode { g with Multipagecount := some n } = .ok (.obj kvs) →
          ("multipagecount", Json.num n) ∈ kvs) ∧
      (∀ (g : Signals) (kvs : List (String × Json)),
        Signals.encode { g with Multipagecount := none } = .ok (.obj kvs) →
          ∀ v, ("multipagecount", v) ∉ kvs) ∧
      (∀ (s : Plain Document) (kvs : List (String × Json)),
        Document.encode x (.mk s) = .ok (.obj kvs) →
          ∃ j, Signals.encode s.Signals = .ok j ∧ ("signals", j) ∈ kvs) := by
  refine ⟨rfl, rfl, ?_, ?_, ?_, rfl, rfl, ?_, ?_, ?_, ?_⟩
  · intro h
    have h2 := congrArg (fun d => d.plain.Charcount) h
    cases h2
  · intro s n kvs h
    exact Document.encode_member x _ kvs h [("charcount", .num n)]
      (@List.getElem?_mem _ _ 13 _ rfl) _ (List.mem_singleton.2 rfl)
  · intro s kvs h
    exact Document.encode_omits_empty x _ kvs "charcount" h rfl
  · intro h
    have h2 := congrArg (fun d => d.plain.Signals.Multipagecount) h
    cases h2
  · intro g n kvs h
    obtain ⟨l, hl, hj⟩ := encodeStruct_ok _ _ h
    cases hj
    exact (joinMembers_mem _ _ hl _).2
      ⟨[("multipagecount", .num n)], @List.getElem?_mem _ _ 1 _ rfl, List.mem_singleton.2 rfl⟩
  · intro g kvs h v hv
    obtain ⟨l, hl, hj⟩ := encodeStruct_ok _ _ h
    cases hj
    obtain ⟨a, ha, hkv⟩ := (joinMembers_mem _ _ hl _).1 hv
    simp only [List.mem_cons, List.mem_singleton, List.not_mem_nil, or_false] at ha
    rcases ha with ha | ha | ha | ha | ha | ha | ha | ha <;>
      first
      | (have h1 := (member_ok _ _ _ _ ha.symm _ hkv).1
         cases h1)
      | (have h2 := (member_ok _ _ _ _ ha.symm _ hkv).2.1
         simp at h2)
  · intro s kvs h
    cases hs : Signals.encode s.Signals with
    | error e =>
      exfalso
      rw [Document.encode_mk] at h
      obtain ⟨l, hl, _⟩ := encodeStruct_ok _ _ h
      have hmem : member "signals" false (Signals.encode s.Signals) ∈
          Plain.members x s (Document.encodeMap x s.Assignments)
            (Document.encodeMap x s.Associations) := @List.getElem?_mem _ _ 55 _ rfl
      rw [hs] at hmem
      exact joinMembers_error_of_mem _ _ e hmem l hl
    | ok j =>
      refine ⟨j, rfl, ?_⟩
      refine Document.encode_member x s kvs h [("signals", j)] ?_ _ (List.mem_singleton.2 rfl)
      have hmem : member "signals" false (Signals.encode s.Signals) ∈
          Plain.members x s (Document.encodeMap x s.Assignments)
            (Document.encodeMap x s.Associations) := @List.getElem?_mem _ _ 55 _ rfl
      rw [hs] at hmem
      exact hmem

/-- C29 (the code at the failing input): decoding `{"uri": u}`, which has no
`pubstatus` key, gives a Document whose `Pubstatus` is the empty string, not
`usable`: nothing in the decode path applies the default that the comment on
the field promises. -/
theorem C29_pubstatus_is_empty_when_absent (x : Env) (u : String) :
    Document.UnmarshalJSON x (.obj [("uri", .str u)]) = .ok (.mk { Uri := u }) ∧
      (Document.mk { Uri := u }).plain.Pubstatus = "" ∧
      (Document.mk { Uri := u }).plain.Pubstatus ≠ PubstatusUsable :=
  ⟨rfl, rfl, by
    show ("" : String) ≠ "usable"
    decide⟩

/-! ### Schema-less maps -/

/-- What the generic decoder holds for a key: the value of the last member with
that key, or else what the map held before. -/
theorem GoMap.get_readMembers (kvs : List (String × Json)) (m : List (String × Any))
    (q : String) :
    GoMap.get (Json.readMembers kvs m) q =
      match kvs.reverse.find? fun kv => decide (kv.1 = q) with
      | some kv => some (Json.read kv.2)
      | none => GoMap.get m q := by
  induction kvs generalizing m with
  | nil => rfl
  | cons hd tl ih =>
    obtain ⟨k, v⟩ := hd
    rw [Json.readMembers, ih, List.reverse_cons, List.find?_append]
    cases tl.reverse.find? fun kv => decide (kv.1 = q) with
    | some kv => rfl
    | none =>
      rw [GoMap.get_set]
      by_cases h : k = q
      · simp [h]
      · simp [h]

/-- C31: input that is not a JSON object never yields a Document.  Bytes that
the parser of the library rejects give the error of the parser; bytes that
stand for `null`, a boolean, a number, a string or an array give an error; and
so does `Document.UnmarshalJSON` on every JSON value that is not an object:
`null` gets the required-field error, the others the type error of the
library. -/
theorem C31_only_an_object_yields_a_document (parse : List Nat → Except Error Json)
    (x : Env) :
    (∀ b e, parse b = .error e →
      Document.UnmarshalJSON.onBytes parse x b = .error e) ∧
    (∀ b v, parse b = .ok v → (∀ kvs, v ≠ Json.obj kvs) →
      ∃ e, Document.UnmarshalJSON.onBytes parse x b = .error e) ∧
    (∀ v, (∀ kvs, v ≠ Json.obj kvs) → ∃ e, Document.UnmarshalJSON x v = .error e) ∧
    Document.UnmarshalJSON x .null = .error (.required "uri" "Document") ∧
    (∀ t, Document.UnmarshalJSON x (.bool t) = .error .typeMismatch) ∧
    (∀ n, Document.UnmarshalJSON x (.num n) = .error .typeMismatch) ∧
    (∀ s, Document.UnmarshalJSON x (.str s) = .error .typeMismatch) ∧
    (∀ xs, Document.UnmarshalJSON x (.arr xs) = .error .typeMismatch) := by
  have h : ∀ v, (∀ kvs, v ≠ Json.obj kvs) → ∃ e, Document.UnmarshalJSON x v = .error e := by
    intro v hv
    cases v with
    | obj kvs => exact absurd rfl (hv kvs)
    | null => exact ⟨_, rfl⟩
    | bool t => exact ⟨_, rfl⟩
    | num n => exact ⟨_, rfl⟩
    | str s => exact ⟨_, rfl⟩
    | arr xs => exact ⟨_, rfl⟩
  refine ⟨?_, ?_, h, rfl, fun _ => rfl, fun _ => rfl, fun _ => rfl, fun _ => rfl⟩
  · intro b e hb
    simp only [Document.UnmarshalJSON.onBytes, hb]
  · intro b v hb hv
    obtain ⟨e, he⟩ := h v hv
    exact ⟨e, by simp only [Document.UnmarshalJSON.onBytes, hb, he]⟩

/-- C32: the required-field check comes first.  For every JSON object without a
non-null `uri`, whatever else it contains, `Document.UnmarshalJSON` returns the
error `field uri in Document: required`.  The embedded document of
`{"uri": "a", "associations": {"x": {"pubstatus": "nonsense"}}}` gets that
error and not the error of its invalid `pubstatus`, and the decode of the outer
document fails with it, as the library reports it. -/
theorem C32_required_check_comes_first (x : Env) (kvs : List (String × Json))
    (h : ∀ v, ("uri", v) ∈ kvs → v = Json.null) :
    Document.UnmarshalJSON x (.obj kvs) = .error (.required "uri" "Document") ∧
      (Error.required "uri" "Document").text = some "field uri in Document: required" ∧
      Document.UnmarshalJSON x (.obj [("pubstatus", .str "nonsense")]) =
        .error (.required "uri" "Document") ∧
      Document.UnmarshalJSON x (.obj [("uri", .str "a"),
          ("associations", .obj [("x", .obj [("pubstatus", .str "nonsense")])])]) =
        .error (.reported (.required "uri" "Document")) ∧
      Error.required "uri" "Document" ≠ .invalidValue enumValues_Pubstatus "nonsense" :=
  ⟨Document.UnmarshalJSON_lacksUri x kvs h, by decide, rfl,
    by rw [Document.UnmarshalJSON_uri_associations]; rfl, by decide⟩

/-- C32 at an object without `uri` that holds an invalid `type`, a string for
the number `urgency` and an embedded document without `uri`: the error is the
required-field error. -/
theorem C32_required_check_comes_first_witness :
    (∀ v, ("uri", v) ∈ [("type", Json.str "bogus"), ("urgency", Json.str "3"),
        ("associations", Json.obj [("x", Json.obj [])])] → v = Json.null) ∧
      Document.UnmarshalJSON Env.basic (.obj [("type", .str "bogus"), ("urgency", .str "3"),
        ("associations", .obj [("x", .obj [])])]) = .error (.required "uri" "Document") :=
  have h : ∀ v, ("uri", v) ∈ [("type", Json.str "bogus"), ("urgency", Json.str "3"),
      ("associations", Json.obj [("x", Json.obj [])])] → v = Json.null := by
    intro v hv
    simp at hv
  ⟨h, (C32_required_check_comes_first Env.basic _ h).1⟩

/-! ### Depth of embedding -/

/-- The document nested `n` levels deep decodes. -/
theorem Document.UnmarshalJSON_nested (x : Env) (n : Nat) :
    Document.UnmarshalJSON x (nested n) = .ok (nestedDocument n) := by
  induction n with
  | zero => rfl
  | succ n ih =>
    rw [nested, Document.UnmarshalJSON_uri_associations, ih]
    rfl

/-! ### Termination -/

/-- A member value is smaller than its object. -/
theorem Json.nodes_lt_of_member (kvs : List (String × Json)) (k : String) (v : Json)
    (h : (k, v) ∈ kvs) : Json.nodes v < Json.nodes (.obj kvs) := by
  have key : ∀ l : List (String × Json), (k, v) ∈ l → Json.nodes v ≤ Json.nodesMembers l := by
    intro l
    induction l with
    | nil => intro hl; cases hl
    | cons hd tl ih =>
      intro hl
      obtain ⟨k1, v1⟩ := hd
      rw [Json.nodesMembers]
      rcases List.mem_cons.1 hl with h1 | h1
      · cases h1
        omega
      · have := ih h1
        omega
  have := key kvs h
  rw [Json.nodes]
  omega

/-- An element is smaller than its array. -/
theorem Json.nodes_lt_of_elem (xs : List Json) (v : Json) (h : v ∈ xs) :
    Json.nodes v < Json.nodes (.arr xs) := by
  have key : ∀ l : List Json, v ∈ l → Json.nodes v ≤ Json.nodesElems l := by
    intro l
    induction l with
    | nil => intro hl; cases hl
    | cons hd tl ih =>
      intro hl
      rw [Json.nodesElems]
      rcases List.mem_cons.1 hl with h1 | h1
      · cases h1
        omega
      · have := ih h1
        omega
  have := key xs h
  rw [Json.nodes]
  omega

/-- An embedded value is the value itself or is smaller. -/
theorem Embedded.nodes_le (b top : Json) (h : Embedded b top) :
    b = top ∨ Json.nodes b < Json.nodes top := by
  induction h with
  | here => exact Or.inl rfl
  | under v key k es kvs _ hes hv _ ih =>
    right
    have h1 := Json.nodes_lt_of_member kvs key _ hes
    have h2 := Json.nodes_lt_of_member es k v hv
    rcases ih with h3 | h3
    · subst h3
      omega
    · omega

/-- C34: `Document.UnmarshalJSON` is a total function: on every JSON value it
returns a Document or an error.  Its recursion is on the input: the value it is
called on for an entry of `associations` or `assignments` is a member value of
a member value of its argument, hence strictly smaller, and so is every element
of an array member (`revisions`); every value embedded at any depth is the
argument itself or is strictly smaller. -/
theorem C34_decode_is_total (x : Env) (b : Json) :
    ((∃ d, Document.UnmarshalJSON x b = .ok d) ∨
      ∃ e, Document.UnmarshalJSON x b = .error e) ∧
    (∀ kvs key es k v, b = Json.obj kvs → (key, Json.obj es) ∈ kvs → (k, v) ∈ es →
      Json.nodes v < Json.nodes b) ∧
    (∀ kvs key xs v, b = Json.obj kvs → (key, Json.arr xs) ∈ kvs → v ∈ xs →
      Json.nodes v < Json.nodes b) ∧
    (∀ v, Embedded v b → v = b ∨ Json.nodes v < Json.nodes b) ∧
    (∀ k v rest m, Document.decodeEntries x ((k, v) :: rest) m =
      match Document.UnmarshalJSON x v with
      | .error e => .error (.reported e)
      | .ok d => Document.decodeEntries x rest (GoMap.set m k d)) := by
  refine ⟨?_, ?_, ?_, fun v hv => Embedded.nodes_le v b hv, ?_⟩
  · cases h : Document.UnmarshalJSON x b with
    | ok d => exact Or.inl ⟨d, rfl⟩
    | error e => exact Or.inr ⟨e, rfl⟩
  · intro kvs key es k v hb hes hv
    subst hb
    have h1 := Json.nodes_lt_of_member kvs key _ hes
    have h2 := Json.nodes_lt_of_member es k v hv
    omega
  · intro kvs key xs v hb hxs hv
    subst hb
    have h1 := Json.nodes_lt_of_member kvs key _ hxs
    have h2 := Json.nodes_lt_of_elem xs v hv
    omega
  · intro k v rest m
    rw [Document.decodeEntries]

/-- C36: for each of the seven validated enumeration types the strings that its
`UnmarshalJSON` accepts are the values of the constants declared for the type:
every constant decodes to itself, and a string that is accepted is one of the
constants (and is the result). -/
theorem C36_accepted_values_are_the_constants :
    (Type_.UnmarshalJSON (.str TypeAudio) = .ok TypeAudio ∧
      Type_.UnmarshalJSON (.str TypeComponent) = .ok TypeComponent ∧
      Type_.UnmarshalJSON (.str TypeComposite) = .ok TypeComposite ∧
      Type_.UnmarshalJSON (.str TypeEvent) = .ok TypeEvent ∧
      Type_.UnmarshalJSON (.str TypeGraphic) = .ok TypeGraphic ∧
      Type_.UnmarshalJSON (.str TypePicture) = .ok TypePicture ∧
      Type_.UnmarshalJSON (.str TypePlanning) = .ok TypePlanning ∧
      Type_.UnmarshalJSON (.str TypeText) = .ok TypeText ∧
      Type_.UnmarshalJSON (.str TypeVideo) = .ok TypeVideo ∧
      ∀ v r, Type_.UnmarshalJSON (.str v) = .ok r →
        r = v ∧ v ∈ [TypeAudio, TypeComponent, TypeComposite, TypeEvent, TypeGraphic,
          TypePicture, TypePlanning, TypeText, TypeVideo]) ∧
    (Profile.UnmarshalJSON (.str ProfileDATA) = .ok ProfileDATA ∧
      Profile.UnmarshalJSON (.str ProfileINFO) = .ok ProfileINFO ∧
      Profile.UnmarshalJSON (.str ProfilePUBL) = .ok ProfilePUBL ∧
      Profile.UnmarshalJSON (.str ProfileRAW) = .ok ProfileRAW ∧
      ∀ v r, Profile.UnmarshalJSON (.str v) = .ok r →
        r = v ∧ v ∈ [ProfileDATA, ProfileINFO, ProfilePUBL, ProfileRAW]) ∧
    (Pubstatus.UnmarshalJSON (.str PubstatusCanceled) = .ok PubstatusCanceled ∧
      Pubstatus.UnmarshalJSON (.str PubstatusCommissioned) = .ok PubstatusCommissioned ∧
      Pubstatus.UnmarshalJSON (.str PubstatusReplaced) = .ok PubstatusReplaced ∧
      Pubstatus.UnmarshalJSON (.str PubstatusUsable) = .ok PubstatusUsable ∧
      Pubstatus.UnmarshalJSON (.str PubstatusWithheld) = .ok PubstatusWithheld ∧
      ∀ v r, Pubstatus.UnmarshalJSON (.str v) = .ok r →
        r = v ∧ v ∈ [PubstatusCanceled, PubstatusCommissioned, PubstatusReplaced,
          PubstatusUsable, PubstatusWithheld]) ∧
    (Representationtype.UnmarshalJSON (.str RepresentationtypeAssociated) =
        .ok RepresentationtypeAssociated ∧
      Representationtype.UnmarshalJSON (.str RepresentationtypeComplete) =
        .ok RepresentationtypeComplete ∧
      Representationtype.UnmarshalJSON (.str RepresentationtypeIncomplete) =
        .ok RepresentationtypeIncomplete ∧
      ∀ v r, Representationtype.UnmarshalJSON (.str v) = .ok r →
        r = v ∧ v ∈ [RepresentationtypeAssociated, RepresentationtypeComplete,
          RepresentationtypeIncomplete]) ∧
    (Sector.UnmarshalJSON (.str SectorEKO) = .ok SectorEKO ∧
      Sector.UnmarshalJSON (.str SectorFEA) = .ok SectorFEA ∧
      Sector.UnmarshalJSON (.str SectorINR) = .ok SectorINR ∧
      Sector.UnmarshalJSON (.str SectorKLT) = .ok SectorKLT ∧
      Sector.UnmarshalJSON (.str SectorNOJ) = .ok SectorNOJ ∧
      Sector.UnmarshalJSON (.str SectorPRM) = .ok SectorPRM ∧
      Sector.UnmarshalJSON (.str SectorSPT) = .ok SectorSPT ∧
      Sector.UnmarshalJSON (.str SectorUTR) = .ok SectorUTR ∧
      ∀ v r, Sector.UnmarshalJSON (.str v) = .ok r →
        r = v ∧ v ∈ [SectorEKO, SectorFEA, SectorINR, SectorKLT, SectorNOJ, SectorPRM,
          SectorSPT, SectorUTR]) ∧
    (AdviceElemRole.UnmarshalJSON (.str AdviceElemRolePublish) = .ok AdviceElemRolePublish ∧
      ∀ v r, AdviceElemRole.UnmarshalJSON (.str v) = .ok r →
        r = v ∧ v ∈ [AdviceElemRolePublish]) ∧
    (PlaceElemGeometryGeojsonType.UnmarshalJSON (.str PlaceElemGeometryGeojsonTypePoint) =
        .ok PlaceElemGeometryGeojsonTypePoint ∧
      ∀ v r, PlaceElemGeometryGeojsonType.UnmarshalJSON (.str v) = .ok r →
        r = v ∧ v ∈ [PlaceElemGeometryGeojsonTypePoint]) := by
  have key : ∀ (vs cs : List String), (∀ v, v ∈ vs → v ∈ cs) → ∀ v r,
      enumUnmarshalJSON vs (.str v) = .ok r → r = v ∧ v ∈ cs := by
    intro vs cs hsub v r h
    rw [enumUnmarshalJSON_str] at h
    by_cases hv : v ∈ vs
    · rw [if_pos hv] at h
      cases h
      exact ⟨rfl, hsub v hv⟩
    · rw [if_neg hv] at h
      cases h
  refine ⟨⟨rfl, rfl, rfl, rfl, rfl, rfl, rfl, rfl, rfl, key _ _ ?_⟩,
    ⟨rfl, rfl, rfl, rfl, key _ _ ?_⟩, ⟨rfl, rfl, rfl, rfl, rfl, key _ _ ?_⟩,
    ⟨rfl, rfl, rfl, key _ _ ?_⟩, ⟨rfl, rfl, rfl, rfl, rfl, rfl, rfl, rfl, key _ _ ?_⟩,
    ⟨rfl, key _ _ ?_⟩, ⟨rfl, key _ _ ?_⟩⟩
  all_goals
    intro v hv
    simp only [enumValues_Type, enumValues_Profile, enumValues_Pubstatus,
      enumValues_Representationtype, enumValues_Sector, enumValues_AdviceElemRole,
      enumValues_PlaceElemGeometryGeojsonType, List.mem_cons, List.mem_singleton,
      List.not_mem_nil, or_false] at hv
    rcases hv with rfl | rfl | rfl | rfl | rfl | rfl | rfl | rfl | rfl <;> decide

/-- C37: a Document whose `Webprio` is 0 encodes without a `webprio` member, and
the same holds for `urgency`, `week` and `wordcount`: the number 0 and a field
that was never set are the same Go value and have the same encoding, and a
`"webprio": 0` in the input decodes to the Document that the input without the
key decodes to. -/
theorem C37_zero_of_a_number_field_is_not_written (x : Env) :
    (∀ d kvs, Document.encode x d = .ok (.obj kvs) → d.plain.Webprio = 0 →
      ∀ v, ("webprio", v) ∉ kvs) ∧
    (∀ d kvs, Document.encode x d = .ok (.obj kvs) → d.plain.Urgency = 0 →
      ∀ v, ("urgency", v) ∉ kvs) ∧
    (∀ d kvs, Document.encode x d = .ok (.obj kvs) → d.plain.Week = 0 →
      ∀ v, ("week", v) ∉ kvs) ∧
    (∀ d kvs, Document.encode x d = .ok (.obj kvs) → d.plain.Wordcount = 0 →
      ∀ v, ("wordcount", v) ∉ kvs) ∧
    (∀ u, Document.encode x
        (.mk { Uri := u, Webprio := 0, Urgency := 0, Week := 0, Wordcount := 0 }) =
      Document.encode x (.mk { Uri := u })) ∧
    (∀ u, Document.UnmarshalJSON x
        (.obj [("uri", .str u), ("webprio", .num (JsonNumber.ofNat 0))]) =
      Document.UnmarshalJSON x (.obj [("uri", .str u)])) ∧
    (∀ u, Document.encode Env.basic (.mk { Uri := u, Webprio := 0 }) =
      .ok (.obj [("$standard", .obj []), ("signals", .obj []), ("uri", .str u),
        ("versioncreated", .str "0001-01-01T00:00:00Z")])) := by
  refine ⟨?_, ?_, ?_, ?_, fun _ => rfl, fun _ => rfl, fun _ => rfl⟩
  all_goals
    intro d kvs h h0
    obtain ⟨s⟩ := d
    refine Document.encode_omits_empty x s kvs _ h ?_
    have h1 : emptyInt (0 : Int) = true := rfl
    first
    | exact (congrArg emptyInt (show s.Webprio = 0 from h0)).trans h1
    | exact (congrArg emptyInt (show s.Urgency = 0 from h0)).trans h1
    | exact (congrArg emptyInt (show s.Week = 0 from h0)).trans h1
    | exact (congrArg emptyInt (show s.Wordcount = 0 from h0)).trans h1

/-! ### The frame of a field setter -/

/-- Every field of the zero document struct is at its zero value. -/
theorem Plain.zeroAt_zero (k : String) : Plain.ZeroAt ({} : Plain Document) k := by
  constructor <;> intro _ <;> rfl

/-- A field setter leaves the other fields of the document struct at their zero
value. -/
theorem Plain.setLeaf_zeroAt (x : Env) (t : String) (ht : t ∈ Plain.tags) (v : Json)
    (s s2 : Plain Document) (k : String) (hne : t ≠ k) (hz : Plain.ZeroAt s k)
    (h : Plain.setLeaf x t v s = .ok s2) : Plain.ZeroAt s2 k := by
  simp only [Plain.tags, List.mem_cons, List.mem_singleton, List.not_mem_nil, or_false] at ht

  rcases ht with rfl | rfl | rfl | rfl | rfl | rfl | rfl | rfl | rfl | rfl | rfl | rfl | rfl |
    rfl | rfl | rfl | rfl | rfl | rfl | rfl | rfl | rfl | rfl | rfl | rfl | rfl | rfl | rfl |
    rfl | rfl | rfl | rfl | rfl | rfl | rfl | rfl | rfl | rfl | rfl | rfl | rfl | rfl | rfl |
    rfl | rfl | rfl | rfl | rfl | rfl | rfl | rfl | rfl | rfl | rfl | rfl | rfl | rfl | rfl |
    rfl | rfl | rfl | rfl | rfl | rfl | rfl | rfl | rfl | rfl | rfl | rfl | rfl | rfl
  · obtain ⟨a, _, h2⟩ := Except.map_eq_ok _ _ _ h
    subst h2
    exact { hz with Standard := fun e => absurd e.symm hne }
  · obtain ⟨a, _, h2⟩ := Except.map_eq_ok _ _ _ h
    subst h2
    exact { hz with Advice := fun e => absurd e.symm hne }
  · obtain ⟨a, _, h2⟩ := Except.map_eq_ok _ _ _ h
    subst h2
    exact { hz with Altids := fun e => absurd e.symm hne }
  · cases h
    exact hz
  · cases h
    exact hz
  · obtain ⟨a, _, h2⟩ := Except.map_eq_ok _ _ _ h
    subst h2
    exact { hz with BodyEvent := fun e => absurd e.symm hne }
  · obtain ⟨a, _, h2⟩ := Except.map_eq_ok _ _ _ h
    subst h2
    exact { hz with BodyHtml5 := fun e => absurd e.symm hne }
  · obtain ⟨a, _, h2⟩ := Except.map_eq_ok _ _ _ h
    subst h2
    exact { hz with BodyPages := fun e => absurd e.symm hne }
  · obtain ⟨a, _, h2⟩ := Except.map_eq_ok _ _ _ h
    subst h2
    exact { hz with BodyRichhtml5 := fun e => absurd e.symm hne }
  · obtain ⟨a, _, h2⟩ := Except.map_eq_ok _ _ _ h
    subst h2
    exact { hz with BodySportsml := fun e => absurd e.symm hne }
  · obtain ⟨a, _, h2⟩ := Except.map_eq_ok _ _ _ h
    subst h2
    exact { hz with BodyText := fun e => absurd e.symm hne }
  · obtain ⟨a, _, h2⟩ := Except.map_eq_ok _ _ _ h
    subst h2
    exact { hz with Byline := fun e => absurd e.symm hne }
  · obtain ⟨a, _, h2⟩ := Except.map_eq_ok _ _ _ h
    subst h2
    exact { hz with Bylines := fun e => absurd e.symm hne }
  · obtain ⟨a, _, h2⟩ := Except.map_eq_ok _ _ _ h
    subst h2
    exact { hz with Charcount := fun e => absurd e.symm hne }
  · obtain ⟨a, _, h2⟩ := Except.map_eq_ok _ _ _ h
    subst h2
    exact { hz with Commissioncode := fun e => absurd e.symm hne }
  · obtain ⟨a, _, h2⟩ := Except.map_eq_ok _ _ _ h
    subst h2
    exact { hz with Commissionedby := fun e => absurd e.symm hne }
  · obtain ⟨a, _, h2⟩ := Except.map_eq_ok _ _ _ h
    subst h2
    exact { hz with Contentcreated := fun e => absurd e.symm hne }
  · obtain ⟨a, _, h2⟩ := Except.map_eq_ok _ _ _ h
    subst h2
    exact { hz with Copyrightholder := fun e => absurd e.symm hne }
  · obtain ⟨a, _, h2⟩ := Except.map_eq_ok _ _ _ h
    subst h2
    exact { hz with Copyrightnotice := fun e => absurd e.symm hne }
  · obtain ⟨a, _, h2⟩ := Except.map_eq_ok _ _ _ h
    subst h2
    exact { hz with Date := fun e => absurd e.symm hne }
  · obtain ⟨a, _, h2⟩ := Except.map_eq_ok _ _ _ h
    subst h2
    exact { hz with Datetime := fun e => absurd e.symm hne }
  · obtain ⟨a, _, h2⟩ := Except.map_eq_ok _ _ _ h
    subst h2
    exact { hz with DescriptionText := fun e => absurd e.symm hne }
  · obtain ⟨a, _, h2⟩ := Except.map_eq_ok _ _ _ h
    subst h2
    exact { hz with DescriptionUsage := fun e => absurd e.symm hne }
  · obtain ⟨a, _, h2⟩ := Except.map_eq_ok _ _ _ h
    subst h2
    exact { hz with Ednote := fun e => absurd e.symm hne }
  · obtain ⟨a, _, h2⟩ := Except.map_eq_ok _ _ _ h
    subst h2
    exact { hz with Embargoed := fun e => absurd e.symm hne }
  · obtain ⟨a, _, h2⟩ := Except.map_eq_ok _ _ _ h
    subst h2
    exact { hz with Embargoedreason := fun e => absurd e.symm hne }
  · obtain ⟨a, _, h2⟩ := Except.map_eq_ok _ _ _ h
    subst h2
    exact { hz with Enddate := fun e => absurd e.symm hne }
  · obtain ⟨a, _, h2⟩ := Except.map_eq_ok _ _ _ h
    subst h2
    exact { hz with Enddatetime := fun e => absurd e.symm hne }
  · obtain ⟨a, _, h2⟩ := Except.map_eq_ok _ _ _ h
    subst h2
    exact { hz with Event := fun e => absurd e.symm hne }
  · obtain ⟨a, _, h2⟩ := Except.map_eq_ok _ _ _ h
    subst h2
    exact { hz with Expires := fun e => absurd e.symm hne }
  · obtain ⟨a, _, h2⟩ := Except.map_eq_ok _ _ _ h
    subst h2
    exact { hz with Firstcreated := fun e => absurd e.symm hne }
  · obtain ⟨a, _, h2⟩ := Except.map_eq_ok _ _ _ h
    subst h2
    exact { hz with Fixture := fun e => absurd e.symm hne }
  · obtain ⟨a, _, h2⟩ := Except.map_eq_ok _ _ _ h
    subst h2
    exact { hz with Genre := fun e => absurd e.symm hne }
  · obtain ⟨a, _, h2⟩ := Except.map_eq_ok _ _ _ h
    subst h2
    exact { hz with Headline := fun e => absurd e.symm hne }
  · obtain ⟨a, _, h2⟩ := Except.map_eq_ok _ _ _ h
    subst h2
    exact { hz with Infosource := fun e => absurd e.symm hne }
  · obtain ⟨a, _, h2⟩ := Except.map_eq_ok _ _ _ h
    subst h2
    exact { hz with Job := fun e => absurd e.symm hne }
  · obtain ⟨a, _, h2⟩ := Except.map_eq_ok _ _ _ h
    subst h2
    exact { hz with Language := fun e => absurd e.symm hne }
  · obtain ⟨a, _, h2⟩ := Except.map_eq_ok _ _ _ h
    subst h2
    exact { hz with Located := fun e => absurd e.symm hne }
  · obtain ⟨a, _, h2⟩ := Except.map_eq_ok _ _ _ h
    subst h2
    exact { hz with Mimetype := fun e => absurd e.symm hne }
  · obtain ⟨a, _, h2⟩ := Except.map_eq_ok _ _ _ h
    subst h2
    exact { hz with Newsvalue := fun e => absurd e.symm hne }
  · obtain ⟨a, _, h2⟩ := Except.map_eq_ok _ _ _ h
    subst h2
    exact { hz with Object := fun e => absurd e.symm hne }
  · obtain ⟨a, _, h2⟩ := Except.map_eq_ok _ _ _ h
    subst h2
    exact { hz with Organisation := fun e => absurd e.symm hne }
  · obtain ⟨a, _, h2⟩ := Except.map_eq_ok _ _ _ h
    subst h2
    exact { hz with Originaltransmissionreference := fun e => absurd e.symm hne }
  · obtain ⟨a, _, h2⟩ := Except.map_eq_ok _ _ _ h
    subst h2
    exact { hz with Person := fun e => absurd e.symm hne }
  · obtain ⟨a, _, h2⟩ := Except.map_eq_ok _ _ _ h
    subst h2
    exact { hz with Place := fun e => absurd e.symm hne }
  · obtain ⟨a, _, h2⟩ := Except.map_eq_ok _ _ _ h
    subst h2
    exact { hz with Product := fun e => absurd e.symm hne }
  · obtain ⟨a, _, h2⟩ := Except.map_eq_ok _ _ _ h
    subst h2
    exact { hz with Profile := fun e => absurd e.symm hne }
  · obtain ⟨a, _, h2⟩ := Except.map_eq_ok _ _ _ h
    subst h2
    exact { hz with Pubstatus := fun e => absurd e.symm hne }
  · obtain ⟨a, _, h2⟩ := Except.map_eq_ok _ _ _ h
    subst h2
    exact { hz with Renditions := fun e => absurd e.symm hne }
  · obtain ⟨a, _, h2⟩ := Except.map_eq_ok _ _ _ h
    subst h2
    exact { hz with Replacedby := fun e => absurd e.symm hne }
  · obtain ⟨a, _, h2⟩ := Except.map_eq_ok _ _ _ h
    subst h2
    exact { hz with Replacing := fun e => absurd e.symm hne }
  · obtain ⟨a, _, h2⟩ := Except.map_eq_ok _ _ _ h
    subst h2
    exact { hz with Representationtype := fun e => absurd e.symm hne }
  · obtain ⟨a, _, h2⟩ := Except.map_eq_ok _ _ _ h
    subst h2
    exact { hz with Revisions := fun e => absurd e.symm hne }
  · obtain ⟨a, _, h2⟩ := Except.map_eq_ok _ _ _ h
    subst h2
    exact { hz with Rightsinfo := fun e => absurd e.symm hne }
  · obtain ⟨a, _, h2⟩ := Except.map_eq_ok _ _ _ h
    subst h2
    exact { hz with Sector := fun e => absurd e.symm hne }
  · obtain ⟨a, _, h2⟩ := Except.map_eq_ok _ _ _ h
    subst h2
    exact { hz with Signals := fun e => absurd e.symm hne }
  · obtain ⟨a, _, h2⟩ := Except.map_eq_ok _ _ _ h
    subst h2
    exact { hz with Slug := fun e => absurd e.symm hne }
  · obtain ⟨a, _, h2⟩ := Except.map_eq_ok _ _ _ h
    subst h2
    exact { hz with Slugline := fun e => absurd e.symm hne }
  · obtain ⟨a, _, h2⟩ := Except.map_eq_ok _ _ _ h
    subst h2
    exact { hz with Source := fun e => absurd e.symm hne }
  · obtain ⟨a, _, h2⟩ := Except.map_eq_ok _ _ _ h
    subst h2
    exact { hz with Subject := fun e => absurd e.symm hne }
  · obtain ⟨a, _, h2⟩ := Except.map_eq_ok _ _ _ h
    subst h2
    exact { hz with Title := fun e => absurd e.symm hne }
  · obtain ⟨a, _, h2⟩ := Except.map_eq_ok _ _ _ h
    subst h2
    exact { hz with Trustindicator := fun e => absurd e.symm hne }
  · obtain ⟨a, _, h2⟩ := Except.map_eq_ok _ _ _ h
    subst h2
    exact { hz with Type_ := fun e => absurd e.symm hne }
  · obtain ⟨a, _, h2⟩ := Except.map_eq_ok _ _ _ h
    subst h2
    exact { hz with Urgency := fun e => absurd e.symm hne }
  · obtain ⟨a, _, h2⟩ := Except.map_eq_ok _ _ _ h
    subst h2
    exact { hz with Uri := fun e => absurd e.symm hne }
  · obtain ⟨a, _, h2⟩ := Except.map_eq_ok _ _ _ h
    subst h2
    exact { hz with Usageterms := fun e => absurd e.symm hne }
  · obtain ⟨a, _, h2⟩ := Except.map_eq_ok _ _ _ h
    subst h2
    exact { hz with Version := fun e => absurd e.symm hne }
  · obtain ⟨a, _, h2⟩ := Except.map_eq_ok _ _ _ h
    subst h2
    exact { hz with Versioncreated := fun e => absurd e.symm hne }
  · obtain ⟨a, _, h2⟩ := Except.map_eq_ok _ _ _ h
    subst h2
    exact { hz with Versionstored := fun e => absurd e.symm hne }
  · obtain ⟨a, _, h2⟩ := Except.map_eq_ok _ _ _ h
    subst h2
    exact { hz with Webprio := fun e => absurd e.symm hne }
  · obtain ⟨a, _, h2⟩ := Except.map_eq_ok _ _ _ h
    subst h2
    exact { hz with Week := fun e => absurd e.symm hne }
  · obtain ⟨a, _, h2⟩ := Except.map_eq_ok _ _ _ h
    subst h2
    exact { hz with Wordcount := fun e => absurd e.symm hne }

/-- An explicit `null` for a field at its zero value leaves the document struct
as it is, for every field except `type` and `pubstatus`. -/
theorem Plain.setLeaf_null (x : Env) (k : String) (hk : k ∈ Plain.tags) (h1 : k ≠ "type")
    (h2 : k ≠ "pubstatus") (s : Plain Document) (hz : Plain.ZeroAt s k) :
    Plain.setLeaf x k .null s = .ok s := by
  simp only [Plain.tags, List.mem_cons, List.mem_singleton, List.not_mem_nil, or_false] at hk

  rcases hk with rfl | rfl | rfl | rfl | rfl | rfl | rfl | rfl | rfl | rfl | rfl | rfl | rfl |
    rfl | rfl | rfl | rfl | rfl | rfl | rfl | rfl | rfl | rfl | rfl | rfl | rfl | rfl | rfl |
    rfl | rfl | rfl | rfl | rfl | rfl | rfl | rfl | rfl | rfl | rfl | rfl | rfl | rfl | rfl |
    rfl | rfl | rfl | rfl | rfl | rfl | rfl | rfl | rfl | rfl | rfl | rfl | rfl | rfl | rfl |
    rfl | rfl | rfl | rfl | rfl | rfl | rfl | rfl | rfl | rfl | rfl | rfl | rfl | rfl
  · cases s
    rfl
  · have h0 := hz.Advice rfl
    cases s
    cases h0
    rfl
  · have h0 := hz.Altids rfl
    cases s
    cases h0
    rfl
  · rfl
  · rfl
  · have h0 := hz.BodyEvent rfl
    cases s
    cases h0
    rfl
  · have h0 := hz.BodyHtml5 rfl
    cases s
    cases h0
    rfl
  · have h0 := hz.BodyPages rfl
    cases s
    cases h0
    rfl
  · have h0 := hz.BodyRichhtml5 rfl
    cases s
    cases h0
    rfl
  · have h0 := hz.BodySportsml rfl
    cases s
    cases h0
    rfl
  · have h0 := hz.BodyText rfl
    cases s
    cases h0
    rfl
  · have h0 := hz.Byline rfl
    cases s
    cases h0
    rfl
  · have h0 := hz.Bylines rfl
    cases s
    cases h0
    rfl
  · have h0 := hz.Charcount rfl
    cases s
    cases h0
    rfl
  · have h0 := hz.Commissioncode rfl
    cases s
    cases h0
    rfl
  · have h0 := hz.Commissionedby rfl
    cases s
    cases h0
    rfl
  · have h0 := hz.Contentcreated rfl
    cases s
    cases h0
    rfl
  · have h0 := hz.Copyrightholder rfl
    cases s
    cases h0
    rfl
  · have h0 := hz.Copyrightnotice rfl
    cases s
    cases h0
    rfl
  · have h0 := hz.Date rfl
    cases s
    cases h0
    rfl
  · have h0 := hz.Datetime rfl
    cases s
    cases h0
    rfl
  · have h0 := hz.DescriptionText rfl
    cases s
    cases h0
    rfl
  · have h0 := hz.DescriptionUsage rfl
    cases s
    cases h0
    rfl
  · have h0 := hz.Ednote rfl
    cases s
    cases h0
    rfl
  · have h0 := hz.Embargoed rfl
    cases s
    cases h0
    rfl
  · have h0 := hz.Embargoedreason rfl
    cases s
    cases h0
    rfl
  · have h0 := hz.Enddate rfl
    cases s
    cases h0
    rfl
  · have h0 := hz.Enddatetime rfl
    cases s
    cases h0
    rfl
  · have h0 := hz.Event rfl
    cases s
    cases h0
    rfl
  · have h0 := hz.Expires rfl
    cases s
    cases h0
    rfl
  · have h0 := hz.Firstcreated rfl
    cases s
    cases h0
    rfl
  · have h0 := hz.Fixture rfl
    cases s
    cases h0
    rfl
  · have h0 := hz.Genre rfl
    cases s
    cases h0
    rfl
  · have h0 := hz.Headline rfl
    cases s
    cases h0
    rfl
  · have h0 := hz.Infosource rfl
    cases s
    cases h0
    rfl
  · have h0 := hz.Job rfl
    cases s
    cases h0
    rfl
  · have h0 := hz.Language rfl
    cases s
    cases h0
    rfl
  · have h0 := hz.Located rfl
    cases s
    cases h0
    rfl
  · have h0 := hz.Mimetype rfl
    cases s
    cases h0
    rfl
  · have h0 := hz.Newsvalue rfl
    cases s
    cases h0
    rfl
  · have h0 := hz.Object rfl
    cases s
    cases h0
    rfl
  · have h0 := hz.Organisation rfl
    cases s
    cases h0
    rfl
  · have h0 := hz.Originaltransmissionreference rfl
    cases s
    cases h0
    rfl
  · have h0 := hz.Person rfl
    cases s
    cases h0
    rfl
  · have h0 := hz.Place rfl
    cases s
    cases h0
    rfl
  · have h0 := hz.Product rfl
    cases s
    cases h0
    rfl
  · have h0 := hz.Profile rfl
    cases s
    cases h0
    rfl
  · exact absurd rfl h2
  · have h0 := hz.Renditions rfl
    cases s
    cases h0
    rfl
  · have h0 := hz.Replacedby rfl
    cases s
    cases h0
    rfl
  · have h0 := hz.Replacing rfl
    cases s
    cases h0
    rfl
  · have h0 := hz.Representationtype rfl
    cases s
    cases h0
    rfl
  · have h0 := hz.Revisions rfl
    cases s
    cases h0
    rfl
  · have h0 := hz.Rightsinfo rfl
    cases s
    cases h0
    rfl
  · have h0 := hz.Sector rfl
    cases s
    cases h0
    rfl
  · cases s
    rfl
  · have h0 := hz.Slug rfl
    cases s
    cases h0
    rfl
  · have h0 := hz.Slugline rfl
    cases s
    cases h0
    rfl
  · have h0 := hz.Source rfl
    cases s
    cases h0
    rfl
  · have h0 := hz.Subject rfl
    cases s
    cases h0
    rfl
  · have h0 := hz.Title rfl
    cases s
    cases h0
    rfl
  · have h0 := hz.Trustindicator rfl
    cases s
    cases h0
    rfl
  · exact absurd rfl h1
  · cases s
    rfl
  · have h0 := hz.Uri rfl
    cases s
    cases h0
    rfl
  · have h0 := hz.Usageterms rfl
    cases s
    cases h0
    rfl
  · have h0 := hz.Version rfl
    cases s
    cases h0
    rfl
  · cases s
    rfl
  · have h0 := hz.Versionstored rfl
    cases s
    cases h0
    rfl
  · cases s
    rfl
  · cases s
    rfl
  · cases s
    rfl

/-- The member loop leaves a field at its zero value when no member binds to
it. -/
theorem Document.decodeMembers_zeroAt (x : Env) (k : String) (kvs : List (String × Json)) :
    ∀ s s2 : Plain Document, (∀ kv ∈ kvs, resolveField x Plain.tags kv.1 ≠ some k) →
      Plain.ZeroAt s k → Document.decodeMembers x kvs s = .ok s2 → Plain.ZeroAt s2 k := by
  induction kvs with
  | nil =>
    intro s s2 _ hz h
    rw [Document.decodeMembers] at h
    cases h
    exact hz
  | cons hd tl ih =>
    intro s s2 hk hz h
    obtain ⟨k1, v1⟩ := hd
    have hk1 := hk (k1, v1) (List.mem_cons_self _ _)
    have htl : ∀ kv ∈ tl, resolveField x Plain.tags kv.1 ≠ some k :=
      fun kv hkv => hk kv (List.mem_cons_of_mem _ hkv)
    rw [Document.decodeMembers] at h
    cases hr : resolveField x Plain.tags k1 with
    | none =>
      rw [hr] at h
      exact ih s s2 htl hz h
    | some t =>
      rw [hr] at h
      have hne : t ≠ k := fun e => hk1 (by rw [hr, e])
      simp only [] at h
      split at h
      · rename_i hta
        cases hm : Document.decodeMap x v1 s.Assignments with
        | error e => rw [hm] at h; cases h
        | ok m =>
          simp only [hm] at h
          exact ih { s with Assignments := m } s2 htl
            { hz with Assignments := fun e => absurd (hta.trans e.symm) hne } h
      · split at h
        · rename_i htb
          cases hm : Document.decodeMap x v1 s.Associations with
          | error e => rw [hm] at h; cases h
          | ok m =>
            simp only [hm] at h
            exact ih { s with Associations := m } s2 htl
              { hz with Associations := fun e => absurd (htb.trans e.symm) hne } h
        · cases hs : Plain.setLeaf x t v1 s with
          | error e => rw [hs] at h; cases h
          | ok s1 =>
            rw [hs] at h
            exact ih s1 s2 htl
              (Plain.setLeaf_zeroAt x t (resolveField_mem x _ _ _ hr) v1 s s1 k hne hz hs) h

/-- A member `null` bound to a field at its zero value is skipped by the member
loop, for every field except `type` and `pubstatus`. -/
theorem Document.decodeMembers_null_head (x : Env) (k kn : String)
    (hres : resolveField x Plain.tags kn = some k) (h1 : k ≠ "type") (h2 : k ≠ "pubstatus")
    (post : List (String × Json)) (s : Plain Document) (hz : Plain.ZeroAt s k) :
    Document.decodeMembers x ((kn, .null) :: post) s = Document.decodeMembers x post s := by
  rw [Document.decodeMembers, hres]
  simp only []
  split
  · rename_i hta
    have h0 := hz.Assignments hta
    have hs : ({ s with Assignments := none } : Plain Document) = s := by
      cases s
      cases h0
      rfl
    rw [Document.decodeMap]
    simp only [hs]
  · split
    · rename_i htb
      have h0 := hz.Associations htb
      have hs : ({ s with Associations := none } : Plain Document) = s := by
        cases s
        cases h0
        rfl
      rw [Document.decodeMap]
      simp only [hs]
    · rw [Plain.setLeaf_null x k (resolveField_mem x _ _ _ hres) h1 h2 s hz]

/-- A member `null` bound to a field to which no earlier member binds is skipped
by the member loop, for every field except `type` and `pubstatus`. -/
theorem Document.decodeMembers_null (x : Env) (k kn : String)
    (hres : resolveField x Plain.tags kn = some k) (h1 : k ≠ "type") (h2 : k ≠ "pubstatus")
    (post pre : List (String × Json)) :
    ∀ s : Plain Document, (∀ kv ∈ pre, resolveField x Plain.tags kv.1 ≠ some k) →
      Plain.ZeroAt s k →
      Document.decodeMembers x (pre ++ (kn, .null) :: post) s =
        Document.decodeMembers x (pre ++ post) s := by
  induction pre with
  | nil =>
    intro s _ hz
    exact Document.decodeMembers_null_head x k kn hres h1 h2 post s hz
  | cons hd tl ih =>
    intro s hk hz
    obtain ⟨k1, v1⟩ := hd
    have hk1 := hk (k1, v1) (List.mem_cons_self _ _)
    have htl : ∀ kv ∈ tl, resolveField x Plain.tags kv.1 ≠ some k :=
      fun kv hkv => hk kv (List.mem_cons_of_mem _ hkv)
    rw [List.cons_append, List.cons_append, Document.decodeMembers, Document.decodeMembers]
    cases hr : resolveField x Plain.tags k1 with
    | none => exact ih s htl hz
    | some t =>
      have hne : t ≠ k := fun e => hk1 (by rw [hr, e])
      simp only []
      split
      · rename_i hta
        cases Document.decodeMap x v1 s.Assignments with
        | error e => rfl
        | ok m =>
          exact ih _ htl { hz with Assignments := fun e => absurd (hta.trans e.symm) hne }
      · split
        · rename_i htb
          cases Document.decodeMap x v1 s.Associations with
          | error e => rfl
          | ok m =>
            exact ih _ htl { hz with Associations := fun e => absurd (htb.trans e.symm) hne }
        · cases hs : Plain.setLeaf x t v1 s with
          | error e => rfl
          | ok s1 =>
            exact ih s1 htl
              (Plain.setLeaf_zeroAt x t (resolveField_mem x _ _ _ hr) v1 s s1 k hne hz hs)

/-- C28 (as stated, refuted): an explicit `null` is not absence for the fields
`type` and `pubstatus`: `{"uri": "a"}` decodes, while `{"uri": "a", "type": null}`
and `{"uri": "a", "pubstatus": null}` fail, the method of the enumeration type
reading `null` as the empty string, which is not a permitted value. -/
theorem C28_null_type_is_rejected :
    Document.UnmarshalJSON Env.basic (.obj [("uri", .str "a")]) = .ok (.mk { Uri := "a" }) ∧
      Document.UnmarshalJSON Env.basic (.obj [("uri", .str "a"), ("type", .null)]) =
        .error (.reported (.invalidValue enumValues_Type "")) ∧
      Document.UnmarshalJSON Env.basic (.obj [("uri", .str "a"), ("pubstatus", .null)]) =
        .error (.reported (.invalidValue enumValues_Pubstatus "")) :=
  ⟨rfl, rfl, rfl⟩

/-- C28 (as amended): an explicit `null` is absence for every optional field
except `type` and `pubstatus`.  For a member `kn: null` whose key binds to the
field `k`, other than `uri`, `type` and `pubstatus`, in an object where no
earlier member binds to `k`: decoding the object gives the result (the same
Document or the same error) of decoding the object without that member. -/
theorem C28_null_is_absence_except_type_and_pubstatus (x : Env)
    (pre post : List (String × Json)) (kn k : String)
    (hres : resolveField x Plain.tags kn = some k) (h0 : k ≠ "uri") (h1 : k ≠ "type")
    (h2 : k ≠ "pubstatus") (hpre : ∀ kv ∈ pre, resolveField x Plain.tags kv.1 ≠ some k) :
    Document.UnmarshalJSON x (.obj (pre ++ (kn, .null) :: post)) =
      Document.UnmarshalJSON x (.obj (pre ++ post)) := by
  have hne : kn ≠ "uri" := by
    intro e
    rw [e, resolveField_of_mem x Plain.tags "uri" (by decide)] at hres
    exact h0 (Option.some.inj hres).symm
  rw [Document.UnmarshalJSON, Document.UnmarshalJSON]
  simp only [unmarshalRaw, uriMissing_skip pre post kn .null hne,
    Document.decodeMembers_null x k kn hres h1 h2 post pre {} hpre (Plain.zeroAt_zero k)]

/-- C28 (as amended) at `{"uri": "a", "profile": null, "headline": "x"}`: it
decodes to the Document of `{"uri": "a", "headline": "x"}`. -/
theorem C28_null_is_absence_except_type_and_pubstatus_witness :
    resolveField Env.basic Plain.tags "profile" = some "profile" ∧
      (∀ kv ∈ [("uri", Json.str "a")],
        resolveField Env.basic Plain.tags kv.1 ≠ some "profile") ∧
      Document.UnmarshalJSON Env.basic
        (.obj ([("uri", .str "a")] ++ ("profile", .null) :: [("headline", .str "x")])) =
        Document.UnmarshalJSON Env.basic
          (.obj ([("uri", .str "a")] ++ [("headline", .str "x")])) ∧
      Document.UnmarshalJSON Env.basic
          (.obj ([("uri", .str "a")] ++ [("headline", .str "x")])) =
        .ok (.mk { Uri := "a", Headline := "x" }) :=
  have hpre : ∀ kv ∈ [("uri", Json.str "a")],
      resolveField Env.basic Plain.tags kv.1 ≠ some "profile" := by
    intro kv hkv
    rw [List.mem_singleton] at hkv
    subst hkv
    decide
  ⟨rfl, hpre, C28_null_is_absence_except_type_and_pubstatus Env.basic [("uri", .str "a")]
    [("headline", .str "x")] "profile" "profile" rfl (by decide) (by decide) (by decide) hpre,
    rfl⟩

/-- Every field of the zero revision entry is at its zero value. -/
theorem RevisionsElem.zeroAt_entry_zero (k : String) : RevisionsElem.ZeroAt {} k := by
  constructor <;> intro _ <;> rfl

/-- A field setter leaves the other fields of a revision entry at their zero
value. -/
theorem RevisionsElem.setField_zeroAt (x : Env) (t : String) (ht : t ∈ RevisionsElem.tags)
    (v : Json) (s s2 : RevisionsElem) (k : String) (hne : t ≠ k)
    (hz : RevisionsElem.ZeroAt s k) (h : RevisionsElem.setField x t v s = .ok s2) :
    RevisionsElem.ZeroAt s2 k := by
  simp only [RevisionsElem.tags, List.mem_cons, List.mem_singleton, List.not_mem_nil,
    or_false] at ht
  rcases ht with rfl | rfl | rfl | rfl
  · obtain ⟨a, _, h2⟩ := Except.map_eq_ok _ _ _ h
    subst h2
    exact { hz with Replacing := fun e => absurd e.symm hne }
  · obtain ⟨a, _, h2⟩ := Except.map_eq_ok _ _ _ h
    subst h2
    exact { hz with Slug := fun e => absurd e.symm hne }
  · obtain ⟨a, _, h2⟩ := Except.map_eq_ok _ _ _ h
    subst h2
    exact { hz with Uri := fun e => absurd e.symm hne }
  · obtain ⟨a, _, h2⟩ := Except.map_eq_ok _ _ _ h
    subst h2
    exact { hz with Versioncreated := fun e => absurd e.symm hne }

/-- The member loop leaves a field of a revision entry at its zero value when
no member binds to it. -/
theorem RevisionsElem.decodeMembers_entry_zeroAt (x : Env) (k : String)
    (kvs : List (String × Json)) :
    ∀ s s2 : RevisionsElem, (∀ kv ∈ kvs, resolveField x RevisionsElem.tags kv.1 ≠ some k) →
      RevisionsElem.ZeroAt s k →
      decodeMembers x RevisionsElem.tags (RevisionsElem.setField x) kvs s = .ok s2 →
      RevisionsElem.ZeroAt s2 k := by
  induction kvs with
  | nil =>
    intro s s2 _ hz h
    rw [decodeMembers] at h
    cases h
    exact hz
  | cons hd tl ih =>
    intro s s2 hk hz h
    obtain ⟨k1, v1⟩ := hd
    have hk1 := hk (k1, v1) (List.mem_cons_self _ _)
    have htl : ∀ kv ∈ tl, resolveField x RevisionsElem.tags kv.1 ≠ some k :=
      fun kv hkv => hk kv (List.mem_cons_of_mem _ hkv)
    rw [decodeMembers] at h
    cases hr : resolveField x RevisionsElem.tags k1 with
    | none =>
      simp only [hr] at h
      exact ih s s2 htl hz h
    | some t =>
      have hne : t ≠ k := fun e => hk1 (by rw [hr, e])
      cases hs : RevisionsElem.setField x t v1 s with
      | error e =>
        simp only [hr, hs] at h
        cases h
      | ok s1 =>
        simp only [hr, hs] at h
        exact ih s1 s2 htl
          (RevisionsElem.setField_zeroAt x t (resolveField_mem x _ _ _ hr) v1 s s1 k hne hz hs)
          h

/-- A decoded document holds the zero value in every field to which no member
of the input binds. -/
theorem Document.UnmarshalJSON_zeroAt (x : Env) (kvs : List (String × Json)) (d : Document)
    (h : Document.UnmarshalJSON x (.obj kvs) = .ok d) (k : String)
    (hk : ∀ kv ∈ kvs, resolveField x Plain.tags kv.1 ≠ some k) : Plain.ZeroAt d.plain k := by
  cases hm : uriMissing (some (Json.readMembers kvs [])) with
  | true =>
    rw [Document.UnmarshalJSON] at h
    simp only [unmarshalRaw, hm, if_true] at h
    cases h
  | false =>
    rw [Document.UnmarshalJSON_obj x kvs hm] at h
    cases hd : Document.decodeMembers x kvs {} with
    | error e =>
      rw [hd] at h
      cases h
    | ok plain =>
      rw [hd] at h
      cases h
      exact Document.decodeMembers_zeroAt x k kvs {} _ hk (Plain.zeroAt_zero k) hd

/-- A decoded revision entry holds the zero value in every field to which no
member of the input binds. -/
theorem RevisionsElem.UnmarshalJSON_entry_zeroAt (x : Env) (es : List (String × Json))
    (r : RevisionsElem) (h : RevisionsElem.UnmarshalJSON x (.obj es) = .ok r) (k : String)
    (hk : ∀ kv ∈ es, resolveField x RevisionsElem.tags kv.1 ≠ some k) :
    RevisionsElem.ZeroAt r k := by
  unfold RevisionsElem.UnmarshalJSON at h
  simp only [unmarshalRaw] at h
  split at h
  · cases h
  · have hp : RevisionsElem.unmarshalPlain x (.obj es) =
        decodeMembers x RevisionsElem.tags (RevisionsElem.setField x) es {} := rfl
    rw [hp] at h
    cases hd : decodeMembers x RevisionsElem.tags (RevisionsElem.setField x) es {} with
    | error e =>
      rw [hd] at h
      cases h
    | ok plain =>
      rw [hd] at h
      cases h
      exact RevisionsElem.decodeMembers_entry_zeroAt x k es {} _ hk
        (RevisionsElem.zeroAt_entry_zero k) hd

/-- C35 (as stated, refuted): a field can be set although its key is absent from
the input.  `{"uri": "a", "HEADLINE": "x"}` has no member with the key
`headline`, and after a successful call on a zero receiver `Headline` is `x`:
the library binds a key to a field without regard to case. -/
theorem C35_other_spelling_of_a_key_sets_the_field :
    (∀ v, ("headline", v) ∉ [("uri", Json.str "a"), ("HEADLINE", Json.str "x")]) ∧
      Document.UnmarshalJSON.call Env.basic
          (.obj [("uri", .str "a"), ("HEADLINE", .str "x")]) (.mk {}) =
        (.mk { Uri := "a", Headline := "x" }, none) ∧
      (Document.mk { Uri := "a", Headline := "x" }).plain.Headline = "x" := by
  refine ⟨?_, by rfl, rfl⟩
  intro v hv
  simp at hv

/-- C35 (as amended): a successful `Document.UnmarshalJSON` replaces the
receiver: the receiver becomes the decoded Document whatever it held before, the
input is an object, and every field to which no member of the object binds (by
its key as written or lower-cased) holds its zero value.  The same holds for
`RevisionsElem.UnmarshalJSON`. -/
theorem C35_success_replaces_the_receiver (x : Env) (b : Json) (d : Document)
    (h : Document.UnmarshalJSON x b = .ok d) :
    (∀ j, Document.UnmarshalJSON.call x b j = (d, none)) ∧
    (∃ kvs, b = .obj kvs ∧
      ∀ k, (∀ kv ∈ kvs, resolveField x Plain.tags kv.1 ≠ some k) → Plain.ZeroAt d.plain k) ∧
    ∀ (br : Json) (r : RevisionsElem), RevisionsElem.UnmarshalJSON x br = .ok r →
      (∀ j, RevisionsElem.UnmarshalJSON.call x br j = (r, none)) ∧
      ∃ es, br = .obj es ∧
        ∀ k, (∀ kv ∈ es, resolveField x RevisionsElem.tags kv.1 ≠ some k) →
          RevisionsElem.ZeroAt r k := by
  refine ⟨?_, ?_, ?_⟩
  · intro j
    rw [Document.UnmarshalJSON.call_eq, h]
  · obtain ⟨kvs, hb, _⟩ := Document.UnmarshalJSON_ok_obj x b d h
    subst hb
    exact ⟨kvs, rfl, fun k hk => Document.UnmarshalJSON_zeroAt x kvs d h k hk⟩
  · intro br r hr
    refine ⟨?_, ?_⟩
    · intro j
      rw [RevisionsElem.UnmarshalJSON.call_entry_eq, hr]
    · obtain ⟨es, hb, _⟩ := RevisionsElem.UnmarshalJSON_entry_ok_obj x br r hr
      subst hb
      exact ⟨es, rfl, fun k hk => RevisionsElem.UnmarshalJSON_entry_zeroAt x es r hr k hk⟩

/-- C35 (as amended) at the input `{"uri": "a"}` and a receiver that holds a
headline: after the call the receiver is the Document of the input, and its
`Headline` is empty. -/
theorem C35_success_replaces_the_receiver_witness :
    Document.UnmarshalJSON Env.basic (.obj [("uri", .str "a")]) = .ok (.mk { Uri := "a" }) ∧
      Document.UnmarshalJSON.call Env.basic (.obj [("uri", .str "a")])
          (.mk { Uri := "old", Headline := "kept?" }) = (.mk { Uri := "a" }, none) ∧
      (Document.mk { Uri := "a" }).plain.Headline = "" :=
  ⟨rfl, (C35_success_replaces_the_receiver Env.basic (.obj [("uri", .str "a")])
    (.mk { Uri := "a" }) rfl).1 _, rfl⟩

/-! ### Values of the wrong shape -/

/-- The keys of the shape table are the keys of the fields of `Document`. -/
theorem Plain.shapes_tags (k : String) (sh : Shape) (h : (k, sh) ∈ Plain.shapes) :
    k ∈ Plain.tags := by
  simp only [Plain.shapes, List.mem_cons, List.mem_singleton, List.not_mem_nil, or_false,
    Prod.mk.injEq] at h
  rcases h with ⟨rfl, _⟩ | ⟨rfl, _⟩ | ⟨rfl, _⟩ | ⟨rfl, _⟩ | ⟨rfl, _⟩ | ⟨rfl, _⟩ | ⟨rfl, _⟩ |
    ⟨rfl, _⟩ | ⟨rfl, _⟩ | ⟨rfl, _⟩ | ⟨rfl, _⟩ | ⟨rfl, _⟩ | ⟨rfl, _⟩ | ⟨rfl, _⟩ | ⟨rfl, _⟩ |
    ⟨rfl, _⟩ | ⟨rfl, _⟩ | ⟨rfl, _⟩ | ⟨rfl, _⟩ | ⟨rfl, _⟩ | ⟨rfl, _⟩ | ⟨rfl, _⟩ | ⟨rfl, _⟩ |
    ⟨rfl, _⟩ | ⟨rfl, _⟩ | ⟨rfl, _⟩ | ⟨rfl, _⟩ | ⟨rfl, _⟩ | ⟨rfl, _⟩ | ⟨rfl, _⟩ | ⟨rfl, _⟩ |
    ⟨rfl, _⟩ | ⟨rfl, _⟩ | ⟨rfl, _⟩ | ⟨rfl, _⟩ | ⟨rfl, _⟩ | ⟨rfl, _⟩ | ⟨rfl, _⟩ | ⟨rfl, _⟩ |
    ⟨rfl, _⟩ | ⟨rfl, _⟩ | ⟨rfl, _⟩ | ⟨rfl, _⟩ | ⟨rfl, _⟩ | ⟨rfl, _⟩ | ⟨rfl, _⟩ | ⟨rfl, _⟩ |
    ⟨rfl, _⟩ | ⟨rfl, _⟩ | ⟨rfl, _⟩ | ⟨rfl, _⟩ | ⟨rfl, _⟩ | ⟨rfl, _⟩ | ⟨rfl, _⟩ | ⟨rfl, _⟩ |
    ⟨rfl, _⟩ | ⟨rfl, _⟩ | ⟨rfl, _⟩ | ⟨rfl, _⟩ | ⟨rfl, _⟩ | ⟨rfl, _⟩ | ⟨rfl, _⟩ | ⟨rfl, _⟩ |
    ⟨rfl, _⟩ | ⟨rfl, _⟩ | ⟨rfl, _⟩ | ⟨rfl, _⟩ | ⟨rfl, _⟩ | ⟨rfl, _⟩ | ⟨rfl, _⟩ | ⟨rfl, _⟩ |
    ⟨rfl, _⟩
  all_goals decide

/-- The map decoder for embedded documents fails on a value that is neither an
object nor `null`. -/
theorem Document.decodeMap_wrong_shape (x : Env) (v : Json) (sh2 : Shape)
    (hv : v.shape = some sh2) (hne : sh2 ≠ .object) (cur : GoMap Document) :
    ∃ e, Document.decodeMap x v cur = .error e := by
  cases v <;> cases hv <;>
    first
    | exact absurd rfl hne
    | exact ⟨_, rfl⟩

/-- A field setter of the document struct fails on a value whose shape is not
the shape of the declared type of the field; for the two dates, when the decoder
of `SerializableDate` rejects the value. -/
theorem Plain.setLeaf_wrong_shape (x : Env) (k : String) (v : Json) (sh sh2 : Shape)
    (hk : (k, sh) ∈ Plain.shapes) (hv : v.shape = some sh2) (hne : sh2 ≠ sh)
    (h1 : k ≠ "assignments") (h2 : k ≠ "associations")
    (hdate : k = "date" ∨ k = "enddate" → x.parseDate v = none) (s : Plain Document) :
    ∃ e, Plain.setLeaf x k v s = .error e := by
  simp only [Plain.shapes, List.mem_cons, List.mem_singleton, List.not_mem_nil, or_false,
    Prod.mk.injEq] at hk
  rcases hk with ⟨rfl, rfl⟩ | ⟨rfl, rfl⟩ | ⟨rfl, rfl⟩ | ⟨rfl, rfl⟩ | ⟨rfl, rfl⟩ | ⟨rfl, rfl⟩ |
    ⟨rfl, rfl⟩ | ⟨rfl, rfl⟩ | ⟨rfl, rfl⟩ | ⟨rfl, rfl⟩ | ⟨rfl, rfl⟩ | ⟨rfl, rfl⟩ | ⟨rfl, rfl⟩ |
    ⟨rfl, rfl⟩ | ⟨rfl, rfl⟩ | ⟨rfl, rfl⟩ | ⟨rfl, rfl⟩ | ⟨rfl, rfl⟩ | ⟨rfl, rfl⟩ | ⟨rfl, rfl⟩ |
    ⟨rfl, rfl⟩ | ⟨rfl, rfl⟩ | ⟨rfl, rfl⟩ | ⟨rfl, rfl⟩ | ⟨rfl, rfl⟩ | ⟨rfl, rfl⟩ | ⟨rfl, rfl⟩ |
    ⟨rfl, rfl⟩ | ⟨rfl, rfl⟩ | ⟨rfl, rfl⟩ | ⟨rfl, rfl⟩ | ⟨rfl, rfl⟩ | ⟨rfl, rfl⟩ | ⟨rfl, rfl⟩ |
    ⟨rfl, rfl⟩ | ⟨rfl, rfl⟩ | ⟨rfl, rfl⟩ | ⟨rfl, rfl⟩ | ⟨rfl, rfl⟩ | ⟨rfl, rfl⟩ | ⟨rfl, rfl⟩ |
    ⟨rfl, rfl⟩ | ⟨rfl, rfl⟩ | ⟨rfl, rfl⟩ | ⟨rfl, rfl⟩ | ⟨rfl, rfl⟩ | ⟨rfl, rfl⟩ | ⟨rfl, rfl⟩ |
    ⟨rfl, rfl⟩ | ⟨rfl, rfl⟩ | ⟨rfl, rfl⟩ | ⟨rfl, rfl⟩ | ⟨rfl, rfl⟩ | ⟨rfl, rfl⟩ | ⟨rfl, rfl⟩ |
    ⟨rfl, rfl⟩ | ⟨rfl, rfl⟩ | ⟨rfl, rfl⟩ | ⟨rfl, rfl⟩ | ⟨rfl, rfl⟩ | ⟨rfl, rfl⟩ | ⟨rfl, rfl⟩ |
    ⟨rfl, rfl⟩ | ⟨rfl, rfl⟩ | ⟨rfl, rfl⟩ | ⟨rfl, rfl⟩ | ⟨rfl, rfl⟩ | ⟨rfl, rfl⟩ | ⟨rfl, rfl⟩ |
    ⟨rfl, rfl⟩ | ⟨rfl, rfl⟩ | ⟨rfl, rfl⟩
  all_goals
    first
    | exact absurd rfl h1
    | exact absurd rfl h2
    | (cases v <;> cases hv <;> first | exact absurd rfl hne | exact ⟨_, rfl⟩)
    | (have hd := hdate (Or.inl rfl)
       cases v <;> cases hv <;>
         first
         | exact absurd rfl hne
         | exact ⟨_, by
             show (decodePtr {} (SerializableDate.decode x) _ s.Date).map _ = _
             simp only [decodePtr, SerializableDate.decode, hd]
             rfl⟩)
    | (have hd := hdate (Or.inr rfl)
       cases v <;> cases hv <;>
         first
         | exact absurd rfl hne
         | exact ⟨_, by
             show (decodePtr {} (SerializableDate.decode x) _ s.Enddate).map _ = _
             simp only [decodePtr, SerializableDate.decode, hd]
             rfl⟩)

/-- A member of the wrong shape makes the member loop fail from every state. -/
theorem Document.decodeMembers_wrong_shape (x : Env) (kvs : List (String × Json))
    (k : String) (v : Json) (sh sh2 : Shape) (hmem : (k, v) ∈ kvs)
    (hk : (k, sh) ∈ Plain.shapes) (hv : v.shape = some sh2) (hne : sh2 ≠ sh)
    (hdate : k = "date" ∨ k = "enddate" → x.parseDate v = none) :
    ∀ s, ∃ e, Document.decodeMembers x kvs s = .error e := by
  have htag := Plain.shapes_tags k sh hk
  by_cases h1 : k = "assignments"
  · subst h1
    have hsh : sh = .object := by
      simp only [Plain.shapes, List.mem_cons, List.mem_singleton, List.not_mem_nil, or_false,
        Prod.mk.injEq] at hk
      simpa using hk
    subst hsh
    apply Document.decodeMembers_fail_of_mem x _ v _ kvs hmem
    intro rest s
    obtain ⟨e, he⟩ := Document.decodeMap_wrong_shape x v sh2 hv hne s.Assignments
    refine ⟨e, ?_⟩
    rw [Document.decodeMembers, resolveField_of_mem x _ _ htag]
    simp only [if_true, he]
  · by_cases h2 : k = "associations"
    · subst h2
      have hsh : sh = .object := by
        simp only [Plain.shapes, List.mem_cons, List.mem_singleton, List.not_mem_nil,
          or_false, Prod.mk.injEq] at hk
        simpa using hk
      subst hsh
      apply Document.decodeMembers_fail_of_mem x _ v _ kvs hmem
      intro rest s
      obtain ⟨e, he⟩ := Document.decodeMap_wrong_shape x v sh2 hv hne s.Associations
      refine ⟨e, ?_⟩
      rw [Document.decodeMembers, resolveField_of_mem x _ _ htag]
      simp only [String.reduceEq, if_false, if_true, he]
    · exact Document.decodeMembers_fail_of_leaf x k v htag h1 h2
        (Plain.setLeaf_wrong_shape x k v sh sh2 hk hv hne h1 h2 hdate) kvs hmem

/-- C26: no silent coercion.  When a document object, the top-level one or one
embedded at any depth, has a member whose key is the key of a field of
`Document` and whose value is not `null` and has another shape than the declared
type of the field is written in (a string for the number `urgency`, a number for
`uri` or `headline`, an array for a scalar, a non-string for an enumeration
field), decode fails.  For the two fields of type `SerializableDate`, whose
decoder is not part of the sources, this holds when that decoder rejects the
value. -/
theorem C26_wrong_shape_fails (x : Env) (top : Json) (kvs : List (String × Json))
    (k : String) (v : Json) (sh sh2 : Shape) (hemb : Embedded (.obj kvs) top)
    (hmem : (k, v) ∈ kvs) (hk : (k, sh) ∈ Plain.shapes) (hv : v.shape = some sh2)
    (hne : sh2 ≠ sh) (hdate : k = "date" ∨ k = "enddate" → x.parseDate v = none) :
    ∃ e, Document.UnmarshalJSON x top = .error e :=
  Document.UnmarshalJSON_fail_of_embedded x _ top hemb
    (Document.UnmarshalJSON_fail_of_members x kvs
      (Document.decodeMembers_wrong_shape x kvs k v sh sh2 hmem hk hv hne hdate))

/-- C26 at the inputs `{"uri": "a", "urgency": "3"}` and `{"uri": 42}`: both
fail, with the type error of the library. -/
theorem C26_wrong_shape_fails_witness :
    (∃ e, Document.UnmarshalJSON Env.basic
        (.obj [("uri", .str "a"), ("urgency", .str "3")]) = .error e) ∧
      (∃ e, Document.UnmarshalJSON Env.basic
        (.obj [("uri", .num (JsonNumber.ofNat 42))]) = .error e) ∧
      Document.UnmarshalJSON Env.basic (.obj [("uri", .str "a"), ("urgency", .str "3")]) =
        .error .typeMismatch ∧
      Document.UnmarshalJSON Env.basic (.obj [("uri", .num (JsonNumber.ofNat 42))]) =
        .error .typeMismatch :=
  ⟨C26_wrong_shape_fails Env.basic _ [("uri", .str "a"), ("urgency", .str "3")] "urgency"
      (.str "3") .number .string (Embedded.here _) (by simp) (by simp [Plain.shapes]) rfl
      (by decide) (fun h => by simp at h),
    C26_wrong_shape_fails Env.basic _ [("uri", .num (JsonNumber.ofNat 42))] "uri"
      (.num (JsonNumber.ofNat 42)) .string .number (Embedded.here _) (by simp)
      (by simp [Plain.shapes]) rfl (by decide) (fun h => by simp at h),
    rfl, rfl⟩

/-! ### Encoding without re-validation -/

/-- A field whose value is encoded contributes its members. -/
theorem member_total (tag : String) (skip : Bool) (enc : Except Error Json)
    (h : ∃ j, enc = .ok j) : ∃ a, member tag skip enc = .ok a := by
  obtain ⟨j, rfl⟩ := h
  cases skip
  · exact ⟨_, rfl⟩
  · exact ⟨_, rfl⟩

/-- The members of a struct are joined when every field contributes its
members. -/
theorem joinMembers_total (ms : List (Except Error (List (String × Json))))
    (h : ∀ m ∈ ms, ∃ a, m = .ok a) : ∃ l, joinMembers ms = .ok l := by
  induction ms with
  | nil => exact ⟨_, rfl⟩
  | cons m rest ih =>
    obtain ⟨a, rfl⟩ := h m (List.mem_cons_self _ _)
    obtain ⟨l, hl⟩ := ih fun m1 hm1 => h m1 (List.mem_cons_of_mem _ hm1)
    exact ⟨a ++ l, by simp only [joinMembers, hl]⟩

/-- A struct is encoded when every field contributes its members. -/
theorem encodeStruct_total (ms : List (Except Error (List (String × Json))))
    (h : ∀ m ∈ ms, ∃ a, m = .ok a) : ∃ j, encodeStruct ms = .ok j := by
  obtain ⟨l, hl⟩ := joinMembers_total ms h
  exact ⟨.obj l, by simp only [encodeStruct, hl]⟩

/-- A pointer is encoded when its pointee is. -/
theorem encodePtr_total {α : Type} (enc : Enc α) (p : Option α)
    (h : ∀ a, p = some a → ∃ j, enc a = .ok j) : ∃ j, encodePtr enc p = .ok j := by
  cases p with
  | none => exact ⟨_, rfl⟩
  | some a => exact h a rfl

/-- The elements of a slice are encoded when each of them is. -/
theorem encodeElems_total {α : Type} (enc : Enc α) (l : List α)
    (h : ∀ a ∈ l, ∃ j, enc a = .ok j) : ∃ js, encodeElems enc l = .ok js := by
  induction l with
  | nil => exact ⟨_, rfl⟩
  | cons a rest ih =>
    obtain ⟨j, hj⟩ := h a (List.mem_cons_self _ _)
    obtain ⟨js, hjs⟩ := ih fun b hb => h b (List.mem_cons_of_mem _ hb)
    exact ⟨j :: js, by simp only [encodeElems, hj, hjs]⟩

/-- A slice is encoded when its elements are. -/
theorem encodeSlice_total {α : Type} (enc : Enc α) (s : GoSlice α)
    (h : ∀ l, s = some l → ∀ a ∈ l, ∃ j, enc a = .ok j) : ∃ j, encodeSlice enc s = .ok j := by
  cases s with
  | none => exact ⟨_, rfl⟩
  | some l =>
    obtain ⟨js, hjs⟩ := encodeElems_total enc l (h l rfl)
    exact ⟨.arr js, by simp only [encodeSlice, hjs]⟩

/-- The entries of a map are encoded when each value is. -/
theorem encodeEntries_total {α : Type} (enc : Enc α) (l : List (String × α))
    (h : ∀ kv ∈ l, ∃ j, enc kv.2 = .ok j) : ∃ es, encodeEntries enc l = .ok es := by
  induction l with
  | nil => exact ⟨_, rfl⟩
  | cons hd rest ih =>
    obtain ⟨k, a⟩ := hd
    obtain ⟨j, hj⟩ := h (k, a) (List.mem_cons_self _ _)
    obtain ⟨es, hes⟩ := ih fun b hb => h b (List.mem_cons_of_mem _ hb)
    exact ⟨(k, j) :: es, by simp only [encodeEntries, hj, hes]⟩

/-- A map is encoded when its values are. -/
theorem encodeMap_total {α : Type} (enc : Enc α) (m : GoMap α)
    (h : ∀ l, m = some l → ∀ kv ∈ l, ∃ j, enc kv.2 = .ok j) : ∃ j, encodeMap enc m = .ok j := by
  cases m with
  | none => exact ⟨_, rfl⟩
  | some l =>
    obtain ⟨es, hes⟩ := encodeEntries_total enc l (h l rfl)
    exact ⟨.obj (sortByKey es), by simp only [encodeMap, hes]⟩

/-- A timestamp that `MarshalJSON` writes is encoded. -/
theorem Time_encodes (x : Env) (t : Time) (h : Time.Formats x t) :
    ∃ j, Time.encode x t = .ok j := by
  unfold Time.Formats at h
  unfold Time.encode
  cases hf : x.formatTime t with
  | none => rw [hf] at h; cases h
  | some s => exact ⟨_, rfl⟩

/-- A date that `MarshalJSON` writes is encoded. -/
theorem SerializableDate_encodes (x : Env) (d : SerializableDate)
    (h : SerializableDate.Formats x d) : ∃ j, SerializableDate.encode x d = .ok j := by
  unfold SerializableDate.Formats at h
  unfold SerializableDate.encode
  cases hf : x.formatDate d with
  | none => rw [hf] at h; cases h
  | some s => exact ⟨_, rfl⟩

/-- Every value of `Standard` is encoded. -/
theorem Standard_encodes (s : Standard) : ∃ j, Standard.encode s = .ok j := by
  unfold Standard.encode
  refine encodeStruct_total _ ?_
  simp only [List.forall_mem_cons]
  refine ⟨?_, ?_, ?_, ?_⟩
  · exact member_total _ _ _ (⟨_, rfl⟩)
  · exact member_total _ _ _ (⟨_, rfl⟩)
  · exact member_total _ _ _ (⟨_, rfl⟩)
  · intro m hm
    cases hm

/-- Every value of `AdviceElemEnvironmentElem` is encoded. -/
theorem AdviceElemEnvironmentElem_encodes (s : AdviceElemEnvironmentElem) : ∃ j, AdviceElemEnvironmentElem.encode s = .ok j := by
  unfold AdviceElemEnvironmentElem.encode
  refine encodeStruct_total _ ?_
  simp only [List.forall_mem_cons]
  refine ⟨?_, ?_, ?_⟩
  · exact member_total _ _ _ (⟨_, rfl⟩)
  · exact member_total _ _ _ (⟨_, rfl⟩)
  · intro m hm
    cases hm

/-- Every value of `AdviceElemImportance` is encoded. -/
theorem AdviceElemImportance_encodes (s : AdviceElemImportance) : ∃ j, AdviceElemImportance.encode s = .ok j := by
  unfold AdviceElemImportance.encode
  refine encodeStruct_total _ ?_
  simp only [List.forall_mem_cons]
  refine ⟨?_, ?_, ?_⟩
  · exact member_total _ _ _ (⟨_, rfl⟩)
  · exact member_total _ _ _ (⟨_, rfl⟩)
  · intro m hm
    cases hm

/-- Every value of `AdviceElemLifetime` is encoded. -/
theorem AdviceElemLifetime_encodes (s : AdviceElemLifetime) : ∃ j, AdviceElemLifetime.encode s = .ok j := by
  unfold AdviceElemLifetime.encode
  refine encodeStruct_total _ ?_
  simp only [List.forall_mem_cons]
  refine ⟨?_, ?_, ?_⟩
  · exact member_total _ _ _ (⟨_, rfl⟩)
  · exact member_total _ _ _ (⟨_, rfl⟩)
  · intro m hm
    cases hm

/-- Every value of `AdviceElem` is encoded. -/
theorem AdviceElem_encodes (s : AdviceElem) : ∃ j, AdviceElem.encode s = .ok j := by
  unfold AdviceElem.encode
  refine encodeStruct_total _ ?_
  simp only [List.forall_mem_cons]
  refine ⟨?_, ?_, ?_, ?_, ?_⟩
  · exact member_total _ _ _
      (encodeSlice_total _ _ fun _ _ a _ => AdviceElemEnvironmentElem_encodes a)
  · exact member_total _ _ _ (encodePtr_total _ _ fun a _ => AdviceElemImportance_encodes a)
  · exact member_total _ _ _ (encodePtr_total _ _ fun a _ => AdviceElemLifetime_encodes a)
  · exact member_total _ _ _ (⟨_, rfl⟩)
  · intro m hm
    cases hm

/-- Every value of `Altids` is encoded. -/
theorem Altids_encodes (s : Altids) : ∃ j, Altids.encode s = .ok j := by
  unfold Altids.encode
  refine encodeStruct_total _ ?_
  simp only [List.forall_mem_cons]
  refine ⟨?_, ?_⟩
  · exact member_total _ _ _ (⟨_, rfl⟩)
  · intro m hm
    cases hm

/-- A value of `BodyEvent` whose timestamps are written is encoded. -/
theorem BodyEvent_encodes (x : Env) (s : BodyEvent) (h : BodyEvent.Formats x s) :
    ∃ j, BodyEvent.encode x s = .ok j := by
  unfold BodyEvent.encode
  refine encodeStruct_total _ ?_
  simp only [List.forall_mem_cons]
  refine ⟨?_, ?_, ?_, ?_, ?_, ?_, ?_, ?_, ?_, ?_, ?_, ?_, ?_, ?_, ?_, ?_, ?_, ?_, ?_, ?_, ?_,
    ?_, ?_, ?_, ?_, ?_, ?_, ?_, ?_, ?_, ?_, ?_, ?_⟩
  · exact member_total _ _ _ (⟨_, rfl⟩)
  · exact member_total _ _ _ (⟨_, rfl⟩)
  · exact member_total _ _ _ (⟨_, rfl⟩)
  · exact member_total _ _ _ (⟨_, rfl⟩)
  · exact member_total _ _ _ (encodePtr_total _ _ fun a e => Time_encodes x a (h.Changeddate a e))
  · exact member_total _ _ _ (⟨_, rfl⟩)
  · exact member_total _ _ _ (⟨_, rfl⟩)
  · exact member_total _ _ _ (⟨_, rfl⟩)
  · exact member_total _ _ _ (⟨_, rfl⟩)
  · exact member_total _ _ _ (encodePtr_total _ _ fun a e => Time_encodes x a (h.Createddate a e))
  · exact member_total _ _ _ (⟨_, rfl⟩)
  · exact member_total _ _ _ (⟨_, rfl⟩)
  · exact member_total _ _ _ (⟨_, rfl⟩)
  · exact member_total _ _ _ (⟨_, rfl⟩)
  · exact member_total _ _ _ (⟨_, rfl⟩)
  · exact member_total _ _ _ (⟨_, rfl⟩)
  · exact member_total _ _ _ (⟨_, rfl⟩)
  · exact member_total _ _ _ (⟨_, rfl⟩)
  · exact member_total _ _ _ (⟨_, rfl⟩)
  · exact member_total _ _ _ (⟨_, rfl⟩)
  · exact member_total _ _ _ (⟨_, rfl⟩)
  · exact member_total _ _ _ (⟨_, rfl⟩)
  · exact member_total _ _ _ (⟨_, rfl⟩)
  · exact member_total _ _ _ (⟨_, rfl⟩)
  · exact member_total _ _ _ (⟨_, rfl⟩)
  · exact member_total _ _ _ (⟨_, rfl⟩)
  · exact member_total _ _ _ (⟨_, rfl⟩)
  · exact member_total _ _ _ (⟨_, rfl⟩)
  · exact member_total _ _ _ (⟨_, rfl⟩)
  · exact member_total _ _ _ (⟨_, rfl⟩)
  · exact member_total _ _ _ (⟨_, rfl⟩)
  · exact member_total _ _ _ (⟨_, rfl⟩)
  · intro m hm
    cases hm

/-- Every value of `BylinesElem` is encoded. -/
theorem BylinesElem_encodes (s : BylinesElem) : ∃ j, BylinesElem.encode s = .ok j := by
  unfold BylinesElem.encode
  refine encodeStruct_total _ ?_
  simp only [List.forall_mem_cons]
  refine ⟨?_, ?_, ?_, ?_, ?_, ?_, ?_, ?_, ?_, ?_, ?_⟩
  · exact member_total _ _ _ (⟨_, rfl⟩)
  · exact member_total _ _ _ (⟨_, rfl⟩)
  · exact member_total _ _ _ (⟨_, rfl⟩)
  · exact member_total _ _ _ (⟨_, rfl⟩)
  · exact member_total _ _ _ (⟨_, rfl⟩)
  · exact member_total _ _ _ (⟨_, rfl⟩)
  · exact member_total _ _ _ (⟨_, rfl⟩)
  · exact member_total _ _ _ (⟨_, rfl⟩)
  · exact member_total _ _ _ (⟨_, rfl⟩)
  · exact member_total _ _ _ (⟨_, rfl⟩)
  · intro m hm
    cases hm

/-- Every value of `EventElem` is encoded. -/
theorem EventElem_encodes (s : EventElem) : ∃ j, EventElem.encode s = .ok j := by
  unfold EventElem.encode
  refine encodeStruct_total _ ?_
  simp only [List.forall_mem_cons]
  refine ⟨?_, ?_, ?_, ?_, ?_⟩
  · exact member_total _ _ _ (⟨_, rfl⟩)
  · exact member_total _ _ _ (⟨_, rfl⟩)
  · exact member_total _ _ _ (⟨_, rfl⟩)
  · exact member_total _ _ _ (⟨_, rfl⟩)
  · intro m hm
    cases hm

/-- Every value of `FixtureElem` is encoded. -/
theorem FixtureElem_encodes (s : FixtureElem) : ∃ j, FixtureElem.encode s = .ok j := by
  unfold FixtureElem.encode
  refine encodeStruct_total _ ?_
  simp only [List.forall_mem_cons]
  refine ⟨?_, ?_, ?_, ?_, ?_⟩
  · exact member_total _ _ _ (⟨_, rfl⟩)
  · exact member_total _ _ _ (⟨_, rfl⟩)
  · exact member_total _ _ _ (⟨_, rfl⟩)
  · exact member_total _ _ _ (⟨_, rfl⟩)
  · intro m hm
    cases hm

/-- Every value of `GenreElem` is encoded. -/
theorem GenreElem_encodes (s : GenreElem) : ∃ j, GenreElem.encode s = .ok j := by
  unfold GenreElem.encode
  refine encodeStruct_total _ ?_
  simp only [List.forall_mem_cons]
  refine ⟨?_, ?_, ?_, ?_⟩
  · exact member_total _ _ _ (⟨_, rfl⟩)
  · exact member_total _ _ _ (⟨_, rfl⟩)
  · exact member_total _ _ _ (⟨_, rfl⟩)
  · intro m hm
    cases hm

/-- Every value of `Address` is encoded. -/
theorem Address_encodes (s : Address) : ∃ j, Address.encode s = .ok j := by
  unfold Address.encode
  refine encodeStruct_total _ ?_
  simp only [List.forall_mem_cons]
  refine ⟨?_, ?_, ?_, ?_, ?_, ?_⟩
  · exact member_total _ _ _ (encodeSlice_total _ _ fun _ _ a _ => ⟨_, rfl⟩)
  · exact member_total _ _ _ (⟨_, rfl⟩)
  · exact member_total _ _ _ (⟨_, rfl⟩)
  · exact member_total _ _ _ (⟨_, rfl⟩)
  · exact member_total _ _ _ (⟨_, rfl⟩)
  · intro m hm
    cases hm

/-- Every value of `ContactinfoType` is encoded. -/
theorem ContactinfoType_encodes (s : ContactinfoType) : ∃ j, ContactinfoType.encode s = .ok j := by
  unfold ContactinfoType.encode
  refine encodeStruct_total _ ?_
  simp only [List.forall_mem_cons]
  refine ⟨?_, ?_, ?_, ?_, ?_, ?_, ?_⟩
  · exact member_total _ _ _ (⟨_, rfl⟩)
  · exact member_total _ _ _ (⟨_, rfl⟩)
  · exact member_total _ _ _ (⟨_, rfl⟩)
  · exact member_total _ _ _ (⟨_, rfl⟩)
  · exact member_total _ _ _ (⟨_, rfl⟩)
  · exact member_total _ _ _ (Address_encodes _)
  · intro m hm
    cases hm

/-- Every value of `InfosourceElem` is encoded. -/
theorem InfosourceElem_encodes (s : InfosourceElem) : ∃ j, InfosourceElem.encode s = .ok j := by
  unfold InfosourceElem.encode
  refine encodeStruct_total _ ?_
  simp only [List.forall_mem_cons]
  refine ⟨?_, ?_, ?_, ?_, ?_, ?_⟩
  · exact member_total _ _ _ (⟨_, rfl⟩)
  · exact member_total _ _ _ (encodeSlice_total _ _ fun _ _ a _ => ContactinfoType_encodes a)
  · exact member_total _ _ _ (⟨_, rfl⟩)
  · exact member_total _ _ _ (⟨_, rfl⟩)
  · exact member_total _ _ _ (⟨_, rfl⟩)
  · intro m hm
    cases hm

/-- Every value of `ObjectElem` is encoded. -/
theorem ObjectElem_encodes (s : ObjectElem) : ∃ j, ObjectElem.encode s = .ok j := by
  unfold ObjectElem.encode
  refine encodeStruct_total _ ?_
  simp only [List.forall_mem_cons]
  refine ⟨?_, ?_, ?_, ?_, ?_⟩
  · exact member_total _ _ _ (⟨_, rfl⟩)
  · exact member_total _ _ _ (⟨_, rfl⟩)
  · exact member_total _ _ _ (⟨_, rfl⟩)
  · exact member_total _ _ _ (⟨_, rfl⟩)
  · intro m hm
    cases hm

/-- Every value of `OrganisationElemSymbolsElem` is encoded. -/
theorem OrganisationElemSymbolsElem_encodes (s : OrganisationElemSymbolsElem) : ∃ j, OrganisationElemSymbolsElem.encode s = .ok j := by
  unfold OrganisationElemSymbolsElem.encode
  refine encodeStruct_total _ ?_
  simp only [List.forall_mem_cons]
  refine ⟨?_, ?_, ?_, ?_, ?_⟩
  · exact member_total _ _ _ (⟨_, rfl⟩)
  · exact member_total _ _ _ (⟨_, rfl⟩)
  · exact member_total _ _ _ (⟨_, rfl⟩)
  · exact member_total _ _ _ (⟨_, rfl⟩)
  · intro m hm
    cases hm

/-- Every value of `OrganisationElem` is encoded. -/
theorem OrganisationElem_encodes (s : OrganisationElem) : ∃ j, OrganisationElem.encode s = .ok j := by
  unfold OrganisationElem.encode
  refine encodeStruct_total _ ?_
  simp only [List.forall_mem_cons]
  refine ⟨?_, ?_, ?_, ?_, ?_, ?_, ?_⟩
  · exact member_total _ _ _ (⟨_, rfl⟩)
  · exact member_total _ _ _ (encodeSlice_total _ _ fun _ _ a _ => ContactinfoType_encodes a)
  · exact member_total _ _ _ (⟨_, rfl⟩)
  · exact member_total _ _ _ (⟨_, rfl⟩)
  · exact member_total _ _ _ (⟨_, rfl⟩)
  · exact member_total _ _ _
      (encodeSlice_total _ _ fun _ _ a _ => OrganisationElemSymbolsElem_encodes a)
  · intro m hm
    cases hm

/-- Every value of `PersonElem` is encoded. -/
theorem PersonElem_encodes (s : PersonElem) : ∃ j, PersonElem.encode s = .ok j := by
  unfold PersonElem.encode
  refine encodeStruct_total _ ?_
  simp only [List.forall_mem_cons]
  refine ⟨?_, ?_, ?_, ?_, ?_, ?_⟩
  · exact member_total _ _ _ (⟨_, rfl⟩)
  · exact member_total _ _ _ (encodeSlice_total _ _ fun _ _ a _ => ContactinfoType_encodes a)
  · exact member_total _ _ _ (⟨_, rfl⟩)
  · exact member_total _ _ _ (⟨_, rfl⟩)
  · exact member_total _ _ _ (⟨_, rfl⟩)
  · intro m hm
    cases hm

/-- Every value of `PlaceElemGeometryGeojson` is encoded. -/
theorem PlaceElemGeometryGeojson_encodes (s : PlaceElemGeometryGeojson) : ∃ j, PlaceElemGeometryGeojson.encode s = .ok j := by
  unfold PlaceElemGeometryGeojson.encode
  refine encodeStruct_total _ ?_
  simp only [List.forall_mem_cons]
  refine ⟨?_, ?_, ?_⟩
  · exact member_total _ _ _ (encodeSlice_total _ _ fun _ _ a _ => ⟨_, rfl⟩)
  · exact member_total _ _ _ (⟨_, rfl⟩)
  · intro m hm
    cases hm

/-- Every value of `PlaceElem` is encoded. -/
theorem PlaceElem_encodes (s : PlaceElem) : ∃ j, PlaceElem.encode s = .ok j := by
  unfold PlaceElem.encode
  refine encodeStruct_total _ ?_
  simp only [List.forall_mem_cons]
  refine ⟨?_, ?_, ?_, ?_, ?_, ?_, ?_⟩
  · exact member_total _ _ _ (⟨_, rfl⟩)
  · exact member_total _ _ _ (encodeSlice_total _ _ fun _ _ a _ => ContactinfoType_encodes a)
  · exact member_total _ _ _ (encodePtr_total _ _ fun a _ => PlaceElemGeometryGeojson_encodes a)
  · exact member_total _ _ _ (⟨_, rfl⟩)
  · exact member_total _ _ _ (⟨_, rfl⟩)
  · exact member_total _ _ _ (⟨_, rfl⟩)
  · intro m hm
    cases hm

/-- Every value of `ProductElem` is encoded. -/
theorem ProductElem_encodes (s : ProductElem) : ∃ j, ProductElem.encode s = .ok j := by
  unfold ProductElem.encode
  refine encodeStruct_total _ ?_
  simp only [List.forall_mem_cons]
  refine ⟨?_, ?_, ?_, ?_⟩
  · exact member_total _ _ _ (⟨_, rfl⟩)
  · exact member_total _ _ _ (⟨_, rfl⟩)
  · exact member_total _ _ _ (⟨_, rfl⟩)
  · intro m hm
    cases hm

/-- Every value of `Rendition` is encoded. -/
theorem Rendition_encodes (s : Rendition) : ∃ j, Rendition.encode s = .ok j := by
  unfold Rendition.encode
  refine encodeStruct_total _ ?_
  simp only [List.forall_mem_cons]
  refine ⟨?_, ?_, ?_, ?_, ?_, ?_, ?_, ?_, ?_, ?_, ?_, ?_, ?_, ?_⟩
  · exact member_total _ _ _ (⟨_, rfl⟩)
  · exact member_total _ _ _ (⟨_, rfl⟩)
  · exact member_total _ _ _ (⟨_, rfl⟩)
  · exact member_total _ _ _ (⟨_, rfl⟩)
  · exact member_total _ _ _ (⟨_, rfl⟩)
  · exact member_total _ _ _ (⟨_, rfl⟩)
  · exact member_total _ _ _ (⟨_, rfl⟩)
  · exact member_total _ _ _ (⟨_, rfl⟩)
  · exact member_total _ _ _ (⟨_, rfl⟩)
  · exact member_total _ _ _ (⟨_, rfl⟩)
  · exact member_total _ _ _ (⟨_, rfl⟩)
  · exact member_total _ _ _ (⟨_, rfl⟩)
  · exact member_total _ _ _ (⟨_, rfl⟩)
  · intro m hm
    cases hm

/-- A value of `RevisionsElem` whose timestamps are written is encoded. -/
theorem RevisionsElem_encodes (x : Env) (s : RevisionsElem) (h : RevisionsElem.Formats x s) :
    ∃ j, RevisionsElem.encode x s = .ok j := by
  unfold RevisionsElem.encode
  refine encodeStruct_total _ ?_
  simp only [List.forall_mem_cons]
  refine ⟨?_, ?_, ?_, ?_, ?_⟩
  · exact member_total _ _ _ (encodeSlice_total _ _ fun _ _ a _ => ⟨_, rfl⟩)
  · exact member_total _ _ _ (⟨_, rfl⟩)
  · exact member_total _ _ _ (⟨_, rfl⟩)
  · exact member_total _ _ _
      (encodePtr_total _ _ fun a e => Time_encodes x a (h.Versioncreated a e))
  · intro m hm
    cases hm

/-- Every value of `Rightsinfo` is encoded. -/
theorem Rightsinfo_encodes (s : Rightsinfo) : ∃ j, Rightsinfo.encode s = .ok j := by
  unfold Rightsinfo.encode
  refine encodeStruct_total _ ?_
  simp only [List.forall_mem_cons]
  refine ⟨?_, ?_, ?_, ?_⟩
  · exact member_total _ _ _ (⟨_, rfl⟩)
  · exact member_total _ _ _ (⟨_, rfl⟩)
  · exact member_total _ _ _ (⟨_, rfl⟩)
  · intro m hm
    cases hm

/-- Every value of `Signals` is encoded. -/
theorem Signals_encodes (s : Signals) : ∃ j, Signals.encode s = .ok j := by
  unfold Signals.encode
  refine encodeStruct_total _ ?_
  simp only [List.forall_mem_cons]
  refine ⟨?_, ?_, ?_, ?_, ?_, ?_, ?_, ?_, ?_⟩
  · exact member_total _ _ _ (encodeSlice_total _ _ fun _ _ a _ => ⟨_, rfl⟩)
  · exact member_total _ _ _ (encodePtr_total _ _ fun a _ => ⟨_, rfl⟩)
  · exact member_total _ _ _ (⟨_, rfl⟩)
  · exact member_total _ _ _ (⟨_, rfl⟩)
  · exact member_total _ _ _ (⟨_, rfl⟩)
  · exact member_total _ _ _ (encodeSlice_total _ _ fun _ _ a _ => ⟨_, rfl⟩)
  · exact member_total _ _ _ (encodePtr_total _ _ fun a _ => ⟨_, rfl⟩)
  · exact member_total _ _ _ (encodePtr_total _ _ fun a _ => ⟨_, rfl⟩)
  · intro m hm
    cases hm

/-- Every value of `SubjectElem` is encoded. -/
theorem SubjectElem_encodes (s : SubjectElem) : ∃ j, SubjectElem.encode s = .ok j := by
  unfold SubjectElem.encode
  refine encodeStruct_total _ ?_
  simp only [List.forall_mem_cons]
  refine ⟨?_, ?_, ?_, ?_, ?_, ?_, ?_, ?_⟩
  · exact member_total _ _ _ (⟨_, rfl⟩)
  · exact member_total _ _ _ (encodePtr_total _ _ fun a _ => ⟨_, rfl⟩)
  · exact member_total _ _ _ (⟨_, rfl⟩)
  · exact member_total _ _ _ (⟨_, rfl⟩)
  · exact member_total _ _ _ (⟨_, rfl⟩)
  · exact member_total _ _ _ (encodePtr_total _ _ fun a _ => ⟨_, rfl⟩)
  · exact member_total _ _ _ (⟨_, rfl⟩)
  · intro m hm
    cases hm

/-- Every value of `TrustindicatorElem` is encoded. -/
theorem TrustindicatorElem_encodes (s : TrustindicatorElem) : ∃ j, TrustindicatorElem.encode s = .ok j := by
  unfold TrustindicatorElem.encode
  refine encodeStruct_total _ ?_
  simp only [List.forall_mem_cons]
  refine ⟨?_, ?_, ?_, ?_, ?_⟩
  · exact member_total _ _ _ (⟨_, rfl⟩)
  · exact member_total _ _ _ (⟨_, rfl⟩)
  · exact member_total _ _ _ (⟨_, rfl⟩)
  · exact member_total _ _ _ (⟨_, rfl⟩)
  · intro m hm
    cases hm

/-- Every field of a document contributes its members when its timestamps and
dates are written and its two maps of embedded documents are encoded. -/
theorem Plain_members_total (x : Env) (s : Plain Document) (ea eb : Except Error Json)
    (h : Plain.FormatsLeaf x s) (ha : ∃ j, ea = .ok j) (hb : ∃ j, eb = .ok j) :
    ∀ m ∈ Plain.members x s ea eb, ∃ a, m = .ok a := by
  simp only [Plain.members, List.forall_mem_cons]
  refine ⟨?_, ?_, ?_, ?_, ?_, ?_, ?_, ?_, ?_, ?_, ?_, ?_, ?_, ?_, ?_, ?_, ?_, ?_, ?_, ?_, ?_,
    ?_, ?_, ?_, ?_, ?_, ?_, ?_, ?_, ?_, ?_, ?_, ?_, ?_, ?_, ?_, ?_, ?_, ?_, ?_, ?_, ?_, ?_, ?_,
    ?_, ?_, ?_, ?_, ?_, ?_, ?_, ?_, ?_, ?_, ?_, ?_, ?_, ?_, ?_, ?_, ?_, ?_, ?_, ?_, ?_, ?_, ?_,
    ?_, ?_, ?_, ?_, ?_, ?_⟩
  · exact member_total _ _ _ (Standard_encodes _)
  · exact member_total _ _ _ (encodeSlice_total _ _ fun _ _ a _ => AdviceElem_encodes a)
  · exact member_total _ _ _ (encodePtr_total _ _ fun a _ => Altids_encodes a)
  · exact member_total _ _ _ ha
  · exact member_total _ _ _ hb
  · exact member_total _ _ _
      (encodePtr_total _ _ fun a e => BodyEvent_encodes x a (h.BodyEvent a e))
  · exact member_total _ _ _ (⟨_, rfl⟩)
  · exact member_total _ _ _ (encodeMap_total _ _ fun _ _ _ _ => ⟨_, rfl⟩)
  · exact member_total _ _ _ (⟨_, rfl⟩)
  · exact member_total _ _ _ (⟨_, rfl⟩)
  · exact member_total _ _ _ (⟨_, rfl⟩)
  · exact member_total _ _ _ (⟨_, rfl⟩)
  · exact member_total _ _ _ (encodeSlice_total _ _ fun _ _ a _ => BylinesElem_encodes a)
  · exact member_total _ _ _ (encodePtr_total _ _ fun a _ => ⟨_, rfl⟩)
  · exact member_total _ _ _ (⟨_, rfl⟩)
  · exact member_total _ _ _ (encodeSlice_total _ _ fun _ _ a _ => ⟨_, rfl⟩)
  · exact member_total _ _ _
      (encodePtr_total _ _ fun a e => Time_encodes x a (h.Contentcreated a e))
  · exact member_total _ _ _ (⟨_, rfl⟩)
  · exact member_total _ _ _ (⟨_, rfl⟩)
  · exact member_total _ _ _
      (encodePtr_total _ _ fun a e => SerializableDate_encodes x a (h.Date a e))
  · exact member_total _ _ _ (encodePtr_total _ _ fun a e => Time_encodes x a (h.Datetime a e))
  · exact member_total _ _ _ (⟨_, rfl⟩)
  · exact member_total _ _ _ (⟨_, rfl⟩)
  · exact member_total _ _ _ (⟨_, rfl⟩)
  · exact member_total _ _ _ (encodePtr_total _ _ fun a e => Time_encodes x a (h.Embargoed a e))
  · exact member_total _ _ _ (⟨_, rfl⟩)
  · exact member_total _ _ _
      (encodePtr_total _ _ fun a e => SerializableDate_encodes x a (h.Enddate a e))
  · exact member_total _ _ _ (encodePtr_total _ _ fun a e => Time_encodes x a (h.Enddatetime a e))
  · exact member_total _ _ _ (encodeSlice_total _ _ fun _ _ a _ => EventElem_encodes a)
  · exact member_total _ _ _ (encodePtr_total _ _ fun a e => Time_encodes x a (h.Expires a e))
  · exact member_total _ _ _ (encodePtr_total _ _ fun a e => Time_encodes x a (h.Firstcreated a e))
  · exact member_total _ _ _ (encodeSlice_total _ _ fun _ _ a _ => FixtureElem_encodes a)
  · exact member_total _ _ _ (encodeSlice_total _ _ fun _ _ a _ => GenreElem_encodes a)
  · exact member_total _ _ _ (⟨_, rfl⟩)
  · exact member_total _ _ _ (encodeSlice_total _ _ fun _ _ a _ => InfosourceElem_encodes a)
  · exact member_total _ _ _ (⟨_, rfl⟩)
  · exact member_total _ _ _ (⟨_, rfl⟩)
  · exact member_total _ _ _ (⟨_, rfl⟩)
  · exact member_total _ _ _ (⟨_, rfl⟩)
  · exact member_total _ _ _ (encodePtr_total _ _ fun a _ => ⟨_, rfl⟩)
  · exact member_total _ _ _ (encodeSlice_total _ _ fun _ _ a _ => ObjectElem_encodes a)
  · exact member_total _ _ _ (encodeSlice_total _ _ fun _ _ a _ => OrganisationElem_encodes a)
  · exact member_total _ _ _ (⟨_, rfl⟩)
  · exact member_total _ _ _ (encodeSlice_total _ _ fun _ _ a _ => PersonElem_encodes a)
  · exact member_total _ _ _ (encodeSlice_total _ _ fun _ _ a _ => PlaceElem_encodes a)
  · exact member_total _ _ _ (encodeSlice_total _ _ fun _ _ a _ => ProductElem_encodes a)
  · exact member_total _ _ _ (encodePtr_total _ _ fun a _ => ⟨_, rfl⟩)
  · exact member_total _ _ _ (⟨_, rfl⟩)
  · exact member_total _ _ _ (encodeMap_total _ _ fun _ _ kv _ => Rendition_encodes kv.2)
  · exact member_total _ _ _ (⟨_, rfl⟩)
  · exact member_total _ _ _ (encodeSlice_total _ _ fun _ _ a _ => ⟨_, rfl⟩)
  · exact member_total _ _ _ (encodePtr_total _ _ fun a _ => ⟨_, rfl⟩)
  · exact member_total _ _ _
      (encodeSlice_total _ _ fun l e a m => RevisionsElem_encodes x a (h.Revisions l e a m))
  · exact member_total _ _ _ (encodePtr_total _ _ fun a _ => Rightsinfo_encodes a)
  · exact member_total _ _ _ (encodePtr_total _ _ fun a _ => ⟨_, rfl⟩)
  · exact member_total _ _ _ (Signals_encodes _)
  · exact member_total _ _ _ (⟨_, rfl⟩)
  · exact member_total _ _ _ (⟨_, rfl⟩)
  · exact member_total _ _ _ (⟨_, rfl⟩)
  · exact member_total _ _ _ (encodeSlice_total _ _ fun _ _ a _ => SubjectElem_encodes a)
  · exact member_total _ _ _ (⟨_, rfl⟩)
  · exact member_total _ _ _ (encodeSlice_total _ _ fun _ _ a _ => TrustindicatorElem_encodes a)
  · exact member_total _ _ _ (⟨_, rfl⟩)
  · exact member_total _ _ _ (⟨_, rfl⟩)
  · exact member_total _ _ _ (⟨_, rfl⟩)
  · exact member_total _ _ _ (⟨_, rfl⟩)
  · exact member_total _ _ _ (⟨_, rfl⟩)
  · exact member_total _ _ _ (Time_encodes x _ h.Versioncreated)
  · exact member_total _ _ _ (encodePtr_total _ _ fun a e => Time_encodes x a (h.Versionstored a e))
  · exact member_total _ _ _ (⟨_, rfl⟩)
  · exact member_total _ _ _ (⟨_, rfl⟩)
  · exact member_total _ _ _ (⟨_, rfl⟩)
  · intro m hm
    cases hm

/-- A document whose timestamps and dates are written, at every depth, is
encoded. -/
theorem Document_encodes (x : Env) (d : Document) (h : Document.Formats x d) :
    ∃ j, Document.encode x d = .ok j := by
  induction h with
  | mk s hleaf _ _ ih1 ih2 =>
    rw [Document.encode_mk, Document.encodeMap_eq]
    exact encodeStruct_total _ (Plain_members_total x s _ _ hleaf
      (encodeMap_total _ _ ih1) (encodeMap_total _ _ ih2))

/-- C21 (as amended): encode does not re-validate, and it succeeds for every
Document whose timestamps and dates, at every depth, are ones that `MarshalJSON`
writes.  (The Documents of the model hold numbers in their `float64` fields and
values of the types of the generic decoder in `BodyPages`: a NaN, an infinity
or a value that `json.Marshal` cannot write is not among them.)  Whatever the enumeration fields and `Uri` hold, permitted or not, empty
or not, the result is an object that holds `Uri` under `uri` and each
enumeration field that is not empty (not nil) under its key, unchanged. -/
theorem C21_encode_does_not_revalidate (x : Env) (d : Document)
    (h : Document.Formats x d) :
    ∃ kvs, Document.encode x d = .ok (.obj kvs) ∧
      ("uri", Json.str d.plain.Uri) ∈ kvs ∧
      (d.plain.Type_ ≠ "" → ("type", Json.str d.plain.Type_) ∈ kvs) ∧
      (d.plain.Pubstatus ≠ "" → ("pubstatus", Json.str d.plain.Pubstatus) ∈ kvs) ∧
      (∀ p, d.plain.Profile = some p → ("profile", Json.str p) ∈ kvs) ∧
      (∀ p, d.plain.Representationtype = some p →
        ("representationtype", Json.str p) ∈ kvs) ∧
      (∀ p, d.plain.Sector = some p → ("sector", Json.str p) ∈ kvs) := by
  obtain ⟨j, hj⟩ := Document_encodes x d h
  obtain ⟨s⟩ := d
  have hj2 := hj
  rw [Document.encode_mk] at hj2
  obtain ⟨kvs, _, rfl⟩ := encodeStruct_ok _ _ hj2
  refine ⟨kvs, hj, ?_, ?_, ?_, ?_, ?_, ?_⟩
  · exact Document.encode_member x s kvs hj [("uri", .str s.Uri)]
      (@List.getElem?_mem _ _ 64 _ rfl) _ (List.mem_singleton.2 rfl)
  · intro hne
    have hm : member "type" (emptyString s.Type_) (encodeString s.Type_) =
        .ok [("type", .str s.Type_)] := by
      have he : emptyString s.Type_ = false := by simpa [emptyString] using hne
      simp only [member, he, encodeString, Bool.false_eq_true, if_false]
    refine Document.encode_member x s kvs hj [("type", .str s.Type_)] ?_ _
      (List.mem_singleton.2 rfl)
    rw [← hm]
    exact @List.getElem?_mem _ _ 62 _ rfl
  · intro hne
    have hm : member "pubstatus" (emptyString s.Pubstatus) (encodeString s.Pubstatus) =
        .ok [("pubstatus", .str s.Pubstatus)] := by
      have he : emptyString s.Pubstatus = false := by simpa [emptyString] using hne
      simp only [member, he, encodeString, Bool.false_eq_true, if_false]
    refine Document.encode_member x s kvs hj [("pubstatus", .str s.Pubstatus)] ?_ _
      (List.mem_singleton.2 rfl)
    rw [← hm]
    exact @List.getElem?_mem _ _ 47 _ rfl
  · intro p hp
    have hp2 : s.Profile = some p := hp
    have hm : member "profile" (emptyPtr s.Profile) (encodePtr encodeString s.Profile) =
        .ok [("profile", .str p)] := by
      rw [hp2]
      rfl
    refine Document.encode_member x s kvs hj [("profile", .str p)] ?_ _
      (List.mem_singleton.2 rfl)
    rw [← hm]
    exact @List.getElem?_mem _ _ 46 _ rfl
  · intro p hp
    have hp2 : s.Representationtype = some p := hp
    have hm : member "representationtype" (emptyPtr s.Representationtype)
        (encodePtr encodeString s.Representationtype) =
        .ok [("representationtype", .str p)] := by
      rw [hp2]
      rfl
    refine Document.encode_member x s kvs hj [("representationtype", .str p)] ?_ _
      (List.mem_singleton.2 rfl)
    rw [← hm]
    exact @List.getElem?_mem _ _ 51 _ rfl
  · intro p hp
    have hp2 : s.Sector = some p := hp
    have hm : member "sector" (emptyPtr s.Sector) (encodePtr encodeString s.Sector) =
        .ok [("sector", .str p)] := by
      rw [hp2]
      rfl
    refine Document.encode_member x s kvs hj [("sector", .str p)] ?_ _
      (List.mem_singleton.2 rfl)
    rw [← hm]
    exact @List.getElem?_mem _ _ 54 _ rfl

/-- C21 (as amended) at the Document with an empty `Uri` and `Type = "bogus"`:
its only timestamp is the zero time, it encodes, and the object holds
`"uri": ""` and `"type": "bogus"`. -/
theorem C21_encode_does_not_revalidate_witness :
    Document.Formats Env.basic (.mk { Uri := "", Type_ := "bogus" }) ∧
      (∃ kvs, Document.encode Env.basic (.mk { Uri := "", Type_ := "bogus" }) =
          .ok (.obj kvs) ∧
        ("uri", Json.str "") ∈ kvs ∧ ("type", Json.str "bogus") ∈ kvs) ∧
      Document.encode Env.basic (.mk { Uri := "", Type_ := "bogus" }) =
        .ok (.obj [("$standard", .obj []), ("signals", .obj []), ("type", .str "bogus"),
          ("uri", .str ""), ("versioncreated", .str "0001-01-01T00:00:00Z")]) := by
  have hleaf : Plain.FormatsLeaf Env.basic
      ({ Uri := "", Type_ := "bogus" } : Plain Document) := by
    constructor <;> first | rfl | (intro a e; cases e)
  have hF : Document.Formats Env.basic (.mk { Uri := "", Type_ := "bogus" }) :=
    Document.Formats.mk _ hleaf (fun l e => by cases e) (fun l e => by cases e)
  obtain ⟨kvs, h1, h2, h3, _⟩ :=
    C21_encode_does_not_revalidate Env.basic (.mk { Uri := "", Type_ := "bogus" }) hF
  exact ⟨hF, ⟨kvs, h1, h2, h3 (by decide)⟩, rfl⟩

/-! ### The limits of the reader -/

mutual
/-- What the reader reads with `d` levels left it reads with more. -/
theorem Json.within_mono (r : Reader) :
    ∀ (v : Json) (d e : Nat), d ≤ e → Json.within r v d = true → Json.within r v e = true
  | .null, _, _, _, _ => by simp only [Json.within]
  | .bool _, _, _, _, _ => by simp only [Json.within]
  | .num _, _, _, _, h => by
    simp only [Json.within] at h ⊢
    exact h
  | .str _, _, _, _, _ => by simp only [Json.within]
  | .arr _, 0, _, _, h => by
    simp only [Json.within] at h
    cases h
  | .arr _, _ + 1, 0, hle, _ => by omega
  | .arr xs, d + 1, e + 1, hle, h => by
    simp only [Json.within] at h ⊢
    exact Json.withinElems_mono r xs d e (by omega) h
  | .obj _, 0, _, _, h => by
    simp only [Json.within] at h
    cases h
  | .obj _, _ + 1, 0, hle, _ => by omega
  | .obj kvs, d + 1, e + 1, hle, h => by
    simp only [Json.within] at h ⊢
    exact Json.withinMembers_mono r kvs d e (by omega) h
/-- The elements that the reader reads with `d` levels left it reads with more. -/
theorem Json.withinElems_mono (r : Reader) :
    ∀ (xs : List Json) (d e : Nat), d ≤ e → Json.withinElems r xs d = true →
      Json.withinElems r xs e = true
  | [], _, _, _, _ => by simp only [Json.withinElems]
  | v :: rest, d, e, hle, h => by
    simp only [Json.withinElems, Bool.and_eq_true] at h ⊢
    exact ⟨Json.within_mono r v d e hle h.1, Json.withinElems_mono r rest d e hle h.2⟩
/-- The members that the reader reads with `d` levels left it reads with more. -/
theorem Json.withinMembers_mono (r : Reader) :
    ∀ (kvs : List (String × Json)) (d e : Nat), d ≤ e → Json.withinMembers r kvs d = true →
      Json.withinMembers r kvs e = true
  | [], _, _, _, _ => by simp only [Json.withinMembers]
  | (_, v) :: rest, d, e, hle, h => by
    simp only [Json.withinMembers, Bool.and_eq_true] at h ⊢
    exact ⟨Json.within_mono r v d e hle h.1, Json.withinMembers_mono r rest d e hle h.2⟩
end

/-- The reader reads the members of an object when it reads each of their
values. -/
theorem Json.withinMembers_iff (r : Reader) (kvs : List (String × Json)) (d : Nat) :
    Json.withinMembers r kvs d = true ↔ ∀ kv ∈ kvs, Json.within r kv.2 d = true := by
  induction kvs with
  | nil => simp [Json.withinMembers]
  | cons hd tl ih =>
    obtain ⟨k, v⟩ := hd
    simp only [Json.withinMembers, Bool.and_eq_true, ih, List.mem_cons, forall_eq_or_imp]

/-- The reader reads the elements of an array when it reads each of them. -/
theorem Json.withinElems_iff (r : Reader) (xs : List Json) (d : Nat) :
    Json.withinElems r xs d = true ↔ ∀ v ∈ xs, Json.within r v d = true := by
  induction xs with
  | nil => simp [Json.withinElems]
  | cons hd tl ih =>
    simp only [Json.withinElems, Bool.and_eq_true, ih, List.mem_cons, forall_eq_or_imp]

/-- A member whose value the reader reads does not change whether the reader
reads the object. -/
theorem Json.withinMembers_skip (r : Reader) (pre post : List (String × Json)) (k : String)
    (v : Json) (d : Nat) (hv : Json.within r v d = true) :
    Json.withinMembers r (pre ++ (k, v) :: post) d = Json.withinMembers r (pre ++ post) d := by
  rw [Bool.eq_iff_iff, Json.withinMembers_iff, Json.withinMembers_iff]
  constructor
  · intro h kv hkv
    apply h
    rw [List.mem_append] at hkv ⊢
    rcases hkv with hkv | hkv
    · exact Or.inl hkv
    · exact Or.inr (List.mem_cons_of_mem _ hkv)
  · intro h kv hkv
    rw [List.mem_append, List.mem_cons] at hkv
    rcases hkv with hkv | hkv | hkv
    · exact h kv (List.mem_append_left _ hkv)
    · rw [hkv]
      exact hv
    · exact h kv (List.mem_append_right _ hkv)

/-- The levels that `nested n` takes: two for every document below the first,
and one for the first. -/
theorem Json.within_nested (r : Reader) (n d : Nat) :
    Json.within r (nested n) d = decide (2 * n + 1 ≤ d) := by
  induction n generalizing d with
  | zero =>
    cases d with
    | zero => rfl
    | succ d => simp [nested, Json.within, Json.withinMembers]
  | succ n ih =>
    cases d with
    | zero => rfl
    | succ d =>
      cases d with
      | zero => rfl
      | succ d =>
        simp only [nested, Json.within, Json.withinMembers, ih, Bool.and_true, Bool.true_and]
        rw [decide_eq_decide]
        omega

/-- The levels that `nestedEncoding stamp n` takes: one more than `nested n`,
for the objects `$standard` and `signals` of the last document. -/
theorem Json.within_nestedEncoding (r : Reader) (stamp : String) (n d : Nat) :
    Json.within r (nestedEncoding stamp n) d = decide (2 * n + 2 ≤ d) := by
  induction n generalizing d with
  | zero =>
    cases d with
    | zero => rfl
    | succ d =>
      cases d with
      | zero => rfl
      | succ d => simp [nestedEncoding, Json.within, Json.withinMembers]
  | succ n ih =>
    cases d with
    | zero => rfl
    | succ d =>
      cases d with
      | zero => rfl
      | succ d =>
        simp only [nestedEncoding, Json.within, Json.withinMembers, ih, Bool.and_true,
          Bool.true_and]
        rw [decide_eq_decide]
        omega

/-- A value embedded `m` levels deep takes two levels of the reader for each. -/
theorem EmbeddedAt.levels (r : Reader) (m : Nat) (b v : Json) (h : EmbeddedAt m b v) :
    ∀ d, Json.within r v d = true → 2 * m ≤ d := by
  induction h with
  | here => intro d _; omega
  | under n b v key k es kvs _ hes hv _ ih =>
    intro d hd
    cases d with
    | zero =>
      simp only [Json.within] at hd
      cases hd
    | succ d =>
      simp only [Json.within] at hd
      have h1 := (Json.withinMembers_iff r kvs d).1 hd _ hes
      cases d with
      | zero =>
        simp only [Json.within] at h1
        cases h1
      | succ d =>
        simp only [Json.within] at h1
        have h2 := ih d ((Json.withinMembers_iff r es d).1 h1 _ hv)
        omega

/-! ### The decode path with the limits of the reader, on what the reader reads -/

/-- A result read as an option is a value exactly when it is that success. -/
theorem Except.toOption_eq_some {ε α : Type} (e : Except ε α) (a : α) :
    e.toOption = some a ↔ e = .ok a := by
  cases e with
  | error _ => simp [Except.toOption]
  | ok b => simp [Except.toOption]

/-- Results that agree as options are two errors or the same success. -/
theorem Except.toOption_cases {ε α : Type} (a b : Except ε α) (h : a.toOption = b.toOption) :
    (∃ e1 e2, a = .error e1 ∧ b = .error e2) ∨ ∃ y, a = .ok y ∧ b = .ok y := by
  cases a with
  | error e1 =>
    cases b with
    | error e2 => exact Or.inl ⟨e1, e2, rfl, rfl⟩
    | ok y => cases h
  | ok y =>
    cases b with
    | error e2 => cases h
    | ok z =>
      cases h
      exact Or.inr ⟨y, rfl, rfl⟩

/-- The raw read with the limits of the reader is the raw read, on a value that
the reader reads. -/
theorem unmarshalRaw_within_eq (r : Reader) (b : Json) (d : Nat) (hd : d ≤ r.maxDepth + 1)
    (h : Json.within r b d = true) : unmarshalRaw.within r b = unmarshalRaw b := by
  cases b with
  | obj kvs =>
    cases d with
    | zero =>
      simp only [Json.within] at h
      cases h
    | succ d =>
      simp only [Json.within] at h
      have h1 := Json.withinMembers_mono r kvs d r.maxDepth (by omega) h
      rw [unmarshalRaw.within, if_pos h1]
      rfl
  | _ => rfl

/-- The raw read with the limits of the reader fails on an object that the
reader does not read. -/
theorem unmarshalRaw_within_limit (r : Reader) (kvs : List (String × Json))
    (h : Json.withinMembers r kvs r.maxDepth = false) :
    unmarshalRaw.within r (.obj kvs) = .error .limit := by
  rw [unmarshalRaw.within, h]
  rfl

/-- The method of a revision entry with the limits of the reader is the method,
on a value that the reader reads. -/
theorem RevisionsElem.UnmarshalJSON_entry_within_eq (r : Reader) (x : Env) (b : Json) (d : Nat)
    (hd : d ≤ r.maxDepth + 1) (h : Json.within r b d = true) :
    RevisionsElem.UnmarshalJSON.within r x b = RevisionsElem.UnmarshalJSON x b := by
  rw [RevisionsElem.UnmarshalJSON.within, RevisionsElem.UnmarshalJSON,
    unmarshalRaw_within_eq r b d hd h]

/-- Decoders that agree on the elements of an array give the same slice. -/
theorem decodeElems_congr {α : Type} (zero : α) (dec dec2 : Dec α) (xs : List Json)
    (h : ∀ v ∈ xs, dec v zero = dec2 v zero) :
    decodeElems zero dec xs = decodeElems zero dec2 xs := by
  induction xs with
  | nil => rfl
  | cons v rest ih =>
    simp only [decodeElems, h v (List.mem_cons_self _ _),
      ih fun w hw => h w (List.mem_cons_of_mem _ hw)]

/-- A mapped result read as an option. -/
theorem Except.toOption_map {ε α β : Type} (f : α → β) (e : Except ε α) :
    (e.map f).toOption = e.toOption.map f := by
  cases e <;> rfl

/-- The Go type and field before an error do not change a success. -/
theorem atFieldOf_toOption {σ : Type} (typeName : String) (goField : String → String)
    (setField : String → Json → σ → Except Error σ) (t : String) (v : Json) (s : σ) :
    (atFieldOf typeName goField setField t v s).toOption = (setField t v s).toOption := by
  unfold atFieldOf
  cases setField t v s <;> rfl

/-- Field decoders that agree on every success give member loops that agree on
every success. -/
theorem decodeMembers_toOption_congr {σ : Type} (x : Env) (tags : List String)
    (f g : String → Json → σ → Except Error σ)
    (h : ∀ t v s, (f t v s).toOption = (g t v s).toOption) (kvs : List (String × Json))
    (s : σ) :
    (decodeMembers x tags f kvs s).toOption = (decodeMembers x tags g kvs s).toOption := by
  induction kvs generalizing s with
  | nil => rfl
  | cons hd tl ih =>
    obtain ⟨k, v⟩ := hd
    rw [decodeMembers, decodeMembers]
    cases resolveField x tags k with
    | none => exact ih s
    | some t =>
      simp only []
      rcases Except.toOption_cases _ _ (h t v s) with ⟨e1, e2, h3, h4⟩ | ⟨y, h3, h4⟩
      · rw [h3, h4]
        rfl
      · rw [h3, h4]
        exact ih y

/-- Field decoders that agree on every success give struct decoders that agree
on every success. -/
theorem decodeStruct_toOption_congr {σ : Type} (x : Env) (tags : List String)
    (f g : String → Json → σ → Except Error σ)
    (h : ∀ t v s, (f t v s).toOption = (g t v s).toOption) (v : Json) (s : σ) :
    (decodeStruct x tags f v s).toOption = (decodeStruct x tags g v s).toOption := by
  cases v with
  | obj kvs => exact decodeMembers_toOption_congr x tags f g h kvs s
  | _ => rfl

/-- Decoders that agree on every success of an element give element lists that
agree on every success. -/
theorem decodeElems_toOption_congr {α : Type} (zero : α) (dec dec2 : Dec α)
    (h : ∀ v, (dec v zero).toOption = (dec2 v zero).toOption) (xs : List Json) :
    (decodeElems zero dec xs).toOption = (decodeElems zero dec2 xs).toOption := by
  induction xs with
  | nil => rfl
  | cons v rest ih =>
    rw [decodeElems, decodeElems]
    rcases Except.toOption_cases _ _ (h v) with ⟨e1, e2, h3, h4⟩ | ⟨y, h3, h4⟩
    · rw [h3, h4]
      rfl
    · rw [h3, h4]
      simp only []
      rcases Except.toOption_cases _ _ ih with ⟨e1, e2, h5, h6⟩ | ⟨z, h5, h6⟩
      · rw [h5, h6]
        rfl
      · rw [h5, h6]

/-- Decoders that agree on every success of an element give slice decoders that
agree on every success. -/
theorem decodeSlice_toOption_congr {α : Type} (zero : α) (dec dec2 : Dec α)
    (h : ∀ v, (dec v zero).toOption = (dec2 v zero).toOption) (v : Json) (cur : GoSlice α) :
    (decodeSlice zero dec v cur).toOption = (decodeSlice zero dec2 v cur).toOption := by
  cases v with
  | arr xs =>
    simp only [decodeSlice, Except.toOption_map, decodeElems_toOption_congr zero dec dec2 h xs]
  | _ => rfl

/-- Decoders that agree on every success give pointer decoders that agree on
every success. -/
theorem decodePtr_toOption_congr {α : Type} (zero : α) (dec dec2 : Dec α)
    (h : ∀ v a, (dec v a).toOption = (dec2 v a).toOption) (v : Json) (cur : Option α) :
    (decodePtr zero dec v cur).toOption = (decodePtr zero dec2 v cur).toOption := by
  cases v <;>
    first
    | rfl
    | simp only [decodePtr, Except.toOption_map, h]

/-- The decoder of `AdviceElem` with the field before an error succeeds
exactly when the decoder does. -/
theorem AdviceElem_within_toOption (x : Env) (v : Json) (s : AdviceElem) :
    (AdviceElem.decode.within x v s).toOption = (AdviceElem.decode x v s).toOption :=
  decodeStruct_toOption_congr x _ _ _ (fun t v s => atFieldOf_toOption _ _ _ t v s) v s

/-- The decoder of the place geometry with the field before an error succeeds
exactly when the decoder does. -/
theorem PlaceElemGeometryGeojson_within_toOption (x : Env) (v : Json)
    (s : PlaceElemGeometryGeojson) :
    (PlaceElemGeometryGeojson.decode.within x v s).toOption =
      (PlaceElemGeometryGeojson.decode x v s).toOption :=
  decodeStruct_toOption_congr x _ _ _ (fun t v s => atFieldOf_toOption _ _ _ t v s) v s

/-- The decoder of `PlaceElem` with the field before an error succeeds exactly
when the decoder does. -/
theorem PlaceElem_within_toOption (x : Env) (v : Json) (s : PlaceElem) :
    (PlaceElem.decode.within x v s).toOption = (PlaceElem.decode x v s).toOption := by
  refine decodeStruct_toOption_congr x _ _ _ (fun t v s => ?_) v s
  rw [atFieldOf_toOption]
  by_cases ht : t = "geometry_geojson"
  · subst ht
    have hs : PlaceElem.setField x "geometry_geojson" v s =
        (decodePtr {} (PlaceElemGeometryGeojson.decode x) v s.GeometryGeojson).map fun a =>
          { s with GeometryGeojson := a } := rfl
    rw [PlaceElem.setField.within, if_pos rfl, hs, Except.toOption_map, Except.toOption_map,
      decodePtr_toOption_congr ({} : PlaceElemGeometryGeojson)
        (PlaceElemGeometryGeojson.decode.within x) (PlaceElemGeometryGeojson.decode x)
        (PlaceElemGeometryGeojson_within_toOption x) v s.GeometryGeojson]
  · rw [PlaceElem.setField.within, if_neg ht]

/-- The field decoder with the limits of the reader is the field decoder with
the Go type and field before its error, on a value that the reader reads, for
the fields whose structs carry no prefix of their own. -/
theorem Plain.setLeaf_within_eq (r : Reader) (x : Env) (t : String) (v : Json)
    (s : Plain Document) (d : Nat) (hd : d ≤ r.maxDepth + 1)
    (h : Json.within r v d = true) (h1 : t ≠ "advice") (h2 : t ≠ "place") :
    Plain.setLeaf.within r x t v s =
      atFieldOf "ttninjs.Plain" Plain.goField (Plain.setLeaf x) t v s := by
  by_cases ht : t = "revisions"
  · subst ht
    have e : decodeSlice ({} : RevisionsElem)
        (decodeUnmarshaler (RevisionsElem.UnmarshalJSON.within r x)) v s.Revisions =
        decodeSlice {} (decodeUnmarshaler (RevisionsElem.UnmarshalJSON x)) v s.Revisions := by
      cases v with
      | arr xs =>
        cases d with
        | zero =>
          simp only [Json.within] at h
          cases h
        | succ d =>
          simp only [Json.within] at h
          simp only [decodeSlice]
          rw [decodeElems_congr]
          intro w hw
          simp only [decodeUnmarshaler, RevisionsElem.UnmarshalJSON_entry_within_eq r x w d
            (by omega) ((Json.withinElems_iff r xs d).1 h w hw)]
      | _ => rfl
    have hs : Plain.setLeaf x "revisions" v s =
        (decodeSlice {} (decodeUnmarshaler (RevisionsElem.UnmarshalJSON x)) v s.Revisions).map
          fun a => { s with Revisions := a } := rfl
    rw [Plain.setLeaf.within, atFieldOf, atFieldOf, if_pos rfl, e, hs]
  · rw [Plain.setLeaf.within, atFieldOf, atFieldOf]
    simp only [if_neg ht, if_neg h1, if_neg h2]

/-- The field decoder with the limits of the reader succeeds exactly when the
field decoder does, with the same fields, on a value that the reader reads. -/
theorem Plain.setLeaf_within_toOption (r : Reader) (x : Env) (t : String) (v : Json)
    (s : Plain Document) (d : Nat) (hd : d ≤ r.maxDepth + 1)
    (h : Json.within r v d = true) :
    (Plain.setLeaf.within r x t v s).toOption = (Plain.setLeaf x t v s).toOption := by
  by_cases h1 : t = "advice"
  · subst h1
    have hs : Plain.setLeaf x "advice" v s =
        (decodeSlice {} (AdviceElem.decode x) v s.Advice).map fun a =>
          { s with Advice := a } := rfl
    rw [Plain.setLeaf.within, atFieldOf_toOption, hs]
    simp only [if_neg (show ¬ "advice" = "revisions" by decide), if_true]
    rw [Except.toOption_map, Except.toOption_map,
      decodeSlice_toOption_congr ({} : AdviceElem) (AdviceElem.decode.within x)
        (AdviceElem.decode x) (fun w => AdviceElem_within_toOption x w {}) v s.Advice]
  · by_cases h2 : t = "place"
    · subst h2
      have hs : Plain.setLeaf x "place" v s =
          (decodeSlice {} (PlaceElem.decode x) v s.Place).map fun a =>
            { s with Place := a } := rfl
      rw [Plain.setLeaf.within, atFieldOf_toOption, hs]
      simp only [if_neg (show ¬ "place" = "revisions" by decide),
        if_neg (show ¬ "place" = "advice" by decide), if_true]
      rw [Except.toOption_map, Except.toOption_map,
        decodeSlice_toOption_congr ({} : PlaceElem) (PlaceElem.decode.within x)
          (PlaceElem.decode x) (fun w => PlaceElem_within_toOption x w {}) v s.Place]
    · rw [Plain.setLeaf_within_eq r x t v s d hd h h1 h2, atFieldOf_toOption]

mutual
/-- On a value that the reader reads, the method with the limits of the reader
succeeds exactly when the method does, with the same Document. -/
theorem Document.UnmarshalJSON_within_ok (r : Reader) (x : Env) :
    ∀ (b : Json) (d : Nat), d ≤ r.maxDepth + 1 → Json.within r b d = true →
      (Document.UnmarshalJSON.within r x b).toOption = (Document.UnmarshalJSON x b).toOption
  | .null, _, _, _ => rfl
  | .bool _, _, _, _ => rfl
  | .num _, _, _, _ => rfl
  | .str _, _, _, _ => rfl
  | .arr _, _, _, _ => rfl
  | .obj _, 0, _, h => by
    simp only [Json.within] at h
    cases h
  | .obj kvs, d + 1, hd, h => by
    have hraw := unmarshalRaw_within_eq r (.obj kvs) (d + 1) hd h
    simp only [Json.within] at h
    have hm := Document.decodeMembers_within_ok r x kvs d {} (by omega) h
    rw [Document.UnmarshalJSON.within, Document.UnmarshalJSON, hraw]
    simp only [unmarshalRaw]
    split
    · rfl
    · rcases Except.toOption_cases _ _ hm with ⟨e1, e2, h3, h4⟩ | ⟨y, h3, h4⟩
      · rw [h3, h4]
        rfl
      · rw [h3, h4]
/-- On members that the reader reads, the member loop with the limits of the
reader succeeds exactly when the member loop does, with the same fields. -/
theorem Document.decodeMembers_within_ok (r : Reader) (x : Env) :
    ∀ (kvs : List (String × Json)) (d : Nat) (s : Plain Document), d ≤ r.maxDepth →
      Json.withinMembers r kvs d = true →
      (Document.decodeMembers.within r x kvs s).toOption =
        (Document.decodeMembers x kvs s).toOption
  | [], _, _, _, _ => rfl
  | (k, v) :: rest, d, s, hd, h => by
    simp only [Json.withinMembers, Bool.and_eq_true] at h
    rw [Document.decodeMembers.within, Document.decodeMembers]
    cases resolveField x Plain.tags k with
    | none => exact Document.decodeMembers_within_ok r x rest d s hd h.2
    | some t =>
      simp only []
      by_cases h1 : t = "assignments"
      · simp only [if_pos h1]
        have hm := Document.decodeMap_within_ok r x v d s.Assignments hd h.1
        rcases Except.toOption_cases _ _ hm with ⟨e1, e2, h3, h4⟩ | ⟨y, h3, h4⟩
        · rw [h3, h4]
          rfl
        · rw [h3, h4]
          exact Document.decodeMembers_within_ok r x rest d _ hd h.2
      · simp only [if_neg h1]
        by_cases h2 : t = "associations"
        · simp only [if_pos h2]
          have hm := Document.decodeMap_within_ok r x v d s.Associations hd h.1
          rcases Except.toOption_cases _ _ hm with ⟨e1, e2, h3, h4⟩ | ⟨y, h3, h4⟩
          · rw [h3, h4]
            rfl
          · rw [h3, h4]
            exact Document.decodeMembers_within_ok r x rest d _ hd h.2
        · simp only [if_neg h2]
          have hm := Plain.setLeaf_within_toOption r x t v s d (by omega) h.1
          rcases Except.toOption_cases _ _ hm with ⟨e1, e2, h3, h4⟩ | ⟨y, h3, h4⟩
          · rw [h3, h4]
            rfl
          · rw [h3, h4]
            exact Document.decodeMembers_within_ok r x rest d y hd h.2
/-- On a value that the reader reads, the decoder of the document maps with the
limits of the reader succeeds exactly when the decoder does, with the same map. -/
theorem Document.decodeMap_within_ok (r : Reader) (x : Env) :
    ∀ (v : Json) (d : Nat) (cur : Option (List (String × Document))), d ≤ r.maxDepth →
      Json.within r v d = true →
      (Document.decodeMap.within r x v cur).toOption = (Document.decodeMap x v cur).toOption
  | .null, _, _, _, _ => rfl
  | .bool _, _, _, _, _ => rfl
  | .num _, _, _, _, _ => rfl
  | .str _, _, _, _, _ => rfl
  | .arr _, _, _, _, _ => rfl
  | .obj _, 0, _, _, h => by
    simp only [Json.within] at h
    cases h
  | .obj kvs, d + 1, cur, hd, h => by
    simp only [Json.within] at h
    have hm := Document.decodeEntries_within_ok r x kvs d (cur.getD []) (by omega) h
    rw [Document.decodeMap.within, Document.decodeMap]
    rcases Except.toOption_cases _ _ hm with ⟨e1, e2, h3, h4⟩ | ⟨y, h3, h4⟩
    · rw [h3, h4]
      rfl
    · rw [h3, h4]
/-- On members that the reader reads, the entry decoder of the document maps
with the limits of the reader succeeds exactly when the entry decoder does. -/
theorem Document.decodeEntries_within_ok (r : Reader) (x : Env) :
    ∀ (kvs : List (String × Json)) (d : Nat) (m : List (String × Document)),
      d ≤ r.maxDepth → Json.withinMembers r kvs d = true →
      (Document.decodeEntries.within r x kvs m).toOption =
        (Document.decodeEntries x kvs m).toOption
  | [], _, _, _, _ => rfl
  | (k, v) :: rest, d, m, hd, h => by
    simp only [Json.withinMembers, Bool.and_eq_true] at h
    have hm := Document.UnmarshalJSON_within_ok r x v d (by omega) h.1
    rw [Document.decodeEntries.within, Document.decodeEntries]
    rcases Except.toOption_cases _ _ hm with ⟨e1, e2, h3, h4⟩ | ⟨y, h3, h4⟩
    · rw [h3, h4]
      rfl
    · rw [h3, h4]
      exact Document.decodeEntries_within_ok r x rest d _ hd h.2
end

/-- A Document that the method gives for a value that the reader reads, the
method with the limits of the reader gives as well. -/
theorem Document.UnmarshalJSON_within_of_ok (r : Reader) (x : Env) (b : Json) (y : Document)
    (hb : Json.within r b (r.maxDepth + 1) = true) (h : Document.UnmarshalJSON x b = .ok y) :
    Document.UnmarshalJSON.within r x b = .ok y := by
  rw [← Except.toOption_eq_some, Document.UnmarshalJSON_within_ok r x b _ (Nat.le_refl _) hb,
    Except.toOption_eq_some]
  exact h

/-- What the method with the limits of the reader decodes, the reader reads. -/
theorem Document.UnmarshalJSON_within_reads (r : Reader) (x : Env) (b : Json) (y : Document)
    (h : Document.UnmarshalJSON.within r x b = .ok y) :
    Json.within r b (r.maxDepth + 1) = true := by
  cases b with
  | obj kvs =>
    simp only [Json.within]
    cases hw : Json.withinMembers r kvs r.maxDepth with
    | true => rfl
    | false =>
      rw [Document.UnmarshalJSON.within, unmarshalRaw_within_limit r kvs hw] at h
      cases h
  | _ => cases h

/-- A Document that the method with the limits of the reader gives, the method
gives as well. -/
theorem Document.UnmarshalJSON_of_within_ok (r : Reader) (x : Env) (b : Json) (y : Document)
    (h : Document.UnmarshalJSON.within r x b = .ok y) : Document.UnmarshalJSON x b = .ok y := by
  rw [← Except.toOption_eq_some, ← Document.UnmarshalJSON_within_ok r x b _ (Nat.le_refl _)
    (Document.UnmarshalJSON_within_reads r x b y h), Except.toOption_eq_some]
  exact h

/-! ### Documents beyond the limits of the reader -/

/-- The method with the limits of the reader fails on an object that the reader
does not read. -/
theorem Document.UnmarshalJSON_within_limit (r : Reader) (x : Env)
    (kvs : List (String × Json)) (h : Json.withinMembers r kvs r.maxDepth = false) :
    Document.UnmarshalJSON.within r x (.obj kvs) = .error .limit := by
  rw [Document.UnmarshalJSON.within, unmarshalRaw_within_limit r kvs h]

/-- The document nested `n` levels deep decodes when the reader has two levels
for each of the `n`, and is beyond its limit otherwise. -/
theorem Document.UnmarshalJSON_within_nested (r : Reader) (x : Env) (n : Nat) :
    Document.UnmarshalJSON.within r x (nested n) =
      if 2 * n ≤ r.maxDepth then .ok (nestedDocument n) else .error .limit := by
  by_cases h : 2 * n ≤ r.maxDepth
  · rw [if_pos h]
    refine Document.UnmarshalJSON_within_of_ok r x _ _ ?_ (Document.UnmarshalJSON_nested x n)
    rw [Json.within_nested, decide_eq_true_eq]
    omega
  · rw [if_neg h]
    have hw : Json.within r (nested n) (r.maxDepth + 1) = false := by
      rw [Json.within_nested, decide_eq_false_iff_not]
      omega
    cases n with
    | zero => omega
    | succ n =>
      rw [nested] at hw ⊢
      simp only [Json.within] at hw
      exact Document.UnmarshalJSON_within_limit r x _ hw

/-- The encoding of the document nested `n` levels deep is beyond the limit of a
reader that has no more than `2 * n` levels. -/
theorem Document.UnmarshalJSON_within_nestedEncoding (r : Reader) (x : Env) (stamp : String)
    (n : Nat) (h : r.maxDepth ≤ 2 * n) :
    Document.UnmarshalJSON.within r x (nestedEncoding stamp n) = .error .limit := by
  have hw : Json.within r (nestedEncoding stamp n) (r.maxDepth + 1) = false := by
    rw [Json.within_nestedEncoding, decide_eq_false_iff_not]
    omega
  cases n with
  | zero =>
    rw [nestedEncoding] at hw ⊢
    simp only [Json.within] at hw
    exact Document.UnmarshalJSON_within_limit r x _ hw
  | succ n =>
    rw [nestedEncoding] at hw ⊢
    simp only [Json.within] at hw
    exact Document.UnmarshalJSON_within_limit r x _ hw

/-- The encoding of the document nested `n` levels deep, in an environment that
writes the zero time as `stamp`. -/
theorem Document.encode_nestedDocument (x : Env) (stamp : String)
    (hs : x.formatTime {} = some stamp) (n : Nat) :
    Document.encode x (nestedDocument n) = .ok (nestedEncoding stamp n) := by
  have ht : Time.encode x ({} : Time) = .ok (.str stamp) := by
    simp only [Time.encode, hs]
  induction n with
  | zero =>
    rw [nestedDocument, Document.encode_mk]
    simp only [Plain.members, ht]
    rfl
  | succ n ih =>
    rw [nestedDocument, Document.encode_mk]
    simp only [Plain.members, ht, Document.encodeMap, Document.encodeEntries, ih]
    rfl

/-- A value embedded deeper than half the levels of the reader makes the method
fail at its first statement. -/
theorem Document.UnmarshalJSON_within_embeddedAt (r : Reader) (x : Env) (n : Nat)
    (b top : Json) (h : EmbeddedAt n b top) (hn : (r.maxDepth + 1) / 2 < n) :
    Document.UnmarshalJSON.within r x top = .error .limit := by
  cases h with
  | here => omega
  | under m _ v key k es kvs hkey hes hv hb =>
    apply Document.UnmarshalJSON_within_limit
    cases hw : Json.withinMembers r kvs r.maxDepth with
    | false => rfl
    | true =>
      have h1 : Json.within r (.obj kvs) (r.maxDepth + 1) = true := by
        simp only [Json.within]
        exact hw
      have h2 := EmbeddedAt.levels r (m + 1) b (.obj kvs)
        (EmbeddedAt.under m b v key k es kvs hkey hes hv hb) _ h1
      omega

/-! ### Members of a document, with the limits of the reader -/

/-- The member loop with the limits of the reader skips a member whose key binds
to no field. -/
theorem Document.decodeMembers_within_skip (r : Reader) (x : Env)
    (pre post : List (String × Json)) (k : String) (v : Json)
    (hk : resolveField x Plain.tags k = none) (s : Plain Document) :
    Document.decodeMembers.within r x (pre ++ (k, v) :: post) s =
      Document.decodeMembers.within r x (pre ++ post) s := by
  induction pre generalizing s with
  | nil => rw [List.nil_append, List.nil_append, Document.decodeMembers.within, hk]
  | cons hd tl ih =>
    obtain ⟨k1, v1⟩ := hd
    rw [List.cons_append, List.cons_append, Document.decodeMembers.within,
      Document.decodeMembers.within]
    cases resolveField x Plain.tags k1 with
    | none => exact ih s
    | some t =>
      simp only []
      split
      · cases Document.decodeMap.within r x v1 s.Assignments with
        | error e => rfl
        | ok m => exact ih _
      · split
        · cases Document.decodeMap.within r x v1 s.Associations with
          | error e => rfl
          | ok m => exact ih _
        · cases Plain.setLeaf.within r x t v1 s with
          | error e => rfl
          | ok s2 => exact ih _

/-- A member whose key binds to no field and whose value the reader reads does
not change the result of the method with the limits of the reader. -/
theorem Document.UnmarshalJSON_within_skip (r : Reader) (x : Env)
    (pre post : List (String × Json)) (k : String) (v : Json)
    (hk : resolveField x Plain.tags k = none) (hv : Json.within r v r.maxDepth = true) :
    Document.UnmarshalJSON.within r x (.obj (pre ++ (k, v) :: post)) =
      Document.UnmarshalJSON.within r x (.obj (pre ++ post)) := by
  have hne : k ≠ "uri" := resolveField_none_ne x Plain.tags k "uri" (by decide) hk
  rw [Document.UnmarshalJSON.within, Document.UnmarshalJSON.within]
  simp only [unmarshalRaw.within, Json.withinMembers_skip r pre post k v _ hv]
  cases Json.withinMembers r (pre ++ post) r.maxDepth with
  | false => rfl
  | true =>
    simp only [eq_self_iff_true, if_true, uriMissing_skip pre post k v hne,
      Document.decodeMembers_within_skip r x pre post k v hk]

/-- The member loop with the limits of the reader, on members that follow
others. -/
theorem Document.decodeMembers_within_append (r : Reader) (x : Env)
    (pre rest : List (String × Json)) (s : Plain Document) :
    Document.decodeMembers.within r x (pre ++ rest) s =
      match Document.decodeMembers.within r x pre s with
      | .error e => .error e
      | .ok s2 => Document.decodeMembers.within r x rest s2 := by
  induction pre generalizing s with
  | nil => rfl
  | cons hd tl ih =>
    obtain ⟨k1, v1⟩ := hd
    rw [List.cons_append, Document.decodeMembers.within, Document.decodeMembers.within]
    cases resolveField x Plain.tags k1 with
    | none => exact ih s
    | some t =>
      simp only []
      split
      · cases Document.decodeMap.within r x v1 s.Assignments with
        | error e => rfl
        | ok m => exact ih _
      · split
        · cases Document.decodeMap.within r x v1 s.Associations with
          | error e => rfl
          | ok m => exact ih _
        · cases Plain.setLeaf.within r x t v1 s with
          | error e => rfl
          | ok s2 => exact ih _

/-- A document-level enumeration member with a value outside its set fails from
any state, with the Go type and field before the error of the method. -/
theorem Plain.setLeaf_within_invalid_enum (r : Reader) (x : Env) (k v : String)
    (vs : List String) (hk : documentEnum k = some vs) (hv : v ∉ vs) (s : Plain Document) :
    Plain.setLeaf.within r x k (.str v) s =
      .error (.atField "ttninjs.Plain" (Plain.goField k) (.reported (.invalidValue vs v))) := by
  unfold documentEnum at hk
  split at hk
  · cases hk
    rw [Plain.setLeaf_within_eq r x _ (.str v) s 0 (Nat.zero_le _) rfl (by decide) (by decide),
      atFieldOf, Plain.setLeaf_type, if_neg (show v ∉ enumValues_Type from hv)]
    all_goals rfl
  · cases hk
    rw [Plain.setLeaf_within_eq r x _ (.str v) s 0 (Nat.zero_le _) rfl (by decide) (by decide),
      atFieldOf, Plain.setLeaf_profile, if_neg (show v ∉ enumValues_Profile from hv)]
    all_goals rfl
  · cases hk
    rw [Plain.setLeaf_within_eq r x _ (.str v) s 0 (Nat.zero_le _) rfl (by decide) (by decide),
      atFieldOf, Plain.setLeaf_pubstatus, if_neg (show v ∉ enumValues_Pubstatus from hv)]
    all_goals rfl
  · cases hk
    rw [Plain.setLeaf_within_eq r x _ (.str v) s 0 (Nat.zero_le _) rfl (by decide) (by decide),
      atFieldOf, Plain.setLeaf_representationtype,
      if_neg (show v ∉ enumValues_Representationtype from hv)]
    all_goals rfl
  · cases hk
    rw [Plain.setLeaf_within_eq r x _ (.str v) s 0 (Nat.zero_le _) rfl (by decide) (by decide),
      atFieldOf, Plain.setLeaf_sector, if_neg (show v ∉ enumValues_Sector from hv)]
    all_goals rfl
  · cases hk

/-! ### Enumerations inside nested structs, with the field before the error -/

/-- The decode of `{"uri": u, k: w}` with the limits of the reader, for a field
`k` other than `uri` and the two maps of embedded documents. -/
theorem Document.UnmarshalJSON_within_uri_field (r : Reader) (x : Env) (u k : String)
    (w : Json) (hk : k ∈ Plain.tags) (h0 : k ≠ "uri") (h1 : k ≠ "assignments")
    (h2 : k ≠ "associations") (hread : Json.within r w r.maxDepth = true) :
    Document.UnmarshalJSON.within r x (.obj [("uri", .str u), (k, w)]) =
      match Plain.setLeaf.within r x k w { ({} : Plain Document) with Uri := u } with
      | .error e => .error e
      | .ok plain => .ok (.mk plain) := by
  have hm : uriMissing (some (Json.readMembers [("uri", .str u), (k, w)] [])) = false := by
    simp only [Json.readMembers, GoMap.set, Json.read, if_neg (Ne.symm h0), uriMissing,
      Option.getD, GoMap.get, if_true]
  have hw : Json.withinMembers r [("uri", .str u), (k, w)] r.maxDepth = true := by
    rw [Json.withinMembers_iff]
    intro kv hkv
    simp only [List.mem_cons, List.mem_singleton, List.not_mem_nil, or_false] at hkv
    rcases hkv with rfl | rfl
    · rfl
    · exact hread
  have hu : Plain.setLeaf.within r x "uri" (.str u) ({} : Plain Document) =
      .ok { ({} : Plain Document) with Uri := u } := by
    rw [Plain.setLeaf_within_eq r x "uri" (.str u) _ 0 (Nat.zero_le _) rfl (by decide)
      (by decide)]
    rfl
  rw [Document.UnmarshalJSON.within, unmarshalRaw.within, if_pos hw]
  simp only [hm]
  rw [Document.decodeMembers.within, resolveField_of_mem x _ _ (by decide)]
  simp only [String.reduceEq, if_false, hu]
  rw [Document.decodeMembers.within, resolveField_of_mem x _ _ hk]
  simp only [if_neg h1, if_neg h2]
  cases Plain.setLeaf.within r x k w { ({} : Plain Document) with Uri := u } <;> rfl

/-- The decoder of `AdviceElem` on `{"role": v}`, with the Go type and field
before the error. -/
theorem AdviceElem.decode_within_role (x : Env) (v : String) :
    AdviceElem.decode.within x (.obj [("role", .str v)]) {} =
      if v ∈ enumValues_AdviceElemRole then .ok { Role := v }
      else .error (.atField "ttninjs.AdviceElem" "Role"
        (.reported (.invalidValue enumValues_AdviceElemRole v))) := by
  have h1 : AdviceElem.decode.within x (.obj [("role", .str v)]) {} =
      decodeMembers x AdviceElem.tags
        (atFieldOf "ttninjs.AdviceElem" AdviceElem.goField (AdviceElem.setField x))
        [("role", .str v)] {} := rfl
  have h2 : AdviceElem.setField x "role" (.str v) {} =
      (decodeUnmarshaler (enumUnmarshalJSON enumValues_AdviceElemRole) (.str v) "").map
        fun a => { Role := a } := rfl
  rw [h1, decodeMembers_cons_of_mem x _ _ _ _ _ _ (by decide), atFieldOf, h2,
    decodeUnmarshaler_enum_str]
  by_cases h : v ∈ enumValues_AdviceElemRole
  · rw [if_pos h, if_pos h]; rfl
  · rw [if_neg h, if_neg h]; rfl

/-- The setter of `advice` on `[{"role": v}]`, with the Go types and fields
before the error. -/
theorem Plain.setLeaf_within_advice_role (r : Reader) (x : Env) (v : String)
    (s : Plain Document) :
    Plain.setLeaf.within r x "advice" (.arr [.obj [("role", .str v)]]) s =
      if v ∈ enumValues_AdviceElemRole then .ok { s with Advice := some [{ Role := v }] }
      else .error (.atField "ttninjs.Plain" "Advice" (.atField "ttninjs.AdviceElem" "Role"
        (.reported (.invalidValue enumValues_AdviceElemRole v)))) := by
  rw [Plain.setLeaf.within, atFieldOf]
  simp only [String.reduceEq, if_false, if_true]
  rw [decodeSlice_singleton, AdviceElem.decode_within_role]
  by_cases h : v ∈ enumValues_AdviceElemRole
  · rw [if_pos h, if_pos h]; rfl
  · rw [if_neg h, if_neg h]; rfl

/-- The decoder of the place geometry on `{"type": v}`, with the Go type and
field before the error. -/
theorem PlaceElemGeometryGeojson.decode_within_type (x : Env) (v : String) :
    PlaceElemGeometryGeojson.decode.within x (.obj [("type", .str v)]) {} =
      if v ∈ enumValues_PlaceElemGeometryGeojsonType then .ok { Type_ := v }
      else .error (.atField "ttninjs.PlaceElemGeometryGeojson" "Type"
        (.reported (.invalidValue enumValues_PlaceElemGeometryGeojsonType v))) := by
  have h1 : PlaceElemGeometryGeojson.decode.within x (.obj [("type", .str v)]) {} =
      decodeMembers x PlaceElemGeometryGeojson.tags
        (atFieldOf "ttninjs.PlaceElemGeometryGeojson" PlaceElemGeometryGeojson.goField
          PlaceElemGeometryGeojson.setField) [("type", .str v)] {} := rfl
  have h2 : PlaceElemGeometryGeojson.setField "type" (.str v) {} =
      (decodeUnmarshaler (enumUnmarshalJSON enumValues_PlaceElemGeometryGeojsonType)
        (.str v) "").map fun a => { Type_ := a } := rfl
  rw [h1, decodeMembers_cons_of_mem x _ _ _ _ _ _ (by decide), atFieldOf, h2,
    decodeUnmarshaler_enum_str]
  by_cases h : v ∈ enumValues_PlaceElemGeometryGeojsonType
  · rw [if_pos h, if_pos h]; rfl
  · rw [if_neg h, if_neg h]; rfl

/-- The decoder of `PlaceElem` on `{"geometry_geojson": {"type": v}}`, with the
Go types and fields before the error. -/
theorem PlaceElem.decode_within_geometry (x : Env) (v : String) :
    PlaceElem.decode.within x (.obj [("geometry_geojson", .obj [("type", .str v)])]) {} =
      if v ∈ enumValues_PlaceElemGeometryGeojsonType then
        .ok { GeometryGeojson := some { Type_ := v } }
      else .error (.atField "ttninjs.PlaceElem" "GeometryGeojson"
        (.atField "ttninjs.PlaceElemGeometryGeojson" "Type"
          (.reported (.invalidValue enumValues_PlaceElemGeometryGeojsonType v)))) := by
  have h1 : PlaceElem.decode.within x (.obj [("geometry_geojson", .obj [("type", .str v)])]) {} =
      decodeMembers x PlaceElem.tags
        (atFieldOf "ttninjs.PlaceElem" PlaceElem.goField (PlaceElem.setField.within x))
        [("geometry_geojson", .obj [("type", .str v)])] {} := rfl
  have h2 : PlaceElem.setField.within x "geometry_geojson" (.obj [("type", .str v)]) {} =
      (PlaceElemGeometryGeojson.decode.within x (.obj [("type", .str v)]) {}).map
        fun a => { GeometryGeojson := some a } := by
    rw [PlaceElem.setField.within, if_pos rfl]
    show ((PlaceElemGeometryGeojson.decode.within x (.obj [("type", .str v)]) {}).map
      some).map _ = _
    cases PlaceElemGeometryGeojson.decode.within x (.obj [("type", .str v)]) {} <;> rfl
  rw [h1, decodeMembers_cons_of_mem x _ _ _ _ _ _ (by decide), atFieldOf, h2,
    PlaceElemGeometryGeojson.decode_within_type]
  by_cases h : v ∈ enumValues_PlaceElemGeometryGeojsonType
  · rw [if_pos h, if_pos h]; rfl
  · rw [if_neg h, if_neg h]; rfl

/-- The setter of `place` on `[{"geometry_geojson": {"type": v}}]`, with the Go
types and fields before the error. -/
theorem Plain.setLeaf_within_place_type (r : Reader) (x : Env) (v : String)
    (s : Plain Document) :
    Plain.setLeaf.within r x "place"
        (.arr [.obj [("geometry_geojson", .obj [("type", .str v)])]]) s =
      if v ∈ enumValues_PlaceElemGeometryGeojsonType then
        .ok { s with Place := some [{ GeometryGeojson := some { Type_ := v } }] }
      else .error (.atField "ttninjs.Plain" "Place"
        (.atField "ttninjs.PlaceElem" "GeometryGeojson"
          (.atField "ttninjs.PlaceElemGeometryGeojson" "Type"
            (.reported (.invalidValue enumValues_PlaceElemGeometryGeojsonType v))))) := by
  rw [Plain.setLeaf.within, atFieldOf]
  simp only [String.reduceEq, if_false, if_true]
  rw [decodeSlice_singleton, PlaceElem.decode_within_geometry]
  by_cases h : v ∈ enumValues_PlaceElemGeometryGeojsonType
  · rw [if_pos h, if_pos h]; rfl
  · rw [if_neg h, if_neg h]; rfl

/-! ### The claims on the decode path with the limits of the reader -/

-- The range test of `float64` takes powers up to `2 ^ 1024`, which the facts at
-- concrete inputs below evaluate.
set_option exponentiation.threshold 2048

/-- C15 (as amended): a member whose key binds to no field, neither as written
nor lower-cased, and whose value the reader of the library reads (every number
in it within `float64`, its arrays and objects nested within the limit, with one
level to spare for the document object that the struct decoder counts before it
passes over the value) is ignored: wherever it stands in the object, decoding
with it succeeds exactly when decoding without it succeeds, and gives the same
Document. -/
theorem C15_unbound_keys_are_ignored (r : Reader) (x : Env) (pre post : List (String × Json))
    (k : String) (v : Json) (hk : resolveField x Plain.tags k = none)
    (hv : Json.within r v (r.maxDepth - 1) = true) (d : Document) :
    Document.UnmarshalJSON.within r x (.obj (pre ++ (k, v) :: post)) = .ok d ↔
      Document.UnmarshalJSON.within r x (.obj (pre ++ post)) = .ok d := by
  rw [Document.UnmarshalJSON_within_skip r x pre post k v hk
    (Json.within_mono r v _ _ (Nat.sub_le _ _) hv)]

/-- C15 (as amended) at the input `{"uri": "a", "some_future_field": 42}`, with
the reader of json-iterator: it decodes to the same Document as `{"uri": "a"}`.
With the value `1e400`, which is outside `float64`, the same key makes the
decode fail in the first statement of the method. -/
theorem C15_unbound_keys_are_ignored_witness :
    resolveField Env.basic Plain.tags "some_future_field" = none ∧
      Json.within Reader.jsoniter (.num (JsonNumber.ofNat 42))
        (Reader.jsoniter.maxDepth - 1) = true ∧
      Document.UnmarshalJSON.within Reader.jsoniter Env.basic
        (.obj ([("uri", .str "a")] ++ [])) = .ok (.mk { Uri := "a" }) ∧
      Document.UnmarshalJSON.within Reader.jsoniter Env.basic
        (.obj ([("uri", .str "a")] ++ [("some_future_field", .num (JsonNumber.ofNat 42))])) =
        .ok (.mk { Uri := "a" }) ∧
      Document.UnmarshalJSON.within Reader.jsoniter Env.basic
        (.obj [("uri", .str "a"),
          ("some_future_field", .num { integer := 1, exponent := some 400 })]) =
        .error .limit :=
  ⟨by rfl, by rfl, by rfl,
    (C15_unbound_keys_are_ignored Reader.jsoniter Env.basic [("uri", .str "a")] []
      "some_future_field" (.num (JsonNumber.ofNat 42)) (by rfl) (by rfl) _).2 (by rfl),
    by rfl⟩

/-- C16 (as amended): for every Document with what the codec relies on
(numbers in the range of `int`, enumeration fields empty, nil or permitted,
timestamps and dates that the environment writes and reads back, maps with
pairwise distinct keys; at every depth of `Assignments` and `Associations`), the
encode succeeds.  (The Documents of the model hold numbers in their `float64`
fields and values of the types of the generic decoder in `BodyPages`: a NaN, an
infinity, or an `int` stored in `BodyPages`, is not among them.)  When the reader of the library reads the encoding with one
level to spare (every number in it within `float64`, its arrays and objects
within the limit of nesting), the decode of the encoding succeeds and gives
`Document.normalize d`: the Document with every slice and map of length 0
replaced by nil, every zero number in the form of the zero value, and the
entries of every map in the order of their keys; when `d` is of that form
already, the decode gives `d`.  When the reader does not read the encoding, the
decode of the encoding fails in the first statement of the method. -/
theorem C16_round_trip_up_to_empty_values (r : Reader) (x : Env) (d : Document)
    (hg : Document.Good (Checks.roundTrip x) d) :
    ∃ j, Document.encode x d = .ok j ∧
      (Json.within r j r.maxDepth = true →
        Document.UnmarshalJSON.within r x j = .ok (Document.normalize d) ∧
          (Document.normalize d = d → Document.UnmarshalJSON.within r x j = .ok d)) ∧
      (Json.within r j (r.maxDepth + 1) = false →
        Document.UnmarshalJSON.within r x j = .error .limit) := by
  obtain ⟨j, h1, h2⟩ := Document_roundTrips x d hg
  refine ⟨j, h1, ?_, ?_⟩
  · intro hw
    have h3 := Document.UnmarshalJSON_within_of_ok r x j _
      (Json.within_mono r j _ _ (Nat.le_succ _) hw) h2
    exact ⟨h3, fun e => e ▸ h3⟩
  · intro hw
    obtain ⟨kvs, rfl, _⟩ := Document.UnmarshalJSON_ok_obj x j _ h2
    simp only [Json.within] at hw
    exact Document.UnmarshalJSON_within_limit r x kvs hw

/-- C16 (as amended) at a Document that embeds Documents through two levels:
`a` holds `b` in `Associations`, `b` holds `c` in `Assignments`.  It has what the
codec relies on, it is of the form that comes back, the reader of json-iterator
reads its encoding, and the decode of the encoding gives it. -/
theorem C16_round_trip_up_to_empty_values_witness :
    Document.Good (Checks.roundTrip Env.basic)
        (.mk { Uri := "a", Type_ := "text", Associations := some [("x",
          .mk { Uri := "b", Assignments := some [("y", .mk { Uri := "c" })] })] }) ∧
      ∃ j, Document.encode Env.basic
          (.mk { Uri := "a", Type_ := "text", Associations := some [("x",
            .mk { Uri := "b", Assignments := some [("y", .mk { Uri := "c" })] })] }) = .ok j ∧
        Json.within Reader.jsoniter j Reader.jsoniter.maxDepth = true ∧
        Document.UnmarshalJSON.within Reader.jsoniter Env.basic j =
          .ok (.mk { Uri := "a", Type_ := "text", Associations := some [("x",
            .mk { Uri := "b", Assignments := some [("y", .mk { Uri := "c" })] })] }) :=
  have hg : Document.Good (Checks.roundTrip Env.basic)
      (.mk { Uri := "a", Type_ := "text", Associations := some [("x",
        .mk { Uri := "b", Assignments := some [("y", .mk { Uri := "c" })] })] }) :=
    Document.UnmarshalJSON_good Env.basic _ Env.basic_lawful
      (.obj [("uri", .str "a"), ("type", .str "text"),
        ("associations", .obj [("x", .obj [("uri", .str "b"),
          ("assignments", .obj [("y", .obj [("uri", .str "c")])])])])]) _ (by rfl)
  match C16_round_trip_up_to_empty_values Reader.jsoniter Env.basic _ hg with
  | ⟨j, h1, h2, _⟩ =>
    have hw : Json.within Reader.jsoniter j Reader.jsoniter.maxDepth = true := by
      cases (show Except.ok _ = Except.ok j from (by rfl : _ = Except.ok _).symm.trans h1)
      rfl
    ⟨hg, j, h1, hw, (h2 hw).2 (by rfl)⟩

/-- C17 (as stated, refuted): the decode of the encoding of a decoded Document
can fail.  With the reader of json-iterator, whose limit is 10000 levels, the
document nested 5000 levels deep through `associations` decodes; the encoding of
the result writes `"$standard": {}` and `"signals": {}` in every document, so
its last document holds objects one level deeper than the input had, and the
decode of the encoding fails in the first statement of the method. -/
theorem C17_encoding_of_a_decoded_document_is_beyond_the_limit :
    Document.UnmarshalJSON.within Reader.jsoniter Env.basic (nested 5000) =
        .ok (nestedDocument 5000) ∧
      Document.encode Env.basic (nestedDocument 5000) =
        .ok (nestedEncoding "0001-01-01T00:00:00Z" 5000) ∧
      Document.UnmarshalJSON.within Reader.jsoniter Env.basic
        (nestedEncoding "0001-01-01T00:00:00Z" 5000) = .error .limit :=
  ⟨(Document.UnmarshalJSON_within_nested Reader.jsoniter Env.basic 5000).trans
      (if_pos (by decide)),
    Document.encode_nestedDocument Env.basic _ rfl 5000,
    Document.UnmarshalJSON_within_nestedEncoding Reader.jsoniter Env.basic _ 5000
      (by decide)⟩

/-- C17 (as amended): in an environment whose time and date codecs write and
read back what they parse, every Document that a successful decode returns is
encoded without error; when the reader of the library reads that encoding with
one level to spare, the decode of the encoding succeeds, and gives the Document
as it comes back (`Document.normalize`). -/
theorem C17_decoding_the_encoding_succeeds (r : Reader) (x : Env) (hx : x.Lawful) (j : Json)
    (d : Document) (h : Document.UnmarshalJSON.within r x j = .ok d) :
    ∃ j2, Document.encode x d = .ok j2 ∧
      (Json.within r j2 r.maxDepth = true →
        Document.UnmarshalJSON.within r x j2 = .ok (Document.normalize d)) := by
  obtain ⟨j2, h1, h2⟩ := Document_roundTrips x d
    (Document.UnmarshalJSON_good x _ hx j d (Document.UnmarshalJSON_of_within_ok r x j d h))
  exact ⟨j2, h1, fun hw => Document.UnmarshalJSON_within_of_ok r x j2 _
    (Json.within_mono r j2 _ _ (Nat.le_succ _) hw) h2⟩

/-- C17 (as amended) at the input `{"uri": "a", "replacing": [], "pubstatus":
"usable"}` in the environment `Env.basic`, with the reader of json-iterator: the
decode succeeds, the reader reads the encoding of its result, and the decode of
the encoding succeeds. -/
theorem C17_decoding_the_encoding_succeeds_witness :
    Env.basic.Lawful ∧
      Document.UnmarshalJSON.within Reader.jsoniter Env.basic
        (.obj [("uri", .str "a"), ("replacing", .arr []), ("pubstatus", .str "usable")]) =
        .ok (.mk { Uri := "a", Replacing := some [], Pubstatus := "usable" }) ∧
      ∃ j2, Document.encode Env.basic
          (.mk { Uri := "a", Replacing := some [], Pubstatus := "usable" }) = .ok j2 ∧
        Json.within Reader.jsoniter j2 Reader.jsoniter.maxDepth = true ∧
        Document.UnmarshalJSON.within Reader.jsoniter Env.basic j2 =
          .ok (.mk { Uri := "a", Pubstatus := "usable" }) :=
  match C17_decoding_the_encoding_succeeds Reader.jsoniter Env.basic Env.basic_lawful
      (.obj [("uri", .str "a"), ("replacing", .arr []), ("pubstatus", .str "usable")]) _
      (by rfl) with
  | ⟨j2, h1, h2⟩ =>
    have hw : Json.within Reader.jsoniter j2 Reader.jsoniter.maxDepth = true := by
      cases (show Except.ok _ = Except.ok j2 from (by rfl : _ = Except.ok _).symm.trans h1)
      rfl
    ⟨Env.basic_lawful, by rfl, j2, h1, hw, h2 hw⟩

/-- C21 (as stated, refuted): encode is not total.  `MarshalJSON` of
`time.Time` returns an error for a year outside `[0, 9999]`.  The timestamp
315537897600 seconds after the zero time is in the year 10000; in no
environment that makes that check of the year does the Document with this
`Versioncreated`, a value of the model type, have an encoding.  (`Env.basic` is
an environment that makes the check and writes the zero time.) -/
theorem C21_timestamp_out_of_range_is_not_encoded :
    Time.year { sec := 315537897600 } = 10000 ∧
      Time.year { sec := 315537897599 } = 9999 ∧
      Env.basic.ChecksYear ∧
      ¬ ∃ x : Env, x.ChecksYear ∧
        ∃ j, Document.encode x
          (.mk { Uri := "a", Versioncreated := { sec := 315537897600 } }) = .ok j := by
  refine ⟨by decide, by decide, ?_, ?_⟩
  · intro t h
    show (if t = {} then some "0001-01-01T00:00:00Z" else none) = none
    rw [if_neg]
    rintro rfl
    revert h
    decide
  · rintro ⟨x, hx, j, hj⟩
    have hf : x.formatTime { sec := 315537897600 } = none := hx _ (Or.inr (by decide))
    have ht : Time.encode x { sec := 315537897600 } = .error (.foreign "time.Time") := by
      simp only [Time.encode, hf]
    rw [Document.encode_mk] at hj
    obtain ⟨l, hl, _⟩ := encodeStruct_ok _ _ hj
    refine joinMembers_error_of_mem _ "versioncreated" (.foreign "time.Time") ?_ l hl
    rw [← ht]
    exact @List.getElem?_mem _ _ 67 _ rfl

/-- C24: the error for an enumeration member whose value is not one of the
permitted values is the invalid-value error of the method of the enumeration
type, reported by the library under the Go type and field of every struct field
on the way to it, as in `ttninjs.Plain.Type: ...`: it names the field (the Go
field), the offending value and every permitted value.  For a member `k` of the
document itself (one of `type`, `profile`, `pubstatus`, `representationtype`,
`sector`) this holds in every object that the reader reads and whose members
before `k` decode, and the Go field is the key with a capital first letter; for
the `role` of an `advice` entry and the `type` of the geometry of a `place`
entry it is shown on the document that holds that one entry. -/
theorem C24_invalid_value_error_names_field_value_and_set (r : Reader) (x : Env) :
    (∀ (pre post : List (String × Json)) (k v : String) (vs : List String)
        (s : Plain Document), documentEnum k = some vs → v ∉ vs →
        Json.withinMembers r (pre ++ (k, .str v) :: post) r.maxDepth = true →
        uriMissing (some (Json.readMembers (pre ++ (k, .str v) :: post) [])) = false →
        Document.decodeMembers.within r x pre {} = .ok s →
        ∃ e, Document.UnmarshalJSON.within r x (.obj (pre ++ (k, .str v) :: post)) = .error e ∧
          e = .atField "ttninjs.Plain" (Plain.goField k) (.reported (.invalidValue vs v)) ∧
          e.Names (Plain.goField k) v vs ∧
          (⟨(Plain.goField k).data.map Char.toLower⟩ : String) = k) ∧
      (∀ u v : String, v ∉ enumValues_AdviceElemRole →
        Json.within r (.arr [.obj [("role", .str v)]]) r.maxDepth = true →
        ∃ e, Document.UnmarshalJSON.within r x
            (.obj [("uri", .str u), ("advice", .arr [.obj [("role", .str v)]])]) = .error e ∧
          e = .atField "ttninjs.Plain" "Advice" (.atField "ttninjs.AdviceElem" "Role"
            (.reported (.invalidValue enumValues_AdviceElemRole v))) ∧
          e.Names "Role" v enumValues_AdviceElemRole) ∧
      (∀ u v : String, v ∉ enumValues_PlaceElemGeometryGeojsonType →
        Json.within r (.arr [.obj [("geometry_geojson", .obj [("type", .str v)])]])
          r.maxDepth = true →
        ∃ e, Document.UnmarshalJSON.within r x (.obj [("uri", .str u),
            ("place", .arr [.obj [("geometry_geojson", .obj [("type", .str v)])]])]) =
            .error e ∧
          e = .atField "ttninjs.Plain" "Place" (.atField "ttninjs.PlaceElem" "GeometryGeojson"
            (.atField "ttninjs.PlaceElemGeometryGeojson" "Type"
              (.reported (.invalidValue enumValues_PlaceElemGeometryGeojsonType v)))) ∧
          e.Names "Type" v enumValues_PlaceElemGeometryGeojsonType) := by
  refine ⟨?_, ?_, ?_⟩
  · intro pre post k v vs s hk hv hread huri hpre
    refine ⟨_, ?_, rfl, ⟨?_, ?_, ?_⟩, ?_⟩
    · obtain ⟨h1, h2, h3, _⟩ := Plain.setLeaf_invalid_enum x k v vs hk hv s
      rw [Document.UnmarshalJSON.within, unmarshalRaw.within, if_pos hread]
      simp only [huri]
      rw [Document.decodeMembers_within_append, hpre]
      simp only []
      rw [Document.decodeMembers.within, resolveField_of_mem x _ _ h1]
      simp only [if_neg h2, if_neg h3, Plain.setLeaf_within_invalid_enum r x k v vs hk hv s]
      all_goals rfl
    · simp [Error.strings]
    · simp [Error.strings]
    · intro w hw
      simp [Error.strings, hw]
    · unfold documentEnum at hk
      split at hk <;> first | rfl | cases hk
  · intro u v hv hread
    refine ⟨_, ?_, rfl, by simp [Error.strings], by simp [Error.strings], fun w hw => by
      simp [Error.strings, hw]⟩
    rw [Document.UnmarshalJSON_within_uri_field r x u _ _ (by decide) (by decide) (by decide)
      (by decide) hread, Plain.setLeaf_within_advice_role, if_neg hv]
  · intro u v hv hread
    refine ⟨_, ?_, rfl, by simp [Error.strings], by simp [Error.strings], fun w hw => by
      simp [Error.strings, hw]⟩
    rw [Document.UnmarshalJSON_within_uri_field r x u _ _ (by decide) (by decide) (by decide)
      (by decide) hread, Plain.setLeaf_within_place_type, if_neg hv]

/-- C24 at `{"uri": "a", "type": "bogus"}`, with the reader of json-iterator:
`bogus` is none of the nine values of `type`, and the error names the Go field
`Type` of `ttninjs.Plain`, the value `bogus` and the nine values.  At
`{"uri": "a", "advice": [{"role": "bogus"}]}` the error names the Go field
`Role` of `ttninjs.AdviceElem`. -/
theorem C24_invalid_value_error_names_field_value_and_set_witness :
    documentEnum "type" =
        some ["text", "audio", "video", "picture", "graphic", "composite", "planning",
          "component", "event"] ∧
      "bogus" ∉ ["text", "audio", "video", "picture", "graphic", "composite", "planning",
        "component", "event"] ∧
      Document.UnmarshalJSON.within Reader.jsoniter Env.basic
          (.obj ([("uri", .str "a")] ++ ("type", .str "bogus") :: [])) =
        .error (.atField "ttninjs.Plain" "Type"
          (.reported (.invalidValue ["text", "audio", "video", "picture", "graphic",
            "composite", "planning", "component", "event"] "bogus"))) ∧
      (Error.atField "ttninjs.Plain" "Type"
          (.reported (.invalidValue ["text", "audio", "video", "picture", "graphic",
            "composite", "planning", "component", "event"] "bogus"))).strings =
        ["ttninjs.Plain", "Type", "text", "audio", "video", "picture", "graphic", "composite",
          "planning", "component", "event", "bogus"] ∧
      Document.UnmarshalJSON.within Reader.jsoniter Env.basic
          (.obj [("uri", .str "a"), ("advice", .arr [.obj [("role", .str "bogus")]])]) =
        .error (.atField "ttninjs.Plain" "Advice" (.atField "ttninjs.AdviceElem" "Role"
          (.reported (.invalidValue ["publish"] "bogus")))) :=
  ⟨rfl, by decide,
    match (C24_invalid_value_error_names_field_value_and_set Reader.jsoniter Env.basic).1
      [("uri", .str "a")] [] "type" "bogus" _ { Uri := "a" } rfl (by decide) (by rfl) (by rfl)
      (by rfl) with
    | ⟨_, h1, h2, _⟩ => h2 ▸ h1,
    by rfl,
    match (C24_invalid_value_error_names_field_value_and_set Reader.jsoniter Env.basic).2.1
      "a" "bogus" (by decide) (by rfl) with
    | ⟨_, h1, h2, _⟩ => h2 ▸ h1⟩

/-- C30 (as stated, refuted): `body_pages` is read by the generic reader of the
library, which has limits.  With the reader of json-iterator, the document
`{"uri": "a", "body_pages": {"k": 1e400}}` does not decode: `1e400` is outside
`float64`, and the first statement of the method fails. -/
theorem C30_body_pages_number_beyond_float64_fails :
    Document.UnmarshalJSON.within Reader.jsoniter Env.basic
        (.obj [("uri", .str "a"),
          ("body_pages", .obj [("k", .num { integer := 1, exponent := some 400 })])]) =
      .error .limit := by
  rfl

/-- C30 (as amended): `body_pages` has no schema of its own.  For every list of
members `kvs` that the reader of the library reads as the value of a member
(every number within `float64`, arrays and objects within the limit of
nesting), decoding `{"uri": u, "body_pages": {kvs}}` succeeds, and `BodyPages`
is the map that the generic decoder reads from the object: for every key it
holds the generic value of the last member with that key, and nothing for a key
that is not in the object; without duplicate keys its entries are the members,
one for one. -/
theorem C30_body_pages_is_schema_less (r : Reader) (x : Env) (u : String)
    (kvs : List (String × Json)) (hread : Json.within r (.obj kvs) r.maxDepth = true) :
    Document.UnmarshalJSON.within r x (.obj [("uri", .str u), ("body_pages", .obj kvs)]) =
        .ok (.mk { Uri := u, BodyPages := some (Json.readMembers kvs []) }) ∧
      (∀ q, GoMap.get (Json.readMembers kvs []) q =
        (kvs.reverse.find? fun kv => decide (kv.1 = q)).map fun kv => Json.read kv.2) ∧
      ((kvs.map Prod.fst).Nodup →
        Json.readMembers kvs [] = kvs.map fun kv => (kv.1, Json.read kv.2)) := by
  refine ⟨?_, ?_, ?_⟩
  · have h : Plain.setLeaf x "body_pages" (.obj kvs) { ({} : Plain Document) with Uri := u } =
        .ok { Uri := u, BodyPages := some (Json.readMembers kvs []) } := by
      show (decodeMap Any.nil decodeAny (.obj kvs) none).map _ = _
      simp only [decodeMap, Option.getD, decodeEntries_decodeAny]
      rfl
    apply Document.UnmarshalJSON_within_of_ok
    · rw [Json.within, Json.withinMembers_iff]
      intro kv hkv
      simp only [List.mem_cons, List.mem_singleton, List.not_mem_nil, or_false] at hkv
      rcases hkv with rfl | rfl
      · rfl
      · exact hread
    · rw [Document.UnmarshalJSON_uri_field x u _ _ (by decide) (by decide) (by decide)
        (by decide), h]
  · intro q
    rw [GoMap.get_readMembers]
    cases kvs.reverse.find? fun kv => decide (kv.1 = q) <;> rfl
  · intro hnd
    have key : ∀ (l : List (String × Json)) (m : List (String × Any)),
        (l.map Prod.fst).Nodup → (∀ k ∈ l.map Prod.fst, k ∉ m.map Prod.fst) →
        Json.readMembers l m = m ++ l.map fun kv => (kv.1, Json.read kv.2) := by
      intro l
      induction l with
      | nil =>
        intro m _ _
        simp [Json.readMembers]
      | cons hd tl ih =>
        intro m hn hm
        obtain ⟨k, v⟩ := hd
        rw [List.map_cons, List.nodup_cons] at hn
        have hk : k ∉ m.map Prod.fst := hm k (List.mem_cons_self _ _)
        rw [Json.readMembers, GoMap.set_of_not_mem m k _ hk, ih _ hn.2]
        · simp
        · intro k1 hk1 ha
          rw [List.map_append, List.mem_append] at ha
          rcases ha with h1 | h1
          · exact hm k1 (List.mem_cons_of_mem _ hk1) h1
          · simp only [List.map_cons, List.map_nil, List.mem_singleton] at h1
            subst h1
            exact hn.1 hk1
    simpa using key kvs [] hnd (fun _ _ h => by cases h)

/-- C30 (as amended) at `{"uri": "a", "body_pages": {"n": 3, "l": [{"k": null}],
"n": true}}`, with the reader of json-iterator: the reader reads the value, the
document decodes, and `BodyPages` holds `true` under `n`, the last member with
that key, and the list under `l`. -/
theorem C30_body_pages_is_schema_less_witness :
    Json.within Reader.jsoniter
        (.obj [("n", .num (JsonNumber.ofNat 3)), ("l", .arr [.obj [("k", .null)]]),
          ("n", .bool true)]) Reader.jsoniter.maxDepth = true ∧
      Document.UnmarshalJSON.within Reader.jsoniter Env.basic
        (.obj [("uri", .str "a"), ("body_pages",
          .obj [("n", .num (JsonNumber.ofNat 3)), ("l", .arr [.obj [("k", .null)]]),
            ("n", .bool true)])]) =
        .ok (.mk { Uri := "a", BodyPages := some [("n", .bool true),
          ("l", .slice [.map [("k", .nil)]])] }) :=
  ⟨by rfl,
    (C30_body_pages_is_schema_less Reader.jsoniter Env.basic "a"
      [("n", .num (JsonNumber.ofNat 3)), ("l", .arr [.obj [("k", .null)]]),
        ("n", .bool true)] (by rfl)).1⟩

/-- C33: the decode enforces a maximum depth of embedding, through the reader of
the library that the first statement of the method calls on the whole input.
Every input in which a value is embedded through more than
`(r.maxDepth + 1) / 2` levels of `associations` or `assignments` is rejected.
With the reader of json-iterator the bound is 5000: the document nested 5001
levels deep is rejected, the one nested 5000 levels deep decodes. -/
theorem C33_nesting_beyond_the_limit_is_rejected (r : Reader) (x : Env) :
    (∃ N : Nat, ∀ (n : Nat) (b top : Json), EmbeddedAt n b top → N < n →
        Document.UnmarshalJSON.within r x top = .error .limit) ∧
      (∀ (n : Nat) (b top : Json), EmbeddedAt n b top → (r.maxDepth + 1) / 2 < n →
        Document.UnmarshalJSON.within r x top = .error .limit) ∧
      (Reader.jsoniter.maxDepth + 1) / 2 = 5000 ∧
      EmbeddedAt 5001 (nested 0) (nested 5001) ∧
      Document.UnmarshalJSON.within Reader.jsoniter x (nested 5001) = .error .limit ∧
      Document.UnmarshalJSON.within Reader.jsoniter x (nested 5000) =
        .ok (nestedDocument 5000) := by
  have hemb : ∀ n, EmbeddedAt n (nested 0) (nested n) := by
    intro n
    induction n with
    | zero => exact EmbeddedAt.here _
    | succ n ih =>
      exact EmbeddedAt.under n _ (nested n) "associations" "x" [("x", nested n)] _
        (Or.inl rfl) (List.mem_cons_of_mem _ (List.mem_singleton.2 rfl))
        (List.mem_singleton.2 rfl) ih
  exact ⟨⟨_, fun n b top h hn => Document.UnmarshalJSON_within_embeddedAt r x n b top h hn⟩,
    fun n b top h hn => Document.UnmarshalJSON_within_embeddedAt r x n b top h hn,
    by decide, hemb 5001,
    (Document.UnmarshalJSON_within_nested Reader.jsoniter x 5001).trans (if_neg (by decide)),
    (Document.UnmarshalJSON_within_nested Reader.jsoniter x 5000).trans (if_pos (by decide))⟩

end Ttninjs
